import Mathlib

/-!
HexBalls, the auto-chess simulation core: a shallow embedding of
`Source/AutoChessSimulation/Simulator.{h,cpp}`.

Conventions of the embedding

* `int32` values are modelled by `Int` and the definitions of the engine compute in
  exact integers.  Where the size of the operands matters, the `int32` operation is
  written out with `wrap32` (two's complement wrap-around) in a second definition of the
  same source function (`OddQToCube32`, `ToIndex32`, `HexNeighborAt32`, `HexDistance32`,
  `Initialize32`), and the statements carry the bound under which the exact value is the
  `int32` value: a cell count `MapSize.X * MapSize.Y` that fits an `int32`, coordinates
  inside the `int32` range, a step counter with `StepIndex + DestroyDelay` below `2^31`.
* `P.X & 1` is `Int.land P.X 1`, C++ `/` and `%` are `Int.tdiv` and `Int.tmod`.
* Containers indexed by a cell (`TBitArray<> Occupied`, `Visited`, `TArray<int32> Dist`)
  are total functions on `Int`; `TMap<int32,int32>` is a function into `Option`.
  `TArray<FEntityInfo>` and the frontier `TArray<int32> Queue` are lists.
* Loops whose termination is not structural take a `fuel : Nat`; `none` means that the
  fuel ran out or that the C++ code would have hit a failed container check.
-/

namespace HexBalls

/-! ## Engine vocabulary -/

/-- The sentinel `INDEX_NONE` of the engine. -/
def INDEX_NONE : Int := -1

/-- The value `TNumericLimits<int32>::Max()`. -/
def INT32_MAX : Int := 2147483647

/-- The engine type `FIntPoint`. -/
structure FIntPoint where
  X : Int
  Y : Int
deriving DecidableEq, Repr

/-- Component-wise sum, `FIntPoint::operator+`. -/
def FIntPoint.add (A B : FIntPoint) : FIntPoint := ⟨A.X + B.X, A.Y + B.Y⟩

/-- A `TMap<int32, V>`: the value stored under a key, if any. -/
abbrev TMap (V : Type) := Int → Option V

/-- The empty map (`TMap::Reset`). -/
def TMap.Reset {V : Type} : TMap V := fun _ => none

/-- The map after `TMap::Add(Key, Value)` (also `FindOrAdd(Key) = Value`): an existing
entry is replaced. -/
def TMap.Add {V : Type} (M : TMap V) (Key : Int) (Value : V) : TMap V :=
  fun K => if K = Key then some Value else M K

/-- The map after `TMap::Remove(Key)`. -/
def TMap.Remove {V : Type} (M : TMap V) (Key : Int) : TMap V :=
  fun K => if K = Key then none else M K

/-- Writing one cell of a cell-indexed container (`A[Index] = Value`). -/
def setAt {V : Type} (A : Int → V) (Index : Int) (Value : V) : Int → V :=
  fun I => if I = Index then Value else A I

/-! ## Hex geometry (`Simulator.cpp`, lines 3-78) -/

/-- Cube coordinates of a hex cell. -/
structure FHexCubeCoords where
  Q : Int
  R : Int
  S : Int
deriving DecidableEq, Repr

/-- Source: `OddQToCube`, in exact integers (`OddQToCube32` is the `int32` computation). -/
def OddQToCube (P : FIntPoint) : FHexCubeCoords :=
  let Q := P.X
  let R := P.Y - Int.tdiv (P.X - Int.land P.X 1) 2
  let S := -Q - R
  ⟨Q, R, S⟩

/-- Source: `CubeToOddQ`. -/
def CubeToOddQ (C : FHexCubeCoords) : FIntPoint :=
  let X := C.Q
  let Y := C.R + Int.tdiv (C.Q - Int.land C.Q 1) 2
  ⟨X, Y⟩

/-- Source: the free function `ToIndex`, in exact integers (`ToIndex32` is the `int32`
computation; both agree on the valid points of a map whose cell count fits an `int32`). -/
def ToIndex (P : FIntPoint) (MapSize : FIntPoint) : Int :=
  P.X + P.Y * MapSize.X

/-- Source: the free function `ToPoint`. -/
def ToPoint (Index : Int) (MapSize : FIntPoint) : FIntPoint :=
  let X := Int.tmod Index MapSize.X
  let Y := Int.tdiv Index MapSize.X
  ⟨X, Y⟩

/-- Source: the table `EvenNeighborsOffsets`, as pairs. -/
def EvenNeighborsOffsets : List (Int × Int) :=
  [(1, 0), (1, -1), (0, -1), (-1, -1), (-1, 0), (0, 1)]

/-- Source: the table `OddNeigborsOffsets`, as pairs. -/
def OddNeigborsOffsets : List (Int × Int) :=
  [(1, 1), (1, 0), (0, -1), (-1, 0), (-1, 1), (0, 1)]

/-- Source: `NeighborsOffsets[P.X & 1]`. -/
def NeighborsOffsets (Parity : Int) : List (Int × Int) :=
  if Parity = 0 then EvenNeighborsOffsets else OddNeigborsOffsets

/-- Source: `HexNeighborAt`, with the exact sum `P + Delta` (`HexNeighborAt32` is the
`int32` computation; both agree when the coordinates of `P` are strictly inside the
`int32` range). -/
def HexNeighborAt (P : FIntPoint) (Index : Int) : FIntPoint :=
  if Index < 0 ∨ Index > 5 then ⟨0, 0⟩
  else
    let O := (NeighborsOffsets (Int.land P.X 1)).getD Index.toNat (0, 0)
    P.add ⟨O.1, O.2⟩

/-- Source: `HexDistance` (`FMath::Max3` of the three `FMath::Abs`), in exact integers
(`HexDistance32` is the `int32` computation; both agree on the valid points of a map whose
cell count fits an `int32`). -/
def HexDistance (A B : FIntPoint) : Int :=
  let CA := OddQToCube A
  let CB := OddQToCube B
  max (max |CA.Q - CB.Q| |CA.R - CB.R|) |CA.S - CB.S|

/-- Source: `USimulator::IsValid`. -/
def IsValid (MapSize : FIntPoint) (P : FIntPoint) : Bool :=
  decide (P.X ≥ 0) && decide (P.Y ≥ 0) && decide (P.X < MapSize.X) && decide (P.Y < MapSize.Y)

/-! ## The pathfinder (`Simulator.cpp`, lines 80-132) -/

/-- Source: `USimulator::FDijkstraLookup`, the scratch buffers of the pathfinder. -/
structure FDijkstraLookup where
  Dist : Int → Int
  Visited : Int → Bool
  Prev : TMap Int
  Queue : List Int

/-- The engine routine `Algo::LowerBound(Range, Value, SortPredicate)` of
`Algo/BinarySearch.h`, with `Pred Elem` standing for `SortPredicate(Elem, Value)`:
the loop
`while (Size > 0) { Leftover = Size % 2; Size = Size / 2; Check = Start + Size;
 Start = SortPredicate(Range[Check], Value) ? Check + Leftover : Start; }`
run from `Start = 0`, `Size = Num`; the result is the final `Start`. -/
def LowerBoundLoop (Range : List Int) (Pred : Int → Bool) : Nat → Nat → Nat → Nat
  | 0, Start, _ => Start
  | fuel + 1, Start, Size =>
    if Size = 0 then Start
    else
      let LeftoverSize := Size % 2
      let Size1 := Size / 2
      let CheckIndex := Start + Size1
      let StartIfLess := CheckIndex + LeftoverSize
      let Start1 := if Pred (Range.getD CheckIndex 0) then StartIfLess else Start
      LowerBoundLoop Range Pred fuel Start1 Size1

/-- The engine routine `Algo::LowerBound`; the halving loop runs at most `Num + 1` times. -/
def LowerBound (Range : List Int) (Pred : Int → Bool) : Nat :=
  LowerBoundLoop Range Pred (Range.length + 1) 0 Range.length

/-- The list after `TArray::Insert(Item, Index)`. -/
def insertAt (Range : List Int) (Item : Int) (Index : Nat) : List Int :=
  Range.take Index ++ Item :: Range.drop Index

/-- Source: the body of `for (Ni = 0; Ni != 6; ++Ni)` in `ShortestPath` (lines 103-119),
for the popped cell `U` and the direction `Ni`. -/
def relaxNeighbor (MapSize : FIntPoint) (Occupied : Int → Bool) (To U : Int)
    (D : FDijkstraLookup) (Ni : Int) : FDijkstraLookup :=
  let PV := HexNeighborAt (ToPoint U MapSize) Ni
  let V := ToIndex PV MapSize
  if IsValid MapSize PV && !D.Visited V && (decide (V = To) || !Occupied V) then
    let FindIndex := LowerBound D.Queue
      (fun V1 => decide (D.Dist V1 > D.Dist V) || decide (V1 < V))
    if FindIndex < D.Queue.length ∧ D.Queue.getD FindIndex 0 = V then D
    else
      let Alt := D.Dist U + 1
      let D1 : FDijkstraLookup :=
        if Alt < D.Dist V then { D with Dist := setAt D.Dist V Alt, Prev := D.Prev.Add V U }
        else D
      { D1 with Queue := insertAt D1.Queue V FindIndex }
  else D

/-- Source: the whole `for (Ni = 0; Ni != 6; ++Ni)` loop of `ShortestPath`. -/
def relaxAll (MapSize : FIntPoint) (Occupied : Int → Bool) (To U : Int)
    (D : FDijkstraLookup) : FDijkstraLookup :=
  [0, 1, 2, 3, 4, 5].foldl (relaxNeighbor MapSize Occupied To U) D

/-- Source: `int32 U = Queue.Pop(); Visited[U] = true;` (lines 97-98), for the last
element `U` of the frontier. -/
def popFrontier (D : FDijkstraLookup) (U : Int) : FDijkstraLookup :=
  { D with Queue := D.Queue.dropLast, Visited := setAt D.Visited U true }

/-- Source: `while (Queue.Num() > 0)` of `ShortestPath` (lines 96-121).  `Queue.Pop()`
takes the last element.  The result is the scratch state when the loop is left, by
`break` or on an empty frontier; `none` when the fuel does not suffice. -/
def frontierLoop (MapSize : FIntPoint) (Occupied : Int → Bool) (To : Int) :
    Nat → FDijkstraLookup → Option FDijkstraLookup
  | 0, _ => none
  | fuel + 1, D =>
    match D.Queue.getLast? with
    | none => some D
    | some U =>
      if U = To then some (popFrontier D U)
      else frontierLoop MapSize Occupied To fuel (relaxAll MapSize Occupied To U (popFrontier D U))

/-- Source: `while (Prev[Current] != From) Current = Prev[Current];` (lines 124-128).
`Prev[Current]` on a missing key is a failed check (`none`). -/
def prevWalk (Prev : TMap Int) (From : Int) : Nat → Int → Option Int
  | 0, _ => none
  | fuel + 1, Current =>
    match Prev Current with
    | none => none
    | some P => if P ≠ From then prevWalk Prev From fuel P else some Current

/-- Source: the scratch state built by lines 83-95 of `ShortestPath`. -/
def dijkstraInit (From : Int) : FDijkstraLookup :=
  { Dist := setAt (fun _ => INT32_MAX) From 0
    Visited := setAt (fun _ => false) From true
    Prev := TMap.Reset
    Queue := [From] }

/-- Source: `USimulator::FDijkstraLookup::ShortestPath`.  The buffers are reset on entry,
so the result does not depend on the previous scratch state; the final scratch state
is returned with the result. -/
def ShortestPath (fuel : Nat) (MapSize : FIntPoint) (Occupied : Int → Bool)
    (From To : Int) : Option (Int × FDijkstraLookup) :=
  match frontierLoop MapSize Occupied To fuel (dijkstraInit From) with
  | none => none
  | some D =>
    if D.Visited To then
      match prevWalk D.Prev From fuel To with
      | none => none
      | some Current => some (Current, D)
    else some (INDEX_NONE, D)

/-! ## Simulation state (`Simulator.h`) -/

/-- Source: `FEntityInfo`. -/
structure FEntityInfo where
  Id : Int
  MaxHealth : Int
  Health : Int
  TicksPerMove : Int
  CurrentCellIndex : Int
  StartedMoveAtStep : Int
  NextCellIndex : Int
  Target : Int
  TimeStepsPerAttack : Int
  StartedAttackAtStep : Int
  DestroyAt : Int
deriving DecidableEq, Repr

/-- Source: the data members of `USimulator`.  `RandomStream` is the current seed of the
engine's `FRandomStream`; `StartTime` is the clock reading taken by `Initialize`
(only stored, never computed with, by the code embedded here). -/
structure USimulator where
  MapSize : FIntPoint
  EntitiesCount : Int
  Seed : Int
  StepIndex : Int
  Entities : List FEntityInfo
  IdToIndex : TMap Nat
  NextEntityId : Int
  RandomStream : Int
  Occupied : Int → Bool
  StartTime : Int
  Dijkstra : FDijkstraLookup

/-- A newly constructed simulator with the three exposed properties set by its owner:
`StepIndex = 0`, `NextEntityId = 0` (the member initialisers), empty containers. -/
def freshSimulator (MapSize : FIntPoint) (EntitiesCount Seed : Int) : USimulator :=
  { MapSize := MapSize
    EntitiesCount := EntitiesCount
    Seed := Seed
    StepIndex := 0
    Entities := []
    IdToIndex := TMap.Reset
    NextEntityId := 0
    RandomStream := 0
    Occupied := fun _ => false
    StartTime := 0
    Dijkstra := ⟨fun _ => 0, fun _ => false, TMap.Reset, []⟩ }

/-- Source: `USimulator::ToPoint`. -/
def USimulator.ToPoint (S : USimulator) (CellIndex : Int) : FIntPoint :=
  HexBalls.ToPoint CellIndex S.MapSize

/-- Source: `USimulator::ToIndex`. -/
def USimulator.ToIndex (S : USimulator) (P : FIntPoint) : Int :=
  HexBalls.ToIndex P S.MapSize

/-- Source: `USimulator::IsOccupied(int32)`. -/
def USimulator.IsOccupied (S : USimulator) (CellIndex : Int) : Bool :=
  S.Occupied CellIndex

/-! ## `USimulator::Initialize` (`Simulator.cpp`, lines 134-179)

The engine's `FRandomStream::RandRange(Min, Max)` is a parameter
`RandRange seed Min Max = (value, next seed)`. -/

/-- Source: `while (IsOccupied(CellIndex)) CellIndex = (CellIndex + 1) % CellsCount;`
of the lambda `randomFreeCellIndex`. -/
def randomFreeCellLoop (Occupied : Int → Bool) (CellsCount : Int) : Nat → Int → Option Int
  | 0, _ => none
  | fuel + 1, CellIndex =>
    if Occupied CellIndex then
      randomFreeCellLoop Occupied CellsCount fuel (Int.tmod (CellIndex + 1) CellsCount)
    else some CellIndex

/-- Source: the record filled in by lines 162-172 for the id `EntityId` and the free cell
`CellIndex`; `Seed1` is the seed of the stream after `randomFreeCellIndex()`. -/
def spawnedEntity (RandRange : Int → Int → Int → Int × Int) (Seed1 CellIndex EntityId : Int) :
    FEntityInfo :=
  let R1 := RandRange Seed1 2 5
  let R2 := RandRange R1.2 7 20
  let R3 := RandRange R2.2 20 30
  { Id := EntityId
    CurrentCellIndex := CellIndex
    MaxHealth := R1.1
    Health := R1.1
    TicksPerMove := R2.1
    StartedMoveAtStep := 0
    NextCellIndex := CellIndex
    TimeStepsPerAttack := R3.1
    Target := INDEX_NONE
    DestroyAt := INDEX_NONE
    StartedAttackAtStep := INDEX_NONE }

/-- Source: the body of the spawn loop (lines 156-174) once `randomFreeCellIndex()` has
answered `CellIndex` and left the stream with the seed `Seed1`: the new record is
appended, registered under its id, and its cell is marked. -/
def spawnAt (RandRange : Int → Int → Int → Int × Int) (Seed1 CellIndex : Int)
    (S : USimulator) : USimulator :=
  { S with
    NextEntityId := S.NextEntityId + 1
    RandomStream := (RandRange (RandRange (RandRange Seed1 2 5).2 7 20).2 20 30).2
    Entities := S.Entities ++ [spawnedEntity RandRange Seed1 CellIndex S.NextEntityId]
    IdToIndex := S.IdToIndex.Add S.NextEntityId S.Entities.length
    Occupied := setAt S.Occupied CellIndex true }

/-- Source: the spawn loop `for (i = 0; i != EntitiesCount; ++i)` of `Initialize`,
with `Count` iterations left; the lambda `randomFreeCellIndex` draws
`RandRange(0, CellsCount - 1)` and probes forward from there. -/
def spawnEntities (RandRange : Int → Int → Int → Int × Int) (fuel : Nat) (CellsCount : Int) :
    Nat → USimulator → Option USimulator
  | 0, S => some S
  | Count + 1, S =>
    let R0 := RandRange S.RandomStream 0 (CellsCount - 1)
    match randomFreeCellLoop S.Occupied CellsCount fuel R0.1 with
    | none => none
    | some CellIndex =>
      spawnEntities RandRange fuel CellsCount Count (spawnAt RandRange R0.2 CellIndex S)

/-- Source: `USimulator::Initialize`; `Now` is the value of `GetWorld()->GetTimeSeconds()`.
The cell count is the exact product (`Initialize32` takes it in `int32`; both agree when
the clamped cell count fits an `int32`). -/
def Initialize (RandRange : Int → Int → Int → Int × Int) (fuel : Nat) (Now : Int)
    (S : USimulator) : Option USimulator :=
  let MapSize : FIntPoint := ⟨max S.MapSize.X 1, max S.MapSize.Y 1⟩
  let CellsCount := MapSize.X * MapSize.Y
  let EntitiesCount := max 0 S.EntitiesCount
  let S1 : USimulator :=
    { S with
      RandomStream := S.Seed
      NextEntityId := 0
      MapSize := MapSize
      Occupied := fun _ => false
      EntitiesCount := EntitiesCount }
  match spawnEntities RandRange fuel CellsCount EntitiesCount.toNat S1 with
  | none => none
  | some S2 => some { S2 with StepIndex := 1, StartTime := Now }

/-! ## `USimulator::NextStep` (`Simulator.cpp`, lines 181-292) -/

/-- Source: `constexpr int32 AttackDistance = 1;`. -/
def AttackDistance : Int := 1

/-- Source: `constexpr int32 DestroyDelay = 10;`. -/
def DestroyDelay : Int := 10

/-- Writing through a reference `FEntityInfo& E = Entities[Index]`: the record at `Index`
is replaced by `F` of its current value. -/
def modifyAt (Entities : List FEntityInfo) (Index : Nat) (F : FEntityInfo → FEntityInfo) :
    List FEntityInfo :=
  match Entities[Index]? with
  | none => Entities
  | some E => Entities.set Index (F E)

/-- Source: the scan `for (j = 0; j < Entities.Num(); ++j)` of lines 237-253, from index `j`
on (`Rest` holds the records `j, j+1, ...`), with the running `TargetEntityId` and
`MinDist`; the result is the final `TargetEntityId`. -/
def findClosestTarget (MapSize : FIntPoint) (i : Nat) (CurrentCellIndex : Int) :
    List FEntityInfo → Nat → Int → Int → Int
  | [], _, TargetEntityId, _ => TargetEntityId
  | AnotherEntity :: Rest, j, TargetEntityId, MinDist =>
    if i ≠ j then
      if AnotherEntity.Health > 0 then
        let Dist := HexDistance (ToPoint CurrentCellIndex MapSize)
          (ToPoint AnotherEntity.CurrentCellIndex MapSize)
        if Dist < MinDist then
          if Dist = 1 then AnotherEntity.Id
          else findClosestTarget MapSize i CurrentCellIndex Rest (j + 1) AnotherEntity.Id Dist
        else findClosestTarget MapSize i CurrentCellIndex Rest (j + 1) TargetEntityId MinDist
      else findClosestTarget MapSize i CurrentCellIndex Rest (j + 1) TargetEntityId MinDist
    else findClosestTarget MapSize i CurrentCellIndex Rest (j + 1) TargetEntityId MinDist

/-- Source: lines 199-216, the entity at `i` already has a target or not.  The flag of
the result is `true` when the C++ code reaches `continue` (the entity stays engaged),
`false` when control falls through to line 218. -/
def targetPhase (i : Nat) (S : USimulator) : Option (USimulator × Bool) :=
  match S.Entities[i]? with
  | none => none
  | some Entity =>
    if Entity.Target ≠ INDEX_NONE then
      let Cleared : USimulator :=
        { S with Entities := modifyAt S.Entities i (fun E => { E with Target := INDEX_NONE }) }
      match S.IdToIndex Entity.Target with
      | none => some (Cleared, false)
      | some t =>
        match S.Entities[t]? with
        | none => none
        | some TargetEntity =>
          let Dist := HexDistance (S.ToPoint Entity.CurrentCellIndex)
            (S.ToPoint TargetEntity.CurrentCellIndex)
          if TargetEntity.Health > 0 ∧ Dist ≤ AttackDistance then
            if S.StepIndex - Entity.StartedAttackAtStep ≥ Entity.TimeStepsPerAttack then
              let Es1 := modifyAt S.Entities t (fun E => { E with Health := E.Health - 1 })
              let Es2 := modifyAt Es1 i (fun E => { E with StartedAttackAtStep := S.StepIndex })
              some ({ S with Entities := Es2 }, true)
            else some (S, true)
          else some (Cleared, false)
    else some (S, false)

/-- Source: `Entity.CurrentCellIndex = Entity.NextCellIndex; Entity.StartedMoveAtStep =
StepIndex;` (lines 227-228). -/
def arrived (Entity : FEntityInfo) (StepIndex : Int) : FEntityInfo :=
  { Entity with CurrentCellIndex := Entity.NextCellIndex, StartedMoveAtStep := StepIndex }

/-- Source: lines 218-272, movement arrival, target acquisition and path planning of the
entity at `i`. -/
def movePhase (fuel : Nat) (i : Nat) (S : USimulator) : Option USimulator :=
  match S.Entities[i]? with
  | none => none
  | some Entity =>
    let MovingDuration := S.StepIndex - Entity.StartedMoveAtStep
    if Entity.CurrentCellIndex = Entity.NextCellIndex ∨ MovingDuration ≥ Entity.TicksPerMove then
      if Entity.CurrentCellIndex ≠ Entity.NextCellIndex then
        -- MovedJustNow
        some { S with
          Occupied := setAt (setAt S.Occupied Entity.CurrentCellIndex false)
            Entity.NextCellIndex true
          Entities := S.Entities.set i (arrived Entity S.StepIndex) }
      else
        let E1 := arrived Entity S.StepIndex
        let Es1 := S.Entities.set i E1
        let TargetEntityId :=
          findClosestTarget S.MapSize i E1.CurrentCellIndex Es1 0 INDEX_NONE INT32_MAX
        if TargetEntityId ≠ INDEX_NONE then
          match S.IdToIndex TargetEntityId with
          | none => none
          | some t =>
            match Es1[t]? with
            | none => none
            | some TargetEntity =>
              if HexDistance (S.ToPoint E1.CurrentCellIndex)
                  (S.ToPoint TargetEntity.CurrentCellIndex) ≤ AttackDistance then
                some { S with
                  Entities := Es1.set i
                    { E1 with
                      NextCellIndex := E1.CurrentCellIndex
                      Target := TargetEntityId
                      StartedAttackAtStep := S.StepIndex } }
              else
                match ShortestPath fuel S.MapSize S.Occupied E1.CurrentCellIndex
                    TargetEntity.CurrentCellIndex with
                | none => none
                | some (Next, D) =>
                  if Next = INDEX_NONE then
                    some { S with
                      Dijkstra := D
                      Entities := Es1.set i
                        { E1 with
                          StartedAttackAtStep := INDEX_NONE
                          Target := INDEX_NONE
                          NextCellIndex := E1.CurrentCellIndex } }
                  else
                    some { S with
                      Dijkstra := D
                      Occupied := setAt S.Occupied Next true
                      Entities := Es1.set i
                        { E1 with
                          StartedAttackAtStep := INDEX_NONE
                          Target := INDEX_NONE
                          NextCellIndex := Next } }
        else some { S with Entities := Es1 }
    else some S

/-- Source: the body of the forward pass `for (i = 0; i < Entities.Num(); ++i)`
(lines 188-272) for the entity at `i`; the flag is the local `DeletePass`.  The stamp
`StepIndex + DestroyDelay` is the exact sum, which is the `int32` sum as long as
`StepIndex + DestroyDelay ≤ INT32_MAX`. -/
def entityStep (fuel : Nat) (i : Nat) (S : USimulator) (DeletePass : Bool) :
    Option (USimulator × Bool) :=
  match S.Entities[i]? with
  | none => none
  | some Entity =>
    if Entity.Health ≤ 0 then
      if Entity.DestroyAt = INDEX_NONE then
        some ({ S with
          Entities := S.Entities.set i
            { Entity with DestroyAt := S.StepIndex + DestroyDelay } }, DeletePass)
      else if Entity.DestroyAt ≥ S.StepIndex then some (S, true)
      else some (S, DeletePass)
    else
      match targetPhase i S with
      | none => none
      | some (S1, true) => some (S1, DeletePass)
      | some (S1, false) =>
        match movePhase fuel i S1 with
        | none => none
        | some S2 => some (S2, DeletePass)

/-- Source: the forward pass of `NextStep` from index `i` on, with `Count` entities left
(`Entities.Num()` does not change during the pass). -/
def forwardPass (fuel : Nat) : Nat → Nat → USimulator → Bool → Option (USimulator × Bool)
  | 0, _, S, DeletePass => some (S, DeletePass)
  | Count + 1, i, S, DeletePass =>
    match entityStep fuel i S DeletePass with
    | none => none
    | some (S1, DeletePass1) => forwardPass fuel Count (i + 1) S1 DeletePass1

/-- The list after `TArray::RemoveAtSwap(Index)`: the last element fills the hole. -/
def RemoveAtSwap (Entities : List FEntityInfo) (Index : Nat) : List FEntityInfo :=
  match Entities.getLast? with
  | none => Entities
  | some Last => (Entities.set Index Last).dropLast

/-- Source: the compaction loop of lines 277-288 (after `IdToIndex.Reset()`), at index `i`.
Every iteration removes a record or advances `i`, so `Entities.Num()` iterations suffice. -/
def sweepLoop (StepIndex : Int) :
    Nat → Nat → List FEntityInfo → TMap Nat → (Int → Bool) →
      Option (List FEntityInfo × TMap Nat × (Int → Bool))
  | 0, i, Entities, IdToIndex, Occupied =>
    if i < Entities.length then none else some (Entities, IdToIndex, Occupied)
  | fuel + 1, i, Entities, IdToIndex, Occupied =>
    match Entities[i]? with
    | none => some (Entities, IdToIndex, Occupied)
    | some Entity =>
      if Entity.DestroyAt ≥ StepIndex then
        sweepLoop StepIndex fuel i (RemoveAtSwap Entities i) (IdToIndex.Remove Entity.Id)
          (setAt (setAt Occupied Entity.CurrentCellIndex false) Entity.NextCellIndex false)
      else
        sweepLoop StepIndex fuel (i + 1) Entities (IdToIndex.Add Entity.Id i) Occupied

/-- Source: `USimulator::NextStep`.  `++StepIndex` is the exact successor, which is the
`int32` one as long as `StepIndex < INT32_MAX`. -/
def NextStep (fuel : Nat) (S : USimulator) : Option USimulator :=
  match forwardPass fuel S.Entities.length 0 S false with
  | none => none
  | some (S1, DeletePass) =>
    if DeletePass then
      match sweepLoop S1.StepIndex S1.Entities.length 0 S1.Entities TMap.Reset S1.Occupied with
      | none => none
      | some (Entities, IdToIndex, Occupied) =>
        some { S1 with
          Entities := Entities
          IdToIndex := IdToIndex
          Occupied := Occupied
          StepIndex := S1.StepIndex + 1 }
    else some { S1 with StepIndex := S1.StepIndex + 1 }

/-- The state after `Initialize` and `K` calls of `NextStep`. -/
def runSteps (fuel : Nat) : Nat → USimulator → Option USimulator
  | 0, S => some S
  | K + 1, S =>
    match NextStep fuel S with
    | none => none
    | some S1 => runSteps fuel K S1

/-! ## Vocabulary of the claims -/

/-- The in-bounds hex neighbours of the cell `U`, in direction order 0..5. -/
def hexNeighbors (MapSize : FIntPoint) (U : Int) : List Int :=
  ([0, 1, 2, 3, 4, 5].filter
      (fun Ni => IsValid MapSize (HexNeighborAt (ToPoint U MapSize) Ni))).map
    (fun Ni => ToIndex (HexNeighborAt (ToPoint U MapSize) Ni) MapSize)

/-- One move of an obstacle-respecting path toward `To`: the cell `V` is an in-bounds
hex neighbour of `U` and is unoccupied or equal to `To`. -/
def PathStep (MapSize : FIntPoint) (Occupied : Int → Bool) (To U V : Int) : Prop :=
  V ∈ hexNeighbors MapSize U ∧ (V = To ∨ Occupied V = false)

/-- The cells `Cells` are, in order, the cells after `U` of an obstacle-respecting path
that starts at `U`. -/
def IsPath (MapSize : FIntPoint) (Occupied : Int → Bool) (To : Int) : Int → List Int → Prop
  | _, [] => True
  | U, V :: Rest => PathStep MapSize Occupied To U V ∧ IsPath MapSize Occupied To V Rest

instance PathStep.decide (MapSize : FIntPoint) (Occupied : Int → Bool) (To U V : Int) :
    Decidable (PathStep MapSize Occupied To U V) :=
  inferInstanceAs (Decidable (V ∈ hexNeighbors MapSize U ∧ (V = To ∨ Occupied V = false)))

/-- Whether given cells form a path can be checked by running along them. -/
def IsPath.decide (MapSize : FIntPoint) (Occupied : Int → Bool) (To : Int) :
    (U : Int) → (Cells : List Int) → Decidable (IsPath MapSize Occupied To U Cells)
  | _, [] => isTrue trivial
  | U, V :: Rest =>
    match PathStep.decide MapSize Occupied To U V, IsPath.decide MapSize Occupied To V Rest with
    | isTrue h1, isTrue h2 => isTrue ⟨h1, h2⟩
    | isFalse h1, _ => isFalse (fun h => h1 h.1)
    | _, isFalse h2 => isFalse (fun h => h2 h.2)

instance (MapSize : FIntPoint) (Occupied : Int → Bool) (To U : Int) (Cells : List Int) :
    Decidable (IsPath MapSize Occupied To U Cells) :=
  IsPath.decide MapSize Occupied To U Cells

/-- An obstacle-respecting path from `From` to `To` exists (`Cells` lists the cells after
`From`; its length is the length of the path). -/
def PathExists (MapSize : FIntPoint) (Occupied : Int → Bool) (From To : Int) : Prop :=
  ∃ Cells : List Int, IsPath MapSize Occupied To From Cells ∧ Cells.getLast? = some To

/-- The occupancy in which exactly the listed cells are occupied. -/
def occupiedCells (Cells : List Int) : Int → Bool :=
  fun I => Cells.contains I

/-! ## Invariants used in the proofs -/

/-- The number of cells of `[0, n)` not yet marked in `Visited`. -/
def unvisitedCount (n : Nat) (Visited : Int → Bool) : Nat :=
  (List.range n).countP (fun c : Nat => !Visited (Int.ofNat c))

/-- The cell `V` can be reached from `From` along an obstacle-respecting path toward `To`
(in zero or more moves). -/
def Reaches (MapSize : FIntPoint) (Occupied : Int → Bool) (To From V : Int) : Prop :=
  V = From ∨ ∃ Cells : List Int, IsPath MapSize Occupied To From Cells ∧ Cells.getLast? = some V

/-- What holds of the scratch buffers of `ShortestPath` whenever the frontier loop is at
the top of an iteration or inside the neighbour loop. -/
structure FrontierInv (MapSize : FIntPoint) (Occupied : Int → Bool) (From To : Int)
    (D : FDijkstraLookup) : Prop where
  visFrom : D.Visited From = true
  valid : ∀ v, (D.Visited v = true ∨ v ∈ D.Queue) → 0 ≤ v ∧ v < MapSize.X * MapSize.Y
  reach : ∀ v, (D.Visited v = true ∨ v ∈ D.Queue) → Reaches MapSize Occupied To From v
  prevStep : ∀ v u, D.Prev v = some u →
    D.Visited u = true ∧ D.Dist v = D.Dist u + 1 ∧ PathStep MapSize Occupied To u v
  hasPrev : ∀ v, D.Dist v < INT32_MAX → v = From ∨ ∃ p, D.Prev v = some p
  known : ∀ v, (D.Visited v = true ∨ v ∈ D.Queue) → D.Dist v < INT32_MAX
  distNonneg : ∀ v, 0 ≤ D.Dist v
  distBound : ∀ u, D.Visited u = true →
    D.Dist u + 1 + (unvisitedCount (MapSize.X * MapSize.Y).toNat D.Visited : Int)
      ≤ MapSize.X * MapSize.Y

/-- Every visited cell that is no longer in the frontier, `U` apart, has all its
traversable neighbours visited or in the frontier. -/
def ClosedBut (MapSize : FIntPoint) (Occupied : Int → Bool) (To : Int)
    (D : FDijkstraLookup) (U : Option Int) : Prop :=
  ∀ u, D.Visited u = true → u ∉ D.Queue → some u ≠ U →
    ∀ v, PathStep MapSize Occupied To u v → D.Visited v = true ∨ v ∈ D.Queue

/-- The cells held by two entities (the cell each stands on and the cell each has
reserved) are different. -/
def CellsDisjoint (A B : FEntityInfo) : Prop :=
  A.CurrentCellIndex ≠ B.CurrentCellIndex ∧ A.CurrentCellIndex ≠ B.NextCellIndex ∧
  A.NextCellIndex ≠ B.CurrentCellIndex ∧ A.NextCellIndex ≠ B.NextCellIndex

/-- The occupancy discipline of the step engine: every stored entity has the bits of its
current and of its next cell set, and no two stored entities hold a common cell. -/
structure CellsInv (Entities : List FEntityInfo) (Occupied : Int → Bool) : Prop where
  held : ∀ (i : Nat) (E : FEntityInfo), Entities[i]? = some E →
    Occupied E.CurrentCellIndex = true ∧ Occupied E.NextCellIndex = true
  apart : ∀ (i j : Nat) (A B : FEntityInfo), i ≠ j → Entities[i]? = some A →
    Entities[j]? = some B → CellsDisjoint A B

/-- The entity store is consistent: stored ids are pairwise different and `IdToIndex`
holds exactly the pairs (id of the record at `k`, `k`). -/
structure StoreInv (Entities : List FEntityInfo) (IdToIndex : TMap Nat) : Prop where
  unique : ∀ (i j : Nat) (A B : FEntityInfo), i ≠ j → Entities[i]? = some A →
    Entities[j]? = some B → A.Id ≠ B.Id
  index : ∀ (Id : Int) (k : Nat),
    IdToIndex Id = some k ↔ ∃ E : FEntityInfo, Entities[k]? = some E ∧ E.Id = Id

/-- What `Initialize` promises of the record it stores at index `k`. -/
def SpawnedOk (CellsCount : Int) (k : Nat) (E : FEntityInfo) : Prop :=
  E.Id = Int.ofNat k ∧ 0 ≤ E.CurrentCellIndex ∧ E.CurrentCellIndex < CellsCount ∧
  E.NextCellIndex = E.CurrentCellIndex ∧ E.Target = INDEX_NONE ∧
  E.StartedAttackAtStep = INDEX_NONE ∧ E.DestroyAt = INDEX_NONE ∧
  E.Health = E.MaxHealth ∧ 2 ≤ E.MaxHealth ∧ E.MaxHealth ≤ 5 ∧
  7 ≤ E.TicksPerMove ∧ E.TicksPerMove ≤ 20 ∧
  20 ≤ E.TimeStepsPerAttack ∧ E.TimeStepsPerAttack ≤ 30

/-- The contract of the engine's `FRandomStream::RandRange`: the value lies in
`[Min, Max]`. -/
def RandRangeInBounds (RandRange : Int → Int → Int → Int × Int) : Prop :=
  ∀ Seed Min Max : Int, Min ≤ Max →
    Min ≤ (RandRange Seed Min Max).1 ∧ (RandRange Seed Min Max).1 ≤ Max

/-- What the spawn loop of `Initialize` keeps true, whatever the random stream answers. -/
structure SpawnInv (S : USimulator) : Prop where
  cells : CellsInv S.Entities S.Occupied
  ids : ∀ (k : Nat) (E : FEntityInfo), S.Entities[k]? = some E → E.Id = Int.ofNat k
  next : S.NextEntityId = Int.ofNat S.Entities.length
  index : ∀ (Id : Int) (k : Nat),
    S.IdToIndex Id = some k ↔ (k < S.Entities.length ∧ Id = Int.ofNat k)

/-- What the spawn loop of `Initialize` keeps true when the random stream honours its
contract: every record is as promised, exactly the cells of the records are marked, and
the free cells of `[0, CellsCount)` are counted. -/
structure SpawnPost (CellsCount : Int) (S : USimulator) : Prop where
  ok : ∀ (k : Nat) (E : FEntityInfo), S.Entities[k]? = some E → SpawnedOk CellsCount k E
  next : S.NextEntityId = Int.ofNat S.Entities.length
  occupied : ∀ c : Int, S.Occupied c = true ↔ ∃ E ∈ S.Entities, E.CurrentCellIndex = c
  free : unvisitedCount CellsCount.toNat S.Occupied + S.Entities.length = CellsCount.toNat

/-- What no step of the forward pass changes: the map size, the step index, the id map and
the id stored at each index. -/
def SameFrame (S S1 : USimulator) : Prop :=
  S1.MapSize = S.MapSize ∧ S1.StepIndex = S.StepIndex ∧ S1.IdToIndex = S.IdToIndex ∧
  S1.Entities.map (fun E => E.Id) = S.Entities.map (fun E => E.Id)

/-- The states a simulator goes through: `Initialize` on a newly constructed simulator,
then any number of `NextStep` calls. -/
inductive Reachable (RandRange : Int → Int → Int → Int × Int) : USimulator → Prop
  | init (fuel : Nat) (Now : Int) (MapSize : FIntPoint) (EntitiesCount Seed : Int)
      (S : USimulator) :
      Initialize RandRange fuel Now (freshSimulator MapSize EntitiesCount Seed) = some S →
      Reachable RandRange S
  | step (fuel : Nat) (S S1 : USimulator) :
      Reachable RandRange S → NextStep fuel S = some S1 → Reachable RandRange S1

/-- How one step of the forward pass may change the attack bookkeeping of a record: the id
and the cooldown stay; the target is cleared, or target and attack step stay, or the attack
step becomes the current step. -/
def StampStep (StepIndex : Int) (E0 E1 : FEntityInfo) : Prop :=
  E1.Id = E0.Id ∧ E1.TimeStepsPerAttack = E0.TimeStepsPerAttack ∧
  (E1.Target = INDEX_NONE ∨
    (E1.Target = E0.Target ∧ E1.StartedAttackAtStep = E0.StartedAttackAtStep) ∨
    E1.StartedAttackAtStep = StepIndex)

/-- Every record of `Entities1` comes from the record of `Entities` at the same index by a
`StampStep`. -/
def Stamped (StepIndex : Int) (Entities Entities1 : List FEntityInfo) : Prop :=
  ∀ (k : Nat) (E1 : FEntityInfo), Entities1[k]? = some E1 →
    ∃ E0 : FEntityInfo, Entities[k]? = some E0 ∧ StampStep StepIndex E0 E1

/-- Every stored record with the id `Id` has the cooldown `Cooldown` and, while it has a
target, an attack step not before `Since`. -/
def EngagedSince (Entities : List FEntityInfo) (Id Since Cooldown : Int) : Prop :=
  ∀ E ∈ Entities, E.Id = Id →
    E.TimeStepsPerAttack = Cooldown ∧ (E.Target ≠ INDEX_NONE → Since ≤ E.StartedAttackAtStep)

/-- The list of `Health` values of the store. -/
def healths (S : USimulator) : List Int :=
  S.Entities.map (fun E => E.Health)

/-- Whether, in the tick that starts from `S`, the step of the entity at index `i`
decrements a `Health` (the entity deals a strike). -/
def dealsStrikeAt (fuel : Nat) (S : USimulator) (i : Nat) : Bool :=
  match forwardPass fuel i 0 S false with
  | none => false
  | some (S1, DeletePass) =>
    match entityStep fuel i S1 DeletePass with
    | none => false
    | some (S2, _) => decide (healths S2 ≠ healths S1)

/-- Whether, in the tick that starts from `S`, the step of the entity at index `i` gives
it a target it did not have (the entity acquires a target). -/
def acquiresAt (fuel : Nat) (S : USimulator) (i : Nat) : Bool :=
  match forwardPass fuel i 0 S false with
  | none => false
  | some (S1, DeletePass) =>
    match entityStep fuel i S1 DeletePass with
    | none => false
    | some (S2, _) =>
      match S1.Entities[i]?, S2.Entities[i]? with
      | some E, some E1 => decide (E1.Target ≠ INDEX_NONE ∧ E1.Target ≠ E.Target)
      | _, _ => false

/-! ## A concrete run -/

/-- A small linear congruential stream standing in for `FRandomStream::RandRange`. -/
def demoRand (Seed Min Max : Int) : Int × Int :=
  let Seed1 := (Seed * 1103515245 + 12345) % 2147483648
  (Min + (Seed1 / 65536) % (Max - Min + 1), Seed1)

/-- The 5 x 5 simulator with 3 entities and the given seed after `Initialize` and `K`
steps. -/
def demoRun (Seed : Int) (K : Nat) : Option USimulator :=
  match Initialize demoRand 1000 0 (freshSimulator ⟨5, 5⟩ 3 Seed) with
  | none => none
  | some S => runSteps 1000 K S

/-- The state of `demoRun Seed K`. -/
def demoState (Seed : Int) (K : Nat) : USimulator :=
  (demoRun Seed K).getD (freshSimulator ⟨5, 5⟩ 3 Seed)

end HexBalls

namespace HexBalls

/-! ## `USimulator::RandomFreeNeighbor` (`Simulator.cpp`, lines 318-330)

The engine's `FRandomStream::RandHelper(A)` is a parameter
`RandHelper seed A = (value, next seed)`. -/

/-- Source: `USimulator::IsOccupied(FIntPoint)`. -/
def USimulator.IsOccupiedAt (S : USimulator) (P : FIntPoint) : Bool :=
  S.IsOccupied (S.ToIndex P)

/-- Source: the loop `for (int32 I = 0; I != 6; ++I)` of `RandomFreeNeighbor` with `Count`
iterations left.  The body reads `Ni` and nothing in the loop writes it. -/
def randomFreeNeighborLoop (S : USimulator) (O : FIntPoint) (Ni : Int) : Nat → Option Int
  | 0 => none
  | Count + 1 =>
    let N := HexNeighborAt O Ni
    if IsValid S.MapSize N && !S.IsOccupiedAt N then some (S.ToIndex N)
    else randomFreeNeighborLoop S O Ni Count

/-- Source: `USimulator::RandomFreeNeighbor`.  The result is the returned `bool`, the value
of the reference parameter `CellIndex` afterwards, and the simulator with the advanced
random stream. -/
def RandomFreeNeighbor (RandHelper : Int → Int → Int × Int) (S : USimulator) (O : FIntPoint)
    (CellIndex : Int) : Bool × Int × USimulator :=
  let R := RandHelper S.RandomStream 6
  let S1 : USimulator := { S with RandomStream := R.2 }
  match randomFreeNeighborLoop S O R.1 6 with
  | some C => (true, C, S1)
  | none => (false, CellIndex, S1)

/-! ## The container checks of the pathfinder

The embedding of `ShortestPath` reads containers as total functions.  The definitions
below add, access by access, the range checks the engine containers make
(`TArray::operator[]`, `TBitArray::operator[]`, `TArray::Insert`): the checked pathfinder
answers `none` as soon as one access would be out of range. -/

/-- Whether `Index` is a position of a container with `Num` elements. -/
def inRange (Index Num : Int) : Bool :=
  decide (0 ≤ Index) && decide (Index < Num)

/-- The halving loop of `Algo::LowerBound` (see `LowerBoundLoop`), checking each
`Range[CheckIndex]` and, with `Ok`, each element handed to the sort predicate. -/
def LowerBoundLoopInRange (Range : List Int) (Pred Ok : Int → Bool) : Nat → Nat → Nat → Bool
  | 0, _, _ => true
  | fuel + 1, Start, Size =>
    if Size = 0 then true
    else
      let LeftoverSize := Size % 2
      let Size1 := Size / 2
      let CheckIndex := Start + Size1
      let StartIfLess := CheckIndex + LeftoverSize
      let Start1 := if Pred (Range.getD CheckIndex 0) then StartIfLess else Start
      decide (CheckIndex < Range.length) && Ok (Range.getD CheckIndex 0) &&
        LowerBoundLoopInRange Range Pred Ok fuel Start1 Size1

/-- Source: the accesses of one iteration of the neighbour loop of `ShortestPath`
(lines 103-119): `Index % MapSize.X` in `ToPoint` (line 103), `Visited[V]` and
`Occupied[V]` (line 105, read only when `IsValid(PV)`), `Queue[CheckIndex]` and the
`Dist[V1]`, `Dist[V2]` of the comparator (lines 106-108), `Dist[U]` and `Dist[V]`
(lines 113-115), `Queue.Insert(V, FindIndex)` (line 118). -/
def relaxNeighborInRange (MapSize : FIntPoint) (Occupied : Int → Bool) (To U : Int)
    (D : FDijkstraLookup) (Ni : Int) : Bool :=
  let CellsCount := MapSize.X * MapSize.Y
  let PV := HexNeighborAt (ToPoint U MapSize) Ni
  let V := ToIndex PV MapSize
  decide (MapSize.X ≠ 0) &&
    (if IsValid MapSize PV then
      inRange V CellsCount &&
        (if !D.Visited V && (decide (V = To) || !Occupied V) then
          LowerBoundLoopInRange D.Queue
              (fun V1 => decide (D.Dist V1 > D.Dist V) || decide (V1 < V))
              (fun V1 => inRange V1 CellsCount) (D.Queue.length + 1) 0 D.Queue.length &&
            (if LowerBound D.Queue
                  (fun V1 => decide (D.Dist V1 > D.Dist V) || decide (V1 < V)) < D.Queue.length ∧
                D.Queue.getD (LowerBound D.Queue
                  (fun V1 => decide (D.Dist V1 > D.Dist V) || decide (V1 < V))) 0 = V then true
             else
              inRange U CellsCount &&
                decide (LowerBound D.Queue
                  (fun V1 => decide (D.Dist V1 > D.Dist V) || decide (V1 < V)) ≤ D.Queue.length))
         else true)
     else true)

/-- The accesses of the iterations `Directions` of the neighbour loop, run in order. -/
def relaxFoldInRange (MapSize : FIntPoint) (Occupied : Int → Bool) (To U : Int) :
    List Int → FDijkstraLookup → Bool
  | [], _ => true
  | Ni :: Rest, D =>
    relaxNeighborInRange MapSize Occupied To U D Ni &&
      relaxFoldInRange MapSize Occupied To U Rest (relaxNeighbor MapSize Occupied To U D Ni)

/-- Source: `frontierLoop` with the checks of `Visited[U]` (line 98) and of the neighbour
loop. -/
def frontierLoopChecked (MapSize : FIntPoint) (Occupied : Int → Bool) (To : Int) :
    Nat → FDijkstraLookup → Option FDijkstraLookup
  | 0, _ => none
  | fuel + 1, D =>
    match D.Queue.getLast? with
    | none => some D
    | some U =>
      if !inRange U (MapSize.X * MapSize.Y) then none
      else if U = To then some (popFrontier D U)
      else if !relaxFoldInRange MapSize Occupied To U [0, 1, 2, 3, 4, 5] (popFrontier D U) then
        none
      else
        frontierLoopChecked MapSize Occupied To fuel
          (relaxAll MapSize Occupied To U (popFrontier D U))

/-- Source: `ShortestPath` with the checks of `Visited[From]`, `Dist[From]` (lines 88-93)
and `Visited[To]` (line 123) and of the frontier loop; `Prev[Current]` on a missing key
already is a failure of `prevWalk`. -/
def ShortestPathChecked (fuel : Nat) (MapSize : FIntPoint) (Occupied : Int → Bool)
    (From To : Int) : Option (Int × FDijkstraLookup) :=
  if !inRange From (MapSize.X * MapSize.Y) then none
  else
    match frontierLoopChecked MapSize Occupied To fuel (dijkstraInit From) with
    | none => none
    | some D =>
      if !inRange To (MapSize.X * MapSize.Y) then none
      else if D.Visited To then
        match prevWalk D.Prev From fuel To with
        | none => none
        | some Current => some (Current, D)
      else some (INDEX_NONE, D)

/-! ## The scan for the closest target

Modelled for comparison with `findClosestTarget`: the same scan (lines 239-253) with the
early exit `if (Dist == 1) break;` of lines 247-249 taken out. -/

/-- The scan of lines 239-253 without its early exit. -/
def findClosestTargetNoExit (MapSize : FIntPoint) (i : Nat) (CurrentCellIndex : Int) :
    List FEntityInfo → Nat → Int → Int → Int
  | [], _, TargetEntityId, _ => TargetEntityId
  | AnotherEntity :: Rest, j, TargetEntityId, MinDist =>
    if i ≠ j then
      if AnotherEntity.Health > 0 then
        let Dist := HexDistance (ToPoint CurrentCellIndex MapSize)
          (ToPoint AnotherEntity.CurrentCellIndex MapSize)
        if Dist < MinDist then
          findClosestTargetNoExit MapSize i CurrentCellIndex Rest (j + 1) AnotherEntity.Id Dist
        else findClosestTargetNoExit MapSize i CurrentCellIndex Rest (j + 1) TargetEntityId MinDist
      else findClosestTargetNoExit MapSize i CurrentCellIndex Rest (j + 1) TargetEntityId MinDist
    else findClosestTargetNoExit MapSize i CurrentCellIndex Rest (j + 1) TargetEntityId MinDist

/-- The record `T` at index `k` is a candidate of the scan of the entity at index `i`:
another entity that is alive. -/
def IsCandidate (Entities : List FEntityInfo) (i k : Nat) (T : FEntityInfo) : Prop :=
  Entities[k]? = some T ∧ k ≠ i ∧ T.Health > 0

/-- The candidate `T` at index `k` is the nearest one to the cell `Cell`, and the one with
the lowest index among the nearest. -/
def IsNearestCandidate (MapSize : FIntPoint) (Entities : List FEntityInfo) (i : Nat)
    (Cell : Int) (k : Nat) (T : FEntityInfo) : Prop :=
  IsCandidate Entities i k T ∧
  ∀ (k1 : Nat) (T1 : FEntityInfo), IsCandidate Entities i k1 T1 →
    HexDistance (ToPoint Cell MapSize) (ToPoint T.CurrentCellIndex MapSize) ≤
      HexDistance (ToPoint Cell MapSize) (ToPoint T1.CurrentCellIndex MapSize) ∧
    (HexDistance (ToPoint Cell MapSize) (ToPoint T1.CurrentCellIndex MapSize) =
      HexDistance (ToPoint Cell MapSize) (ToPoint T.CurrentCellIndex MapSize) → k ≤ k1)

/-! ## Vocabulary of the step engine proofs -/

/-- The record `B` is the record `A` after strikes of other entities: only `Health` may
differ, and it has not grown. -/
def Struck (A B : FEntityInfo) : Prop :=
  B.Health ≤ A.Health ∧ B = { A with Health := B.Health }

/-- What holds of the store between two steps of a run, besides `CellsInv` and
`StoreInv`: the step index is positive, ids are non-negative, a record with `DestroyAt`
set is dead and was stamped in the step before, a reserved cell is a hex neighbour of the
current cell, and no entity targets itself. -/
structure TickInv (S : USimulator) : Prop where
  stepPos : 1 ≤ S.StepIndex
  idsNonneg : ∀ E ∈ S.Entities, 0 ≤ E.Id
  corpse : ∀ E ∈ S.Entities, E.DestroyAt ≠ INDEX_NONE →
    E.Health ≤ 0 ∧ E.DestroyAt = S.StepIndex + 9
  nextNear : ∀ E ∈ S.Entities, E.NextCellIndex = E.CurrentCellIndex ∨
    E.NextCellIndex ∈ hexNeighbors S.MapSize E.CurrentCellIndex
  noSelfTarget : ∀ E ∈ S.Entities, E.Target ≠ E.Id

/-- The state in the middle of a tick that starts from `S` with the entity `E` at index
`i` alive and stationary and every other stored entity dead, when the entities before
index `j` have had their step: frame and occupancy are those of `S`, the record at `i` is
`E` (before its step) or `E` with `StartedMoveAtStep` stamped and no target (after it),
every other record is the record of `S` or that record with `DestroyAt` stamped, and the
sweep is flagged only if `S` stores a record with `DestroyAt` set. -/
def LoneMid (S : USimulator) (i : Nat) (E : FEntityInfo) (j : Nat) (S1 : USimulator)
    (DeletePass : Bool) : Prop :=
  S1.MapSize = S.MapSize ∧ S1.StepIndex = S.StepIndex ∧ S1.IdToIndex = S.IdToIndex ∧
  S1.Occupied = S.Occupied ∧ S1.Entities.length = S.Entities.length ∧
  S1.Entities[i]? = some (if i < j then
    { E with StartedMoveAtStep := S.StepIndex, Target := INDEX_NONE } else E) ∧
  (∀ (k : Nat) (B : FEntityInfo), S1.Entities[k]? = some B → k ≠ i →
    ∃ B0 : FEntityInfo, S.Entities[k]? = some B0 ∧
      (B = B0 ∨ (k < j ∧ B0.DestroyAt = INDEX_NONE ∧
        B = { B0 with DestroyAt := S.StepIndex + DestroyDelay }))) ∧
  (DeletePass = true → ∃ B0 ∈ S.Entities, B0.DestroyAt ≠ INDEX_NONE)

/-- The map has at least one column and one row, and the current and the next cell of
every stored entity are cell indices of the map. -/
def RangeInv (S : USimulator) : Prop :=
  1 ≤ S.MapSize.X ∧ 1 ≤ S.MapSize.Y ∧
  ∀ E ∈ S.Entities,
    0 ≤ E.CurrentCellIndex ∧ E.CurrentCellIndex < S.MapSize.X * S.MapSize.Y ∧
    0 ≤ E.NextCellIndex ∧ E.NextCellIndex < S.MapSize.X * S.MapSize.Y

/-! ## Two entities engaged with each other -/

/-- The record `E` after the engagement of lines 256-261 at step `s` with the target
`Id`, for an entity that was stationary. -/
def engagedWith (E : FEntityInfo) (Id s : Int) : FEntityInfo :=
  { E with StartedMoveAtStep := s, Target := Id, StartedAttackAtStep := s }

/-- The simulator `S` at step `t` with exactly the two records `A` and `B` stored, with
the given `Health` and `StartedAttackAtStep` values. -/
def duelState (S : USimulator) (A B : FEntityInfo) (t hA aA hB aB : Int) : USimulator :=
  { S with
    StepIndex := t
    Entities := [{ A with Health := hA, StartedAttackAtStep := aA },
      { B with Health := hB, StartedAttackAtStep := aB }] }

/-- What the two records of a duel need: they are registered at the indices 0 and 1, they
target each other, they are not stamped for destruction, and they are within attack
distance. -/
structure DuelPre (S : USimulator) (A B : FEntityInfo) : Prop where
  idxA : S.IdToIndex A.Id = some 0
  idxB : S.IdToIndex B.Id = some 1
  tgtA : A.Target = B.Id
  tgtB : B.Target = A.Id
  idA : A.Id ≠ INDEX_NONE
  idB : B.Id ≠ INDEX_NONE
  noStampA : A.DestroyAt = INDEX_NONE
  noStampB : B.DestroyAt = INDEX_NONE
  near : HexDistance (ToPoint A.CurrentCellIndex S.MapSize)
    (ToPoint B.CurrentCellIndex S.MapSize) ≤ AttackDistance

/-- The duel that began at step `s` is still on in the state `Q`: both records are stored
and alive, and each attack step is `s` (no strike dealt yet) or the step of a strike, at
least the cooldown after `s`. -/
def Duel (S : USimulator) (A B : FEntityInfo) (s : Int) (Q : USimulator) : Prop :=
  ∃ t hA aA hB aB : Int, Q = duelState S A B t hA aA hB aB ∧ s < t ∧ hA > 0 ∧ hB > 0 ∧
    (aA = s ∨ (s + A.TimeStepsPerAttack ≤ aA ∧ aA < t)) ∧
    (aB = s ∨ (s + B.TimeStepsPerAttack ≤ aB ∧ aB < t))

/-- The duel is over in the state `Q`: fewer than two records are stored, or a stored
record is dead. -/
def DuelOver (Q : USimulator) : Prop :=
  Q.Entities.length ≤ 2 ∧ (Q.Entities.length < 2 ∨ ∃ E ∈ Q.Entities, E.Health ≤ 0)

/-! ## `int32` arithmetic made explicit

The definitions above compute in exact integers.  The functions below are the same source
functions with every `int32` operation wrapped around, for the statements in which the
size of the operands matters. -/

/-- The least `int32` value. -/
def INT32_MIN : Int := -2147483648

/-- The value of an `int32` operation whose exact result is `x`: two's complement
wrap-around. -/
def wrap32 (x : Int) : Int := (x + 2147483648) % 4294967296 - 2147483648

/-- Source: `OddQToCube`, with the `int32` operations wrapped. -/
def OddQToCube32 (P : FIntPoint) : FHexCubeCoords :=
  let Q := P.X
  let R := wrap32 (P.Y - Int.tdiv (wrap32 (P.X - Int.land P.X 1)) 2)
  let S := wrap32 (wrap32 (-Q) - R)
  ⟨Q, R, S⟩

/-- Source: the free function `ToIndex`, with the `int32` operations wrapped. -/
def ToIndex32 (P : FIntPoint) (MapSize : FIntPoint) : Int :=
  wrap32 (P.X + wrap32 (P.Y * MapSize.X))

/-- Source: `HexNeighborAt`, with the `int32` additions of `P + Delta` wrapped. -/
def HexNeighborAt32 (P : FIntPoint) (Index : Int) : FIntPoint :=
  if Index < 0 ∨ Index > 5 then ⟨0, 0⟩
  else
    let O := (NeighborsOffsets (Int.land P.X 1)).getD Index.toNat (0, 0)
    ⟨wrap32 (P.X + O.1), wrap32 (P.Y + O.2)⟩

/-- Source: `HexDistance`, with the `int32` subtractions and `FMath::Abs` wrapped. -/
def HexDistance32 (A B : FIntPoint) : Int :=
  let CA := OddQToCube32 A
  let CB := OddQToCube32 B
  max (max (wrap32 |wrap32 (CA.Q - CB.Q)|) (wrap32 |wrap32 (CA.R - CB.R)|))
    (wrap32 |wrap32 (CA.S - CB.S)|)

/-- Source: `USimulator::Initialize`, with the product of
`const int32 CellsCount = MapSize.X * MapSize.Y;` taken in `int32`. -/
def Initialize32 (RandRange : Int → Int → Int → Int × Int) (fuel : Nat) (Now : Int)
    (S : USimulator) : Option USimulator :=
  let MapSize : FIntPoint := ⟨max S.MapSize.X 1, max S.MapSize.Y 1⟩
  let CellsCount := wrap32 (MapSize.X * MapSize.Y)
  let EntitiesCount := max 0 S.EntitiesCount
  let S1 : USimulator :=
    { S with
      RandomStream := S.Seed
      NextEntityId := 0
      MapSize := MapSize
      Occupied := fun _ => false
      EntitiesCount := EntitiesCount }
  match spawnEntities RandRange fuel CellsCount EntitiesCount.toNat S1 with
  | none => none
  | some S2 => some { S2 with StepIndex := 1, StartTime := Now }

/-- The occupancy bits are exact: a set bit is the current or the next cell of a stored
entity. -/
def ExactInv (S : USimulator) : Prop :=
  ∀ c : Int, S.Occupied c = true →
    ∃ E ∈ S.Entities, E.CurrentCellIndex = c ∨ E.NextCellIndex = c

/-! ## Concrete runs on other maps -/

/-- The simulator with the given map, entity count and seed after `Initialize` (with the
stream `demoRand`) and `K` steps. -/
def demoRunOn (MapSize : FIntPoint) (EntitiesCount Seed : Int) (K : Nat) : Option USimulator :=
  match Initialize demoRand 1000 0 (freshSimulator MapSize EntitiesCount Seed) with
  | none => none
  | some S => runSteps 1000 K S

/-- The state of `demoRunOn MapSize EntitiesCount Seed K`. -/
def demoStateOn (MapSize : FIntPoint) (EntitiesCount Seed : Int) (K : Nat) : USimulator :=
  (demoRunOn MapSize EntitiesCount Seed K).getD (freshSimulator MapSize EntitiesCount Seed)

end HexBalls

namespace HexBalls

/-! ## Arithmetic of the embedding -/

theorem ldiff_one_eq (n : Nat) : Nat.ldiff 1 n = (n + 1) % 2 := by
  apply Nat.eq_of_testBit_eq
  intro i
  rw [Nat.testBit_ldiff]
  cases i with
  | zero =>
    rcases Nat.mod_two_eq_zero_or_one n with h | h
    · have h2 : (n + 1) % 2 = 1 := by omega
      simp [Nat.testBit_zero, h, h2]
    · have h2 : (n + 1) % 2 = 0 := by omega
      simp [Nat.testBit_zero, h, h2]
  | succ i =>
    have h1 : Nat.testBit 1 (i + 1) = false := by
      simp [Nat.testBit_succ]
    have h2 : Nat.testBit ((n + 1) % 2) (i + 1) = false := by
      rcases Nat.mod_two_eq_zero_or_one (n + 1) with h | h <;> simp [h, Nat.testBit_succ]
    simp [h1, h2]

/-- On two's complement integers `X & 1` is the remainder of the floor division by 2. -/
theorem land_one_eq (x : Int) : Int.land x 1 = x % 2 := by
  cases x with
  | ofNat n =>
    show Int.land (Int.ofNat n) (Int.ofNat 1) = _
    simp only [Int.land]
    simp [Nat.and_one_is_mod]
  | negSucc n =>
    show Int.land (Int.negSucc n) (Int.ofNat 1) = _
    simp only [Int.land]
    rw [ldiff_one_eq]
    simp only [Int.negSucc_eq]
    omega

/-- The quotient `(X - (X & 1)) / 2` of `OddQToCube` is exact, so truncation is floor. -/
theorem half_even_part (x : Int) : Int.tdiv (x - Int.land x 1) 2 = x / 2 := by
  rw [land_one_eq]
  have h : x - x % 2 = 2 * (x / 2) := by omega
  rw [h, Int.mul_tdiv_cancel_left _ (by decide : (2 : Int) ≠ 0)]

theorem OddQToCube_eq (P : FIntPoint) :
    OddQToCube P = ⟨P.X, P.Y - P.X / 2, -P.X - (P.Y - P.X / 2)⟩ := by
  simp only [OddQToCube, half_even_part]

theorem HexDistance_eq (A B : FIntPoint) :
    HexDistance A B =
      max (max |A.X - B.X| |(A.Y - A.X / 2) - (B.Y - B.X / 2)|)
        |(-A.X - (A.Y - A.X / 2)) - (-B.X - (B.Y - B.X / 2))| := by
  simp only [HexDistance, OddQToCube_eq]

theorem IsValid_iff (M P : FIntPoint) :
    IsValid M P = true ↔ 0 ≤ P.X ∧ 0 ≤ P.Y ∧ P.X < M.X ∧ P.Y < M.Y := by
  simp [IsValid, and_assoc]

theorem ToIndex_bounds (M P : FIntPoint) (h : IsValid M P = true) :
    0 ≤ ToIndex P M ∧ ToIndex P M < M.X * M.Y := by
  rw [IsValid_iff] at h
  obtain ⟨hx, hy, hxw, hyh⟩ := h
  have hW : 0 < M.X := by omega
  have h1 : 0 ≤ P.Y * M.X := Int.mul_nonneg hy (by omega)
  have h2 : (P.Y + 1) * M.X ≤ M.Y * M.X := Int.mul_le_mul_of_nonneg_right (by omega) (by omega)
  have h3 : (P.Y + 1) * M.X = P.Y * M.X + M.X := by ring
  have h4 : M.Y * M.X = M.X * M.Y := by ring
  simp only [ToIndex]
  omega

theorem ToPoint_ToIndex (M P : FIntPoint) (h : IsValid M P = true) :
    ToPoint (ToIndex P M) M = P := by
  have hb := ToIndex_bounds M P h
  rw [IsValid_iff] at h
  obtain ⟨hx, hy, hxw, hyh⟩ := h
  have hW : 0 < M.X := by omega
  simp only [ToPoint]
  rw [Int.tmod_eq_emod hb.1 (by omega), Int.tdiv_eq_ediv hb.1 (by omega)]
  simp only [ToIndex]
  have e1 : (P.X + P.Y * M.X) % M.X = P.X := by
    rw [Int.add_mul_emod_self]
    exact Int.emod_eq_of_lt hx hxw
  have e2 : (P.X + P.Y * M.X) / M.X = P.Y := by
    rw [Int.add_mul_ediv_right _ _ (by omega : M.X ≠ 0), Int.ediv_eq_zero_of_lt hx hxw]
    simp
  rw [e1, e2]

theorem ToPoint_valid (M : FIntPoint) (i : Int) (h0 : 0 ≤ i) (h1 : i < M.X * M.Y)
    (hW : 1 ≤ M.X) : IsValid M (ToPoint i M) = true ∧ ToIndex (ToPoint i M) M = i := by
  have hWpos : 0 < M.X := by omega
  simp only [ToPoint, ToIndex, IsValid_iff]
  rw [Int.tmod_eq_emod h0 (by omega), Int.tdiv_eq_ediv h0 (by omega)]
  refine ⟨⟨Int.emod_nonneg _ (by omega), Int.ediv_nonneg h0 (by omega),
    Int.emod_lt_of_pos _ hWpos, ?_⟩, ?_⟩
  · apply Int.ediv_lt_of_lt_mul hWpos
    rw [Int.mul_comm]
    exact h1
  · exact Int.emod_add_ediv' i M.X

theorem HexDistance_comm (A B : FIntPoint) : HexDistance A B = HexDistance B A := by
  simp only [HexDistance_eq]
  rw [abs_sub_comm A.X, abs_sub_comm (A.Y - A.X / 2), abs_sub_comm (-A.X - (A.Y - A.X / 2))]

theorem HexDistance_triangle (A B C : FIntPoint) :
    HexDistance A C ≤ HexDistance A B + HexDistance B C := by
  simp only [HexDistance_eq]
  have t1 := abs_sub_le A.X B.X C.X
  have t2 := abs_sub_le (A.Y - A.X / 2) (B.Y - B.X / 2) (C.Y - C.X / 2)
  have t3 := abs_sub_le (-A.X - (A.Y - A.X / 2)) (-B.X - (B.Y - B.X / 2))
    (-C.X - (C.Y - C.X / 2))
  generalize |A.X - C.X| = a1 at *
  generalize |A.X - B.X| = a2 at *
  generalize |B.X - C.X| = a3 at *
  generalize |A.Y - A.X / 2 - (C.Y - C.X / 2)| = b1 at *
  generalize |A.Y - A.X / 2 - (B.Y - B.X / 2)| = b2 at *
  generalize |B.Y - B.X / 2 - (C.Y - C.X / 2)| = b3 at *
  generalize |-A.X - (A.Y - A.X / 2) - (-C.X - (C.Y - C.X / 2))| = c1 at *
  generalize |-A.X - (A.Y - A.X / 2) - (-B.X - (B.Y - B.X / 2))| = c2 at *
  generalize |-B.X - (B.Y - B.X / 2) - (-C.X - (C.Y - C.X / 2))| = c3 at *
  omega

theorem HexDistance_eq_zero_iff (A B : FIntPoint) : HexDistance A B = 0 ↔ A = B := by
  constructor
  · intro h
    rw [HexDistance_eq] at h
    have n1 := abs_nonneg (A.X - B.X)
    have n2 := abs_nonneg ((A.Y - A.X / 2) - (B.Y - B.X / 2))
    have n3 := abs_nonneg ((-A.X - (A.Y - A.X / 2)) - (-B.X - (B.Y - B.X / 2)))
    have z1 : |A.X - B.X| = 0 := by omega
    have z2 : |(A.Y - A.X / 2) - (B.Y - B.X / 2)| = 0 := by omega
    rw [abs_eq_zero] at z1 z2
    have hx : A.X = B.X := by omega
    have hy : A.Y = B.Y := by rw [hx] at z2; omega
    cases A; cases B; simp_all
  · rintro rfl
    simp [HexDistance_eq]

end HexBalls

namespace HexBalls

/-! ## The pathfinder -/

theorem mem_insertAt (Q : List Int) (V : Int) (k : Nat) (x : Int) :
    x ∈ insertAt Q V k ↔ x = V ∨ x ∈ Q := by
  unfold insertAt
  rw [List.mem_append, List.mem_cons]
  constructor
  · rintro (h | h | h)
    · exact Or.inr (List.mem_of_mem_take h)
    · exact Or.inl h
    · exact Or.inr (List.mem_of_mem_drop h)
  · rintro (h | h)
    · exact Or.inr (Or.inl h)
    · rw [← List.take_append_drop k Q, List.mem_append] at h
      rcases h with h | h
      · exact Or.inl h
      · exact Or.inr (Or.inr h)

theorem mem_of_getLast? {Q : List Int} {U : Int} (h : Q.getLast? = some U) (x : Int) :
    x ∈ Q ↔ x ∈ Q.dropLast ∨ x = U := by
  have e : Q = Q.dropLast ++ [U] := by
    rw [List.getLast?_eq_some_iff] at h
    obtain ⟨ys, rfl⟩ := h
    simp
  constructor
  · intro hx
    rw [e] at hx
    simpa using hx
  · intro hx
    rw [e]
    simpa using hx

theorem mem_hexNeighbors (M : FIntPoint) (U V : Int) :
    V ∈ hexNeighbors M U ↔
      ∃ Ni : Int, 0 ≤ Ni ∧ Ni ≤ 5 ∧ IsValid M (HexNeighborAt (ToPoint U M) Ni) = true ∧
        V = ToIndex (HexNeighborAt (ToPoint U M) Ni) M := by
  unfold hexNeighbors
  simp only [List.mem_map, List.mem_filter, List.mem_cons, List.mem_singleton,
    List.not_mem_nil, or_false]
  constructor
  · rintro ⟨Ni, ⟨hNi, hv⟩, rfl⟩
    refine ⟨Ni, ?_, ?_, hv, rfl⟩ <;> omega
  · rintro ⟨Ni, h0, h5, hv, rfl⟩
    refine ⟨Ni, ⟨?_, hv⟩, rfl⟩
    omega

/-- Claim C1 fails on the code.  On the 3 x 2 map with only the end cells occupied,
from cell 2 = (2,0) to cell 0 = (0,0): `ShortestPath` answers 5 = (2,1), the first cell
of the four-move path 5, 4, 3, 0, although 2 -> 1 -> 0 is an obstacle-respecting path of
two moves and no path through 5 reaches cell 0 in fewer than three moves. -/
theorem ShortestPath_not_on_shortest_path :
    (ShortestPath 100 ⟨3, 2⟩ (occupiedCells [0, 2]) 2 0).map Prod.fst = some 5 ∧
    IsPath ⟨3, 2⟩ (occupiedCells [0, 2]) 0 2 [1, 0] ∧
    ∀ Cells : List Int, IsPath ⟨3, 2⟩ (occupiedCells [0, 2]) 0 2 (5 :: Cells) →
      (5 :: Cells).getLast? = some 0 → 3 ≤ (5 :: Cells).length := by
  refine ⟨by decide, by decide, ?_⟩
  intro Cells hp hl
  match Cells, hp, hl with
  | [], _, hl => exact absurd hl (by decide)
  | [x], hp, hl =>
    have hx : x = 0 := by simpa using hl
    subst hx
    exact absurd hp.2.1 (by decide)
  | _ :: _ :: _, _, _ => simp

/-- The two ways `relaxNeighbor` can change the scratch buffers. -/
theorem relaxNeighbor_spec (M : FIntPoint) (Occ : Int → Bool) (To U : Int)
    (D : FDijkstraLookup) (Ni : Int) :
    (relaxNeighbor M Occ To U D Ni = D ∧
      (IsValid M (HexNeighborAt (ToPoint U M) Ni) = true →
        D.Visited (ToIndex (HexNeighborAt (ToPoint U M) Ni) M) = false →
        (ToIndex (HexNeighborAt (ToPoint U M) Ni) M = To ∨
          Occ (ToIndex (HexNeighborAt (ToPoint U M) Ni) M) = false) →
        ToIndex (HexNeighborAt (ToPoint U M) Ni) M ∈ D.Queue)) ∨
    (IsValid M (HexNeighborAt (ToPoint U M) Ni) = true ∧
      D.Visited (ToIndex (HexNeighborAt (ToPoint U M) Ni) M) = false ∧
      (ToIndex (HexNeighborAt (ToPoint U M) Ni) M = To ∨
        Occ (ToIndex (HexNeighborAt (ToPoint U M) Ni) M) = false) ∧
      ∃ k : Nat,
        (¬ D.Dist U + 1 < D.Dist (ToIndex (HexNeighborAt (ToPoint U M) Ni) M) ∧
          relaxNeighbor M Occ To U D Ni =
            { D with Queue := insertAt D.Queue (ToIndex (HexNeighborAt (ToPoint U M) Ni) M) k }) ∨
        (D.Dist U + 1 < D.Dist (ToIndex (HexNeighborAt (ToPoint U M) Ni) M) ∧
          relaxNeighbor M Occ To U D Ni =
            { D with
              Dist := setAt D.Dist (ToIndex (HexNeighborAt (ToPoint U M) Ni) M) (D.Dist U + 1)
              Prev := D.Prev.Add (ToIndex (HexNeighborAt (ToPoint U M) Ni) M) U
              Queue := insertAt D.Queue (ToIndex (HexNeighborAt (ToPoint U M) Ni) M) k })) := by
  generalize hV : ToIndex (HexNeighborAt (ToPoint U M) Ni) M = V
  generalize hPV : HexNeighborAt (ToPoint U M) Ni = PV at hV
  unfold relaxNeighbor
  simp only [hPV, hV]
  by_cases hc : (IsValid M PV && !D.Visited V && (decide (V = To) || !Occ V)) = true
  · rw [if_pos hc]
    simp only [Bool.and_eq_true, Bool.or_eq_true, decide_eq_true_eq, Bool.not_eq_true'] at hc
    obtain ⟨⟨hval, hvis⟩, htrav⟩ := hc
    split
    · rename_i hfound
      left
      refine ⟨rfl, fun _ _ _ => ?_⟩
      rw [← hfound.2]
      rw [List.getD_eq_getElem _ _ hfound.1]
      exact List.getElem_mem _
    · right
      refine ⟨hval, hvis, htrav,
        LowerBound D.Queue (fun V1 => decide (D.Dist V1 > D.Dist V) || decide (V1 < V)), ?_⟩
      by_cases hlt : D.Dist U + 1 < D.Dist V
      · right
        refine ⟨hlt, ?_⟩
        simp only [if_pos hlt]
      · left
        refine ⟨hlt, ?_⟩
        simp only [if_neg hlt]
  · rw [if_neg hc]
    left
    refine ⟨rfl, fun h1 h2 h3 => ?_⟩
    exfalso
    apply hc
    simp only [Bool.and_eq_true, Bool.or_eq_true, decide_eq_true_eq, Bool.not_eq_true']
    exact ⟨⟨h1, h2⟩, h3⟩

/-! ### Counting the unvisited cells -/

theorem countP_range_congr (n : Nat) (p q : Nat → Bool) (h : ∀ c, c < n → p c = q c) :
    (List.range n).countP p = (List.range n).countP q := by
  apply List.countP_congr
  intro c hc
  rw [List.mem_range] at hc
  rw [h c hc]

theorem countP_range_flip (p q : Nat → Bool) (u : Nat) (hp : p u = true) (hq : q u = false)
    (h : ∀ c, c ≠ u → p c = q c) (n : Nat) :
    (u < n → (List.range n).countP q + 1 = (List.range n).countP p) ∧
    (n ≤ u → (List.range n).countP q = (List.range n).countP p) := by
  induction n with
  | zero => simp
  | succ n ih =>
    rw [List.range_succ, List.countP_append, List.countP_append]
    simp only [List.countP_cons, List.countP_nil, Nat.zero_add]
    constructor
    · intro hu
      by_cases hun : u = n
      · subst hun
        rw [ih.2 (Nat.le_refl _)]
        simp [hp, hq]
      · have := ih.1 (by omega)
        rw [h n (fun e => hun e.symm)]
        omega
    · intro hu
      have := ih.2 (by omega)
      rw [h n (by omega)]
      omega

theorem unvisitedCount_mark_new (n : Nat) (Vis : Int → Bool) (U : Int) (h0 : 0 ≤ U)
    (h1 : U < n) (hU : Vis U = false) :
    unvisitedCount n (setAt Vis U true) + 1 = unvisitedCount n Vis := by
  unfold unvisitedCount
  have hu : ((U.toNat : Nat) : Int) = U := Int.toNat_of_nonneg h0
  refine (countP_range_flip (fun c : Nat => !Vis (Int.ofNat c))
    (fun c : Nat => !(setAt Vis U true) (Int.ofNat c)) U.toNat ?_ ?_ ?_ n).1 (by omega)
  · simp [hu, hU]
  · simp [hu, setAt]
  · intro c hc
    have : (c : Int) ≠ U := by omega
    simp [setAt, this]

theorem setAt_same_value {V : Type} (A : Int → V) (U : Int) (x : V) (h : A U = x) :
    setAt A U x = A := by
  funext I
  unfold setAt
  by_cases hI : I = U
  · rw [if_pos hI, hI, h]
  · rw [if_neg hI]

theorem unvisitedCount_mark_le (n : Nat) (Vis : Int → Bool) (U : Int) :
    unvisitedCount n (setAt Vis U true) ≤ unvisitedCount n Vis := by
  unfold unvisitedCount
  apply List.countP_mono_left
  intro c _
  unfold setAt
  by_cases hI : Int.ofNat c = U
  · simp [hI]
  · simp [hI]

theorem unvisitedCount_pos (n : Nat) (Vis : Int → Bool) (V : Int) (h0 : 0 ≤ V) (h1 : V < n)
    (hV : Vis V = false) : 1 ≤ unvisitedCount n Vis := by
  unfold unvisitedCount
  have : 0 < (List.range n).countP (fun c : Nat => !Vis (Int.ofNat c)) := by
    rw [List.countP_pos_iff]
    refine ⟨V.toNat, ?_, ?_⟩
    · rw [List.mem_range]; omega
    · simp [Int.toNat_of_nonneg h0, hV]
  omega

theorem unvisitedCount_le (n : Nat) (Vis : Int → Bool) : unvisitedCount n Vis ≤ n := by
  unfold unvisitedCount
  calc (List.range n).countP _ ≤ (List.range n).length := List.countP_le_length _
    _ = n := List.length_range n

/-! ### Paths -/

theorem IsPath_snoc (M : FIntPoint) (Occ : Int → Bool) (To : Int) (Cells : List Int)
    (U L V : Int) (hp : IsPath M Occ To U Cells) (hl : Cells.getLast? = some L)
    (hs : PathStep M Occ To L V) : IsPath M Occ To U (Cells ++ [V]) := by
  induction Cells generalizing U with
  | nil => simp at hl
  | cons C Rest ih =>
    cases Rest with
    | nil =>
      simp only [List.getLast?_singleton, Option.some.injEq] at hl
      subst hl
      exact ⟨hp.1, hs, trivial⟩
    | cons C2 Rest2 =>
      refine ⟨hp.1, ?_⟩
      apply ih C hp.2
      simpa [List.getLast?_cons_cons] using hl

theorem Reaches.extend {M : FIntPoint} {Occ : Int → Bool} {To From U V : Int}
    (hr : Reaches M Occ To From U) (hs : PathStep M Occ To U V) : Reaches M Occ To From V := by
  right
  rcases hr with rfl | ⟨Cells, hp, hl⟩
  · exact ⟨[V], ⟨hs, trivial⟩, rfl⟩
  · exact ⟨Cells ++ [V], IsPath_snoc M Occ To Cells From U V hp hl hs, by simp⟩

/-! ### The invariant of the frontier loop -/

theorem cellCount_cast (M : FIntPoint) (F : Int) (h0 : 0 ≤ F) (h1 : F < M.X * M.Y) :
    (((M.X * M.Y).toNat : Nat) : Int) = M.X * M.Y :=
  Int.toNat_of_nonneg (by omega)

theorem FrontierInv.atStart (M : FIntPoint) (Occ : Int → Bool) (From To : Int)
    (h0 : 0 ≤ From) (h1 : From < M.X * M.Y) :
    FrontierInv M Occ From To (dijkstraInit From) := by
  have hmem : ∀ v, ((dijkstraInit From).Visited v = true ∨ v ∈ (dijkstraInit From).Queue) →
      v = From := by
    intro v hv
    simp only [dijkstraInit, setAt, List.mem_singleton] at hv
    by_contra hne
    simp [hne] at hv
  refine ⟨?_, ?_, ?_, ?_, ?_, ?_, ?_, ?_⟩
  · simp [dijkstraInit, setAt]
  · intro v hv
    rw [hmem v hv]
    exact ⟨h0, h1⟩
  · intro v hv
    exact Or.inl (hmem v hv)
  · intro v u h
    simp [dijkstraInit, TMap.Reset] at h
  · intro v hv
    left
    by_contra hne
    simp [dijkstraInit, setAt, hne] at hv
  · intro v hv
    rw [hmem v hv]
    simp [dijkstraInit, setAt, INT32_MAX]
  · intro v
    simp only [dijkstraInit, setAt]
    split
    · exact le_refl _
    · simp [INT32_MAX]
  · intro u hu
    have hu' : u = From := hmem u (Or.inl hu)
    subst hu'
    have hc := cellCount_cast M u h0 h1
    have hnew := unvisitedCount_mark_new (M.X * M.Y).toNat (fun _ => false) u h0
      (by rw [hc]; exact h1) rfl
    have hle := unvisitedCount_le (M.X * M.Y).toNat (fun _ => false)
    have hd : (dijkstraInit u).Dist u = 0 := by simp [dijkstraInit, setAt]
    have hv : (dijkstraInit u).Visited = setAt (fun _ => false) u true := rfl
    rw [hd, hv]
    omega

theorem FrontierInv.popStep {M : FIntPoint} {Occ : Int → Bool} {From To : Int}
    {D : FDijkstraLookup} (inv : FrontierInv M Occ From To D) {U : Int}
    (hU : D.Queue.getLast? = some U) :
    FrontierInv M Occ From To (popFrontier D U) := by
  have hUq : U ∈ D.Queue := (mem_of_getLast? hU U).2 (Or.inr rfl)
  have hold : ∀ v, (setAt D.Visited U true v = true ∨ v ∈ D.Queue.dropLast) →
      (D.Visited v = true ∨ v ∈ D.Queue) := by
    intro v hv
    rcases hv with hv | hv
    · unfold setAt at hv
      by_cases hvu : v = U
      · subst hvu; exact Or.inr hUq
      · rw [if_neg hvu] at hv; exact Or.inl hv
    · exact Or.inr ((mem_of_getLast? hU v).2 (Or.inl hv))
  have hgrow : ∀ v, D.Visited v = true → setAt D.Visited U true v = true := by
    intro v hv
    unfold setAt
    split
    · rfl
    · exact hv
  refine ⟨hgrow _ inv.visFrom, fun v hv => inv.valid v (hold v hv),
    fun v hv => inv.reach v (hold v hv), ?_, inv.hasPrev, fun v hv => inv.known v (hold v hv),
    inv.distNonneg, ?_⟩
  · intro v u h
    obtain ⟨h1, h2, h3⟩ := inv.prevStep v u h
    exact ⟨hgrow u h1, h2, h3⟩
  · intro u hu
    replace hu : setAt D.Visited U true u = true := hu
    show D.Dist u + 1 +
      (unvisitedCount (M.X * M.Y).toNat (setAt D.Visited U true) : Int) ≤ M.X * M.Y
    by_cases hUv : D.Visited U = true
    · rw [setAt_same_value D.Visited U true hUv] at hu ⊢
      exact inv.distBound u hu
    · have hUf : D.Visited U = false := by simpa using hUv
      obtain ⟨hU0, hU1⟩ := inv.valid U (Or.inr hUq)
      have hc := cellCount_cast M U hU0 hU1
      have hnew := unvisitedCount_mark_new (M.X * M.Y).toNat D.Visited U hU0
        (by rw [hc]; exact hU1) hUf
      by_cases huU : u = U
      · subst huU
        have hk := inv.known u (Or.inr hUq)
        rcases inv.hasPrev u hk with hF | ⟨p, hp⟩
        · rw [hF, inv.visFrom] at hUf
          exact absurd hUf (by decide)
        · obtain ⟨hpv, hpd, _⟩ := inv.prevStep u p hp
          have := inv.distBound p hpv
          omega
      · have huv : D.Visited u = true := by
          have hu2 : setAt D.Visited U true u = true := hu
          unfold setAt at hu2
          rw [if_neg huU] at hu2
          exact hu2
        have := inv.distBound u huv
        omega

theorem FrontierInv.relax {M : FIntPoint} {Occ : Int → Bool} {From To : Int}
    {D : FDijkstraLookup} (inv : FrontierInv M Occ From To D) {U : Int}
    (hUv : D.Visited U = true) (hn : M.X * M.Y ≤ INT32_MAX) (Ni : Int) (h0 : 0 ≤ Ni)
    (h5 : Ni ≤ 5) : FrontierInv M Occ From To (relaxNeighbor M Occ To U D Ni) := by
  rcases relaxNeighbor_spec M Occ To U D Ni with ⟨he, _⟩ | ⟨hval, hvis, htrav, k, hcase⟩
  · rw [he]; exact inv
  · generalize hV : ToIndex (HexNeighborAt (ToPoint U M) Ni) M = V at hvis htrav hcase
    have hstep : PathStep M Occ To U V :=
      ⟨(mem_hexNeighbors M U V).2 ⟨Ni, h0, h5, hval, hV.symm⟩, htrav⟩
    have hVb : 0 ≤ V ∧ V < M.X * M.Y := by
      rw [← hV]; exact ToIndex_bounds M _ hval
    have hUV : U ≠ V := by
      intro e; rw [e, hvis] at hUv; exact absurd hUv (by decide)
    have hVreach : Reaches M Occ To From V := (inv.reach U (Or.inl hUv)).extend hstep
    have hc := cellCount_cast M V hVb.1 hVb.2
    have hpos := unvisitedCount_pos (M.X * M.Y).toNat D.Visited V hVb.1
      (by rw [hc]; exact hVb.2) hvis
    have hUb := inv.distBound U hUv
    have hAlt : D.Dist U + 1 < INT32_MAX := by omega
    have hU0 := inv.distNonneg U
    rcases hcase with ⟨hnlt, he⟩ | ⟨hlt, he⟩
    · rw [he]
      have hq : ∀ v, (D.Visited v = true ∨ v ∈ insertAt D.Queue V k) →
          v = V ∨ (D.Visited v = true ∨ v ∈ D.Queue) := by
        intro v hv
        rcases hv with hv | hv
        · exact Or.inr (Or.inl hv)
        · rcases (mem_insertAt _ _ _ _).1 hv with hv | hv
          · exact Or.inl hv
          · exact Or.inr (Or.inr hv)
      refine ⟨inv.visFrom, ?_, ?_, inv.prevStep, inv.hasPrev, ?_, inv.distNonneg, inv.distBound⟩
      · intro v hv
        rcases hq v hv with rfl | hv
        · exact hVb
        · exact inv.valid v hv
      · intro v hv
        rcases hq v hv with rfl | hv
        · exact hVreach
        · exact inv.reach v hv
      · intro v hv
        rcases hq v hv with rfl | hv
        · show D.Dist v < INT32_MAX
          omega
        · exact inv.known v hv
    · rw [he]
      have hq : ∀ v, (D.Visited v = true ∨ v ∈ insertAt D.Queue V k) →
          v = V ∨ (D.Visited v = true ∨ v ∈ D.Queue) := by
        intro v hv
        rcases hv with hv | hv
        · exact Or.inr (Or.inl hv)
        · rcases (mem_insertAt _ _ _ _).1 hv with hv | hv
          · exact Or.inl hv
          · exact Or.inr (Or.inr hv)
      have hdist : ∀ v, v ≠ V → setAt D.Dist V (D.Dist U + 1) v = D.Dist v := by
        intro v hv; unfold setAt; rw [if_neg hv]
      have hdistV : setAt D.Dist V (D.Dist U + 1) V = D.Dist U + 1 := by
        unfold setAt; rw [if_pos rfl]
      have hvisne : ∀ v, D.Visited v = true → v ≠ V := by
        intro v hv e; rw [e, hvis] at hv; exact absurd hv (by decide)
      refine ⟨inv.visFrom, ?_, ?_, ?_, ?_, ?_, ?_, ?_⟩
      · intro v hv
        rcases hq v hv with rfl | hv
        · exact hVb
        · exact inv.valid v hv
      · intro v hv
        rcases hq v hv with rfl | hv
        · exact hVreach
        · exact inv.reach v hv
      · intro v u h
        show D.Visited u = true ∧
          setAt D.Dist V (D.Dist U + 1) v = setAt D.Dist V (D.Dist U + 1) u + 1 ∧
          PathStep M Occ To u v
        have h' : (D.Prev.Add V U) v = some u := h
        unfold TMap.Add at h'
        by_cases hvV : v = V
        · rw [if_pos hvV] at h'
          have huU : U = u := by simpa using h'
          subst huU
          subst hvV
          rw [hdistV, hdist U hUV]
          exact ⟨hUv, rfl, hstep⟩
        · rw [if_neg hvV] at h'
          obtain ⟨h1, h2, h3⟩ := inv.prevStep v u h'
          rw [hdist v hvV, hdist u (hvisne u h1)]
          exact ⟨h1, h2, h3⟩
      · intro v hv
        have hv' : setAt D.Dist V (D.Dist U + 1) v < INT32_MAX := hv
        show v = From ∨ ∃ p, (D.Prev.Add V U) v = some p
        unfold TMap.Add
        by_cases hvV : v = V
        · right; rw [if_pos hvV]; exact ⟨U, rfl⟩
        · rw [if_neg hvV]
          rw [hdist v hvV] at hv'
          exact inv.hasPrev v hv'
      · intro v hv
        show setAt D.Dist V (D.Dist U + 1) v < INT32_MAX
        by_cases hvV : v = V
        · rw [hvV, hdistV]; exact hAlt
        · rw [hdist v hvV]
          rcases hq v hv with e | hv
          · exact absurd e hvV
          · exact inv.known v hv
      · intro v
        show 0 ≤ setAt D.Dist V (D.Dist U + 1) v
        by_cases hvV : v = V
        · rw [hvV, hdistV]; omega
        · rw [hdist v hvV]; exact inv.distNonneg v
      · intro u hu
        show setAt D.Dist V (D.Dist U + 1) u + 1 +
          (unvisitedCount (M.X * M.Y).toNat D.Visited : Int) ≤ M.X * M.Y
        have hu' : D.Visited u = true := hu
        rw [hdist u (hvisne u hu')]
        exact inv.distBound u hu'

/-! ### The neighbour loop -/

theorem countP_insertAt (p : Int → Bool) (Q : List Int) (V : Int) (k : Nat) (hV : p V = false) :
    (insertAt Q V k).countP p = Q.countP p := by
  unfold insertAt
  rw [List.countP_append, List.countP_cons, hV]
  conv_rhs => rw [← List.take_append_drop k Q, List.countP_append]
  simp

/-- What one pass of the neighbour loop body keeps or achieves. -/
theorem relaxNeighbor_effect (M : FIntPoint) (Occ : Int → Bool) (To U : Int)
    (D : FDijkstraLookup) (Ni : Int) :
    (relaxNeighbor M Occ To U D Ni).Visited = D.Visited ∧
    (∀ x, x ∈ D.Queue → x ∈ (relaxNeighbor M Occ To U D Ni).Queue) ∧
    (relaxNeighbor M Occ To U D Ni).Queue.countP D.Visited = D.Queue.countP D.Visited ∧
    (IsValid M (HexNeighborAt (ToPoint U M) Ni) = true →
      (ToIndex (HexNeighborAt (ToPoint U M) Ni) M = To ∨
        Occ (ToIndex (HexNeighborAt (ToPoint U M) Ni) M) = false) →
      D.Visited (ToIndex (HexNeighborAt (ToPoint U M) Ni) M) = true ∨
        ToIndex (HexNeighborAt (ToPoint U M) Ni) M ∈ (relaxNeighbor M Occ To U D Ni).Queue) := by
  rcases relaxNeighbor_spec M Occ To U D Ni with ⟨he, hfound⟩ | ⟨hval, hvis, htrav, k, hcase⟩
  · rw [he]
    refine ⟨rfl, fun x hx => hx, rfl, fun h1 h2 => ?_⟩
    by_cases hv : D.Visited (ToIndex (HexNeighborAt (ToPoint U M) Ni) M) = true
    · exact Or.inl hv
    · exact Or.inr (hfound h1 (by simpa using hv) h2)
  · rcases hcase with ⟨_, he⟩ | ⟨_, he⟩ <;> rw [he]
    · exact ⟨rfl, fun x hx => (mem_insertAt _ _ _ _).2 (Or.inr hx),
        countP_insertAt _ _ _ _ hvis, fun _ _ => Or.inr ((mem_insertAt _ _ _ _).2 (Or.inl rfl))⟩
    · exact ⟨rfl, fun x hx => (mem_insertAt _ _ _ _).2 (Or.inr hx),
        countP_insertAt _ _ _ _ hvis, fun _ _ => Or.inr ((mem_insertAt _ _ _ _).2 (Or.inl rfl))⟩

theorem ClosedBut.mono {M : FIntPoint} {Occ : Int → Bool} {To : Int}
    {D D' : FDijkstraLookup} {X : Option Int} (hc : ClosedBut M Occ To D X)
    (hv : D'.Visited = D.Visited) (hq : ∀ x, x ∈ D.Queue → x ∈ D'.Queue) :
    ClosedBut M Occ To D' X := by
  intro u hu hnq hne v hs
  rw [hv] at hu ⊢
  rcases hc u hu (fun h => hnq (hq u h)) hne v hs with h | h
  · exact Or.inl h
  · exact Or.inr (hq v h)

/-- The neighbour loop over a list of directions. -/
theorem relaxFold_effect {M : FIntPoint} {Occ : Int → Bool} {From To U : Int}
    (hn : M.X * M.Y ≤ INT32_MAX) (l : List Int) (hl : ∀ Ni ∈ l, 0 ≤ Ni ∧ Ni ≤ 5) :
    ∀ D : FDijkstraLookup, FrontierInv M Occ From To D → D.Visited U = true →
      FrontierInv M Occ From To (l.foldl (relaxNeighbor M Occ To U) D) ∧
      (l.foldl (relaxNeighbor M Occ To U) D).Visited = D.Visited ∧
      (∀ x, x ∈ D.Queue → x ∈ (l.foldl (relaxNeighbor M Occ To U) D).Queue) ∧
      (l.foldl (relaxNeighbor M Occ To U) D).Queue.countP D.Visited = D.Queue.countP D.Visited ∧
      (∀ Ni ∈ l, IsValid M (HexNeighborAt (ToPoint U M) Ni) = true →
        (ToIndex (HexNeighborAt (ToPoint U M) Ni) M = To ∨
          Occ (ToIndex (HexNeighborAt (ToPoint U M) Ni) M) = false) →
        D.Visited (ToIndex (HexNeighborAt (ToPoint U M) Ni) M) = true ∨
          ToIndex (HexNeighborAt (ToPoint U M) Ni) M ∈
            (l.foldl (relaxNeighbor M Occ To U) D).Queue) := by
  induction l with
  | nil =>
    intro D inv _
    exact ⟨inv, rfl, fun x hx => hx, rfl, fun Ni h => absurd h (List.not_mem_nil _)⟩
  | cons N rest ih =>
    intro D inv hUv
    obtain ⟨hN0, hN5⟩ := hl N (List.mem_cons_self _ _)
    obtain ⟨e1, e2, e3, e4⟩ := relaxNeighbor_effect M Occ To U D N
    have inv1 := inv.relax hUv hn N hN0 hN5
    have hUv1 : (relaxNeighbor M Occ To U D N).Visited U = true := by rw [e1]; exact hUv
    obtain ⟨r1, r2, r3, r4, r5⟩ :=
      ih (fun Ni h => hl Ni (List.mem_cons_of_mem _ h)) _ inv1 hUv1
    rw [List.foldl_cons]
    refine ⟨r1, r2.trans e1, fun x hx => r3 x (e2 x hx), ?_, ?_⟩
    · rw [e1] at r4
      rw [r4, e3]
    · intro Ni hNi hval htrav
      rcases List.mem_cons.1 hNi with rfl | hNi
      · rcases e4 hval htrav with h | h
        · exact Or.inl h
        · exact Or.inr (r3 _ h)
      · have := r5 Ni hNi hval htrav
        rw [e1] at this
        exact this

theorem relaxAll_effect {M : FIntPoint} {Occ : Int → Bool} {From To U : Int}
    (hn : M.X * M.Y ≤ INT32_MAX) (D : FDijkstraLookup) (inv : FrontierInv M Occ From To D)
    (hUv : D.Visited U = true) (hc : ClosedBut M Occ To D (some U)) :
    FrontierInv M Occ From To (relaxAll M Occ To U D) ∧
    (relaxAll M Occ To U D).Visited = D.Visited ∧
    (relaxAll M Occ To U D).Queue.countP D.Visited = D.Queue.countP D.Visited ∧
    ClosedBut M Occ To (relaxAll M Occ To U D) none := by
  have hl : ∀ Ni ∈ [(0 : Int), 1, 2, 3, 4, 5], 0 ≤ Ni ∧ Ni ≤ 5 := by
    intro Ni h
    simp only [List.mem_cons, List.mem_singleton, List.not_mem_nil, or_false] at h
    omega
  obtain ⟨r1, r2, r3, r4, r5⟩ := @relaxFold_effect M Occ From To U hn _ hl D inv hUv
  refine ⟨r1, r2, r4, ?_⟩
  intro u hu hnq _ v hs
  by_cases huU : u = U
  · subst huU
    obtain ⟨Ni, h0, h5, hval, hv⟩ := (mem_hexNeighbors M u v).1 hs.1
    have hmem : Ni ∈ [(0 : Int), 1, 2, 3, 4, 5] := by
      simp only [List.mem_cons, List.mem_singleton, List.not_mem_nil, or_false]
      omega
    have := r5 Ni hmem hval (by rw [← hv]; exact hs.2)
    rw [← hv] at this
    have r2' : (relaxAll M Occ To u D).Visited = D.Visited := r2
    rw [r2']
    exact this
  · exact (hc.mono r2 r3) u hu hnq (by simpa using huU) v hs

theorem ClosedBut.popClosed {M : FIntPoint} {Occ : Int → Bool} {To : Int} {D : FDijkstraLookup}
    (hc : ClosedBut M Occ To D none) {U : Int} (hU : D.Queue.getLast? = some U) :
    ClosedBut M Occ To
      (popFrontier D U) (some U) := by
  intro u hu hnq hne v hs
  have huU : u ≠ U := by
    intro e; exact hne (by rw [e])
  have hu' : D.Visited u = true := by
    have h2 : setAt D.Visited U true u = true := hu
    unfold setAt at h2
    rw [if_neg huU] at h2
    exact h2
  have hnq' : u ∉ D.Queue := by
    intro h
    rcases (mem_of_getLast? hU u).1 h with h | h
    · exact hnq h
    · exact huU h
  show setAt D.Visited U true v = true ∨ v ∈ D.Queue.dropLast
  unfold setAt
  by_cases hvU : v = U
  · left; rw [if_pos hvU]
  · rw [if_neg hvU]
    rcases hc u hu' hnq' (by simp) v hs with h | h
    · exact Or.inl h
    · rcases (mem_of_getLast? hU v).1 h with h | h
      · exact Or.inr h
      · exact absurd h hvU

/-! ### The frontier loop -/

theorem frontierLoop_step (M : FIntPoint) (Occ : Int → Bool) (To : Int) (fuel : Nat)
    (D : FDijkstraLookup) (U : Int) (hU : D.Queue.getLast? = some U) (hne : U ≠ To) :
    frontierLoop M Occ To (fuel + 1) D =
      frontierLoop M Occ To fuel (relaxAll M Occ To U
        (popFrontier D U)) := by
  simp only [frontierLoop, hU, if_neg hne]

theorem frontierLoop_break (M : FIntPoint) (Occ : Int → Bool) (To : Int) (fuel : Nat)
    (D : FDijkstraLookup) (hU : D.Queue.getLast? = some To) :
    frontierLoop M Occ To (fuel + 1) D =
      some (popFrontier D To) := by
  simp only [frontierLoop, hU, if_pos]

theorem frontierLoop_empty (M : FIntPoint) (Occ : Int → Bool) (To : Int) (fuel : Nat)
    (D : FDijkstraLookup) (hU : D.Queue.getLast? = none) :
    frontierLoop M Occ To (fuel + 1) D = some D := by
  simp only [frontierLoop, hU]

/-- More fuel does not change a result of the frontier loop. -/
theorem frontierLoop_mono (M : FIntPoint) (Occ : Int → Bool) (To : Int) (extra : Nat) :
    ∀ (fuel : Nat) (D D' : FDijkstraLookup), frontierLoop M Occ To fuel D = some D' →
      frontierLoop M Occ To (fuel + extra) D = some D' := by
  intro fuel
  induction fuel with
  | zero => intro D D' h; simp [frontierLoop] at h
  | succ fuel ih =>
    intro D D' h
    have e : fuel + 1 + extra = (fuel + extra) + 1 := by omega
    rw [e]
    cases hU : D.Queue.getLast? with
    | none =>
      rw [frontierLoop_empty _ _ _ _ _ hU] at h ⊢
      exact h
    | some U =>
      by_cases hne : U = To
      · subst hne
        rw [frontierLoop_break _ _ _ _ _ hU] at h ⊢
        exact h
      · rw [frontierLoop_step _ _ _ _ _ _ hU hne] at h ⊢
        exact ih _ _ h

/-- What holds when the frontier loop is left. -/
theorem frontierLoop_result {M : FIntPoint} {Occ : Int → Bool} {From To : Int}
    (hn : M.X * M.Y ≤ INT32_MAX) :
    ∀ (fuel : Nat) (D D' : FDijkstraLookup), frontierLoop M Occ To fuel D = some D' →
      FrontierInv M Occ From To D → ClosedBut M Occ To D none →
      FrontierInv M Occ From To D' ∧
        (D'.Visited To = true ∨ (D'.Queue = [] ∧ ClosedBut M Occ To D' none)) := by
  intro fuel
  induction fuel with
  | zero => intro D D' h; simp [frontierLoop] at h
  | succ fuel ih =>
    intro D D' h inv hc
    cases hU : D.Queue.getLast? with
    | none =>
      rw [frontierLoop_empty _ _ _ _ _ hU] at h
      have e : D = D' := by simpa using h
      subst e
      exact ⟨inv, Or.inr ⟨List.getLast?_eq_none_iff.1 hU, hc⟩⟩
    | some U =>
      by_cases hne : U = To
      · subst hne
        rw [frontierLoop_break _ _ _ _ _ hU] at h
        have e := Option.some.inj h
        subst e
        refine ⟨inv.popStep hU, Or.inl ?_⟩
        show setAt D.Visited U true U = true
        simp [setAt]
      · rw [frontierLoop_step _ _ _ _ _ _ hU hne] at h
        have inv1 := inv.popStep hU
        have hUv : setAt D.Visited U true U = true := by simp [setAt]
        obtain ⟨r1, _, _, r4⟩ := relaxAll_effect hn _ inv1 hUv (hc.popClosed hU)
        exact ih _ _ h r1 r4

theorem countP_of_getLast? (p : Int → Bool) {Q : List Int} {U : Int}
    (h : Q.getLast? = some U) :
    Q.countP p = Q.dropLast.countP p + (if p U = true then 1 else 0) := by
  have e : Q = Q.dropLast ++ [U] := by
    rw [List.getLast?_eq_some_iff] at h
    obtain ⟨ys, rfl⟩ := h
    simp
  conv_lhs => rw [e]
  rw [List.countP_append, List.countP_cons, List.countP_nil]
  simp

/-- The frontier loop terminates: each iteration marks a new cell, or else removes from
the frontier one entry of a cell that is already marked and adds only unmarked ones. -/
theorem frontierLoop_terminates {M : FIntPoint} {Occ : Int → Bool} {From To : Int}
    (hn : M.X * M.Y ≤ INT32_MAX) :
    ∀ (k q : Nat) (D : FDijkstraLookup), FrontierInv M Occ From To D →
      ClosedBut M Occ To D none →
      unvisitedCount (M.X * M.Y).toNat D.Visited = k → D.Queue.countP D.Visited = q →
      ∃ (fuel : Nat) (D' : FDijkstraLookup), frontierLoop M Occ To fuel D = some D' := by
  intro k
  induction k using Nat.strong_induction_on with
  | _ k ihk =>
    intro q
    induction q using Nat.strong_induction_on with
    | _ q ihq =>
      intro D inv hc hk hq
      cases hU : D.Queue.getLast? with
      | none => exact ⟨1, D, frontierLoop_empty _ _ _ _ _ hU⟩
      | some U =>
        by_cases hne : U = To
        · subst hne
          exact ⟨1, _, frontierLoop_break _ _ _ _ _ hU⟩
        · have hUq : U ∈ D.Queue := (mem_of_getLast? hU U).2 (Or.inr rfl)
          have inv1 := inv.popStep hU
          have hUv : setAt D.Visited U true U = true := by simp [setAt]
          obtain ⟨r1, r2, r3, r4⟩ := relaxAll_effect hn _ inv1 hUv (hc.popClosed hU)
          have hcount := countP_of_getLast? D.Visited hU
          have hrec : ∃ (fuel : Nat) (D' : FDijkstraLookup), frontierLoop M Occ To fuel
              (relaxAll M Occ To U (popFrontier D U)) = some D' := by
            by_cases hvis : D.Visited U = true
            · have hsame := setAt_same_value D.Visited U true hvis
              rw [if_pos hvis] at hcount
              apply ihq (q - 1) (by omega) _ r1 r4
              · rw [r2]
                show unvisitedCount (M.X * M.Y).toNat (setAt D.Visited U true) = k
                rw [hsame]; exact hk
              · rw [r2]
                have r3' : (relaxAll M Occ To U (popFrontier D U)).Queue.countP (setAt D.Visited U true) =
                    D.Queue.dropLast.countP (setAt D.Visited U true) := r3
                show (relaxAll M Occ To U (popFrontier D U)).Queue.countP (setAt D.Visited U true) =
                    q - 1
                rw [r3', hsame]
                omega
            · have hUf : D.Visited U = false := by simpa using hvis
              obtain ⟨hU0, hU1⟩ := inv.valid U (Or.inr hUq)
              have hcast := cellCount_cast M U hU0 hU1
              have hnew := unvisitedCount_mark_new (M.X * M.Y).toNat D.Visited U hU0
                (by rw [hcast]; exact hU1) hUf
              apply ihk (k - 1) (by omega) _ _ r1 r4 _ rfl
              rw [r2]
              show unvisitedCount (M.X * M.Y).toNat (setAt D.Visited U true) = k - 1
              omega
          obtain ⟨fuel, D', h⟩ := hrec
          exact ⟨fuel + 1, D', by rw [frontierLoop_step _ _ _ _ _ _ hU hne]; exact h⟩

/-! ### The walk along `Prev` -/

theorem prevWalk_mono (Prev : TMap Int) (From : Int) (extra : Nat) :
    ∀ (fuel : Nat) (Current r : Int), prevWalk Prev From fuel Current = some r →
      prevWalk Prev From (fuel + extra) Current = some r := by
  intro fuel
  induction fuel with
  | zero => intro c r h; simp [prevWalk] at h
  | succ fuel ih =>
    intro c r h
    have e : fuel + 1 + extra = (fuel + extra) + 1 := by omega
    rw [e]
    unfold prevWalk at h ⊢
    cases hp : Prev c with
    | none => rw [hp] at h; simp at h
    | some p =>
      rw [hp] at h
      simp only at h ⊢
      by_cases hpf : p ≠ From
      · rw [if_pos hpf] at h ⊢
        exact ih _ _ h
      · rw [if_neg hpf] at h ⊢
        exact h

/-- The walk ends on a cell whose predecessor is `From`, and that cell was visited. -/
theorem prevWalk_result {M : FIntPoint} {Occ : Int → Bool} {From To : Int}
    {D : FDijkstraLookup} (inv : FrontierInv M Occ From To D) :
    ∀ (fuel : Nat) (Current r : Int), D.Visited Current = true →
      prevWalk D.Prev From fuel Current = some r →
      D.Prev r = some From ∧ D.Visited r = true := by
  intro fuel
  induction fuel with
  | zero => intro c r _ h; simp [prevWalk] at h
  | succ fuel ih =>
    intro c r hc h
    unfold prevWalk at h
    cases hp : D.Prev c with
    | none => rw [hp] at h; simp at h
    | some p =>
      rw [hp] at h
      simp only at h
      by_cases hpf : p ≠ From
      · rw [if_pos hpf] at h
        exact ih _ _ (inv.prevStep c p hp).1 h
      · rw [if_neg hpf] at h
        have e : c = r := by simpa using h
        subst e
        have : p = From := by simpa using hpf
        rw [this] at hp
        exact ⟨hp, hc⟩

theorem prevWalk_terminates {M : FIntPoint} {Occ : Int → Bool} {From To : Int}
    {D : FDijkstraLookup} (inv : FrontierInv M Occ From To D) :
    ∀ (fuel : Nat) (Current : Int), D.Visited Current = true → Current ≠ From →
      D.Dist Current ≤ fuel → ∃ r, prevWalk D.Prev From fuel Current = some r := by
  intro fuel
  induction fuel with
  | zero =>
    intro c hc hne hd
    exfalso
    rcases inv.hasPrev c (inv.known c (Or.inl hc)) with h | ⟨p, hp⟩
    · exact hne h
    · obtain ⟨_, h2, _⟩ := inv.prevStep c p hp
      have := inv.distNonneg p
      simp only [Nat.cast_zero] at hd
      omega
  | succ fuel ih =>
    intro c hc hne hd
    rcases inv.hasPrev c (inv.known c (Or.inl hc)) with h | ⟨p, hp⟩
    · exact absurd h hne
    · obtain ⟨h1, h2, _⟩ := inv.prevStep c p hp
      unfold prevWalk
      rw [hp]
      simp only
      by_cases hpf : p ≠ From
      · rw [if_pos hpf]
        apply ih p h1 hpf
        push_cast at hd
        omega
      · rw [if_neg hpf]
        exact ⟨c, rfl⟩

/-! ### Neighbours are at distance one -/

theorem land_one_cases (x : Int) : Int.land x 1 = 0 ∨ Int.land x 1 = 1 := by
  rw [land_one_eq]; omega

theorem HexNeighborAt_eq (P : FIntPoint) (Ni : Int) (h0 : 0 ≤ Ni) (h5 : Ni ≤ 5) :
    HexNeighborAt P Ni =
      P.add ⟨((NeighborsOffsets (Int.land P.X 1)).getD Ni.toNat (0, 0)).1,
        ((NeighborsOffsets (Int.land P.X 1)).getD Ni.toNat (0, 0)).2⟩ := by
  unfold HexNeighborAt
  rw [if_neg (by omega)]

theorem HexDistance_neighbor (P : FIntPoint) (Ni : Int) (h0 : 0 ≤ Ni) (h5 : Ni ≤ 5) :
    HexDistance P (HexNeighborAt P Ni) = 1 := by
  have hpar := land_one_eq P.X
  have hNi : Ni = 0 ∨ Ni = 1 ∨ Ni = 2 ∨ Ni = 3 ∨ Ni = 4 ∨ Ni = 5 := by omega
  rw [HexNeighborAt_eq P Ni h0 h5, HexDistance_eq]
  rcases land_one_cases P.X with hp | hp
  · rw [hp] at hpar ⊢
    rcases hNi with rfl | rfl | rfl | rfl | rfl | rfl
    · show max (max |P.X - (P.X + 1)| |P.Y - P.X / 2 - (P.Y + 0 - (P.X + 1) / 2)|)
        |-P.X - (P.Y - P.X / 2) - (-(P.X + 1) - (P.Y + 0 - (P.X + 1) / 2))| = 1
      simp only [Int.abs_eq_natAbs]; omega
    · show max (max |P.X - (P.X + 1)| |P.Y - P.X / 2 - (P.Y + -1 - (P.X + 1) / 2)|)
        |-P.X - (P.Y - P.X / 2) - (-(P.X + 1) - (P.Y + -1 - (P.X + 1) / 2))| = 1
      simp only [Int.abs_eq_natAbs]; omega
    · show max (max |P.X - (P.X + 0)| |P.Y - P.X / 2 - (P.Y + -1 - (P.X + 0) / 2)|)
        |-P.X - (P.Y - P.X / 2) - (-(P.X + 0) - (P.Y + -1 - (P.X + 0) / 2))| = 1
      simp only [Int.abs_eq_natAbs]; omega
    · show max (max |P.X - (P.X + -1)| |P.Y - P.X / 2 - (P.Y + -1 - (P.X + -1) / 2)|)
        |-P.X - (P.Y - P.X / 2) - (-(P.X + -1) - (P.Y + -1 - (P.X + -1) / 2))| = 1
      simp only [Int.abs_eq_natAbs]; omega
    · show max (max |P.X - (P.X + -1)| |P.Y - P.X / 2 - (P.Y + 0 - (P.X + -1) / 2)|)
        |-P.X - (P.Y - P.X / 2) - (-(P.X + -1) - (P.Y + 0 - (P.X + -1) / 2))| = 1
      simp only [Int.abs_eq_natAbs]; omega
    · show max (max |P.X - (P.X + 0)| |P.Y - P.X / 2 - (P.Y + 1 - (P.X + 0) / 2)|)
        |-P.X - (P.Y - P.X / 2) - (-(P.X + 0) - (P.Y + 1 - (P.X + 0) / 2))| = 1
      simp only [Int.abs_eq_natAbs]; omega
  · rw [hp] at hpar ⊢
    rcases hNi with rfl | rfl | rfl | rfl | rfl | rfl
    · show max (max |P.X - (P.X + 1)| |P.Y - P.X / 2 - (P.Y + 1 - (P.X + 1) / 2)|)
        |-P.X - (P.Y - P.X / 2) - (-(P.X + 1) - (P.Y + 1 - (P.X + 1) / 2))| = 1
      simp only [Int.abs_eq_natAbs]; omega
    · show max (max |P.X - (P.X + 1)| |P.Y - P.X / 2 - (P.Y + 0 - (P.X + 1) / 2)|)
        |-P.X - (P.Y - P.X / 2) - (-(P.X + 1) - (P.Y + 0 - (P.X + 1) / 2))| = 1
      simp only [Int.abs_eq_natAbs]; omega
    · show max (max |P.X - (P.X + 0)| |P.Y - P.X / 2 - (P.Y + -1 - (P.X + 0) / 2)|)
        |-P.X - (P.Y - P.X / 2) - (-(P.X + 0) - (P.Y + -1 - (P.X + 0) / 2))| = 1
      simp only [Int.abs_eq_natAbs]; omega
    · show max (max |P.X - (P.X + -1)| |P.Y - P.X / 2 - (P.Y + 0 - (P.X + -1) / 2)|)
        |-P.X - (P.Y - P.X / 2) - (-(P.X + -1) - (P.Y + 0 - (P.X + -1) / 2))| = 1
      simp only [Int.abs_eq_natAbs]; omega
    · show max (max |P.X - (P.X + -1)| |P.Y - P.X / 2 - (P.Y + 1 - (P.X + -1) / 2)|)
        |-P.X - (P.Y - P.X / 2) - (-(P.X + -1) - (P.Y + 1 - (P.X + -1) / 2))| = 1
      simp only [Int.abs_eq_natAbs]; omega
    · show max (max |P.X - (P.X + 0)| |P.Y - P.X / 2 - (P.Y + 1 - (P.X + 0) / 2)|)
        |-P.X - (P.Y - P.X / 2) - (-(P.X + 0) - (P.Y + 1 - (P.X + 0) / 2))| = 1
      simp only [Int.abs_eq_natAbs]; omega

/-! ### The first move returned by `ShortestPath` -/

theorem relaxNeighbor_prev {M : FIntPoint} {Occ : Int → Bool} {To U : Int}
    {D : FDijkstraLookup} (h : ∀ v u, D.Prev v = some u → PathStep M Occ To u v)
    (Ni : Int) (h0 : 0 ≤ Ni) (h5 : Ni ≤ 5) :
    ∀ v u, (relaxNeighbor M Occ To U D Ni).Prev v = some u → PathStep M Occ To u v := by
  rcases relaxNeighbor_spec M Occ To U D Ni with ⟨he, _⟩ | ⟨hval, hvis, htrav, k, hcase⟩
  · rw [he]; exact h
  · rcases hcase with ⟨_, he⟩ | ⟨_, he⟩ <;> rw [he]
    · exact h
    · intro v u hp
      have hp' : (D.Prev.Add (ToIndex (HexNeighborAt (ToPoint U M) Ni) M) U) v = some u := hp
      unfold TMap.Add at hp'
      by_cases hv : v = ToIndex (HexNeighborAt (ToPoint U M) Ni) M
      · rw [if_pos hv] at hp'
        have hu : U = u := by simpa using hp'
        subst hu
        rw [hv]
        exact ⟨(mem_hexNeighbors M U _).2 ⟨Ni, h0, h5, hval, rfl⟩, htrav⟩
      · rw [if_neg hv] at hp'
        exact h v u hp'

theorem relaxAll_prev {M : FIntPoint} {Occ : Int → Bool} {To U : Int}
    {D : FDijkstraLookup} (h : ∀ v u, D.Prev v = some u → PathStep M Occ To u v) :
    ∀ v u, (relaxAll M Occ To U D).Prev v = some u → PathStep M Occ To u v := by
  unfold relaxAll
  simp only [List.foldl_cons, List.foldl_nil]
  exact relaxNeighbor_prev (relaxNeighbor_prev (relaxNeighbor_prev (relaxNeighbor_prev
    (relaxNeighbor_prev (relaxNeighbor_prev h 0 (by decide) (by decide)) 1 (by decide)
    (by decide)) 2 (by decide) (by decide)) 3 (by decide) (by decide)) 4 (by decide)
    (by decide)) 5 (by decide) (by decide)

theorem frontierLoop_prev {M : FIntPoint} {Occ : Int → Bool} {To : Int} :
    ∀ (fuel : Nat) (D D' : FDijkstraLookup), frontierLoop M Occ To fuel D = some D' →
      (∀ v u, D.Prev v = some u → PathStep M Occ To u v) →
      ∀ v u, D'.Prev v = some u → PathStep M Occ To u v := by
  intro fuel
  induction fuel with
  | zero => intro D D' h; simp [frontierLoop] at h
  | succ fuel ih =>
    intro D D' h hp
    cases hU : D.Queue.getLast? with
    | none =>
      rw [frontierLoop_empty _ _ _ _ _ hU] at h
      have e : D = D' := by simpa using h
      subst e
      exact hp
    | some U =>
      by_cases hne : U = To
      · subst hne
        rw [frontierLoop_break _ _ _ _ _ hU] at h
        have e := Option.some.inj h
        subst e
        exact hp
      · rw [frontierLoop_step _ _ _ _ _ _ hU hne] at h
        exact ih _ _ h (relaxAll_prev (D := popFrontier D U) hp)

theorem prevWalk_prev (Prev : TMap Int) (From : Int) :
    ∀ (fuel : Nat) (Current r : Int), prevWalk Prev From fuel Current = some r →
      Prev r = some From := by
  intro fuel
  induction fuel with
  | zero => intro c r h; simp [prevWalk] at h
  | succ fuel ih =>
    intro c r h
    unfold prevWalk at h
    cases hp : Prev c with
    | none => rw [hp] at h; simp at h
    | some p =>
      rw [hp] at h
      simp only at h
      by_cases hpf : p ≠ From
      · rw [if_pos hpf] at h
        exact ih _ _ h
      · rw [if_neg hpf] at h
        have e : c = r := by simpa using h
        subst e
        have : p = From := by simpa using hpf
        rw [this] at hp
        exact hp

/-- Whatever `ShortestPath` returns, other than `INDEX_NONE`, is an in-bounds hex neighbour
of `From` that is unoccupied or equal to `To`. -/
theorem ShortestPath_first_step {fuel : Nat} {M : FIntPoint} {Occ : Int → Bool}
    {From To r : Int} {D : FDijkstraLookup}
    (h : ShortestPath fuel M Occ From To = some (r, D)) (hr : r ≠ INDEX_NONE) :
    PathStep M Occ To From r := by
  unfold ShortestPath at h
  cases hloop : frontierLoop M Occ To fuel (dijkstraInit From) with
  | none => rw [hloop] at h; simp at h
  | some D' =>
    rw [hloop] at h
    simp only at h
    have hprev := frontierLoop_prev fuel _ _ hloop (by
      intro v u hvu; simp [dijkstraInit, TMap.Reset] at hvu)
    by_cases hvis : D'.Visited To = true
    · rw [if_pos hvis] at h
      cases hw : prevWalk D'.Prev From fuel To with
      | none => rw [hw] at h; simp at h
      | some c =>
        rw [hw] at h
        simp only [Option.some.injEq, Prod.mk.injEq] at h
        rw [← h.1]
        exact hprev c From (prevWalk_prev _ _ _ _ _ hw)
    · rw [if_neg hvis] at h
      simp only [Option.some.injEq, Prod.mk.injEq] at h
      exact absurd h.1.symm hr

/-- A returned first move lies at hex distance one of `From`. -/
theorem PathStep_distance {M : FIntPoint} {Occ : Int → Bool} {To U V : Int}
    (h : PathStep M Occ To U V) : HexDistance (ToPoint U M) (ToPoint V M) = 1 := by
  obtain ⟨Ni, h0, h5, hval, hv⟩ := (mem_hexNeighbors M U V).1 h.1
  rw [hv, ToPoint_ToIndex M _ hval]
  exact HexDistance_neighbor _ Ni h0 h5

/-- The reservation made by `NextStep` is safe: when `To` is not at distance one of `From`,
a returned cell is unoccupied. -/
theorem ShortestPath_unoccupied {fuel : Nat} {M : FIntPoint} {Occ : Int → Bool}
    {From To r : Int} {D : FDijkstraLookup}
    (h : ShortestPath fuel M Occ From To = some (r, D)) (hr : r ≠ INDEX_NONE)
    (hd : ¬ HexDistance (ToPoint From M) (ToPoint To M) ≤ AttackDistance) :
    Occ r = false := by
  have hs := ShortestPath_first_step h hr
  rcases hs.2 with e | e
  · exfalso
    apply hd
    rw [← e, PathStep_distance hs]
    decide
  · exact e

/-! ### `ShortestPath` finds a way exactly when there is one -/

theorem closed_path {M : FIntPoint} {Occ : Int → Bool} {To : Int} {D : FDijkstraLookup}
    (hc : ClosedBut M Occ To D none) (hq : D.Queue = []) :
    ∀ (Cells : List Int) (u : Int), D.Visited u = true → IsPath M Occ To u Cells →
      ∀ c ∈ Cells, D.Visited c = true := by
  intro Cells
  induction Cells with
  | nil => intro u _ _ c hcm; exact absurd hcm (List.not_mem_nil _)
  | cons V Rest ih =>
    intro u hu hp c hcm
    have hV : D.Visited V = true := by
      rcases hc u hu (by rw [hq]; exact List.not_mem_nil _) (by simp) V hp.1 with h | h
      · exact h
      · rw [hq] at h; exact absurd h (List.not_mem_nil _)
    rcases List.mem_cons.1 hcm with rfl | hcm
    · exact hV
    · exact ih V hV hp.2 c hcm

theorem ShortestPath_total_and_exact (M : FIntPoint) (Occ : Int → Bool) (From To : Int)
    (hn : M.X * M.Y ≤ INT32_MAX) (h0 : 0 ≤ From) (h1 : From < M.X * M.Y) (hne : From ≠ To) :
    ∃ N : Nat, ∀ fuel : Nat, N ≤ fuel → ∃ (r : Int) (D : FDijkstraLookup),
      ShortestPath fuel M Occ From To = some (r, D) ∧
      (r = INDEX_NONE ↔ ¬ PathExists M Occ From To) := by
  have inv0 := FrontierInv.atStart M Occ From To h0 h1
  have hc0 : ClosedBut M Occ To (dijkstraInit From) none := by
    intro u hu hnq _ v _
    exfalso
    apply hnq
    have : u = From := by
      by_contra hx
      simp [dijkstraInit, setAt, hx] at hu
    rw [this]
    simp [dijkstraInit]
  obtain ⟨f1, D', hloop⟩ := frontierLoop_terminates hn _ _ _ inv0 hc0 rfl rfl
  obtain ⟨inv', hout⟩ := frontierLoop_result hn f1 _ _ hloop inv0 hc0
  by_cases hvis : D'.Visited To = true
  · refine ⟨f1 + (D'.Dist To).toNat, fun fuel hf => ?_⟩
    have hl : frontierLoop M Occ To fuel (dijkstraInit From) = some D' := by
      have := frontierLoop_mono M Occ To (fuel - f1) f1 _ _ hloop
      rwa [show f1 + (fuel - f1) = fuel by omega] at this
    have hd0 := inv'.distNonneg To
    obtain ⟨r, hw⟩ := prevWalk_terminates inv' fuel To hvis (fun e => hne e.symm) (by omega)
    obtain ⟨_, hrv⟩ := prevWalk_result inv' fuel To r hvis hw
    refine ⟨r, D', ?_, ?_⟩
    · unfold ShortestPath
      rw [hl]
      simp only [if_pos hvis, hw]
    · have hr0 := (inv'.valid r (Or.inl hrv)).1
      have hpath : PathExists M Occ From To := by
        rcases inv'.reach To (Or.inl hvis) with e | h
        · exact absurd e.symm hne
        · exact h
      constructor
      · intro e
        rw [e] at hr0
        exact absurd hr0 (by decide)
      · intro hnp
        exact absurd hpath hnp
  · refine ⟨f1, fun fuel hf => ?_⟩
    have hl : frontierLoop M Occ To fuel (dijkstraInit From) = some D' := by
      have := frontierLoop_mono M Occ To (fuel - f1) f1 _ _ hloop
      rwa [show f1 + (fuel - f1) = fuel by omega] at this
    refine ⟨INDEX_NONE, D', ?_, ?_⟩
    · unfold ShortestPath
      rw [hl]
      simp only [if_neg hvis]
    · refine ⟨fun _ => ?_, fun _ => rfl⟩
      rintro ⟨Cells, hp, hlast⟩
      rcases hout with h | ⟨hq, hc⟩
      · exact hvis h
      · apply hvis
        exact closed_path hc hq Cells From inv'.visFrom hp To
          ((mem_of_getLast? hlast To).2 (Or.inr rfl))

/-- Claim C2.  On a map whose cell count fits an `int32`, for a valid cell `From` and
any other cell `To`: with enough fuel `ShortestPath` returns, and it returns `INDEX_NONE`
exactly when no obstacle-respecting path from `From` to `To` exists.  On the 5 x 5 map,
from (0,0) to (4,0), with the column x = 2 occupied except (2,2) it returns the cell
5 = (0,1), and with the whole column occupied it returns `INDEX_NONE`. -/
theorem ShortestPath_none_iff_no_path (MapSize : FIntPoint) (Occupied : Int → Bool)
    (From To : Int) (hn : MapSize.X * MapSize.Y ≤ INT32_MAX) (h0 : 0 ≤ From)
    (h1 : From < MapSize.X * MapSize.Y) (hne : From ≠ To) :
    (∃ N : Nat, ∀ fuel : Nat, N ≤ fuel → ∃ (r : Int) (D : FDijkstraLookup),
      ShortestPath fuel MapSize Occupied From To = some (r, D) ∧
      (r = INDEX_NONE ↔ ¬ PathExists MapSize Occupied From To)) ∧
    (ShortestPath 100 ⟨5, 5⟩ (occupiedCells [0, 4, 2, 7, 17, 22]) 0 4).map Prod.fst = some 5 ∧
    (ShortestPath 100 ⟨5, 5⟩ (occupiedCells [0, 4, 2, 7, 12, 17, 22]) 0 4).map Prod.fst =
      some INDEX_NONE :=
  ⟨ShortestPath_total_and_exact MapSize Occupied From To hn h0 h1 hne, by decide, by decide⟩

/-- The statement of C2 on the 5 x 5 map of the scenario, column x = 2 occupied except (2,2). -/
theorem ShortestPath_none_iff_no_path_witness :
    (∃ N : Nat, ∀ fuel : Nat, N ≤ fuel → ∃ (r : Int) (D : FDijkstraLookup),
      ShortestPath fuel ⟨5, 5⟩ (occupiedCells [0, 4, 2, 7, 17, 22]) 0 4 = some (r, D) ∧
      (r = INDEX_NONE ↔ ¬ PathExists ⟨5, 5⟩ (occupiedCells [0, 4, 2, 7, 17, 22]) 0 4)) ∧
    (ShortestPath 100 ⟨5, 5⟩ (occupiedCells [0, 4, 2, 7, 17, 22]) 0 4).map Prod.fst = some 5 ∧
    (ShortestPath 100 ⟨5, 5⟩ (occupiedCells [0, 4, 2, 7, 12, 17, 22]) 0 4).map Prod.fst =
      some INDEX_NONE :=
  ShortestPath_none_iff_no_path ⟨5, 5⟩ (occupiedCells [0, 4, 2, 7, 17, 22]) 0 4
    (by decide) (by decide) (by decide) (by decide)

/-! ### The insertion index -/

theorem LowerBoundLoop_le (Range : List Int) (Pred : Int → Bool) :
    ∀ (fuel Start Size : Nat), Start + Size ≤ Range.length →
      LowerBoundLoop Range Pred fuel Start Size ≤ Range.length := by
  intro fuel
  induction fuel with
  | zero => intro Start Size h; unfold LowerBoundLoop; omega
  | succ fuel ih =>
    intro Start Size h
    unfold LowerBoundLoop
    split
    · omega
    · simp only
      apply ih
      split <;> omega

/-- `Algo::LowerBound` answers an index of `[0, Num]`, so `Queue.Insert` is in range. -/
theorem LowerBound_le (Range : List Int) (Pred : Int → Bool) :
    LowerBound Range Pred ≤ Range.length :=
  LowerBoundLoop_le Range Pred _ 0 Range.length (by omega)

end HexBalls

namespace HexBalls

/-! ## The occupancy discipline of the step engine -/

theorem CellsDisjoint.symm {A B : FEntityInfo} (h : CellsDisjoint A B) : CellsDisjoint B A :=
  ⟨fun e => h.1 e.symm, fun e => h.2.2.1 e.symm, fun e => h.2.1 e.symm, fun e => h.2.2.2 e.symm⟩

/-- Replacing the record at `i` keeps the discipline when the new record holds occupied
cells and everybody else keeps occupied cells that are apart from the new record. -/
theorem CellsInv.replace {Es : List FEntityInfo} {Occ Occ' : Int → Bool}
    (inv : CellsInv Es Occ) (i : Nat) (E' : FEntityInfo)
    (hnew : Occ' E'.CurrentCellIndex = true ∧ Occ' E'.NextCellIndex = true)
    (hothers : ∀ (j : Nat) (B : FEntityInfo), j ≠ i → Es[j]? = some B →
      Occ' B.CurrentCellIndex = true ∧ Occ' B.NextCellIndex = true ∧ CellsDisjoint E' B) :
    CellsInv (Es.set i E') Occ' := by
  constructor
  · intro j B hB
    rw [List.getElem?_set] at hB
    by_cases hij : i = j
    · rw [if_pos hij] at hB
      split at hB
      · have e : E' = B := by simpa using hB
        rw [← e]; exact hnew
      · simp at hB
    · rw [if_neg hij] at hB
      obtain ⟨h1, h2, _⟩ := hothers j B (fun e => hij e.symm) hB
      exact ⟨h1, h2⟩
  · intro j k A B hjk hA hB
    rw [List.getElem?_set] at hA hB
    by_cases hij : i = j
    · rw [if_pos hij] at hA
      have hik : i ≠ k := fun e => hjk (hij.symm.trans e)
      rw [if_neg hik] at hB
      split at hA
      · have e : E' = A := by simpa using hA
        rw [← e]
        exact (hothers k B (fun e => hik e.symm) hB).2.2
      · simp at hA
    · rw [if_neg hij] at hA
      by_cases hik : i = k
      · rw [if_pos hik] at hB
        split at hB
        · have e : E' = B := by simpa using hB
          rw [← e]
          exact (hothers j A (fun e => hij e.symm) hA).2.2.symm
        · simp at hB
      · rw [if_neg hik] at hB
        exact inv.apart j k A B hjk hA hB

/-- A change of the record at `i` that leaves its two cells alone. -/
theorem CellsInv.set_same {Es : List FEntityInfo} {Occ : Int → Bool}
    (inv : CellsInv Es Occ) {i : Nat} {E E' : FEntityInfo} (hE : Es[i]? = some E)
    (hc : E'.CurrentCellIndex = E.CurrentCellIndex) (hx : E'.NextCellIndex = E.NextCellIndex) :
    CellsInv (Es.set i E') Occ := by
  apply inv.replace i E'
  · rw [hc, hx]; exact inv.held i E hE
  · intro j B hj hB
    obtain ⟨h1, h2⟩ := inv.held j B hB
    obtain ⟨d1, d2, d3, d4⟩ := inv.apart i j E B (fun e => hj e.symm) hE hB
    exact ⟨h1, h2, by rw [hc]; exact d1, by rw [hc]; exact d2, by rw [hx]; exact d3,
      by rw [hx]; exact d4⟩

/-- Arrival: the entity at `i` leaves its current cell for the cell it had reserved. -/
theorem CellsInv.arrive {Es : List FEntityInfo} {Occ : Int → Bool}
    (inv : CellsInv Es Occ) {i : Nat} {E E' : FEntityInfo} (hE : Es[i]? = some E)
    (hc : E'.CurrentCellIndex = E.NextCellIndex) (hx : E'.NextCellIndex = E.NextCellIndex) :
    CellsInv (Es.set i E')
      (setAt (setAt Occ E.CurrentCellIndex false) E.NextCellIndex true) := by
  apply inv.replace i E'
  · rw [hc, hx]; simp [setAt]
  · intro j B hj hB
    obtain ⟨h1, h2⟩ := inv.held j B hB
    obtain ⟨d1, d2, d3, d4⟩ := inv.apart i j E B (fun e => hj e.symm) hE hB
    refine ⟨?_, ?_, by rw [hc]; exact d3, by rw [hc]; exact d4, by rw [hx]; exact d3,
      by rw [hx]; exact d4⟩
    · unfold setAt
      rw [if_neg (fun e => d3 e.symm), if_neg (fun e => d1 e.symm)]; exact h1
    · unfold setAt
      rw [if_neg (fun e => d4 e.symm), if_neg (fun e => d2 e.symm)]; exact h2

/-- Reservation: the entity at `i` reserves a cell whose bit was clear. -/
theorem CellsInv.reserve {Es : List FEntityInfo} {Occ : Int → Bool}
    (inv : CellsInv Es Occ) {i : Nat} {E E' : FEntityInfo} (hE : Es[i]? = some E) {r : Int}
    (hr : Occ r = false) (hc : E'.CurrentCellIndex = E.CurrentCellIndex)
    (hx : E'.NextCellIndex = r) : CellsInv (Es.set i E') (setAt Occ r true) := by
  have hkeep : ∀ c, Occ c = true → setAt Occ r true c = true := by
    intro c h; unfold setAt; split
    · rfl
    · exact h
  have hfree : ∀ c, Occ c = true → r ≠ c := by
    intro c h e; rw [e, h] at hr; exact absurd hr (by decide)
  apply inv.replace i E'
  · rw [hc, hx]
    exact ⟨hkeep _ (inv.held i E hE).1, by simp [setAt]⟩
  · intro j B hj hB
    obtain ⟨h1, h2⟩ := inv.held j B hB
    obtain ⟨d1, d2, d3, d4⟩ := inv.apart i j E B (fun e => hj e.symm) hE hB
    exact ⟨hkeep _ h1, hkeep _ h2, by rw [hc]; exact d1, by rw [hc]; exact d2,
      by rw [hx]; exact hfree _ h1, by rw [hx]; exact hfree _ h2⟩

theorem modifyAt_of_some {Es : List FEntityInfo} {i : Nat} {E : FEntityInfo}
    (hE : Es[i]? = some E) (F : FEntityInfo → FEntityInfo) :
    modifyAt Es i F = Es.set i (F E) := by
  unfold modifyAt; rw [hE]

theorem modifyAt_of_none {Es : List FEntityInfo} {i : Nat}
    (hE : Es[i]? = none) (F : FEntityInfo → FEntityInfo) : modifyAt Es i F = Es := by
  unfold modifyAt; rw [hE]

/-- A write through a reference that leaves the two cells of the record alone. -/
theorem CellsInv.modify {Es : List FEntityInfo} {Occ : Int → Bool}
    (inv : CellsInv Es Occ) (i : Nat) (F : FEntityInfo → FEntityInfo)
    (hF : ∀ E, (F E).CurrentCellIndex = E.CurrentCellIndex ∧
      (F E).NextCellIndex = E.NextCellIndex) : CellsInv (modifyAt Es i F) Occ := by
  cases hE : Es[i]? with
  | none => rw [modifyAt_of_none hE]; exact inv
  | some E =>
    rw [modifyAt_of_some hE]
    exact inv.set_same hE (hF E).1 (hF E).2

/-! ### The forward pass -/

theorem map_id_set {Es : List FEntityInfo} {i : Nat} {E E' : FEntityInfo}
    (hE : Es[i]? = some E) (hid : E'.Id = E.Id) :
    (Es.set i E').map (fun E => E.Id) = Es.map (fun E => E.Id) := by
  apply List.ext_getElem?
  intro j
  rw [List.getElem?_map, List.getElem?_map, List.getElem?_set]
  by_cases hij : i = j
  · subst hij
    rw [if_pos rfl, hE]
    have hlt : i < Es.length := (List.getElem?_eq_some_iff.1 hE).1
    rw [if_pos hlt]
    simp [hid]
  · rw [if_neg hij]

theorem map_id_modify (Es : List FEntityInfo) (i : Nat) (F : FEntityInfo → FEntityInfo)
    (hF : ∀ E, (F E).Id = E.Id) :
    (modifyAt Es i F).map (fun E => E.Id) = Es.map (fun E => E.Id) := by
  cases hE : Es[i]? with
  | none => rw [modifyAt_of_none hE]
  | some E => rw [modifyAt_of_some hE]; exact map_id_set hE (hF E)

theorem SameFrame.refl (S : USimulator) : SameFrame S S := ⟨rfl, rfl, rfl, rfl⟩

theorem SameFrame.trans {S S1 S2 : USimulator} (h1 : SameFrame S S1) (h2 : SameFrame S1 S2) :
    SameFrame S S2 :=
  ⟨h2.1.trans h1.1, h2.2.1.trans h1.2.1, h2.2.2.1.trans h1.2.2.1, h2.2.2.2.trans h1.2.2.2⟩

/-- Lines 199-216 keep the occupancy discipline and the frame. -/
theorem targetPhase_effect {i : Nat} {S S1 : USimulator} {b : Bool}
    (h : targetPhase i S = some (S1, b)) :
    (CellsInv S.Entities S.Occupied → CellsInv S1.Entities S1.Occupied) ∧ SameFrame S S1 := by
  unfold targetPhase at h
  split at h
  · simp at h
  · rename_i Entity hE
    split at h
    · split at h
      · simp only [Option.some.injEq, Prod.mk.injEq] at h
        obtain ⟨rfl, _⟩ := h
        exact ⟨fun inv => inv.modify i _ (by intro E; exact ⟨rfl, rfl⟩),
          rfl, rfl, rfl, map_id_modify _ _ _ (by intro E; rfl)⟩
      · rename_i t ht
        split at h
        · simp at h
        · rename_i TargetEntity hT
          simp only at h
          split at h
          · split at h
            · simp only [Option.some.injEq, Prod.mk.injEq] at h
              obtain ⟨rfl, _⟩ := h
              refine ⟨fun inv => ?_, rfl, rfl, rfl, ?_⟩
              · apply CellsInv.modify _ i _ (by intro E; exact ⟨rfl, rfl⟩)
                exact inv.modify t _ (by intro E; exact ⟨rfl, rfl⟩)
              · exact (map_id_modify _ i _ (by intro E; rfl)).trans
                  (map_id_modify _ t _ (by intro E; rfl))
            · simp only [Option.some.injEq, Prod.mk.injEq] at h
              obtain ⟨rfl, _⟩ := h
              exact ⟨fun inv => inv, SameFrame.refl _⟩
          · simp only [Option.some.injEq, Prod.mk.injEq] at h
            obtain ⟨rfl, _⟩ := h
            exact ⟨fun inv => inv.modify i _ (by intro E; exact ⟨rfl, rfl⟩),
              rfl, rfl, rfl, map_id_modify _ _ _ (by intro E; rfl)⟩
    · simp only [Option.some.injEq, Prod.mk.injEq] at h
      obtain ⟨rfl, _⟩ := h
      exact ⟨fun inv => inv, SameFrame.refl _⟩

/-- Lines 218-272 keep the occupancy discipline and the frame. -/
theorem movePhase_effect {fuel i : Nat} {S S1 : USimulator}
    (h : movePhase fuel i S = some S1) :
    (CellsInv S.Entities S.Occupied → CellsInv S1.Entities S1.Occupied) ∧ SameFrame S S1 := by
  unfold movePhase at h
  split at h
  · simp at h
  · rename_i Entity hE
    have hlt : i < S.Entities.length := (List.getElem?_eq_some_iff.1 hE).1
    simp only at h
    split at h
    · split at h
      · -- the entity arrives
        simp only [Option.some.injEq] at h
        subst h
        exact ⟨fun inv => inv.arrive hE rfl rfl, rfl, rfl, rfl, map_id_set hE rfl⟩
      · rename_i hstill
        have hcur : Entity.NextCellIndex = Entity.CurrentCellIndex := by
          by_contra hx
          exact hstill (fun e => hx e.symm)
        have hE1 : (S.Entities.set i (arrived Entity S.StepIndex))[i]? =
            some (arrived Entity S.StepIndex) := List.getElem?_set_self hlt
        have hids1 := @map_id_set S.Entities i Entity (arrived Entity S.StepIndex) hE rfl
        split at h
        · split at h
          · simp at h
          · rename_i t ht
            split at h
            · simp at h
            · rename_i TargetEntity hT
              split at h
              · simp only [Option.some.injEq] at h
                subst h
                refine ⟨fun inv => ?_, rfl, rfl, rfl, (map_id_set hE1 (by rfl)).trans hids1⟩
                have inv1 : CellsInv (S.Entities.set i (arrived Entity S.StepIndex)) S.Occupied :=
                  inv.set_same hE hcur rfl
                exact inv1.set_same hE1 (by rfl) (by rfl)
              · rename_i hfar
                split at h
                · simp at h
                · rename_i Next D hsp
                  split at h
                  · simp only [Option.some.injEq] at h
                    subst h
                    refine ⟨fun inv => ?_, rfl, rfl, rfl, (map_id_set hE1 (by rfl)).trans hids1⟩
                    have inv1 : CellsInv (S.Entities.set i (arrived Entity S.StepIndex)) S.Occupied :=
                      inv.set_same hE hcur rfl
                    exact inv1.set_same hE1 (by rfl) (by rfl)
                  · rename_i hNext
                    simp only [Option.some.injEq] at h
                    subst h
                    refine ⟨fun inv => ?_, rfl, rfl, rfl, (map_id_set hE1 (by rfl)).trans hids1⟩
                    have hfree := ShortestPath_unoccupied hsp hNext hfar
                    have inv1 : CellsInv (S.Entities.set i (arrived Entity S.StepIndex)) S.Occupied :=
                      inv.set_same hE hcur rfl
                    exact inv1.reserve hE1 hfree (by rfl) (by rfl)
        · simp only [Option.some.injEq] at h
          subst h
          exact ⟨fun inv => inv.set_same hE hcur rfl, rfl, rfl, rfl, hids1⟩
    · simp only [Option.some.injEq] at h
      subst h
      exact ⟨fun inv => inv, SameFrame.refl _⟩

/-- The body of the forward pass keeps the occupancy discipline and the frame. -/
theorem entityStep_effect {fuel i : Nat} {S S1 : USimulator} {dp dp1 : Bool}
    (h : entityStep fuel i S dp = some (S1, dp1)) :
    (CellsInv S.Entities S.Occupied → CellsInv S1.Entities S1.Occupied) ∧ SameFrame S S1 := by
  unfold entityStep at h
  split at h
  · simp at h
  · rename_i Entity hE
    split at h
    · split at h
      · simp only [Option.some.injEq, Prod.mk.injEq] at h
        obtain ⟨rfl, _⟩ := h
        exact ⟨fun inv => inv.set_same hE rfl rfl, rfl, rfl, rfl, map_id_set hE rfl⟩
      · split at h
        · simp only [Option.some.injEq, Prod.mk.injEq] at h
          obtain ⟨rfl, _⟩ := h
          exact ⟨fun inv => inv, SameFrame.refl _⟩
        · simp only [Option.some.injEq, Prod.mk.injEq] at h
          obtain ⟨rfl, _⟩ := h
          exact ⟨fun inv => inv, SameFrame.refl _⟩
    · split at h
      · simp at h
      · rename_i S2 ht
        simp only [Option.some.injEq, Prod.mk.injEq] at h
        obtain ⟨rfl, _⟩ := h
        exact targetPhase_effect ht
      · rename_i S2 ht
        have e1 := targetPhase_effect ht
        split at h
        · simp at h
        · rename_i S3 hm
          simp only [Option.some.injEq, Prod.mk.injEq] at h
          obtain ⟨rfl, _⟩ := h
          have e2 := movePhase_effect hm
          exact ⟨fun inv => e2.1 (e1.1 inv), e1.2.trans e2.2⟩

theorem forwardPass_effect {fuel : Nat} :
    ∀ (Count i : Nat) (S S1 : USimulator) (dp dp1 : Bool),
      forwardPass fuel Count i S dp = some (S1, dp1) →
      (CellsInv S.Entities S.Occupied → CellsInv S1.Entities S1.Occupied) ∧ SameFrame S S1 := by
  intro Count
  induction Count with
  | zero =>
    intro i S S1 dp dp1 h
    simp only [forwardPass, Option.some.injEq, Prod.mk.injEq] at h
    obtain ⟨rfl, _⟩ := h
    exact ⟨fun inv => inv, SameFrame.refl _⟩
  | succ Count ih =>
    intro i S S1 dp dp1 h
    unfold forwardPass at h
    split at h
    · simp at h
    · rename_i S2 dp2 hstep
      have e1 := entityStep_effect hstep
      have e2 := ih _ _ _ _ _ h
      exact ⟨fun inv => e2.1 (e1.1 inv), e1.2.trans e2.2⟩

/-! ### The compaction sweep -/

theorem RemoveAtSwap_getElem? (Es : List FEntityInfo) (i : Nat) (hi : i < Es.length) (j : Nat) :
    (RemoveAtSwap Es i)[j]? =
      if j < Es.length - 1 then (if j = i then Es[Es.length - 1]? else Es[j]?) else none := by
  unfold RemoveAtSwap
  have hlast : Es.getLast? = Es[Es.length - 1]? := List.getLast?_eq_getElem? Es
  cases hL : Es.getLast? with
  | none =>
    rw [List.getLast?_eq_none_iff] at hL
    subst hL
    simp at hi
  | some Last =>
    simp only
    rw [List.getElem?_dropLast, List.length_set]
    split
    · rename_i hj
      rw [List.getElem?_set]
      by_cases hij : i = j
      · subst hij
        rw [if_pos rfl, if_pos hi, if_pos rfl, ← hlast, hL]
      · rw [if_neg hij, if_neg (fun e => hij e.symm)]
    · rfl

theorem RemoveAtSwap_length (Es : List FEntityInfo) (i : Nat) (hi : i < Es.length) :
    (RemoveAtSwap Es i).length = Es.length - 1 := by
  unfold RemoveAtSwap
  cases hL : Es.getLast? with
  | none =>
    rw [List.getLast?_eq_none_iff] at hL
    subst hL
    simp at hi
  | some Last => simp

/-- Where the record at `j` after `RemoveAtSwap Index` was stored before. -/
theorem RemoveAtSwap_source (Es : List FEntityInfo) (i : Nat) (hi : i < Es.length) (j : Nat)
    (B : FEntityInfo) (hB : (RemoveAtSwap Es i)[j]? = some B) :
    j < Es.length - 1 ∧ Es[if j = i then Es.length - 1 else j]? = some B ∧
      (if j = i then Es.length - 1 else j) ≠ i := by
  rw [RemoveAtSwap_getElem? Es i hi] at hB
  split at hB
  · rename_i hj
    refine ⟨hj, ?_, ?_⟩
    · split at hB
      · rename_i hji; rw [if_pos hji]; exact hB
      · rename_i hji; rw [if_neg hji]; exact hB
    · split
      · rename_i hji; omega
      · rename_i hji; exact hji
  · simp at hB

theorem CellsInv.removeAtSwap {Es : List FEntityInfo} {Occ : Int → Bool}
    (inv : CellsInv Es Occ) {i : Nat} {E : FEntityInfo} (hE : Es[i]? = some E) :
    CellsInv (RemoveAtSwap Es i)
      (setAt (setAt Occ E.CurrentCellIndex false) E.NextCellIndex false) := by
  have hi : i < Es.length := (List.getElem?_eq_some_iff.1 hE).1
  constructor
  · intro j B hB
    obtain ⟨_, hsrc, hne⟩ := RemoveAtSwap_source Es i hi j B hB
    obtain ⟨h1, h2⟩ := inv.held _ B hsrc
    obtain ⟨d1, d2, d3, d4⟩ := inv.apart i _ E B (fun e => hne e.symm) hE hsrc
    constructor
    · unfold setAt
      rw [if_neg (fun e => d3 e.symm), if_neg (fun e => d1 e.symm)]; exact h1
    · unfold setAt
      rw [if_neg (fun e => d4 e.symm), if_neg (fun e => d2 e.symm)]; exact h2
  · intro j k A B hjk hA hB
    obtain ⟨hj, hsA, _⟩ := RemoveAtSwap_source Es i hi j A hA
    obtain ⟨hk, hsB, _⟩ := RemoveAtSwap_source Es i hi k B hB
    apply inv.apart _ _ A B ?_ hsA hsB
    split <;> split <;> omega

theorem sweepLoop_cells {StepIndex : Int} :
    ∀ (fuel i : Nat) (Es : List FEntityInfo) (M : TMap Nat) (Occ : Int → Bool)
      (Es1 : List FEntityInfo) (M1 : TMap Nat) (Occ1 : Int → Bool),
      sweepLoop StepIndex fuel i Es M Occ = some (Es1, M1, Occ1) →
      CellsInv Es Occ → CellsInv Es1 Occ1 := by
  intro fuel
  induction fuel with
  | zero =>
    intro i Es M Occ Es1 M1 Occ1 h inv
    unfold sweepLoop at h
    split at h
    · simp at h
    · simp only [Option.some.injEq, Prod.mk.injEq] at h
      obtain ⟨rfl, _, rfl⟩ := h
      exact inv
  | succ fuel ih =>
    intro i Es M Occ Es1 M1 Occ1 h inv
    unfold sweepLoop at h
    split at h
    · simp only [Option.some.injEq, Prod.mk.injEq] at h
      obtain ⟨rfl, _, rfl⟩ := h
      exact inv
    · rename_i Entity hE
      split at h
      · exact ih _ _ _ _ _ _ _ h (inv.removeAtSwap hE)
      · exact ih _ _ _ _ _ _ _ h inv

/-- `NextStep` keeps the occupancy discipline. -/
theorem NextStep_cells {fuel : Nat} {S S1 : USimulator} (h : NextStep fuel S = some S1)
    (inv : CellsInv S.Entities S.Occupied) : CellsInv S1.Entities S1.Occupied := by
  unfold NextStep at h
  split at h
  · simp at h
  · rename_i S2 dp hpass
    have inv2 := (forwardPass_effect _ _ _ _ _ _ hpass).1 inv
    split at h
    · split at h
      · simp at h
      · rename_i Es M Occ hsweep
        simp only [Option.some.injEq] at h
        subst h
        exact sweepLoop_cells _ _ _ _ _ _ _ _ hsweep inv2
    · simp only [Option.some.injEq] at h
      subst h
      exact inv2

/-! ### The entity store -/

theorem SameFrame.getElem? {S S1 : USimulator} (h : SameFrame S S1) {k : Nat}
    {E : FEntityInfo} (hE : S1.Entities[k]? = some E) :
    ∃ E0 : FEntityInfo, S.Entities[k]? = some E0 ∧ E0.Id = E.Id := by
  have := congrArg (fun l => l[k]?) h.2.2.2
  simp only [List.getElem?_map, hE, Option.map_some'] at this
  cases h0 : S.Entities[k]? with
  | none => rw [h0] at this; simp at this
  | some E0 =>
    rw [h0] at this
    simp only [Option.map_some', Option.some.injEq] at this
    exact ⟨E0, rfl, this.symm⟩

theorem SameFrame.symm_getElem? {S S1 : USimulator} (h : SameFrame S S1) {k : Nat}
    {E : FEntityInfo} (hE : S.Entities[k]? = some E) :
    ∃ E1 : FEntityInfo, S1.Entities[k]? = some E1 ∧ E1.Id = E.Id := by
  have := congrArg (fun l => l[k]?) h.2.2.2
  simp only [List.getElem?_map, hE, Option.map_some'] at this
  cases h1 : S1.Entities[k]? with
  | none => rw [h1] at this; simp at this
  | some E1 =>
    rw [h1] at this
    simp only [Option.map_some', Option.some.injEq] at this
    exact ⟨E1, rfl, this⟩

theorem SameFrame.storeKept {S S1 : USimulator} (h : SameFrame S S1)
    (inv : StoreInv S.Entities S.IdToIndex) : StoreInv S1.Entities S1.IdToIndex := by
  constructor
  · intro i j A B hij hA hB
    obtain ⟨A0, hA0, eA⟩ := h.getElem? hA
    obtain ⟨B0, hB0, eB⟩ := h.getElem? hB
    rw [← eA, ← eB]
    exact inv.unique i j A0 B0 hij hA0 hB0
  · intro Id k
    rw [h.2.2.1, inv.index]
    constructor
    · rintro ⟨E, hE, rfl⟩
      obtain ⟨E1, hE1, e⟩ := h.symm_getElem? hE
      exact ⟨E1, hE1, e⟩
    · rintro ⟨E, hE, rfl⟩
      obtain ⟨E0, hE0, e⟩ := h.getElem? hE
      exact ⟨E0, hE0, e⟩

/-- The compaction loop rebuilds the id map: at index `i` the map holds the records
before `i`, and the ids of the records still stored are pairwise different. -/
theorem sweepLoop_store {StepIndex : Int} :
    ∀ (fuel i : Nat) (Es : List FEntityInfo) (M : TMap Nat) (Occ : Int → Bool)
      (Es1 : List FEntityInfo) (M1 : TMap Nat) (Occ1 : Int → Bool),
      sweepLoop StepIndex fuel i Es M Occ = some (Es1, M1, Occ1) →
      (∀ (j k : Nat) (A B : FEntityInfo), j ≠ k → Es[j]? = some A → Es[k]? = some B →
        A.Id ≠ B.Id) →
      (∀ (Id : Int) (k : Nat),
        M Id = some k ↔ k < i ∧ ∃ E : FEntityInfo, Es[k]? = some E ∧ E.Id = Id) →
      StoreInv Es1 M1 := by
  intro fuel
  induction fuel with
  | zero =>
    intro i Es M Occ Es1 M1 Occ1 h huniq hidx
    unfold sweepLoop at h
    split at h
    · simp at h
    · rename_i hlen
      simp only [Option.some.injEq, Prod.mk.injEq] at h
      obtain ⟨rfl, rfl, _⟩ := h
      refine ⟨huniq, fun Id k => ?_⟩
      rw [hidx]
      constructor
      · rintro ⟨_, h2⟩; exact h2
      · rintro ⟨E, hE, e⟩
        have := (List.getElem?_eq_some_iff.1 hE).1
        exact ⟨by omega, E, hE, e⟩
  | succ fuel ih =>
    intro i Es M Occ Es1 M1 Occ1 h huniq hidx
    unfold sweepLoop at h
    split at h
    · rename_i hnone
      simp only [Option.some.injEq, Prod.mk.injEq] at h
      obtain ⟨rfl, rfl, _⟩ := h
      have hlen := List.getElem?_eq_none_iff.1 hnone
      refine ⟨huniq, fun Id k => ?_⟩
      rw [hidx]
      constructor
      · rintro ⟨_, h2⟩; exact h2
      · rintro ⟨E, hE, e⟩
        have := (List.getElem?_eq_some_iff.1 hE).1
        exact ⟨by omega, E, hE, e⟩
    · rename_i Entity hE
      have hi : i < Es.length := (List.getElem?_eq_some_iff.1 hE).1
      split at h
      · -- the record at `i` is dropped
        apply ih _ _ _ _ _ _ _ h
        · intro j k A B hjk hA hB
          obtain ⟨hj, hsA, _⟩ := RemoveAtSwap_source Es i hi j A hA
          obtain ⟨hk, hsB, _⟩ := RemoveAtSwap_source Es i hi k B hB
          apply huniq _ _ A B ?_ hsA hsB
          split <;> split <;> omega
        · intro Id k
          have hk : k < i → (RemoveAtSwap Es i)[k]? = Es[k]? := by
            intro hki
            rw [RemoveAtSwap_getElem? Es i hi, if_pos (by omega), if_neg (by omega)]
          unfold TMap.Remove
          constructor
          · intro hM
            split at hM
            · simp at hM
            · obtain ⟨hki, E, hEk, e⟩ := (hidx Id k).1 hM
              exact ⟨hki, E, by rw [hk hki]; exact hEk, e⟩
          · rintro ⟨hki, E, hEk, e⟩
            rw [hk hki] at hEk
            have hne : Id ≠ Entity.Id := by
              rw [← e]
              exact huniq k i E Entity (by omega) hEk hE
            rw [if_neg hne]
            exact (hidx Id k).2 ⟨hki, E, hEk, e⟩
      · -- the record at `i` is kept
        apply ih _ _ _ _ _ _ _ h huniq
        intro Id k
        unfold TMap.Add
        by_cases hId : Id = Entity.Id
        · rw [if_pos hId]
          constructor
          · intro hk
            have : i = k := by simpa using hk
            subst this
            exact ⟨by omega, Entity, hE, hId.symm⟩
          · rintro ⟨_, E, hEk, e⟩
            by_cases hki : k = i
            · rw [hki]
            · exfalso
              apply huniq k i E Entity hki hEk hE
              rw [e, hId]
        · rw [if_neg hId]
          rw [hidx]
          constructor
          · rintro ⟨hki, rest⟩
            exact ⟨by omega, rest⟩
          · rintro ⟨hki, E, hEk, e⟩
            refine ⟨?_, E, hEk, e⟩
            by_contra hx
            have : k = i := by omega
            subst this
            rw [hE] at hEk
            have : Entity = E := by simpa using hEk
            rw [← this] at e
            exact hId e.symm

/-- `NextStep` keeps the entity store consistent. -/
theorem NextStep_store {fuel : Nat} {S S1 : USimulator} (h : NextStep fuel S = some S1)
    (inv : StoreInv S.Entities S.IdToIndex) : StoreInv S1.Entities S1.IdToIndex := by
  unfold NextStep at h
  split at h
  · simp at h
  · rename_i S2 dp hpass
    have inv2 := (forwardPass_effect _ _ _ _ _ _ hpass).2.storeKept inv
    split at h
    · split at h
      · simp at h
      · rename_i Es M Occ hsweep
        simp only [Option.some.injEq] at h
        subst h
        apply sweepLoop_store _ _ _ _ _ _ _ _ hsweep inv2.unique
        intro Id k
        simp [TMap.Reset]
    · simp only [Option.some.injEq] at h
      subst h
      exact inv2

end HexBalls

namespace HexBalls

/-! ## `Initialize` -/

/-- The probing loop only ever answers a free cell. -/
theorem randomFreeCellLoop_free (Occ : Int → Bool) (n : Int) :
    ∀ (fuel : Nat) (c0 c : Int), randomFreeCellLoop Occ n fuel c0 = some c → Occ c = false := by
  intro fuel
  induction fuel with
  | zero => intro c0 c h; simp [randomFreeCellLoop] at h
  | succ fuel ih =>
    intro c0 c h
    unfold randomFreeCellLoop at h
    split at h
    · exact ih _ _ h
    · rename_i hfree
      have e : c0 = c := by simpa using h
      rw [← e]
      simpa using hfree

/-- Linear probing from an in-range start finds a free cell in at most `d + 1` looks
when the cell `d` places further (cyclically) is free. -/
theorem randomFreeCellLoop_finds (Occ : Int → Bool) (n : Int) (hn : 0 < n) :
    ∀ (d fuel : Nat) (c0 : Int), 0 ≤ c0 → c0 < n → Occ ((c0 + d) % n) = false → d < fuel →
      ∃ c, randomFreeCellLoop Occ n fuel c0 = some c ∧ Occ c = false ∧ 0 ≤ c ∧ c < n := by
  intro d
  induction d with
  | zero =>
    intro fuel c0 h0 h1 hfree hf
    have e : (c0 + ((0 : Nat) : Int)) % n = c0 := by
      simp only [Nat.cast_zero, Int.add_zero]
      exact Int.emod_eq_of_lt h0 h1
    rw [e] at hfree
    obtain ⟨fuel', rfl⟩ : ∃ f, fuel = f + 1 := ⟨fuel - 1, by omega⟩
    refine ⟨c0, ?_, hfree, h0, h1⟩
    unfold randomFreeCellLoop
    simp [hfree]
  | succ d ih =>
    intro fuel c0 h0 h1 hfree hf
    obtain ⟨fuel', rfl⟩ : ∃ f, fuel = f + 1 := ⟨fuel - 1, by omega⟩
    by_cases hocc : Occ c0 = true
    · have hstep : Int.tmod (c0 + 1) n = (c0 + 1) % n :=
        Int.tmod_eq_emod (by omega) (by omega)
      have hnext : Occ (((c0 + 1) % n + (d : Int)) % n) = false := by
        rw [Int.emod_add_emod]
        have e : c0 + 1 + (d : Int) = c0 + ((d + 1 : Nat) : Int) := by push_cast; ring
        rw [e]; exact hfree
      obtain ⟨c, hc, r⟩ := ih fuel' ((c0 + 1) % n) (Int.emod_nonneg _ (by omega))
        (Int.emod_lt_of_pos _ hn) hnext (by omega)
      refine ⟨c, ?_, r⟩
      unfold randomFreeCellLoop
      rw [if_pos hocc, hstep]
      exact hc
    · have hfree0 : Occ c0 = false := by simpa using hocc
      refine ⟨c0, ?_, hfree0, h0, h1⟩
      unfold randomFreeCellLoop
      simp [hfree0]

theorem randomFreeCellLoop_total (Occ : Int → Bool) (n : Int) (fuel : Nat) (c0 f : Int)
    (h0 : 0 ≤ c0) (h1 : c0 < n) (hf0 : 0 ≤ f) (hf1 : f < n) (hfree : Occ f = false)
    (hfuel : n ≤ fuel) :
    ∃ c, randomFreeCellLoop Occ n fuel c0 = some c ∧ Occ c = false ∧ 0 ≤ c ∧ c < n := by
  have hn : 0 < n := by omega
  have hd0 : 0 ≤ (f - c0) % n := Int.emod_nonneg _ (by omega)
  have hd1 : (f - c0) % n < n := Int.emod_lt_of_pos _ hn
  apply randomFreeCellLoop_finds Occ n hn ((f - c0) % n).toNat fuel c0 h0 h1
  · rw [Int.toNat_of_nonneg hd0, Int.add_emod_emod]
    have e : c0 + (f - c0) = f := by ring
    rw [e, Int.emod_eq_of_lt hf0 hf1]
    exact hfree
  · omega

theorem getElem?_snoc (Es : List FEntityInfo) (E : FEntityInfo) (j : Nat) (B : FEntityInfo)
    (h : (Es ++ [E])[j]? = some B) : Es[j]? = some B ∨ (j = Es.length ∧ B = E) := by
  rw [List.getElem?_append] at h
  split at h
  · exact Or.inl h
  · rename_i hj
    right
    have hj2 : j - Es.length = 0 := by
      by_contra hx
      rw [List.getElem?_eq_none (by simp; omega)] at h
      simp at h
    rw [hj2] at h
    simp only [List.getElem?_cons_zero, Option.some.injEq] at h
    exact ⟨by omega, h.symm⟩

/-- Appending a record that stands on a cell whose bit was clear. -/
theorem CellsInv.append {Es : List FEntityInfo} {Occ : Int → Bool} (inv : CellsInv Es Occ)
    {E : FEntityInfo} {c : Int} (hfree : Occ c = false) (hc : E.CurrentCellIndex = c)
    (hx : E.NextCellIndex = c) : CellsInv (Es ++ [E]) (setAt Occ c true) := by
  have hkeep : ∀ x, Occ x = true → setAt Occ c true x = true := by
    intro x h; unfold setAt; split
    · rfl
    · exact h
  have hne : ∀ x, Occ x = true → c ≠ x := by
    intro x h e; rw [e, h] at hfree; exact absurd hfree (by decide)
  have hdis : ∀ (j : Nat) (B : FEntityInfo), Es[j]? = some B → CellsDisjoint E B := by
    intro j B hB
    obtain ⟨h1, h2⟩ := inv.held j B hB
    exact ⟨by rw [hc]; exact hne _ h1, by rw [hc]; exact hne _ h2,
      by rw [hx]; exact hne _ h1, by rw [hx]; exact hne _ h2⟩
  constructor
  · intro j B hB
    rcases getElem?_snoc Es E j B hB with h | ⟨_, hBE⟩
    · obtain ⟨h1, h2⟩ := inv.held j B h
      exact ⟨hkeep _ h1, hkeep _ h2⟩
    · rw [hBE, hc, hx]; simp [setAt]
  · intro j k A B hjk hA hB
    rcases getElem?_snoc Es E j A hA with hA' | ⟨hj, hAE⟩
    · rcases getElem?_snoc Es E k B hB with hB' | ⟨hk, hBE⟩
      · exact inv.apart j k A B hjk hA' hB'
      · rw [hBE]; exact (hdis j A hA').symm
    · rcases getElem?_snoc Es E k B hB with hB' | ⟨hk, hBE⟩
      · rw [hAE]; exact hdis k B hB'
      · exact absurd (hj.trans hk.symm) hjk

theorem SpawnInv.spawnKeeps {S : USimulator} (inv : SpawnInv S)
    (RandRange : Int → Int → Int → Int × Int) (Seed1 c : Int) (hfree : S.Occupied c = false) :
    SpawnInv (spawnAt RandRange Seed1 c S) := by
  constructor
  · exact inv.cells.append hfree rfl rfl
  · intro k E hE
    rcases getElem?_snoc _ _ k E hE with h | ⟨hk, hEq⟩
    · exact inv.ids k E h
    · rw [hk, hEq]; exact inv.next
  · show S.NextEntityId + 1 =
      Int.ofNat (S.Entities ++ [spawnedEntity RandRange Seed1 c S.NextEntityId]).length
    rw [inv.next, List.length_append]
    simp
  · intro Id k
    show (S.IdToIndex.Add S.NextEntityId S.Entities.length) Id = some k ↔
      (k < (S.Entities ++ [spawnedEntity RandRange Seed1 c S.NextEntityId]).length ∧
        Id = Int.ofNat k)
    unfold TMap.Add
    rw [List.length_append, List.length_singleton]
    by_cases hId : Id = S.NextEntityId
    · rw [if_pos hId, hId, inv.next]
      constructor
      · intro h
        have : S.Entities.length = k := by simpa using h
        subst this
        exact ⟨by omega, rfl⟩
      · rintro ⟨_, h⟩
        have : S.Entities.length = k := by simpa using h
        rw [this]
    · rw [if_neg hId, inv.index]
      constructor
      · rintro ⟨h1, h2⟩; exact ⟨by omega, h2⟩
      · rintro ⟨h1, h2⟩
        refine ⟨?_, h2⟩
        by_contra hx
        have : k = S.Entities.length := by omega
        rw [this, ← inv.next] at h2
        exact hId h2

theorem spawnEntities_inv (RandRange : Int → Int → Int → Int × Int) (fuel : Nat) (n : Int) :
    ∀ (Count : Nat) (S S1 : USimulator), spawnEntities RandRange fuel n Count S = some S1 →
      SpawnInv S → SpawnInv S1 ∧ S1.MapSize = S.MapSize ∧ S1.StepIndex = S.StepIndex := by
  intro Count
  induction Count with
  | zero =>
    intro S S1 h inv
    simp only [spawnEntities, Option.some.injEq] at h
    subst h
    exact ⟨inv, rfl, rfl⟩
  | succ Count ih =>
    intro S S1 h inv
    unfold spawnEntities at h
    simp only at h
    split at h
    · simp at h
    · rename_i c hc
      have hfree := randomFreeCellLoop_free _ _ _ _ _ hc
      obtain ⟨r1, r2, r3⟩ := ih _ _ h (inv.spawnKeeps RandRange _ c hfree)
      exact ⟨r1, r2, r3⟩

theorem SpawnInv.toStore {S : USimulator} (inv : SpawnInv S) :
    StoreInv S.Entities S.IdToIndex := by
  constructor
  · intro i j A B hij hA hB
    rw [inv.ids i A hA, inv.ids j B hB]
    intro e
    apply hij
    simpa using e
  · intro Id k
    rw [inv.index]
    constructor
    · rintro ⟨hk, rfl⟩
      obtain ⟨E, hE⟩ : ∃ E, S.Entities[k]? = some E :=
        ⟨S.Entities[k], List.getElem?_eq_getElem hk⟩
      exact ⟨E, hE, inv.ids k E hE⟩
    · rintro ⟨E, hE, rfl⟩
      exact ⟨(List.getElem?_eq_some_iff.1 hE).1, inv.ids k E hE⟩

/-- After `Initialize` on a newly constructed simulator the occupancy discipline holds and
the entity store is consistent, whatever the random stream answers. -/
theorem Initialize_inv {RandRange : Int → Int → Int → Int × Int} {fuel : Nat} {Now : Int}
    {MapSize : FIntPoint} {EntitiesCount Seed : Int} {S : USimulator}
    (h : Initialize RandRange fuel Now (freshSimulator MapSize EntitiesCount Seed) = some S) :
    CellsInv S.Entities S.Occupied ∧ StoreInv S.Entities S.IdToIndex := by
  unfold Initialize at h
  simp only at h
  split at h
  · simp at h
  · rename_i S2 hspawn
    simp only [Option.some.injEq] at h
    subst h
    have inv0 : SpawnInv { freshSimulator MapSize EntitiesCount Seed with
        RandomStream := (freshSimulator MapSize EntitiesCount Seed).Seed
        NextEntityId := 0
        MapSize := ⟨max (freshSimulator MapSize EntitiesCount Seed).MapSize.X 1,
          max (freshSimulator MapSize EntitiesCount Seed).MapSize.Y 1⟩
        Occupied := fun _ => false
        EntitiesCount := max 0 (freshSimulator MapSize EntitiesCount Seed).EntitiesCount } := by
      constructor
      · constructor
        · intro i E hE; simp [freshSimulator] at hE
        · intro i j A B _ hA; simp [freshSimulator] at hA
      · intro k E hE; simp [freshSimulator] at hE
      · simp [freshSimulator]
      · intro Id k; simp [freshSimulator, TMap.Reset]
    obtain ⟨inv, _, _⟩ := spawnEntities_inv _ _ _ _ _ _ hspawn inv0
    exact ⟨inv.cells, inv.toStore⟩

/-! ## Invariants of the reachable states -/

theorem Reachable.inv {RandRange : Int → Int → Int → Int × Int} {S : USimulator}
    (h : Reachable RandRange S) :
    CellsInv S.Entities S.Occupied ∧ StoreInv S.Entities S.IdToIndex := by
  induction h with
  | init fuel Now MapSize EntitiesCount Seed S hinit => exact Initialize_inv hinit
  | step fuel S S1 _ hstep ih => exact ⟨NextStep_cells hstep ih.1, NextStep_store hstep ih.2⟩

theorem Reachable.ofRunSteps {RandRange : Int → Int → Int → Int × Int} (fuel : Nat) :
    ∀ (K : Nat) (S S1 : USimulator), Reachable RandRange S → runSteps fuel K S = some S1 →
      Reachable RandRange S1 := by
  intro K
  induction K with
  | zero =>
    intro S S1 hr h
    simp only [HexBalls.runSteps, Option.some.injEq] at h
    subst h
    exact hr
  | succ K ih =>
    intro S S1 hr h
    unfold HexBalls.runSteps at h
    split at h
    · simp at h
    · rename_i S2 hstep
      exact ih _ _ (Reachable.step fuel S S2 hr hstep) h

theorem some_getD_of_isSome {α : Type} {o : Option α} (h : o.isSome = true) (d : α) :
    o = some (o.getD d) := by
  cases o with
  | none => simp at h
  | some x => rfl

/-- The states of the concrete runs are reachable. -/
theorem demoState_reachable (Seed : Int) (K : Nat) (h : (demoRun Seed K).isSome = true) :
    Reachable demoRand (demoState Seed K) := by
  have hrun : demoRun Seed K = some (demoState Seed K) :=
    some_getD_of_isSome h (freshSimulator ⟨5, 5⟩ 3 Seed)
  unfold demoRun at hrun
  split at hrun
  · simp at hrun
  · rename_i S0 hinit
    exact Reachable.ofRunSteps 1000 K S0 _
      (Reachable.init 1000 0 ⟨5, 5⟩ 3 Seed S0 hinit) hrun

/-- Claim C3.  Occupancy invariant: in every state reached from a newly constructed
simulator by `Initialize` and any number of `NextStep` calls, every stored entity with
`Health > 0` and `DestroyAt = INDEX_NONE` has the bit of its current cell set, and the
bit of its next cell too when that differs from the current cell. -/
theorem occupancy_invariant (RandRange : Int → Int → Int → Int × Int) (S : USimulator)
    (hS : Reachable RandRange S) (E : FEntityInfo) (hE : E ∈ S.Entities)
    (hHealth : E.Health > 0) (hDestroy : E.DestroyAt = INDEX_NONE) :
    S.Occupied E.CurrentCellIndex = true ∧
    (E.NextCellIndex ≠ E.CurrentCellIndex → S.Occupied E.NextCellIndex = true) := by
  obtain ⟨i, hi⟩ := List.getElem?_of_mem hE
  obtain ⟨h1, h2⟩ := hS.inv.1.held i E hi
  exact ⟨h1, fun _ => h2⟩

/-- The occupancy invariant on the 5 x 5 run with seed 1 after one step: the entity with id 1 stands
on cell 1, has reserved cell 7, and both bits are set. -/
theorem occupancy_invariant_witness :
    ∃ E : FEntityInfo, E ∈ (demoState 1 1).Entities ∧ E.Id = 1 ∧ E.Health > 0 ∧
      E.DestroyAt = INDEX_NONE ∧ E.CurrentCellIndex = 1 ∧ E.NextCellIndex = 7 ∧
      (demoState 1 1).Occupied E.CurrentCellIndex = true ∧
      (E.NextCellIndex ≠ E.CurrentCellIndex → (demoState 1 1).Occupied E.NextCellIndex = true) :=
  ⟨(demoState 1 1).Entities.getD 1 (spawnedEntity demoRand 0 0 0), by decide, by decide,
    by decide, by decide, by decide, by decide,
    occupancy_invariant demoRand (demoState 1 1) (demoState_reachable 1 1 (by decide))
      ((demoState 1 1).Entities.getD 1 (spawnedEntity demoRand 0 0 0)) (by decide) (by decide)
      (by decide)⟩

/-- Claim C4.  Cell exclusivity: in every reachable state, two distinct stored entities
that are both alive stand on different cells, and the cell a moving entity has reserved
(`NextCellIndex ≠ CurrentCellIndex`) is neither the current nor the next cell of any
other stored entity. -/
theorem cell_exclusivity (RandRange : Int → Int → Int → Int × Int) (S : USimulator)
    (hS : Reachable RandRange S) (i j : Nat) (A B : FEntityInfo) (hij : i ≠ j)
    (hA : S.Entities[i]? = some A) (hB : S.Entities[j]? = some B) :
    (A.Health > 0 → B.Health > 0 → A.CurrentCellIndex ≠ B.CurrentCellIndex) ∧
    (A.NextCellIndex ≠ A.CurrentCellIndex →
      A.NextCellIndex ≠ B.CurrentCellIndex ∧ A.NextCellIndex ≠ B.NextCellIndex) := by
  obtain ⟨d1, _, d3, d4⟩ := hS.inv.1.apart i j A B hij hA hB
  exact ⟨fun _ _ => d1, fun _ => ⟨d3, d4⟩⟩

/-- Cell exclusivity on the 5 x 5 run with seed 1 after one step, for the moving entity at index 1
and the entity at index 2. -/
theorem cell_exclusivity_witness :
    ∃ A B : FEntityInfo, (demoState 1 1).Entities[1]? = some A ∧
      (demoState 1 1).Entities[2]? = some B ∧ A.Health > 0 ∧ B.Health > 0 ∧
      A.NextCellIndex ≠ A.CurrentCellIndex ∧
      (A.Health > 0 → B.Health > 0 → A.CurrentCellIndex ≠ B.CurrentCellIndex) ∧
      (A.NextCellIndex ≠ A.CurrentCellIndex →
        A.NextCellIndex ≠ B.CurrentCellIndex ∧ A.NextCellIndex ≠ B.NextCellIndex) :=
  ⟨(demoState 1 1).Entities.getD 1 (spawnedEntity demoRand 0 0 0),
    (demoState 1 1).Entities.getD 2 (spawnedEntity demoRand 0 0 0),
    by decide, by decide, by decide, by decide, by decide,
    cell_exclusivity demoRand (demoState 1 1) (demoState_reachable 1 1 (by decide)) 1 2
      ((demoState 1 1).Entities.getD 1 (spawnedEntity demoRand 0 0 0))
      ((demoState 1 1).Entities.getD 2 (spawnedEntity demoRand 0 0 0))
      (by decide) (by decide) (by decide)⟩

/-- Claim C5.  Entity-store invariant: in every reachable state (ticks with a compaction
sweep included) `IdToIndex` holds exactly the ids of the stored records, maps every id to
an in-range index whose record carries that id, and is a bijection between the stored ids
and the indices `0 .. Entities.Num() - 1`. -/
theorem entity_store_invariant (RandRange : Int → Int → Int → Int × Int) (S : USimulator)
    (hS : Reachable RandRange S) :
    (∀ Id : Int, (∃ k, S.IdToIndex Id = some k) ↔ ∃ E ∈ S.Entities, E.Id = Id) ∧
    (∀ (Id : Int) (k : Nat), S.IdToIndex Id = some k →
      k < S.Entities.length ∧ ∃ E, S.Entities[k]? = some E ∧ E.Id = Id) ∧
    (∀ (Id1 Id2 : Int) (k : Nat), S.IdToIndex Id1 = some k → S.IdToIndex Id2 = some k →
      Id1 = Id2) ∧
    (∀ k : Nat, k < S.Entities.length → ∃ Id, S.IdToIndex Id = some k) ∧
    (∀ (i j : Nat) (A B : FEntityInfo), i ≠ j → S.Entities[i]? = some A →
      S.Entities[j]? = some B → A.Id ≠ B.Id) := by
  have inv := hS.inv.2
  refine ⟨?_, ?_, ?_, ?_, inv.unique⟩
  · intro Id
    constructor
    · rintro ⟨k, hk⟩
      obtain ⟨E, hE, e⟩ := (inv.index Id k).1 hk
      exact ⟨E, List.getElem?_mem hE, e⟩
    · rintro ⟨E, hE, e⟩
      obtain ⟨k, hk⟩ := List.getElem?_of_mem hE
      exact ⟨k, (inv.index Id k).2 ⟨E, hk, e⟩⟩
  · intro Id k hk
    obtain ⟨E, hE, e⟩ := (inv.index Id k).1 hk
    exact ⟨(List.getElem?_eq_some_iff.1 hE).1, E, hE, e⟩
  · intro Id1 Id2 k h1 h2
    obtain ⟨E1, hE1, e1⟩ := (inv.index Id1 k).1 h1
    obtain ⟨E2, hE2, e2⟩ := (inv.index Id2 k).1 h2
    rw [hE1] at hE2
    have : E1 = E2 := by simpa using hE2
    rw [← e1, ← e2, this]
  · intro k hk
    exact ⟨(S.Entities[k]).Id, (inv.index _ k).2 ⟨S.Entities[k], List.getElem?_eq_getElem hk, rfl⟩⟩

set_option maxRecDepth 1000000 in
/-- The entity store on the 5 x 5 run with seed 2 after 47 steps, the tick of the first
compaction sweep: the record with id 0 was dropped, the record with id 2 was swapped into
index 0, and the rebuilt map sends the id 2 to the index 0. -/
theorem entity_store_invariant_witness :
    (demoState 2 47).Entities.map (fun E => E.Id) = [2, 1] ∧
    (∀ (Id : Int) (k : Nat), (demoState 2 47).IdToIndex Id = some k →
      k < (demoState 2 47).Entities.length ∧
        ∃ E, (demoState 2 47).Entities[k]? = some E ∧ E.Id = Id) ∧
    (∀ k : Nat, k < (demoState 2 47).Entities.length →
      ∃ Id, (demoState 2 47).IdToIndex Id = some k) :=
  ⟨by decide,
    (entity_store_invariant demoRand (demoState 2 47)
      (demoState_reachable 2 47 (by decide))).2.1,
    (entity_store_invariant demoRand (demoState 2 47)
      (demoState_reachable 2 47 (by decide))).2.2.2.1⟩

/-! ### The postcondition of `Initialize` -/

theorem unvisitedCount_exists (n : Nat) (Vis : Int → Bool) (h : 1 ≤ unvisitedCount n Vis) :
    ∃ f : Int, 0 ≤ f ∧ f < n ∧ Vis f = false := by
  unfold unvisitedCount at h
  have hpos : 0 < (List.range n).countP (fun c : Nat => !Vis (Int.ofNat c)) := by omega
  rw [List.countP_pos_iff] at hpos
  obtain ⟨c, hc, hv⟩ := hpos
  rw [List.mem_range] at hc
  refine ⟨Int.ofNat c, Int.ofNat_nonneg c, ?_, by simpa using hv⟩
  exact Int.ofNat_lt.2 hc

theorem SpawnPost.spawnPost {n : Int} {S : USimulator} (post : SpawnPost n S)
    {RandRange : Int → Int → Int → Int × Int} (hR : RandRangeInBounds RandRange)
    (Seed1 c : Int) (h0 : 0 ≤ c) (h1 : c < n) (hfree : S.Occupied c = false) :
    SpawnPost n (spawnAt RandRange Seed1 c S) := by
  constructor
  · intro k E hE
    rcases getElem?_snoc _ _ k E hE with h | ⟨hk, hEq⟩
    · exact post.ok k E h
    · rw [hEq, hk]
      have r1 := hR Seed1 2 5 (by decide)
      have r2 := hR (RandRange Seed1 2 5).2 7 20 (by decide)
      have r3 := hR (RandRange (RandRange Seed1 2 5).2 7 20).2 20 30 (by decide)
      exact ⟨post.next, h0, h1, rfl, rfl, rfl, rfl, rfl, r1.1, r1.2, r2.1, r2.2, r3.1, r3.2⟩
  · show S.NextEntityId + 1 =
      Int.ofNat (S.Entities ++ [spawnedEntity RandRange Seed1 c S.NextEntityId]).length
    rw [post.next, List.length_append]
    simp
  · intro x
    show setAt S.Occupied c true x = true ↔
      ∃ E ∈ S.Entities ++ [spawnedEntity RandRange Seed1 c S.NextEntityId],
        E.CurrentCellIndex = x
    unfold setAt
    constructor
    · intro h
      by_cases hx : x = c
      · exact ⟨_, List.mem_append_right _ (List.mem_singleton_self _), hx.symm⟩
      · rw [if_neg hx] at h
        obtain ⟨E, hE, e⟩ := (post.occupied x).1 h
        exact ⟨E, List.mem_append_left _ hE, e⟩
    · rintro ⟨E, hE, e⟩
      rcases List.mem_append.1 hE with hE | hE
      · split
        · rfl
        · exact (post.occupied x).2 ⟨E, hE, e⟩
      · rw [List.mem_singleton] at hE
        rw [hE] at e
        have : x = c := e.symm
        rw [if_pos this]
  · show unvisitedCount n.toNat (setAt S.Occupied c true) +
      (S.Entities ++ [spawnedEntity RandRange Seed1 c S.NextEntityId]).length = n.toNat
    have hnew := unvisitedCount_mark_new n.toNat S.Occupied c h0 (by omega) hfree
    have := post.free
    rw [List.length_append, List.length_singleton]
    omega

theorem spawnEntities_total {RandRange : Int → Int → Int → Int × Int}
    (hR : RandRangeInBounds RandRange) (fuel : Nat) (n : Int) (hn : 0 < n) (hfuel : n ≤ fuel) :
    ∀ (Count : Nat) (S : USimulator), SpawnPost n S → S.Entities.length + Count ≤ n.toNat →
      ∃ S1 : USimulator, spawnEntities RandRange fuel n Count S = some S1 ∧ SpawnPost n S1 ∧
        S1.Entities.length = S.Entities.length + Count ∧ S1.MapSize = S.MapSize ∧
        S1.EntitiesCount = S.EntitiesCount := by
  intro Count
  induction Count with
  | zero =>
    intro S post _
    exact ⟨S, rfl, post, rfl, rfl, rfl⟩
  | succ Count ih =>
    intro S post hlen
    have hr0 := hR S.RandomStream 0 (n - 1) (by omega)
    have hfreeCount : 1 ≤ unvisitedCount n.toNat S.Occupied := by
      have := post.free
      omega
    obtain ⟨f, hf0, hf1, hff⟩ := unvisitedCount_exists _ _ hfreeCount
    obtain ⟨c, hc, hcfree, hc0, hc1⟩ := randomFreeCellLoop_total S.Occupied n fuel
      (RandRange S.RandomStream 0 (n - 1)).1 f hr0.1 (by omega) hf0 (by omega) hff hfuel
    obtain ⟨S1, h1, p1, l1, m1, e1⟩ := ih
      (HexBalls.spawnAt RandRange (RandRange S.RandomStream 0 (n - 1)).2 c S)
      (post.spawnPost hR _ c hc0 hc1 hcfree) (by
        show (S.Entities ++ [_]).length + Count ≤ n.toNat
        rw [List.length_append, List.length_singleton]; omega)
    refine ⟨S1, ?_, p1, ?_, m1, e1⟩
    · unfold spawnEntities
      simp only [hc]
      exact h1
    · rw [l1]
      show (S.Entities ++ [_]).length + Count = S.Entities.length + (Count + 1)
      rw [List.length_append, List.length_singleton]; omega

/-- What `Initialize` returns on a newly constructed simulator whose clamped entity count
is at most the clamped cell count, with a random stream that keeps `RandRange` within its
bounds and with fuel for one round of probing. -/
theorem Initialize_spawns (RandRange : Int → Int → Int → Int × Int)
    (hR : RandRangeInBounds RandRange) (MapSize : FIntPoint) (EntitiesCount Seed Now : Int)
    (fuel : Nat) (hcount : max 0 EntitiesCount ≤ max MapSize.X 1 * max MapSize.Y 1)
    (hfuel : max MapSize.X 1 * max MapSize.Y 1 ≤ fuel) :
    ∃ S : USimulator,
      Initialize RandRange fuel Now (freshSimulator MapSize EntitiesCount Seed) = some S ∧
      S.StepIndex = 1 ∧ S.MapSize = ⟨max MapSize.X 1, max MapSize.Y 1⟩ ∧
      S.EntitiesCount = max 0 EntitiesCount ∧
      S.Entities.length = (max 0 EntitiesCount).toNat ∧
      (∀ (k : Nat) (E : FEntityInfo), S.Entities[k]? = some E →
        SpawnedOk (S.MapSize.X * S.MapSize.Y) k E) ∧
      (∀ (j k : Nat) (A B : FEntityInfo), j ≠ k → S.Entities[j]? = some A →
        S.Entities[k]? = some B → A.CurrentCellIndex ≠ B.CurrentCellIndex) ∧
      (∀ c : Int, S.Occupied c = true ↔ ∃ E ∈ S.Entities, E.CurrentCellIndex = c) := by
  have hX : 1 ≤ max MapSize.X 1 := le_max_right _ _
  have hY : 1 ≤ max MapSize.Y 1 := le_max_right _ _
  have hn : 0 < max MapSize.X 1 * max MapSize.Y 1 := Int.mul_pos (by omega) (by omega)
  have post0 : SpawnPost (max MapSize.X 1 * max MapSize.Y 1)
      { freshSimulator MapSize EntitiesCount Seed with
        RandomStream := (freshSimulator MapSize EntitiesCount Seed).Seed
        NextEntityId := 0
        MapSize := ⟨max (freshSimulator MapSize EntitiesCount Seed).MapSize.X 1,
          max (freshSimulator MapSize EntitiesCount Seed).MapSize.Y 1⟩
        Occupied := fun _ => false
        EntitiesCount := max 0 (freshSimulator MapSize EntitiesCount Seed).EntitiesCount } := by
    constructor
    · intro k E hE; simp [freshSimulator] at hE
    · simp [freshSimulator]
    · intro c; simp [freshSimulator]
    · show unvisitedCount _ (fun _ => false) + ([] : List FEntityInfo).length = _
      simp [unvisitedCount]
  obtain ⟨S1, h1, p1, l1, m1, e1⟩ := spawnEntities_total hR fuel _ hn hfuel
    (max 0 EntitiesCount).toNat _ post0 (by
      show ([] : List FEntityInfo).length + _ ≤ _
      simp only [List.length_nil, Nat.zero_add]
      omega)
  have hinit : Initialize RandRange fuel Now (freshSimulator MapSize EntitiesCount Seed) =
      some { S1 with StepIndex := 1, StartTime := Now } := by
    unfold Initialize
    simp only
    have h1' := h1
    simp only [freshSimulator] at h1' ⊢
    rw [h1']
  have inv := (Initialize_inv hinit).1
  refine ⟨_, hinit, rfl, ?_, ?_, ?_, ?_, ?_, p1.occupied⟩
  · exact m1
  · exact e1
  · show S1.Entities.length = _
    rw [l1]
    show ([] : List FEntityInfo).length + _ = _
    simp
  · intro k E hE
    show SpawnedOk (S1.MapSize.X * S1.MapSize.Y) k E
    rw [m1]
    exact p1.ok k E hE
  · intro j k A B hjk hA hB
    exact (inv.apart j k A B hjk hA hB).1

theorem demoRand_inBounds : RandRangeInBounds demoRand := by
  intro Seed Min Max h
  have hpos : 0 < Max - Min + 1 := by omega
  have h0 := Int.emod_nonneg ((Seed * 1103515245 + 12345) % 2147483648 / 65536)
    (by omega : Max - Min + 1 ≠ 0)
  have h1 := Int.emod_lt_of_pos ((Seed * 1103515245 + 12345) % 2147483648 / 65536) hpos
  simp only [demoRand]
  constructor <;> omega

/-! ### `Initialize` on a simulator that was initialised before -/

/-- Claim C6 fails on the code.  `Initialize` resets the id counter, the random stream
and the occupancy but not `Entities` and `IdToIndex`: on the 1 x 1 simulator with one
entity and seed 0, a second `Initialize` on the same instance leaves two records, both
with the id 0 and both on cell 0, and an id map that sends 0 to the index 1, whereas
`Initialize` on a newly constructed simulator leaves one record. -/
theorem Initialize_keeps_earlier_entities :
    (Initialize demoRand 10 0 (freshSimulator ⟨1, 1⟩ 1 0)).map
      (fun S => (S.Entities.map (fun E => (E.Id, E.CurrentCellIndex)), S.IdToIndex 0,
        S.StepIndex)) = some ([(0, 0)], some 0, 1) ∧
    ((Initialize demoRand 10 0 (freshSimulator ⟨1, 1⟩ 1 0)).bind
      (Initialize demoRand 10 0)).map
      (fun S => (S.Entities.map (fun E => (E.Id, E.CurrentCellIndex)), S.IdToIndex 0,
        S.StepIndex)) = some ([(0, 0), (0, 0)], some 1, 1) := by
  constructor <;> decide

end HexBalls

namespace HexBalls

/-! ## Attack cadence -/

theorem map_field_set {α : Type} (f : FEntityInfo → α) {Es : List FEntityInfo} {i : Nat}
    {E E1 : FEntityInfo} (hE : Es[i]? = some E) (hf : f E1 = f E) :
    (Es.set i E1).map f = Es.map f := by
  apply List.ext_getElem?
  intro j
  rw [List.getElem?_map, List.getElem?_map, List.getElem?_set]
  by_cases hij : i = j
  · subst hij
    rw [if_pos rfl, hE]
    have hlt : i < Es.length := (List.getElem?_eq_some_iff.1 hE).1
    rw [if_pos hlt]
    simp [hf]
  · rw [if_neg hij]

theorem map_field_modify {α : Type} (f : FEntityInfo → α) (Es : List FEntityInfo) (i : Nat)
    (F : FEntityInfo → FEntityInfo) (hF : ∀ E, f (F E) = f E) :
    (modifyAt Es i F).map f = Es.map f := by
  cases hE : Es[i]? with
  | none => rw [modifyAt_of_none hE]
  | some E => rw [modifyAt_of_some hE]; exact map_field_set f hE (hF E)

theorem modifyAt_getElem? (Es : List FEntityInfo) (i : Nat) (F : FEntityInfo → FEntityInfo)
    (k : Nat) : (modifyAt Es i F)[k]? = if k = i then (Es[k]?).map F else Es[k]? := by
  cases hE : Es[i]? with
  | none =>
    rw [modifyAt_of_none hE]
    split
    · rename_i h; rw [h, hE]; rfl
    · rfl
  | some E =>
    rw [modifyAt_of_some hE, List.getElem?_set]
    have hlt : i < Es.length := (List.getElem?_eq_some_iff.1 hE).1
    by_cases hik : i = k
    · subst hik
      rw [if_pos rfl, if_pos hlt, if_pos rfl, hE]; rfl
    · rw [if_neg hik, if_neg (fun e => hik e.symm)]

theorem StampStep.keep (s : Int) (E : FEntityInfo) : StampStep s E E :=
  ⟨rfl, rfl, Or.inr (Or.inl ⟨rfl, rfl⟩)⟩

theorem StampStep.compose {s : Int} {E0 E1 E2 : FEntityInfo} (h1 : StampStep s E0 E1)
    (h2 : StampStep s E1 E2) : StampStep s E0 E2 := by
  obtain ⟨a1, b1, c1⟩ := h1
  obtain ⟨a2, b2, c2⟩ := h2
  refine ⟨a2.trans a1, b2.trans b1, ?_⟩
  rcases c2 with c2 | ⟨t2, s2⟩ | c2
  · exact Or.inl c2
  · rcases c1 with c1 | ⟨t1, s1⟩ | c1
    · exact Or.inl (t2.trans c1)
    · exact Or.inr (Or.inl ⟨t2.trans t1, s2.trans s1⟩)
    · exact Or.inr (Or.inr (s2.trans c1))
  · exact Or.inr (Or.inr c2)

theorem Stamped.unchanged (s : Int) (Es : List FEntityInfo) : Stamped s Es Es :=
  fun _ E1 h => ⟨E1, h, StampStep.keep s E1⟩

theorem Stamped.andThen {s : Int} {Es Es1 Es2 : List FEntityInfo} (h1 : Stamped s Es Es1)
    (h2 : Stamped s Es1 Es2) : Stamped s Es Es2 := by
  intro k E2 hE2
  obtain ⟨E1, hE1, s2⟩ := h2 k E2 hE2
  obtain ⟨E0, hE0, s1⟩ := h1 k E1 hE1
  exact ⟨E0, hE0, s1.compose s2⟩

theorem Stamped.ofSet {s : Int} {Es : List FEntityInfo} {i : Nat} {E E1 : FEntityInfo}
    (hE : Es[i]? = some E) (hs : StampStep s E E1) : Stamped s Es (Es.set i E1) := by
  intro k B hB
  rw [List.getElem?_set] at hB
  by_cases hik : i = k
  · subst hik
    rw [if_pos rfl] at hB
    split at hB
    · have e : E1 = B := by simpa using hB
      rw [← e]; exact ⟨E, hE, hs⟩
    · simp at hB
  · rw [if_neg hik] at hB
    exact ⟨B, hB, StampStep.keep s B⟩

theorem Stamped.ofModify {s : Int} (Es : List FEntityInfo) (i : Nat)
    (F : FEntityInfo → FEntityInfo) (hF : ∀ E, StampStep s E (F E)) :
    Stamped s Es (modifyAt Es i F) := by
  cases hE : Es[i]? with
  | none => rw [modifyAt_of_none hE]; exact Stamped.unchanged s Es
  | some E => rw [modifyAt_of_some hE]; exact Stamped.ofSet hE (hF E)

/-- Lines 199-216: how the attack bookkeeping changes. -/
theorem targetPhase_stamp {i : Nat} {S S1 : USimulator} {b : Bool}
    (h : targetPhase i S = some (S1, b)) : Stamped S.StepIndex S.Entities S1.Entities := by
  unfold targetPhase at h
  split at h
  · simp at h
  · rename_i Entity hE
    split at h
    · split at h
      · simp only [Option.some.injEq, Prod.mk.injEq] at h
        obtain ⟨rfl, _⟩ := h
        exact Stamped.ofModify _ i _ (by intro E; exact ⟨rfl, rfl, Or.inl rfl⟩)
      · rename_i t ht
        split at h
        · simp at h
        · rename_i TargetEntity hT
          simp only at h
          split at h
          · split at h
            · simp only [Option.some.injEq, Prod.mk.injEq] at h
              obtain ⟨rfl, _⟩ := h
              have h2 : Stamped S.StepIndex
                  (modifyAt S.Entities t (fun E => { E with Health := E.Health - 1 }))
                  (modifyAt (modifyAt S.Entities t (fun E => { E with Health := E.Health - 1 }))
                    i (fun E => { E with StartedAttackAtStep := S.StepIndex })) :=
                Stamped.ofModify _ i _ (by intro E; exact ⟨rfl, rfl, Or.inr (Or.inr rfl)⟩)
              exact (Stamped.ofModify S.Entities t _
                (by intro E; exact ⟨rfl, rfl, Or.inr (Or.inl ⟨rfl, rfl⟩)⟩)).andThen h2
            · simp only [Option.some.injEq, Prod.mk.injEq] at h
              obtain ⟨rfl, _⟩ := h
              exact Stamped.unchanged _ _
          · simp only [Option.some.injEq, Prod.mk.injEq] at h
            obtain ⟨rfl, _⟩ := h
            exact Stamped.ofModify _ i _ (by intro E; exact ⟨rfl, rfl, Or.inl rfl⟩)
    · simp only [Option.some.injEq, Prod.mk.injEq] at h
      obtain ⟨rfl, _⟩ := h
      exact Stamped.unchanged _ _

/-- Lines 218-272: how the attack bookkeeping changes, and no `Health` changes. -/
theorem movePhase_stamp {fuel i : Nat} {S S1 : USimulator}
    (h : movePhase fuel i S = some S1) :
    Stamped S.StepIndex S.Entities S1.Entities ∧ healths S1 = healths S := by
  unfold movePhase at h
  split at h
  · simp at h
  · rename_i Entity hE
    have hlt : i < S.Entities.length := (List.getElem?_eq_some_iff.1 hE).1
    simp only at h
    have hE1 : (S.Entities.set i (arrived Entity S.StepIndex))[i]? =
        some (arrived Entity S.StepIndex) := List.getElem?_set_self hlt
    have hst1 : Stamped S.StepIndex S.Entities (S.Entities.set i (arrived Entity S.StepIndex)) :=
      Stamped.ofSet hE (StampStep.keep _ _)
    have hh1 : (S.Entities.set i (arrived Entity S.StepIndex)).map (fun E => E.Health) =
        S.Entities.map (fun E => E.Health) := map_field_set _ hE rfl
    split at h
    · split at h
      · simp only [Option.some.injEq] at h
        subst h
        exact ⟨hst1, hh1⟩
      · split at h
        · split at h
          · simp at h
          · rename_i t ht
            split at h
            · simp at h
            · rename_i TargetEntity hT
              split at h
              · simp only [Option.some.injEq] at h
                subst h
                exact ⟨hst1.andThen (Stamped.ofSet hE1 ⟨rfl, rfl, Or.inr (Or.inr rfl)⟩),
                  (map_field_set (fun E => E.Health) hE1 (by rfl)).trans hh1⟩
              · split at h
                · simp at h
                · rename_i Next D hsp
                  split at h
                  · simp only [Option.some.injEq] at h
                    subst h
                    exact ⟨hst1.andThen (Stamped.ofSet hE1 ⟨rfl, rfl, Or.inl rfl⟩),
                      (map_field_set (fun E => E.Health) hE1 (by rfl)).trans hh1⟩
                  · simp only [Option.some.injEq] at h
                    subst h
                    exact ⟨hst1.andThen (Stamped.ofSet hE1 ⟨rfl, rfl, Or.inl rfl⟩),
                      (map_field_set (fun E => E.Health) hE1 (by rfl)).trans hh1⟩
        · simp only [Option.some.injEq] at h
          subst h
          exact ⟨hst1, hh1⟩
    · simp only [Option.some.injEq] at h
      subst h
      exact ⟨Stamped.unchanged _ _, rfl⟩

/-- The body of the forward pass: how the attack bookkeeping changes. -/
theorem entityStep_stamp {fuel i : Nat} {S S1 : USimulator} {dp dp1 : Bool}
    (h : entityStep fuel i S dp = some (S1, dp1)) :
    Stamped S.StepIndex S.Entities S1.Entities := by
  unfold entityStep at h
  split at h
  · simp at h
  · rename_i Entity hE
    split at h
    · split at h
      · simp only [Option.some.injEq, Prod.mk.injEq] at h
        obtain ⟨rfl, _⟩ := h
        exact Stamped.ofSet hE (StampStep.keep _ _)
      · split at h
        · simp only [Option.some.injEq, Prod.mk.injEq] at h
          obtain ⟨rfl, _⟩ := h
          exact Stamped.unchanged _ _
        · simp only [Option.some.injEq, Prod.mk.injEq] at h
          obtain ⟨rfl, _⟩ := h
          exact Stamped.unchanged _ _
    · split at h
      · simp at h
      · rename_i S2 ht
        simp only [Option.some.injEq, Prod.mk.injEq] at h
        obtain ⟨rfl, _⟩ := h
        exact targetPhase_stamp ht
      · rename_i S2 ht
        split at h
        · simp at h
        · rename_i S3 hm
          simp only [Option.some.injEq, Prod.mk.injEq] at h
          obtain ⟨rfl, _⟩ := h
          have e := (targetPhase_effect ht).2.2.1
          have s2 := (movePhase_stamp hm).1
          rw [e] at s2
          exact (targetPhase_stamp ht).andThen s2

theorem forwardPass_stamp {fuel : Nat} :
    ∀ (Count i : Nat) (S S1 : USimulator) (dp dp1 : Bool),
      forwardPass fuel Count i S dp = some (S1, dp1) →
      Stamped S.StepIndex S.Entities S1.Entities := by
  intro Count
  induction Count with
  | zero =>
    intro i S S1 dp dp1 h
    simp only [forwardPass, Option.some.injEq, Prod.mk.injEq] at h
    obtain ⟨rfl, _⟩ := h
    exact Stamped.unchanged _ _
  | succ Count ih =>
    intro i S S1 dp dp1 h
    unfold forwardPass at h
    split at h
    · simp at h
    · rename_i S2 dp2 hstep
      have e := (entityStep_effect hstep).2.2.1
      have s2 := ih _ _ _ _ _ h
      rw [e] at s2
      exact (entityStep_stamp hstep).andThen s2

/-- The two writes of a strike (lines 207-208), on the list of records. -/
theorem strike_facts (Es : List FEntityInfo) (i t : Nat) (s : Int) (E : FEntityInfo)
    (hE : Es[i]? = some E) :
    (∃ E1, (modifyAt (modifyAt Es t (fun E => { E with Health := E.Health - 1 })) i
        (fun E => { E with StartedAttackAtStep := s }))[i]? = some E1 ∧
      E1.Target = E.Target ∧ E1.StartedAttackAtStep = s ∧ E1.Id = E.Id ∧
      E1.TimeStepsPerAttack = E.TimeStepsPerAttack) ∧
    (∀ (k : Nat) (A B : FEntityInfo), Es[k]? = some A →
      (modifyAt (modifyAt Es t (fun E => { E with Health := E.Health - 1 })) i
        (fun E => { E with StartedAttackAtStep := s }))[k]? = some B →
      (k = t ∧ B.Health = A.Health - 1) ∨ (k ≠ t ∧ B.Health = A.Health)) := by
  constructor
  · rw [modifyAt_getElem?, if_pos rfl, modifyAt_getElem?]
    by_cases hit : i = t
    · rw [if_pos hit, hE]
      exact ⟨_, rfl, rfl, rfl, rfl, rfl⟩
    · rw [if_neg hit, hE]
      exact ⟨_, rfl, rfl, rfl, rfl, rfl⟩
  · intro k A B hA hB
    rw [modifyAt_getElem?, modifyAt_getElem?] at hB
    by_cases hkt : k = t
    · left
      refine ⟨hkt, ?_⟩
      rw [if_pos hkt, hA] at hB
      split at hB
      · simp only [Option.map_some', Option.some.injEq] at hB
        rw [← hB]
      · simp only [Option.map_some', Option.some.injEq] at hB
        rw [← hB]
    · right
      refine ⟨hkt, ?_⟩
      rw [if_neg hkt, hA] at hB
      split at hB
      · simp only [Option.map_some', Option.some.injEq] at hB
        rw [← hB]
      · simp only [Option.some.injEq] at hB
        rw [← hB]

/-- Lines 199-216 either leave every `Health` alone or perform a strike. -/
theorem targetPhase_health {i : Nat} {S S1 : USimulator} {b : Bool}
    (h : targetPhase i S = some (S1, b)) :
    healths S1 = healths S ∨
    ∃ (E : FEntityInfo) (t : Nat) (T : FEntityInfo), S.Entities[i]? = some E ∧
      E.Target ≠ INDEX_NONE ∧ S.IdToIndex E.Target = some t ∧ S.Entities[t]? = some T ∧
      T.Health > 0 ∧ S.StepIndex - E.StartedAttackAtStep ≥ E.TimeStepsPerAttack ∧ b = true ∧
      S1.Entities = modifyAt (modifyAt S.Entities t (fun E => { E with Health := E.Health - 1 }))
        i (fun E => { E with StartedAttackAtStep := S.StepIndex }) := by
  unfold targetPhase at h
  split at h
  · simp at h
  · rename_i Entity hE
    split at h
    · rename_i hTarget
      split at h
      · simp only [Option.some.injEq, Prod.mk.injEq] at h
        obtain ⟨rfl, _⟩ := h
        exact Or.inl (map_field_modify (fun E => E.Health) _ _ _ (by intro E; rfl))
      · rename_i t ht
        split at h
        · simp at h
        · rename_i TargetEntity hT
          simp only at h
          split at h
          · rename_i hlive
            split at h
            · rename_i hcool
              simp only [Option.some.injEq, Prod.mk.injEq] at h
              obtain ⟨rfl, rfl⟩ := h
              exact Or.inr ⟨Entity, t, TargetEntity, hE, hTarget, ht, hT, hlive.1, hcool, rfl, rfl⟩
            · simp only [Option.some.injEq, Prod.mk.injEq] at h
              obtain ⟨rfl, _⟩ := h
              exact Or.inl rfl
          · simp only [Option.some.injEq, Prod.mk.injEq] at h
            obtain ⟨rfl, _⟩ := h
            exact Or.inl (map_field_modify (fun E => E.Health) _ _ _ (by intro E; rfl))
    · simp only [Option.some.injEq, Prod.mk.injEq] at h
      obtain ⟨rfl, _⟩ := h
      exact Or.inl rfl

/-- The body of the forward pass either leaves every `Health` alone or performs a strike
of the entity at `i`, which is alive. -/
theorem entityStep_health {fuel i : Nat} {S S1 : USimulator} {dp dp1 : Bool}
    (h : entityStep fuel i S dp = some (S1, dp1)) :
    healths S1 = healths S ∨
    ∃ (E : FEntityInfo) (t : Nat) (T : FEntityInfo), S.Entities[i]? = some E ∧
      E.Target ≠ INDEX_NONE ∧ S.IdToIndex E.Target = some t ∧ S.Entities[t]? = some T ∧
      T.Health > 0 ∧ S.StepIndex - E.StartedAttackAtStep ≥ E.TimeStepsPerAttack ∧
      S1.Entities = modifyAt (modifyAt S.Entities t (fun E => { E with Health := E.Health - 1 }))
        i (fun E => { E with StartedAttackAtStep := S.StepIndex }) := by
  unfold entityStep at h
  split at h
  · simp at h
  · rename_i Entity hE
    split at h
    · split at h
      · simp only [Option.some.injEq, Prod.mk.injEq] at h
        obtain ⟨rfl, _⟩ := h
        exact Or.inl (map_field_set (fun E => E.Health) hE rfl)
      · split at h
        · simp only [Option.some.injEq, Prod.mk.injEq] at h
          obtain ⟨rfl, _⟩ := h
          exact Or.inl rfl
        · simp only [Option.some.injEq, Prod.mk.injEq] at h
          obtain ⟨rfl, _⟩ := h
          exact Or.inl rfl
    · split at h
      · simp at h
      · rename_i S2 ht
        simp only [Option.some.injEq, Prod.mk.injEq] at h
        obtain ⟨rfl, _⟩ := h
        rcases targetPhase_health ht with e | ⟨E, t, T, h1, h2, h3, h4, h5, h6, _, h8⟩
        · exact Or.inl e
        · exact Or.inr ⟨E, t, T, h1, h2, h3, h4, h5, h6, h8⟩
      · rename_i S2 ht
        split at h
        · simp at h
        · rename_i S3 hm
          simp only [Option.some.injEq, Prod.mk.injEq] at h
          obtain ⟨rfl, _⟩ := h
          rcases targetPhase_health ht with e | ⟨_, _, _, _, _, _, _, _, _, hb, _⟩
          · exact Or.inl ((movePhase_stamp hm).2.trans e)
          · exact absurd hb (by decide)

theorem EngagedSince.stamped {Es Es1 : List FEntityInfo} {x a tpa s : Int}
    (h : EngagedSince Es x a tpa) (hs : Stamped s Es Es1) (ha : a ≤ s) :
    EngagedSince Es1 x a tpa := by
  intro E1 hE1 hid
  obtain ⟨k, hk⟩ := List.getElem?_of_mem hE1
  obtain ⟨E0, hE0, e1, e2, e3⟩ := hs k E1 hk
  obtain ⟨h1, h2⟩ := h E0 (List.getElem?_mem hE0) (e1.symm.trans hid)
  refine ⟨e2.trans h1, fun hT => ?_⟩
  rcases e3 with e | ⟨et, es⟩ | e
  · exact absurd e hT
  · rw [es]; exact h2 (by rw [← et]; exact hT)
  · rw [e]; exact ha

theorem EngagedSince.sub {Es Es1 : List FEntityInfo} {x a tpa : Int}
    (h : EngagedSince Es x a tpa) (hsub : ∀ E ∈ Es1, E ∈ Es) : EngagedSince Es1 x a tpa :=
  fun E hE hid => h E (hsub E hE) hid

theorem RemoveAtSwap_mem (Es : List FEntityInfo) (i : Nat) (hi : i < Es.length)
    (E : FEntityInfo) (hE : E ∈ RemoveAtSwap Es i) : E ∈ Es := by
  obtain ⟨j, hj⟩ := List.getElem?_of_mem hE
  exact List.getElem?_mem (RemoveAtSwap_source Es i hi j E hj).2.1

theorem sweepLoop_mem {StepIndex : Int} :
    ∀ (fuel i : Nat) (Es : List FEntityInfo) (M : TMap Nat) (Occ : Int → Bool)
      (Es1 : List FEntityInfo) (M1 : TMap Nat) (Occ1 : Int → Bool),
      sweepLoop StepIndex fuel i Es M Occ = some (Es1, M1, Occ1) → ∀ E ∈ Es1, E ∈ Es := by
  intro fuel
  induction fuel with
  | zero =>
    intro i Es M Occ Es1 M1 Occ1 h
    unfold sweepLoop at h
    split at h
    · simp at h
    · simp only [Option.some.injEq, Prod.mk.injEq] at h
      obtain ⟨rfl, _, _⟩ := h
      exact fun E hE => hE
  | succ fuel ih =>
    intro i Es M Occ Es1 M1 Occ1 h
    unfold sweepLoop at h
    split at h
    · simp only [Option.some.injEq, Prod.mk.injEq] at h
      obtain ⟨rfl, _, _⟩ := h
      exact fun E hE => hE
    · rename_i Entity hE
      have hi : i < Es.length := (List.getElem?_eq_some_iff.1 hE).1
      split at h
      · exact fun E hE1 => RemoveAtSwap_mem Es i hi E (ih _ _ _ _ _ _ _ h E hE1)
      · exact ih _ _ _ _ _ _ _ h

/-- `NextStep` is the forward pass, then the sweep (which only drops records), then the
increment of `StepIndex`. -/
theorem NextStep_parts {fuel : Nat} {S S1 : USimulator} (h : NextStep fuel S = some S1) :
    ∃ (S3 : USimulator) (dp3 : Bool),
      forwardPass fuel S.Entities.length 0 S false = some (S3, dp3) ∧
      (∀ E ∈ S1.Entities, E ∈ S3.Entities) ∧ S1.StepIndex = S.StepIndex + 1 := by
  unfold NextStep at h
  split at h
  · simp at h
  · rename_i S2 dp hpass
    have hfr := (forwardPass_effect _ _ _ _ _ _ hpass).2
    refine ⟨S2, dp, hpass, ?_⟩
    split at h
    · split at h
      · simp at h
      · rename_i Es M Occ hsweep
        simp only [Option.some.injEq] at h
        subst h
        exact ⟨sweepLoop_mem _ _ _ _ _ _ _ _ hsweep, by rw [← hfr.2.1]⟩
    · simp only [Option.some.injEq] at h
      subst h
      exact ⟨fun E hE => hE, by rw [← hfr.2.1]⟩

theorem NextStep_engaged {fuel : Nat} {S S1 : USimulator} (h : NextStep fuel S = some S1)
    {x a tpa : Int} (ha : a ≤ S.StepIndex) (he : EngagedSince S.Entities x a tpa) :
    EngagedSince S1.Entities x a tpa ∧ S1.StepIndex = S.StepIndex + 1 := by
  obtain ⟨S3, dp3, hpass, hsub, hstep⟩ := NextStep_parts h
  exact ⟨(he.stamped (forwardPass_stamp _ _ _ _ _ _ hpass) ha).sub hsub, hstep⟩

theorem runSteps_engaged {fuel : Nat} {x a tpa : Int} :
    ∀ (d : Nat) (S S1 : USimulator), runSteps fuel d S = some S1 → a ≤ S.StepIndex →
      EngagedSince S.Entities x a tpa →
      EngagedSince S1.Entities x a tpa ∧ S1.StepIndex = S.StepIndex + d := by
  intro d
  induction d with
  | zero =>
    intro S S1 h ha he
    simp only [runSteps, Option.some.injEq] at h
    subst h
    exact ⟨he, by simp⟩
  | succ d ih =>
    intro S S1 h ha he
    unfold runSteps at h
    split at h
    · simp at h
    · rename_i S2 hstep
      obtain ⟨he2, hs2⟩ := NextStep_engaged hstep ha he
      obtain ⟨he3, hs3⟩ := ih _ _ h (by omega) he2
      exact ⟨he3, by rw [hs3, hs2]; push_cast; ring⟩

theorem forwardPass_succ (fuel Count i : Nat) (S : USimulator) (dp : Bool) :
    forwardPass fuel (Count + 1) i S dp =
      match entityStep fuel i S dp with
      | none => none
      | some (S1, dp1) => forwardPass fuel Count (i + 1) S1 dp1 := rfl

theorem forwardPass_split (fuel : Nat) :
    ∀ (a b i : Nat) (S : USimulator) (dp : Bool),
      forwardPass fuel (a + b) i S dp =
        match forwardPass fuel a i S dp with
        | none => none
        | some (S1, dp1) => forwardPass fuel b (i + a) S1 dp1 := by
  intro a
  induction a with
  | zero =>
    intro b i S dp
    simp [forwardPass]
  | succ a ih =>
    intro b i S dp
    have e : a + 1 + b = (a + b) + 1 := by omega
    rw [e, forwardPass_succ, forwardPass_succ]
    cases hstep : entityStep fuel i S dp with
    | none => rfl
    | some p =>
      obtain ⟨S2, dp2⟩ := p
      simp only
      rw [ih b (i + 1) S2 dp2]
      have e2 : i + 1 + a = i + (a + 1) := by omega
      rw [e2]

theorem SameFrame.length {S S1 : USimulator} (h : SameFrame S S1) :
    S1.Entities.length = S.Entities.length := by
  have := congrArg List.length h.2.2.2
  simpa using this

/-- A strike found by `dealsStrikeAt`, spelled out. -/
theorem dealsStrikeAt_spec {fuel : Nat} {S : USimulator} {i : Nat}
    (h : dealsStrikeAt fuel S i = true) :
    ∃ (S1 : USimulator) (dp : Bool) (S2 : USimulator) (dp2 : Bool) (E E2 : FEntityInfo),
      forwardPass fuel i 0 S false = some (S1, dp) ∧
      entityStep fuel i S1 dp = some (S2, dp2) ∧
      S1.Entities[i]? = some E ∧ S2.Entities[i]? = some E2 ∧
      E.Target ≠ INDEX_NONE ∧ S.StepIndex - E.StartedAttackAtStep ≥ E.TimeStepsPerAttack ∧
      E2.Target ≠ INDEX_NONE ∧ E2.StartedAttackAtStep = S.StepIndex := by
  unfold dealsStrikeAt at h
  split at h
  · simp at h
  · rename_i S1 dp hpre
    split at h
    · simp at h
    · rename_i S2 dp2 hstep
      have hne : healths S2 ≠ healths S1 := by simpa using h
      have hfr := (forwardPass_effect _ _ _ _ _ _ hpre).2
      rcases entityStep_health hstep with e | ⟨E, t, T, h1, h2, h3, h4, h5, h6, h7⟩
      · exact absurd e hne
      · obtain ⟨⟨E2, hE2, e1, e2, _, _⟩, _⟩ := strike_facts S1.Entities i t S1.StepIndex E h1
        rw [← h7] at hE2
        refine ⟨S1, dp, S2, dp2, E, E2, hpre, hstep, h1, hE2, h2, ?_, ?_, ?_⟩
        · rw [← hfr.2.1]; exact h6
        · rw [e1]; exact h2
        · rw [e2]; exact hfr.2.1

/-- A target acquisition found by `acquiresAt`, spelled out. -/
theorem acquiresAt_spec {fuel : Nat} {S : USimulator} {i : Nat}
    (h : acquiresAt fuel S i = true) :
    ∃ (S1 : USimulator) (dp : Bool) (S2 : USimulator) (dp2 : Bool) (E2 : FEntityInfo),
      forwardPass fuel i 0 S false = some (S1, dp) ∧
      entityStep fuel i S1 dp = some (S2, dp2) ∧ S2.Entities[i]? = some E2 ∧
      E2.Target ≠ INDEX_NONE ∧ E2.StartedAttackAtStep = S.StepIndex := by
  unfold acquiresAt at h
  split at h
  · simp at h
  · rename_i S1 dp hpre
    split at h
    · simp at h
    · rename_i S2 dp2 hstep
      have hfr := (forwardPass_effect _ _ _ _ _ _ hpre).2
      split at h
      · rename_i E E1 hE hE1
        have hc : E1.Target ≠ INDEX_NONE ∧ E1.Target ≠ E.Target := by simpa using h
        obtain ⟨E0, hE0, _, _, c⟩ := entityStep_stamp hstep i E1 hE1
        rw [hE] at hE0
        have e0 : E = E0 := by simpa using hE0
        subst e0
        refine ⟨S1, dp, S2, dp2, E1, hpre, hstep, hE1, hc.1, ?_⟩
        rcases c with c | ⟨c, _⟩ | c
        · exact absurd c hc.1
        · exact absurd c hc.2
        · rw [c]; exact hfr.2.1
      · simp at h

/-- Once the step of an entity has left it with the current step as its attack step, every strike the entity deals in a later tick comes at least its
cooldown later. -/
theorem strike_spacing {RandRange : Int → Int → Int → Int × Int} {fuel : Nat}
    {Sa Sa1 Sb S1 S2 : USimulator} {dp dp2 : Bool} {i j d : Nat} {E2 Eb : FEntityInfo}
    (hSa : Reachable RandRange Sa)
    (hpre : forwardPass fuel i 0 Sa false = some (S1, dp))
    (hstep : entityStep fuel i S1 dp = some (S2, dp2))
    (hE2 : S2.Entities[i]? = some E2)
    (hS2 : E2.StartedAttackAtStep = Sa.StepIndex)
    (hnext : NextStep fuel Sa = some Sa1) (hrun : runSteps fuel d Sa1 = some Sb)
    (hstrike : dealsStrikeAt fuel Sb j = true) (hEb : Sb.Entities[j]? = some Eb)
    (hid : Eb.Id = E2.Id) : Sa.StepIndex + Eb.TimeStepsPerAttack ≤ Sb.StepIndex := by
  have fr1 := (forwardPass_effect _ _ _ _ _ _ hpre).2
  have fr2 := fr1.trans (entityStep_effect hstep).2
  have store2 := fr2.storeKept hSa.inv.2
  -- after its step the entity is engaged since the current step
  have eng2 : EngagedSince S2.Entities E2.Id Sa.StepIndex E2.TimeStepsPerAttack := by
    intro E hE hEid
    obtain ⟨k, hk⟩ := List.getElem?_of_mem hE
    have hki : k = i := by
      by_contra hne
      exact store2.unique k i E E2 hne hk hE2 hEid
    rw [hki, hE2] at hk
    have e : E2 = E := by simpa using hk
    rw [← e]
    exact ⟨rfl, fun _ => by rw [hS2]⟩
  -- the rest of the tick
  obtain ⟨S3, dp3, hpass, hsub, hstepIdx⟩ := NextStep_parts hnext
  have hi : i < Sa.Entities.length := by
    have := (List.getElem?_eq_some_iff.1 hE2).1
    rw [fr2.length] at this
    exact this
  have hlen : Sa.Entities.length = i + ((Sa.Entities.length - i - 1) + 1) := by omega
  rw [hlen, forwardPass_split, hpre] at hpass
  simp only [Nat.zero_add] at hpass
  rw [forwardPass_succ, hstep] at hpass
  simp only at hpass
  have st3 := forwardPass_stamp _ _ _ _ _ _ hpass
  have eng3 := eng2.stamped st3 (by rw [fr2.2.1])
  have enga1 := eng3.sub hsub
  -- the later ticks
  obtain ⟨engb, hbIdx⟩ := runSteps_engaged d Sa1 Sb hrun (by omega) enga1
  -- the later strike
  obtain ⟨T1, tp, T2, tp2, E, _, hpre', _, hE, _, hET, hcool, _, _⟩ :=
    dealsStrikeAt_spec hstrike
  have frb := (forwardPass_effect _ _ _ _ _ _ hpre').2
  have stb := forwardPass_stamp _ _ _ _ _ _ hpre'
  have engT := engb.stamped stb (by omega)
  obtain ⟨E0, hE0, hE0id⟩ := frb.getElem? hE
  rw [hEb] at hE0
  have e0 : Eb = E0 := by simpa using hE0
  subst e0
  obtain ⟨t1, t2⟩ := engT E (List.getElem?_mem hE) (hE0id.symm.trans hid)
  obtain ⟨b1, _⟩ := engb Eb (List.getElem?_mem hEb) hid
  have := t2 hET
  rw [b1]
  rw [t1] at hcool
  omega

/-- Claim C10.  Attack cadence.  In the step of an entity, a `Health` changes only by a
decrement of exactly 1, of the record `IdToIndex[Target]`, only if
`StepIndex - StartedAttackAtStep ≥ TimeStepsPerAttack` held for the entity, which then has
`StartedAttackAtStep = StepIndex`.  Hence, along any run from a newly constructed
simulator, two strikes dealt by the same attacker in different ticks are at least its
`TimeStepsPerAttack` steps apart, and a strike dealt after the attacker acquired a
target at step `a` comes at step `a + TimeStepsPerAttack` or later. -/
theorem attack_cadence (RandRange : Int → Int → Int → Int × Int) (fuel : Nat) :
    (∀ (i : Nat) (S S1 : USimulator) (dp dp1 : Bool),
      entityStep fuel i S dp = some (S1, dp1) →
      ∀ (k : Nat) (A B : FEntityInfo), S.Entities[k]? = some A → S1.Entities[k]? = some B →
        B.Health ≠ A.Health →
        B.Health = A.Health - 1 ∧
        ∃ E E1 : FEntityInfo, S.Entities[i]? = some E ∧ S1.Entities[i]? = some E1 ∧
          S.IdToIndex E.Target = some k ∧
          S.StepIndex - E.StartedAttackAtStep ≥ E.TimeStepsPerAttack ∧
          E1.StartedAttackAtStep = S.StepIndex) ∧
    (∀ (Sa Sa1 Sb : USimulator) (i j d : Nat) (Ea Eb : FEntityInfo),
      Reachable RandRange Sa → dealsStrikeAt fuel Sa i = true → Sa.Entities[i]? = some Ea →
      NextStep fuel Sa = some Sa1 → runSteps fuel d Sa1 = some Sb →
      dealsStrikeAt fuel Sb j = true → Sb.Entities[j]? = some Eb → Eb.Id = Ea.Id →
      Sa.StepIndex + Eb.TimeStepsPerAttack ≤ Sb.StepIndex) ∧
    (∀ (Sa Sa1 Sb : USimulator) (i j d : Nat) (Ea Eb : FEntityInfo),
      Reachable RandRange Sa → acquiresAt fuel Sa i = true → Sa.Entities[i]? = some Ea →
      NextStep fuel Sa = some Sa1 → runSteps fuel d Sa1 = some Sb →
      dealsStrikeAt fuel Sb j = true → Sb.Entities[j]? = some Eb → Eb.Id = Ea.Id →
      Sa.StepIndex + Eb.TimeStepsPerAttack ≤ Sb.StepIndex) := by
  refine ⟨?_, ?_, ?_⟩
  · intro i S S1 dp dp1 h k A B hA hB hne
    rcases entityStep_health h with e | ⟨E, t, T, h1, h2, h3, h4, h5, h6, h7⟩
    · exfalso
      apply hne
      have := congrArg (fun l => l[k]?) e
      simp only [healths, List.getElem?_map, hA, hB, Option.map_some', Option.some.injEq] at this
      exact this
    · obtain ⟨⟨E1, hE1, _, e2, _, _⟩, hhealth⟩ := strike_facts S.Entities i t S.StepIndex E h1
      rw [← h7] at hE1 hhealth
      rcases hhealth k A B hA hB with ⟨hk, hdec⟩ | ⟨_, hsame⟩
      · exact ⟨hdec, E, E1, h1, hE1, by rw [hk]; exact h3, h6, e2⟩
      · exact absurd hsame hne
  · intro Sa Sa1 Sb i j d Ea Eb hSa hs hEa hnext hrun hs2 hEb hid
    obtain ⟨S1, dp, S2, dp2, E, E2, hpre, hstep, hE, hE2, _, _, hT2, hS2⟩ :=
      dealsStrikeAt_spec hs
    have fr := ((forwardPass_effect _ _ _ _ _ _ hpre).2).trans (entityStep_effect hstep).2
    obtain ⟨E0, hE0, hE0id⟩ := fr.getElem? hE2
    rw [hEa] at hE0
    have e0 : Ea = E0 := by simpa using hE0
    subst e0
    exact strike_spacing hSa hpre hstep hE2 hS2 hnext hrun hs2 hEb (hid.trans hE0id)
  · intro Sa Sa1 Sb i j d Ea Eb hSa hs hEa hnext hrun hs2 hEb hid
    obtain ⟨S1, dp, S2, dp2, E2, hpre, hstep, hE2, hT2, hS2⟩ := acquiresAt_spec hs
    have fr := ((forwardPass_effect _ _ _ _ _ _ hpre).2).trans (entityStep_effect hstep).2
    obtain ⟨E0, hE0, hE0id⟩ := fr.getElem? hE2
    rw [hEa] at hE0
    have e0 : Ea = E0 := by simpa using hE0
    subst e0
    exact strike_spacing hSa hpre hstep hE2 hS2 hnext hrun hs2 hEb (hid.trans hE0id)

/-! ### The cadence on a concrete run -/

theorem runSteps_add (fuel : Nat) :
    ∀ (a b : Nat) (S : USimulator),
      runSteps fuel (a + b) S =
        match runSteps fuel a S with
        | none => none
        | some S1 => runSteps fuel b S1 := by
  intro a
  induction a with
  | zero => intro b S; simp [runSteps]
  | succ a ih =>
    intro b S
    have e : a + 1 + b = (a + b) + 1 := by omega
    rw [e]
    show (match NextStep fuel S with
      | none => none
      | some S1 => runSteps fuel (a + b) S1) =
      match (match NextStep fuel S with
        | none => none
        | some S1 => runSteps fuel a S1) with
      | none => none
      | some S1 => runSteps fuel b S1
    cases NextStep fuel S with
    | none => rfl
    | some S1 => exact ih b S1

/-- The states of a concrete run follow one another by `runSteps`. -/
theorem demoState_run (Seed : Int) (K d : Nat) (h : (demoRun Seed (K + d)).isSome = true) :
    runSteps 1000 d (demoState Seed K) = some (demoState Seed (K + d)) := by
  have hrun : demoRun Seed (K + d) = some (demoState Seed (K + d)) :=
    some_getD_of_isSome h (freshSimulator ⟨5, 5⟩ 3 Seed)
  unfold demoState
  unfold demoRun at hrun ⊢
  cases hinit : Initialize demoRand 1000 0 (freshSimulator ⟨5, 5⟩ 3 Seed) with
  | none => rw [hinit] at hrun; simp at hrun
  | some S0 =>
    rw [hinit] at hrun
    simp only at hrun ⊢
    rw [runSteps_add] at hrun
    cases hK : runSteps 1000 K S0 with
    | none => rw [hK] at hrun; simp at hrun
    | some SK =>
      rw [hK] at hrun
      simp only at hrun
      simp only [Option.getD_some]
      rw [hrun]
      rw [runSteps_add, hK]
      simp only [hrun, Option.getD_some]

theorem NextStep_of_runSteps_one {fuel : Nat} {S S1 : USimulator}
    (h : runSteps fuel 1 S = some S1) : NextStep fuel S = some S1 := by
  unfold runSteps at h
  cases hN : NextStep fuel S with
  | none => rw [hN] at h; simp at h
  | some S2 =>
    rw [hN] at h
    simpa [runSteps] using h

set_option maxRecDepth 1000000 in
/-- The cadence on the 5 x 5 run with seed 1: the entity with id 0 and cooldown 23 deals
strikes in the ticks of the steps 24 and 47, exactly 23 steps apart. -/
theorem attack_cadence_witness :
    dealsStrikeAt 1000 (demoState 1 23) 0 = true ∧
    dealsStrikeAt 1000 (demoState 1 46) 0 = true ∧
    (demoState 1 23).StepIndex = 24 ∧ (demoState 1 46).StepIndex = 47 ∧
    ((demoState 1 46).Entities.getD 0 (spawnedEntity demoRand 0 0 0)).TimeStepsPerAttack = 23 ∧
    (demoState 1 23).StepIndex +
      ((demoState 1 46).Entities.getD 0 (spawnedEntity demoRand 0 0 0)).TimeStepsPerAttack ≤
        (demoState 1 46).StepIndex :=
  ⟨by decide, by decide, by decide, by decide, by decide,
    (attack_cadence demoRand 1000).2.1 (demoState 1 23) (demoState 1 24) (demoState 1 46)
      0 0 22 ((demoState 1 23).Entities.getD 0 (spawnedEntity demoRand 0 0 0))
      ((demoState 1 46).Entities.getD 0 (spawnedEntity demoRand 0 0 0))
      (demoState_reachable 1 23 (by decide)) (by decide) (by decide)
      (NextStep_of_runSteps_one (demoState_run 1 23 1 (by decide)))
      (demoState_run 1 24 22 (by decide)) (by decide) (by decide) (by decide)⟩

end HexBalls

namespace HexBalls

/-! ## The neighbour table and the distance function -/

theorem HexNeighborAt_even (P : FIntPoint) (hp : P.X % 2 = 0) :
    HexNeighborAt P 0 = ⟨P.X + 1, P.Y⟩ ∧ HexNeighborAt P 1 = ⟨P.X + 1, P.Y - 1⟩ ∧
    HexNeighborAt P 2 = ⟨P.X, P.Y - 1⟩ ∧ HexNeighborAt P 3 = ⟨P.X - 1, P.Y - 1⟩ ∧
    HexNeighborAt P 4 = ⟨P.X - 1, P.Y⟩ ∧ HexNeighborAt P 5 = ⟨P.X, P.Y + 1⟩ := by
  have hl : Int.land P.X 1 = 0 := by rw [land_one_eq]; exact hp
  refine ⟨?_, ?_, ?_, ?_, ?_, ?_⟩ <;>
    (rw [HexNeighborAt_eq P _ (by decide) (by decide), hl]
     simp [NeighborsOffsets, EvenNeighborsOffsets, FIntPoint.add]
     try omega)

theorem HexNeighborAt_odd (P : FIntPoint) (hp : P.X % 2 = 1) :
    HexNeighborAt P 0 = ⟨P.X + 1, P.Y + 1⟩ ∧ HexNeighborAt P 1 = ⟨P.X + 1, P.Y⟩ ∧
    HexNeighborAt P 2 = ⟨P.X, P.Y - 1⟩ ∧ HexNeighborAt P 3 = ⟨P.X - 1, P.Y⟩ ∧
    HexNeighborAt P 4 = ⟨P.X - 1, P.Y + 1⟩ ∧ HexNeighborAt P 5 = ⟨P.X, P.Y + 1⟩ := by
  have hl : Int.land P.X 1 = 1 := by rw [land_one_eq]; exact hp
  refine ⟨?_, ?_, ?_, ?_, ?_, ?_⟩ <;>
    (rw [HexNeighborAt_eq P _ (by decide) (by decide), hl]
     simp [NeighborsOffsets, OddNeigborsOffsets, FIntPoint.add]
     try omega)

theorem HexNeighborAt_outside (P : FIntPoint) (d : Int) (h : d < 0 ∨ 5 < d) :
    HexNeighborAt P d = ⟨0, 0⟩ := by
  unfold HexNeighborAt
  rw [if_pos (by omega)]

theorem HexDistance_one_cases (P Q : FIntPoint) (h : HexDistance P Q = 1) :
    (P.X % 2 = 0 ∧
      ((Q.X = P.X + 1 ∧ Q.Y = P.Y) ∨ (Q.X = P.X + 1 ∧ Q.Y = P.Y - 1) ∨
       (Q.X = P.X ∧ Q.Y = P.Y - 1) ∨ (Q.X = P.X - 1 ∧ Q.Y = P.Y - 1) ∨
       (Q.X = P.X - 1 ∧ Q.Y = P.Y) ∨ (Q.X = P.X ∧ Q.Y = P.Y + 1))) ∨
    (P.X % 2 = 1 ∧
      ((Q.X = P.X + 1 ∧ Q.Y = P.Y + 1) ∨ (Q.X = P.X + 1 ∧ Q.Y = P.Y) ∨
       (Q.X = P.X ∧ Q.Y = P.Y - 1) ∨ (Q.X = P.X - 1 ∧ Q.Y = P.Y) ∨
       (Q.X = P.X - 1 ∧ Q.Y = P.Y + 1) ∨ (Q.X = P.X ∧ Q.Y = P.Y + 1))) := by
  rw [HexDistance_eq] at h
  simp only [Int.abs_eq_natAbs] at h
  obtain ⟨dx, hdx⟩ : ∃ dx, Q.X = P.X + dx := ⟨Q.X - P.X, by ring⟩
  obtain ⟨dy, hdy⟩ : ∃ dy, Q.Y = P.Y + dy := ⟨Q.Y - P.Y, by ring⟩
  rw [hdx, hdy] at h ⊢
  have bx : -1 ≤ dx ∧ dx ≤ 1 := by omega
  have by1 : -1 ≤ dy ∧ dy ≤ 1 := by omega
  obtain ⟨bx0, bx1⟩ := bx
  obtain ⟨by0, by2⟩ := by1
  have hpar : P.X % 2 = 0 ∨ P.X % 2 = 1 := by omega
  interval_cases dx <;> interval_cases dy <;> rcases hpar with hp | hp <;>
    first
    | (exfalso; omega)
    | (simp [hp]; done)
    | (simp [hp]; omega)

theorem HexNeighborAt_inj (P : FIntPoint) (d e : Int) (hd0 : 0 ≤ d) (hd5 : d ≤ 5)
    (he0 : 0 ≤ e) (he5 : e ≤ 5) (h : HexNeighborAt P d = HexNeighborAt P e) : d = e := by
  have hpar : P.X % 2 = 0 ∨ P.X % 2 = 1 := by omega
  rcases hpar with hp | hp
  · obtain ⟨t0, t1, t2, t3, t4, t5⟩ := HexNeighborAt_even P hp
    interval_cases d <;> interval_cases e <;>
      first
      | rfl
      | (exfalso
         simp only [t0, t1, t2, t3, t4, t5, FIntPoint.mk.injEq] at h
         omega)
  · obtain ⟨t0, t1, t2, t3, t4, t5⟩ := HexNeighborAt_odd P hp
    interval_cases d <;> interval_cases e <;>
      first
      | rfl
      | (exfalso
         simp only [t0, t1, t2, t3, t4, t5, FIntPoint.mk.injEq] at h
         omega)

theorem HexDistance_one_neighbor (P Q : FIntPoint) (h : HexDistance P Q = 1) :
    ∃ d : Int, (0 ≤ d ∧ d ≤ 5) ∧ Q = HexNeighborAt P d := by
  obtain ⟨qx, qy⟩ := Q
  rcases HexDistance_one_cases P ⟨qx, qy⟩ h with ⟨hp, hc⟩ | ⟨hp, hc⟩
  · obtain ⟨t0, t1, t2, t3, t4, t5⟩ := HexNeighborAt_even P hp
    simp only at hc
    rcases hc with ⟨hx, hy⟩ | ⟨hx, hy⟩ | ⟨hx, hy⟩ | ⟨hx, hy⟩ | ⟨hx, hy⟩ | ⟨hx, hy⟩
    · exact ⟨0, ⟨by decide, by decide⟩, by rw [t0, hx, hy]⟩
    · exact ⟨1, ⟨by decide, by decide⟩, by rw [t1, hx, hy]⟩
    · exact ⟨2, ⟨by decide, by decide⟩, by rw [t2, hx, hy]⟩
    · exact ⟨3, ⟨by decide, by decide⟩, by rw [t3, hx, hy]⟩
    · exact ⟨4, ⟨by decide, by decide⟩, by rw [t4, hx, hy]⟩
    · exact ⟨5, ⟨by decide, by decide⟩, by rw [t5, hx, hy]⟩
  · obtain ⟨t0, t1, t2, t3, t4, t5⟩ := HexNeighborAt_odd P hp
    simp only at hc
    rcases hc with ⟨hx, hy⟩ | ⟨hx, hy⟩ | ⟨hx, hy⟩ | ⟨hx, hy⟩ | ⟨hx, hy⟩ | ⟨hx, hy⟩
    · exact ⟨0, ⟨by decide, by decide⟩, by rw [t0, hx, hy]⟩
    · exact ⟨1, ⟨by decide, by decide⟩, by rw [t1, hx, hy]⟩
    · exact ⟨2, ⟨by decide, by decide⟩, by rw [t2, hx, hy]⟩
    · exact ⟨3, ⟨by decide, by decide⟩, by rw [t3, hx, hy]⟩
    · exact ⟨4, ⟨by decide, by decide⟩, by rw [t4, hx, hy]⟩
    · exact ⟨5, ⟨by decide, by decide⟩, by rw [t5, hx, hy]⟩

end HexBalls

namespace HexBalls

/-! ## The step of one entity, case by case -/

/-- The outcomes of lines 199-216. -/
theorem targetPhase_cases {i : Nat} {S S1 : USimulator} {b : Bool}
    (h : targetPhase i S = some (S1, b)) :
    ∃ E : FEntityInfo, S.Entities[i]? = some E ∧
    ((b = true ∧ E.Target ≠ INDEX_NONE ∧ ∃ (t : Nat) (T : FEntityInfo),
        S.IdToIndex E.Target = some t ∧ S.Entities[t]? = some T ∧ T.Health > 0 ∧
        HexDistance (S.ToPoint E.CurrentCellIndex) (S.ToPoint T.CurrentCellIndex)
          ≤ AttackDistance ∧
        ((S.StepIndex - E.StartedAttackAtStep ≥ E.TimeStepsPerAttack ∧
            S1 = { S with Entities := modifyAt (modifyAt S.Entities t (fun E => { E with Health := E.Health - 1 })) i (fun E => { E with StartedAttackAtStep := S.StepIndex }) }) ∨
         (¬ S.StepIndex - E.StartedAttackAtStep ≥ E.TimeStepsPerAttack ∧ S1 = S))) ∨
     (b = false ∧ E.Target = INDEX_NONE ∧ S1 = S) ∨
     (b = false ∧ E.Target ≠ INDEX_NONE ∧
        (S.IdToIndex E.Target = none ∨ ∃ (t : Nat) (T : FEntityInfo),
          S.IdToIndex E.Target = some t ∧ S.Entities[t]? = some T ∧
          ¬ (T.Health > 0 ∧
            HexDistance (S.ToPoint E.CurrentCellIndex) (S.ToPoint T.CurrentCellIndex)
              ≤ AttackDistance)) ∧
        S1 = { S with Entities := S.Entities.set i { E with Target := INDEX_NONE } })) := by
  unfold targetPhase at h
  split at h
  · simp at h
  · rename_i Entity hE
    refine ⟨Entity, hE, ?_⟩
    split at h
    · rename_i hT
      split at h
      · rename_i hnone
        simp only [Option.some.injEq, Prod.mk.injEq] at h
        obtain ⟨rfl, rfl⟩ := h
        right; right
        exact ⟨rfl, hT, Or.inl hnone, by rw [modifyAt_of_some hE]⟩
      · rename_i t ht
        split at h
        · simp at h
        · rename_i TargetEntity hTE
          simp only at h
          split at h
          · rename_i hok
            left
            split at h
            · rename_i hcd
              simp only [Option.some.injEq, Prod.mk.injEq] at h
              obtain ⟨rfl, rfl⟩ := h
              exact ⟨rfl, hT, t, TargetEntity, ht, hTE, hok.1, hok.2, Or.inl ⟨hcd, rfl⟩⟩
            · rename_i hcd
              simp only [Option.some.injEq, Prod.mk.injEq] at h
              obtain ⟨rfl, rfl⟩ := h
              exact ⟨rfl, hT, t, TargetEntity, ht, hTE, hok.1, hok.2, Or.inr ⟨hcd, rfl⟩⟩
          · rename_i hok
            simp only [Option.some.injEq, Prod.mk.injEq] at h
            obtain ⟨rfl, rfl⟩ := h
            right; right
            exact ⟨rfl, hT, Or.inr ⟨t, TargetEntity, ht, hTE, hok⟩,
              by rw [modifyAt_of_some hE]⟩
    · rename_i hT
      simp only [Option.some.injEq, Prod.mk.injEq] at h
      obtain ⟨rfl, rfl⟩ := h
      right; left
      exact ⟨rfl, by simpa using hT, rfl⟩

/-- The outcomes of lines 218-272. -/
theorem movePhase_cases {fuel i : Nat} {S S1 : USimulator}
    (h : movePhase fuel i S = some S1) :
    ∃ E : FEntityInfo, S.Entities[i]? = some E ∧
    ((E.CurrentCellIndex ≠ E.NextCellIndex ∧
        ¬ S.StepIndex - E.StartedMoveAtStep ≥ E.TicksPerMove ∧ S1 = S) ∨
     (E.CurrentCellIndex ≠ E.NextCellIndex ∧
        S.StepIndex - E.StartedMoveAtStep ≥ E.TicksPerMove ∧
        S1 = { S with Occupied := setAt (setAt S.Occupied E.CurrentCellIndex false) E.NextCellIndex true, Entities := S.Entities.set i (arrived E S.StepIndex) }) ∨
     (E.CurrentCellIndex = E.NextCellIndex ∧
        findClosestTarget S.MapSize i E.NextCellIndex
          (S.Entities.set i (arrived E S.StepIndex)) 0 INDEX_NONE INT32_MAX = INDEX_NONE ∧
        S1 = { S with Entities := S.Entities.set i (arrived E S.StepIndex) }) ∨
     (E.CurrentCellIndex = E.NextCellIndex ∧ ∃ (sel : Int) (t : Nat) (T : FEntityInfo),
        sel = findClosestTarget S.MapSize i E.NextCellIndex
          (S.Entities.set i (arrived E S.StepIndex)) 0 INDEX_NONE INT32_MAX ∧
        sel ≠ INDEX_NONE ∧ S.IdToIndex sel = some t ∧
        (S.Entities.set i (arrived E S.StepIndex))[t]? = some T ∧
        ((HexDistance (S.ToPoint E.NextCellIndex) (S.ToPoint T.CurrentCellIndex)
              ≤ AttackDistance ∧
            S1 = { S with Entities := S.Entities.set i { arrived E S.StepIndex with NextCellIndex := E.NextCellIndex, Target := sel, StartedAttackAtStep := S.StepIndex } }) ∨
         (¬ HexDistance (S.ToPoint E.NextCellIndex) (S.ToPoint T.CurrentCellIndex)
              ≤ AttackDistance ∧
          ∃ (Next : Int) (D : FDijkstraLookup),
            ShortestPath fuel S.MapSize S.Occupied E.NextCellIndex T.CurrentCellIndex
              = some (Next, D) ∧
            ((Next = INDEX_NONE ∧
                S1 = { S with Dijkstra := D, Entities := S.Entities.set i { arrived E S.StepIndex with StartedAttackAtStep := INDEX_NONE, Target := INDEX_NONE, NextCellIndex := E.NextCellIndex } }) ∨
             (Next ≠ INDEX_NONE ∧
                S1 = { S with Dijkstra := D, Occupied := setAt S.Occupied Next true, Entities := S.Entities.set i { arrived E S.StepIndex with StartedAttackAtStep := INDEX_NONE, Target := INDEX_NONE, NextCellIndex := Next } })))))) := by
  unfold movePhase at h
  split at h
  · simp at h
  · rename_i Entity hE
    refine ⟨Entity, hE, ?_⟩
    simp only at h
    split at h
    · rename_i hgo
      split at h
      · rename_i hmoving
        simp only [Option.some.injEq] at h
        subst h
        right; left
        refine ⟨hmoving, ?_, rfl⟩
        rcases hgo with hgo | hgo
        · exact absurd hgo hmoving
        · exact hgo
      · rename_i hstill
        have hcur : Entity.CurrentCellIndex = Entity.NextCellIndex := by
          by_contra hx
          exact hstill hx
        right; right
        split at h
        · rename_i hsel
          right
          split at h
          · simp at h
          · rename_i t ht
            split at h
            · simp at h
            · rename_i TargetEntity hT
              refine ⟨hcur, _, t, TargetEntity, rfl, hsel, ht, hT, ?_⟩
              split at h
              · rename_i hnear
                simp only [Option.some.injEq] at h
                subst h
                left
                refine ⟨hnear, ?_⟩
                rw [List.set_set]
                rfl
              · rename_i hfar
                right
                split at h
                · simp at h
                · rename_i Next D hsp
                  refine ⟨hfar, Next, D, hsp, ?_⟩
                  split at h
                  · rename_i hNext
                    simp only [Option.some.injEq] at h
                    subst h
                    left
                    refine ⟨hNext, ?_⟩
                    rw [List.set_set]
                    rfl
                  · rename_i hNext
                    simp only [Option.some.injEq] at h
                    subst h
                    right
                    refine ⟨hNext, ?_⟩
                    rw [List.set_set]
        · rename_i hsel
          simp only [Option.some.injEq] at h
          subst h
          left
          exact ⟨hcur, by simpa using hsel, rfl⟩
    · rename_i hgo
      simp only [Option.some.injEq] at h
      subst h
      left
      refine ⟨fun e => hgo (Or.inl e), fun e => hgo (Or.inr e), rfl⟩

/-- The outcomes of the body of the forward pass (lines 188-272). -/
theorem entityStep_cases {fuel i : Nat} {S S1 : USimulator} {dp dp1 : Bool}
    (h : entityStep fuel i S dp = some (S1, dp1)) :
    ∃ E : FEntityInfo, S.Entities[i]? = some E ∧
    ((E.Health ≤ 0 ∧ E.DestroyAt = INDEX_NONE ∧ dp1 = dp ∧
        S1 = { S with Entities := S.Entities.set i { E with DestroyAt := S.StepIndex + DestroyDelay } }) ∨
     (E.Health ≤ 0 ∧ E.DestroyAt ≠ INDEX_NONE ∧ S1 = S ∧
        dp1 = (decide (E.DestroyAt ≥ S.StepIndex) || dp)) ∨
     (E.Health > 0 ∧ dp1 = dp ∧ ∃ (Sm : USimulator) (b : Bool),
        targetPhase i S = some (Sm, b) ∧
        ((b = true ∧ S1 = Sm) ∨ (b = false ∧ movePhase fuel i Sm = some S1)))) := by
  unfold entityStep at h
  split at h
  · simp at h
  · rename_i Entity hE
    refine ⟨Entity, hE, ?_⟩
    split at h
    · rename_i hdead
      split at h
      · rename_i hfresh
        simp only [Option.some.injEq, Prod.mk.injEq] at h
        obtain ⟨rfl, rfl⟩ := h
        exact Or.inl ⟨hdead, hfresh, rfl, rfl⟩
      · rename_i hstamped
        right; left
        split at h
        · rename_i hdue
          simp only [Option.some.injEq, Prod.mk.injEq] at h
          obtain ⟨rfl, rfl⟩ := h
          exact ⟨hdead, hstamped, rfl, by simp [hdue]⟩
        · rename_i hdue
          simp only [Option.some.injEq, Prod.mk.injEq] at h
          obtain ⟨rfl, rfl⟩ := h
          exact ⟨hdead, hstamped, rfl, by simp [hdue]⟩
    · rename_i halive
      right; right
      refine ⟨by omega, ?_⟩
      split at h
      · simp at h
      · rename_i S2 ht
        simp only [Option.some.injEq, Prod.mk.injEq] at h
        obtain ⟨rfl, rfl⟩ := h
        exact ⟨rfl, S2, true, ht, Or.inl ⟨rfl, rfl⟩⟩
      · rename_i S2 ht
        split at h
        · simp at h
        · rename_i S3 hm
          simp only [Option.some.injEq, Prod.mk.injEq] at h
          obtain ⟨rfl, rfl⟩ := h
          exact ⟨rfl, S2, false, ht, Or.inr ⟨rfl, hm⟩⟩

theorem set_getElem?_self {Es : List FEntityInfo} {i : Nat} {E : FEntityInfo}
    (hE : Es[i]? = some E) : Es.set i E = Es := by
  apply List.ext_getElem?
  intro k
  by_cases hk : i = k
  · subst hk
    rw [List.getElem?_set_self (List.getElem?_eq_some_iff.1 hE).1, hE]
  · rw [List.getElem?_set_ne hk]

theorem clearTarget_of_none {E : FEntityInfo} (h : E.Target = INDEX_NONE) :
    { E with Target := INDEX_NONE } = E := by
  cases E
  simp only at h
  subst h
  rfl

/-- When lines 199-216 fall through to line 218, the state is the old one with the target
of the entity cleared. -/
theorem targetPhase_released {i : Nat} {S Sm : USimulator} {E : FEntityInfo}
    (h : targetPhase i S = some (Sm, false)) (hE : S.Entities[i]? = some E) :
    Sm = { S with Entities := S.Entities.set i { E with Target := INDEX_NONE } } ∧
    (E.Target = INDEX_NONE ∨ S.IdToIndex E.Target = none ∨ ∃ (t : Nat) (T : FEntityInfo),
      S.IdToIndex E.Target = some t ∧ S.Entities[t]? = some T ∧
      ¬ (T.Health > 0 ∧
        HexDistance (S.ToPoint E.CurrentCellIndex) (S.ToPoint T.CurrentCellIndex)
          ≤ AttackDistance)) := by
  obtain ⟨E', hE', hc⟩ := targetPhase_cases h
  have e : E' = E := Option.some.inj (hE'.symm.trans hE)
  subst e
  rcases hc with ⟨hb, _⟩ | ⟨_, hT, rfl⟩ | ⟨_, _, hrel, rfl⟩
  · exact absurd hb (by decide)
  · refine ⟨?_, Or.inl hT⟩
    rw [clearTarget_of_none hT, set_getElem?_self hE]
  · exact ⟨rfl, Or.inr hrel⟩

/-- The outcomes of the step of an alive entity that is released from (or has no) target,
relative to the state before the step; `E0` is the record with the target cleared. -/
theorem movePhase_released {fuel i : Nat} {S S1 : USimulator} {E E0 : FEntityInfo}
    (hE : S.Entities[i]? = some E) (hE0 : E0 = { E with Target := INDEX_NONE })
    (h : movePhase fuel i { S with Entities := S.Entities.set i E0 } = some S1) :
    (E.CurrentCellIndex ≠ E.NextCellIndex ∧
        ¬ S.StepIndex - E.StartedMoveAtStep ≥ E.TicksPerMove ∧
        S1 = { S with Entities := S.Entities.set i E0 }) ∨
     (E.CurrentCellIndex ≠ E.NextCellIndex ∧
        S.StepIndex - E.StartedMoveAtStep ≥ E.TicksPerMove ∧
        S1 = { S with Occupied := setAt (setAt S.Occupied E.CurrentCellIndex false) E.NextCellIndex true, Entities := S.Entities.set i (arrived E0 S.StepIndex) }) ∨
     (E.CurrentCellIndex = E.NextCellIndex ∧
        findClosestTarget S.MapSize i E.NextCellIndex
          (S.Entities.set i (arrived E0 S.StepIndex)) 0 INDEX_NONE INT32_MAX = INDEX_NONE ∧
        S1 = { S with Entities := S.Entities.set i (arrived E0 S.StepIndex) }) ∨
     (E.CurrentCellIndex = E.NextCellIndex ∧ ∃ (sel : Int) (t : Nat) (T : FEntityInfo),
        sel = findClosestTarget S.MapSize i E.NextCellIndex
          (S.Entities.set i (arrived E0 S.StepIndex)) 0 INDEX_NONE INT32_MAX ∧
        sel ≠ INDEX_NONE ∧ S.IdToIndex sel = some t ∧
        (S.Entities.set i (arrived E0 S.StepIndex))[t]? = some T ∧
        ((HexDistance (S.ToPoint E.NextCellIndex) (S.ToPoint T.CurrentCellIndex)
              ≤ AttackDistance ∧
            S1 = { S with Entities := S.Entities.set i { arrived E0 S.StepIndex with NextCellIndex := E.NextCellIndex, Target := sel, StartedAttackAtStep := S.StepIndex } }) ∨
         (¬ HexDistance (S.ToPoint E.NextCellIndex) (S.ToPoint T.CurrentCellIndex)
              ≤ AttackDistance ∧
          ∃ (Next : Int) (D : FDijkstraLookup),
            ShortestPath fuel S.MapSize S.Occupied E.NextCellIndex T.CurrentCellIndex
              = some (Next, D) ∧
            ((Next = INDEX_NONE ∧
                S1 = { S with Dijkstra := D, Entities := S.Entities.set i { arrived E0 S.StepIndex with StartedAttackAtStep := INDEX_NONE, Target := INDEX_NONE, NextCellIndex := E.NextCellIndex } }) ∨
             (Next ≠ INDEX_NONE ∧
                S1 = { S with Dijkstra := D, Occupied := setAt S.Occupied Next true, Entities := S.Entities.set i { arrived E0 S.StepIndex with StartedAttackAtStep := INDEX_NONE, Target := INDEX_NONE, NextCellIndex := Next } }))))) := by
  have hlt : i < S.Entities.length := (List.getElem?_eq_some_iff.1 hE).1
  obtain ⟨E', hE', hc⟩ := movePhase_cases h
  have hE'' : (S.Entities.set i E0)[i]? = some E' := hE'
  rw [List.getElem?_set_self hlt] at hE''
  have e : E0 = E' := Option.some.inj hE''
  subst e
  subst hE0
  rcases hc with ⟨h1, h2, rfl⟩ | ⟨h1, h2, rfl⟩ | ⟨h1, h2, rfl⟩ | ⟨h1, sel, t, T, hs, hn, ht, hT, hc⟩
  · exact Or.inl ⟨h1, h2, rfl⟩
  · refine Or.inr (Or.inl ⟨h1, h2, ?_⟩)
    show ({ S with Occupied := _, Entities := (S.Entities.set i _).set i _ } : USimulator) = _
    rw [List.set_set]
  · refine Or.inr (Or.inr (Or.inl ⟨h1, ?_, ?_⟩))
    · have h2' := h2
      simp only [List.set_set] at h2'
      exact h2'
    · show ({ S with Entities := (S.Entities.set i _).set i _ } : USimulator) = _
      rw [List.set_set]
  · refine Or.inr (Or.inr (Or.inr ⟨h1, sel, t, T, ?_, hn, ht, ?_, ?_⟩))
    · rw [hs]; simp only [List.set_set]
    · have hT' := hT
      simp only [List.set_set] at hT'
      exact hT'
    · rcases hc with ⟨hd, rfl⟩ | ⟨hd, Next, D, hsp, hc⟩
      · refine Or.inl ⟨hd, ?_⟩
        show ({ S with Entities := (S.Entities.set i _).set i _ } : USimulator) = _
        rw [List.set_set]
      · refine Or.inr ⟨hd, Next, D, hsp, ?_⟩
        rcases hc with ⟨hN, rfl⟩ | ⟨hN, rfl⟩
        · refine Or.inl ⟨hN, ?_⟩
          show ({ S with Dijkstra := D, Entities := (S.Entities.set i _).set i _ } : USimulator) = _
          rw [List.set_set]
        · refine Or.inr ⟨hN, ?_⟩
          show ({ S with Dijkstra := D, Occupied := _, Entities := (S.Entities.set i _).set i _ } : USimulator) = _
          rw [List.set_set]

/-- The records after a strike (lines 207-208): the target at `t` loses one health point
and the attacker at `i` gets its attack step stamped; nothing else changes. -/
theorem strike_getElem? (Es : List FEntityInfo) (i t : Nat) (s : Int) (k : Nat) :
    (modifyAt (modifyAt Es t (fun E => { E with Health := E.Health - 1 })) i
        (fun E => { E with StartedAttackAtStep := s }))[k]? =
      (Es[k]?).map (fun A => { A with Health := if k = t then A.Health - 1 else A.Health, StartedAttackAtStep := if k = i then s else A.StartedAttackAtStep }) := by
  rw [modifyAt_getElem?, modifyAt_getElem?]
  cases hA : Es[k]? with
  | none => by_cases hi : k = i <;> by_cases ht : k = t <;> simp [hi, ht]
  | some A =>
    cases A
    by_cases hi : k = i
    · subst hi
      by_cases ht : k = t
      · subst ht; simp [hA]
      · simp [hA, ht]
    · by_cases ht : k = t
      · subst ht; simp [hA, hi]
      · simp [hA, hi, ht]

/-- A returned first move is an in-bounds cell different from `From`. -/
theorem PathStep_bounds {M : FIntPoint} {Occ : Int → Bool} {To U V : Int}
    (h : PathStep M Occ To U V) :
    0 ≤ V ∧ V < M.X * M.Y ∧ IsValid M (ToPoint V M) = true ∧ V ≠ U := by
  obtain ⟨Ni, h0, h5, hval, hv⟩ := (mem_hexNeighbors M U V).1 h.1
  have hb := ToIndex_bounds M _ hval
  refine ⟨by rw [hv]; exact hb.1, by rw [hv]; exact hb.2, ?_, ?_⟩
  · rw [hv, ToPoint_ToIndex M _ hval]; exact hval
  · intro e
    have hd := PathStep_distance h
    rw [e, (HexDistance_eq_zero_iff _ _).2 rfl] at hd
    exact absurd hd (by decide)

/-- The only step that changes the `NextCellIndex` of the entity is the reservation of
lines 264-269: the new value is what `ShortestPath` returned for a target that is not
within attack distance, and its occupancy bit is the one bit the step sets. -/
theorem entityStep_reserves {fuel i : Nat} {S S1 : USimulator} {dp dp1 : Bool}
    (h : entityStep fuel i S dp = some (S1, dp1)) {E E1 : FEntityInfo}
    (hE : S.Entities[i]? = some E) (hE1 : S1.Entities[i]? = some E1)
    (hne : E1.NextCellIndex ≠ E.NextCellIndex) :
    E.Health > 0 ∧ E.CurrentCellIndex = E.NextCellIndex ∧
    E1.CurrentCellIndex = E.CurrentCellIndex ∧ E1.NextCellIndex ≠ INDEX_NONE ∧
    S1.Occupied = setAt S.Occupied E1.NextCellIndex true ∧
    ∃ (To : Int) (D : FDijkstraLookup),
      ShortestPath fuel S.MapSize S.Occupied E.CurrentCellIndex To
        = some (E1.NextCellIndex, D) ∧
      ¬ HexDistance (ToPoint E.CurrentCellIndex S.MapSize) (ToPoint To S.MapSize)
        ≤ AttackDistance := by
  have hlt : i < S.Entities.length := (List.getElem?_eq_some_iff.1 hE).1
  obtain ⟨E', hE', hc⟩ := entityStep_cases h
  have e : E = E' := Option.some.inj (hE.symm.trans hE')
  subst e
  rcases hc with ⟨_, _, _, rfl⟩ | ⟨_, _, rfl, _⟩ | ⟨halive, _, Sm, b, ht, hc⟩
  · exfalso
    have hE1' : (S.Entities.set i _)[i]? = some E1 := hE1
    rw [List.getElem?_set_self hlt] at hE1'
    have e := Option.some.inj hE1'
    subst e
    exact hne rfl
  · exfalso
    have e := Option.some.inj (hE1.symm.trans hE)
    subst e
    exact hne rfl
  · rcases hc with ⟨rfl, rfl⟩ | ⟨rfl, hm⟩
    · exfalso
      obtain ⟨E', hE', hc⟩ := targetPhase_cases ht
      have e2 : E = E' := Option.some.inj (hE.symm.trans hE')
      subst e2
      rcases hc with ⟨_, _, t, T, _, _, _, _, hc⟩ | ⟨hb, _⟩ | ⟨hb, _⟩
      · rcases hc with ⟨_, rfl⟩ | ⟨_, rfl⟩
        · have hE1' : (modifyAt (modifyAt S.Entities t (fun E => { E with Health := E.Health - 1 })) i
              (fun E => { E with StartedAttackAtStep := S.StepIndex }))[i]? = some E1 := hE1
          rw [strike_getElem?, hE] at hE1'
          have e := Option.some.inj hE1'
          subst e
          exact hne rfl
        · have e := Option.some.inj (hE1.symm.trans hE)
          subst e
          exact hne rfl
      · exact absurd hb (by decide)
      · exact absurd hb (by decide)
    · obtain ⟨rfl, _⟩ := targetPhase_released ht hE
      rcases movePhase_released hE rfl hm with
        ⟨_, _, rfl⟩ | ⟨_, _, rfl⟩ | ⟨_, _, rfl⟩ | ⟨hst, sel, t, T, _, _, _, hT, hc⟩
      · exfalso
        have hE1' : (S.Entities.set i _)[i]? = some E1 := hE1
        rw [List.getElem?_set_self hlt] at hE1'
        have e := Option.some.inj hE1'
        subst e
        exact hne rfl
      · exfalso
        have hE1' : (S.Entities.set i _)[i]? = some E1 := hE1
        rw [List.getElem?_set_self hlt] at hE1'
        have e := Option.some.inj hE1'
        subst e
        exact hne rfl
      · exfalso
        have hE1' : (S.Entities.set i _)[i]? = some E1 := hE1
        rw [List.getElem?_set_self hlt] at hE1'
        have e := Option.some.inj hE1'
        subst e
        exact hne rfl
      · rcases hc with ⟨_, rfl⟩ | ⟨hfar, Next, D, hsp, hc⟩
        · exfalso
          have hE1' : (S.Entities.set i _)[i]? = some E1 := hE1
          rw [List.getElem?_set_self hlt] at hE1'
          have e := Option.some.inj hE1'
          subst e
          exact hne rfl
        · rcases hc with ⟨_, rfl⟩ | ⟨hN, rfl⟩
          · exfalso
            have hE1' : (S.Entities.set i _)[i]? = some E1 := hE1
            rw [List.getElem?_set_self hlt] at hE1'
            have e := Option.some.inj hE1'
            subst e
            exact hne rfl
          · have hE1' : (S.Entities.set i _)[i]? = some E1 := hE1
            rw [List.getElem?_set_self hlt] at hE1'
            have e := Option.some.inj hE1'
            subst e
            refine ⟨halive, hst, hst.symm, hN, rfl, T.CurrentCellIndex, D, ?_, ?_⟩
            · rw [hst]; exact hsp
            · rw [hst]; exact hfar

/-! ## Safe reservation -/

/-- C19.  Safe reservation.  Whenever `ShortestPath From To` returns a cell `c` other than
`INDEX_NONE` for cells at hex distance at least 2, `c` is in-bounds, is a hex neighbour of
`From`, differs from `From` and from `To`, and `Occupied[c]` is false at the time of the
call.  Hence, in every run from `Initialize`, when the step of an entity in `NextStep`
changes its `NextCellIndex` (the reservation of lines 264-269), the new cell is such a
result, its bit was clear before the step and is set after it, and no stored entity held
the cell, as current or as next cell, when the call was made. -/
theorem safe_reservation (RandRange : Int → Int → Int → Int × Int) (fuel : Nat) :
    (∀ (MapSize : FIntPoint) (Occupied : Int → Bool) (From To c : Int) (D : FDijkstraLookup),
      ShortestPath fuel MapSize Occupied From To = some (c, D) → c ≠ INDEX_NONE →
      HexDistance (ToPoint From MapSize) (ToPoint To MapSize) ≥ 2 →
      0 ≤ c ∧ c < MapSize.X * MapSize.Y ∧ IsValid MapSize (ToPoint c MapSize) = true ∧
      c ∈ hexNeighbors MapSize From ∧ c ≠ From ∧ c ≠ To ∧ Occupied c = false) ∧
    (∀ (S Sa Sb : USimulator) (i : Nat) (dpa dpb : Bool) (Ea Eb : FEntityInfo),
      Reachable RandRange S → forwardPass fuel i 0 S false = some (Sa, dpa) →
      entityStep fuel i Sa dpa = some (Sb, dpb) → Sa.Entities[i]? = some Ea →
      Sb.Entities[i]? = some Eb → Eb.NextCellIndex ≠ Ea.NextCellIndex →
      (∃ (To : Int) (D : FDijkstraLookup),
        ShortestPath fuel Sa.MapSize Sa.Occupied Ea.CurrentCellIndex To
          = some (Eb.NextCellIndex, D) ∧
        HexDistance (ToPoint Ea.CurrentCellIndex Sa.MapSize) (ToPoint To Sa.MapSize) ≥ 2) ∧
      Eb.NextCellIndex ≠ INDEX_NONE ∧
      Sa.Occupied Eb.NextCellIndex = false ∧ Sb.Occupied Eb.NextCellIndex = true ∧
      ∀ B ∈ Sa.Entities,
        B.CurrentCellIndex ≠ Eb.NextCellIndex ∧ B.NextCellIndex ≠ Eb.NextCellIndex) := by
  have partA : ∀ (MapSize : FIntPoint) (Occupied : Int → Bool) (From To c : Int)
      (D : FDijkstraLookup),
      ShortestPath fuel MapSize Occupied From To = some (c, D) → c ≠ INDEX_NONE →
      HexDistance (ToPoint From MapSize) (ToPoint To MapSize) ≥ 2 →
      0 ≤ c ∧ c < MapSize.X * MapSize.Y ∧ IsValid MapSize (ToPoint c MapSize) = true ∧
      c ∈ hexNeighbors MapSize From ∧ c ≠ From ∧ c ≠ To ∧ Occupied c = false := by
    intro M Occ From To c D hsp hc hfar
    have hs := ShortestPath_first_step hsp hc
    have hb := PathStep_bounds hs
    have hd := PathStep_distance hs
    have hto : c ≠ To := by
      intro e
      rw [e] at hd
      omega
    refine ⟨hb.1, hb.2.1, hb.2.2.1, hs.1, hb.2.2.2, hto, ?_⟩
    rcases hs.2 with e | e
    · exact absurd e hto
    · exact e
  refine ⟨partA, ?_⟩
  intro S Sa Sb i dpa dpb Ea Eb hS hpass hstep hEa hEb hne
  have hcells : CellsInv Sa.Entities Sa.Occupied :=
    (forwardPass_effect _ _ _ _ _ _ hpass).1 (Reachable.inv hS).1
  obtain ⟨_, _, _, hN, hocc, To, D, hsp, hfar⟩ := entityStep_reserves hstep hEa hEb hne
  have hfar2 : HexDistance (ToPoint Ea.CurrentCellIndex Sa.MapSize) (ToPoint To Sa.MapSize) ≥ 2 := by
    unfold AttackDistance at hfar
    omega
  have hfree := (partA _ _ _ _ _ _ hsp hN hfar2).2.2.2.2.2.2
  refine ⟨⟨To, D, hsp, hfar2⟩, hN, hfree, ?_, ?_⟩
  · rw [hocc]; simp [setAt]
  · intro B hB
    obtain ⟨k, hk⟩ := List.getElem?_of_mem hB
    have hheld := hcells.held k B hk
    constructor
    · intro e; rw [e, hfree] at hheld; exact absurd hheld.1 (by decide)
    · intro e; rw [e, hfree] at hheld; exact absurd hheld.2 (by decide)

set_option maxRecDepth 1000000 in
theorem safe_reservation_witness :
    ∃ (c : Int) (D : FDijkstraLookup),
      ShortestPath 100 ⟨5, 5⟩ (occupiedCells [0, 4, 2, 7, 17, 22]) 0 4 = some (c, D) ∧
      c = 5 ∧ HexDistance (ToPoint 0 ⟨5, 5⟩) (ToPoint 4 ⟨5, 5⟩) ≥ 2 ∧
      (0 ≤ c ∧ c < 5 * 5 ∧ IsValid ⟨5, 5⟩ (ToPoint c ⟨5, 5⟩) = true ∧
        c ∈ hexNeighbors ⟨5, 5⟩ 0 ∧ c ≠ 0 ∧ c ≠ 4 ∧
        occupiedCells [0, 4, 2, 7, 17, 22] c = false) := by
  have h := some_getD_of_isSome
    (o := ShortestPath 100 ⟨5, 5⟩ (occupiedCells [0, 4, 2, 7, 17, 22]) 0 4) (by decide)
    (INDEX_NONE, dijkstraInit 0)
  exact ⟨_, _, h, by decide, by decide,
    (safe_reservation demoRand 100).1 _ _ _ _ _ _ h (by decide) (by decide)⟩

end HexBalls

namespace HexBalls

/-! ## `RandomFreeNeighbor` -/

theorem randomFreeNeighborLoop_eq (S : USimulator) (O : FIntPoint) (Ni : Int) (Count : Nat) :
    randomFreeNeighborLoop S O Ni (Count + 1) =
      if IsValid S.MapSize (HexNeighborAt O Ni) && !S.IsOccupiedAt (HexNeighborAt O Ni)
      then some (S.ToIndex (HexNeighborAt O Ni)) else none := by
  induction Count with
  | zero => simp [randomFreeNeighborLoop]
  | succ Count ih =>
    rw [randomFreeNeighborLoop]
    by_cases h : (IsValid S.MapSize (HexNeighborAt O Ni) && !S.IsOccupiedAt (HexNeighborAt O Ni)) = true
    · simp only [h, if_true]
    · rw [ih]
      simp only [h, if_false]
      simp

/-- C13.  `RandomFreeNeighbor` draws a direction and then tests that one direction six
times: it answers `true` exactly when the neighbour in the drawn direction is valid and
unoccupied.  On the 3 x 3 map without entities, for the origin `(0, 0)` and the drawn
direction 2 (the out-of-bounds neighbour `(0, -1)`), it answers `false` although the
neighbour in direction 0, the cell 1, is valid and unoccupied. -/
theorem RandomFreeNeighbor_tests_one_direction :
    (∀ (RandHelper : Int → Int → Int × Int) (S : USimulator) (O : FIntPoint) (CellIndex : Int),
      (RandomFreeNeighbor RandHelper S O CellIndex).1 =
        (IsValid S.MapSize (HexNeighborAt O (RandHelper S.RandomStream 6).1) &&
          !S.IsOccupiedAt (HexNeighborAt O (RandHelper S.RandomStream 6).1))) ∧
    (Initialize demoRand 10 0 (freshSimulator ⟨3, 3⟩ 0 0)).map
      (fun S => ((RandomFreeNeighbor (fun Seed _ => (2, Seed)) S ⟨0, 0⟩ INDEX_NONE).1,
        HexNeighborAt ⟨0, 0⟩ 0, IsValid S.MapSize (HexNeighborAt ⟨0, 0⟩ 0),
        S.IsOccupiedAt (HexNeighborAt ⟨0, 0⟩ 0), S.ToIndex (HexNeighborAt ⟨0, 0⟩ 0))) =
      some (false, ⟨1, 0⟩, true, false, 1) := by
  constructor
  · intro RandHelper S O CellIndex
    unfold RandomFreeNeighbor
    simp only [randomFreeNeighborLoop_eq]
    by_cases h : (IsValid S.MapSize (HexNeighborAt O (RandHelper S.RandomStream 6).1) &&
        !S.IsOccupiedAt (HexNeighborAt O (RandHelper S.RandomStream 6).1)) = true
    · simp only [h, if_true]
    · simp only [h, if_false]
      simp
  · decide

/-! ## The compaction sweep drops exactly the due records -/

theorem set_perm_cons {α : Type} :
    ∀ (l : List α) (i : Nat) (a x : α), l[i]? = some a → (a :: l.set i x).Perm (x :: l) := by
  intro l
  induction l with
  | nil => intro i a x h; simp at h
  | cons b l ih =>
    intro i a x h
    cases i with
    | zero =>
      simp only [List.getElem?_cons_zero, Option.some.injEq] at h
      subst h
      simp only [List.set_cons_zero]
      exact List.Perm.swap _ _ _
    | succ j =>
      simp only [List.getElem?_cons_succ] at h
      simp only [List.set_cons_succ]
      exact (List.Perm.swap _ _ _).trans (((ih j a x h).cons b).trans (List.Perm.swap _ _ _))

theorem getLast?_set_last (Es : List FEntityInfo) (i : Nat) (Last : FEntityInfo)
    (hL : Es.getLast? = some Last) : (Es.set i Last).getLast? = some Last := by
  rw [List.getLast?_eq_getElem?, List.length_set, List.getElem?_set]
  rw [List.getLast?_eq_getElem?] at hL
  by_cases hi : i = Es.length - 1
  · rw [if_pos hi, if_pos]
    have := (List.getElem?_eq_some_iff.1 hL).1
    omega
  · rw [if_neg hi]; exact hL

/-- `RemoveAtSwap` takes out exactly the record at the index. -/
theorem RemoveAtSwap_perm (Es : List FEntityInfo) (i : Nat) (E : FEntityInfo)
    (hE : Es[i]? = some E) : (E :: RemoveAtSwap Es i).Perm Es := by
  unfold RemoveAtSwap
  cases hL : Es.getLast? with
  | none =>
    rw [List.getLast?_eq_none_iff] at hL
    subst hL
    simp at hE
  | some Last =>
    simp only
    have h1 : (E :: Es.set i Last).Perm (Last :: Es) := set_perm_cons Es i E Last hE
    have h2 : (Es.set i Last).dropLast ++ [Last] = Es.set i Last :=
      List.dropLast_append_getLast? Last (getLast?_set_last Es i Last hL)
    have h3 : ((E :: (Es.set i Last).dropLast) ++ [Last]).Perm (Es ++ [Last]) := by
      rw [List.cons_append, h2]
      exact h1.trans (List.perm_append_singleton Last Es).symm
    exact (List.perm_append_right_iff [Last]).1 h3

/-- The compaction loop, entered at index `i` with the records before `i` all kept, leaves
a rearrangement of the records that are not due, clears the bits of the cells of the due
records and touches no other bit. -/
theorem sweepLoop_spec {StepIndex : Int} :
    ∀ (fuel i : Nat) (Es : List FEntityInfo) (M : TMap Nat) (Occ : Int → Bool)
      (Es1 : List FEntityInfo) (M1 : TMap Nat) (Occ1 : Int → Bool),
      sweepLoop StepIndex fuel i Es M Occ = some (Es1, M1, Occ1) →
      (∀ (k : Nat) (E : FEntityInfo), k < i → Es[k]? = some E → E.DestroyAt < StepIndex) →
      Es1.Perm (Es.filter (fun E => decide (E.DestroyAt < StepIndex))) ∧
      ∀ c : Int, Occ1 c = true ↔
        (Occ c = true ∧ ∀ E ∈ Es, E.DestroyAt ≥ StepIndex →
          E.CurrentCellIndex ≠ c ∧ E.NextCellIndex ≠ c) := by
  have hall : ∀ (i : Nat) (Es : List FEntityInfo), Es.length ≤ i →
      (∀ (k : Nat) (E : FEntityInfo), k < i → Es[k]? = some E → E.DestroyAt < StepIndex) →
      ∀ E ∈ Es, E.DestroyAt < StepIndex := by
    intro i Es hlen hkept E hE
    obtain ⟨k, hk⟩ := List.getElem?_of_mem hE
    exact hkept k E (by have := (List.getElem?_eq_some_iff.1 hk).1; omega) hk
  have hdone : ∀ (i : Nat) (Es : List FEntityInfo) (Occ : Int → Bool), Es.length ≤ i →
      (∀ (k : Nat) (E : FEntityInfo), k < i → Es[k]? = some E → E.DestroyAt < StepIndex) →
      Es.Perm (Es.filter (fun E => decide (E.DestroyAt < StepIndex))) ∧
      ∀ c : Int, Occ c = true ↔
        (Occ c = true ∧ ∀ E ∈ Es, E.DestroyAt ≥ StepIndex →
          E.CurrentCellIndex ≠ c ∧ E.NextCellIndex ≠ c) := by
    intro i Es Occ hlen hkept
    have hk := hall i Es hlen hkept
    constructor
    · rw [List.filter_eq_self.2 (by intro E hE; simpa using hk E hE)]
    · intro c
      constructor
      · intro hc
        refine ⟨hc, ?_⟩
        intro E hE hdue
        have := hk E hE
        omega
      · intro hc; exact hc.1
  intro fuel
  induction fuel with
  | zero =>
    intro i Es M Occ Es1 M1 Occ1 h hkept
    unfold sweepLoop at h
    split at h
    · simp at h
    · rename_i hi
      simp only [Option.some.injEq, Prod.mk.injEq] at h
      obtain ⟨rfl, _, rfl⟩ := h
      exact hdone i _ _ (by omega) hkept
  | succ fuel ih =>
    intro i Es M Occ Es1 M1 Occ1 h hkept
    unfold sweepLoop at h
    split at h
    · rename_i hnone
      simp only [Option.some.injEq, Prod.mk.injEq] at h
      obtain ⟨rfl, _, rfl⟩ := h
      exact hdone i _ _ (List.getElem?_eq_none_iff.1 hnone) hkept
    · rename_i Entity hE
      have hlt : i < Es.length := (List.getElem?_eq_some_iff.1 hE).1
      split at h
      · rename_i hdue
        have hperm := RemoveAtSwap_perm Es i Entity hE
        have hkept' : ∀ (k : Nat) (E : FEntityInfo), k < i →
            (RemoveAtSwap Es i)[k]? = some E → E.DestroyAt < StepIndex := by
          intro k E hk hkE
          obtain ⟨_, hsrc, _⟩ := RemoveAtSwap_source Es i hlt k E hkE
          rw [if_neg (by omega)] at hsrc
          exact hkept k E hk hsrc
        obtain ⟨hp, hocc⟩ := ih _ _ _ _ _ _ _ h hkept'
        constructor
        · refine hp.trans ?_
          have hf := hperm.filter (fun E => decide (E.DestroyAt < StepIndex))
          rw [List.filter_cons_of_neg (by simpa using hdue)] at hf
          exact hf
        · intro c
          rw [hocc c]
          have hmem : ∀ E, E ∈ Es ↔ E = Entity ∨ E ∈ RemoveAtSwap Es i := by
            intro E
            rw [← hperm.mem_iff, List.mem_cons]
          constructor
          · rintro ⟨hc, hothers⟩
            have hc' : (if c = Entity.NextCellIndex then false
                else if c = Entity.CurrentCellIndex then false else Occ c) = true := hc
            by_cases h1 : c = Entity.NextCellIndex
            · rw [if_pos h1] at hc'; exact absurd hc' (by decide)
            · rw [if_neg h1] at hc'
              by_cases h2 : c = Entity.CurrentCellIndex
              · rw [if_pos h2] at hc'; exact absurd hc' (by decide)
              · rw [if_neg h2] at hc'
                refine ⟨hc', ?_⟩
                intro E hEm hEdue
                rcases (hmem E).1 hEm with rfl | hEm'
                · exact ⟨fun e => h2 e.symm, fun e => h1 e.symm⟩
                · exact hothers E hEm' hEdue
          · rintro ⟨hc, hothers⟩
            have hself := hothers Entity ((hmem Entity).2 (Or.inl rfl)) hdue
            refine ⟨?_, fun E hEm hEdue => hothers E ((hmem E).2 (Or.inr hEm)) hEdue⟩
            show (if c = Entity.NextCellIndex then false
                else if c = Entity.CurrentCellIndex then false else Occ c) = true
            rw [if_neg (fun e => hself.2 e.symm), if_neg (fun e => hself.1 e.symm)]
            exact hc
      · rename_i hkeep
        refine ih _ _ _ _ _ _ _ h ?_
        intro k E hk hkE
        by_cases hki : k = i
        · subst hki
          have e : E = Entity := Option.some.inj (hkE.symm.trans hE)
          subst e
          omega
        · exact hkept k E (by omega) hkE

/-- The compaction loop ends within `Entities.Num()` iterations. -/
theorem sweepLoop_total {StepIndex : Int} :
    ∀ (fuel i : Nat) (Es : List FEntityInfo) (M : TMap Nat) (Occ : Int → Bool),
      Es.length ≤ fuel + i →
      ∃ r, sweepLoop StepIndex fuel i Es M Occ = some r := by
  intro fuel
  induction fuel with
  | zero =>
    intro i Es M Occ hlen
    unfold sweepLoop
    rw [if_neg (by omega)]
    exact ⟨_, rfl⟩
  | succ fuel ih =>
    intro i Es M Occ hlen
    unfold sweepLoop
    cases hE : Es[i]? with
    | none => exact ⟨_, rfl⟩
    | some Entity =>
      have hlt : i < Es.length := (List.getElem?_eq_some_iff.1 hE).1
      simp only
      split
      · exact ih _ _ _ _ (by rw [RemoveAtSwap_length Es i hlt]; omega)
      · exact ih _ _ _ _ (by omega)

theorem NextStep_noSweep {fuel : Nat} {S S3 : USimulator}
    (hpass : forwardPass fuel S.Entities.length 0 S false = some (S3, false)) :
    NextStep fuel S = some { S3 with StepIndex := S3.StepIndex + 1 } := by
  unfold NextStep
  rw [hpass]
  rfl

theorem NextStep_sweep {fuel : Nat} {S S3 : USimulator}
    (hpass : forwardPass fuel S.Entities.length 0 S false = some (S3, true)) :
    ∃ (Es : List FEntityInfo) (M : TMap Nat) (Occ : Int → Bool),
      sweepLoop S3.StepIndex S3.Entities.length 0 S3.Entities TMap.Reset S3.Occupied
        = some (Es, M, Occ) ∧
      NextStep fuel S = some { S3 with Entities := Es, IdToIndex := M, Occupied := Occ, StepIndex := S3.StepIndex + 1 } := by
  obtain ⟨⟨Es, M, Occ⟩, hsw⟩ := @sweepLoop_total S3.StepIndex
    S3.Entities.length 0 S3.Entities TMap.Reset S3.Occupied (by omega)
  refine ⟨Es, M, Occ, hsw, ?_⟩
  unfold NextStep
  rw [hpass]
  simp only [if_true]
  rw [hsw]

/-- C12.  Compaction sweep.  In a `NextStep` whose forward pass flags the sweep, the step
returns, and the resulting store is a rearrangement of the records that had
`DestroyAt < StepIndex` at the end of the pass (each exactly once); every record with
`DestroyAt >= StepIndex` is dropped, the occupancy bits at its `CurrentCellIndex` and
`NextCellIndex` are false afterwards, and no other occupancy bit is changed. -/
theorem compaction_sweep (fuel : Nat) (S S3 : USimulator)
    (hpass : forwardPass fuel S.Entities.length 0 S false = some (S3, true)) :
    ∃ S1 : USimulator, NextStep fuel S = some S1 ∧
      S1.Entities.Perm (S3.Entities.filter (fun E => decide (E.DestroyAt < S.StepIndex))) ∧
      (∀ E ∈ S3.Entities, E.DestroyAt ≥ S.StepIndex →
        E ∉ S1.Entities ∧ S1.Occupied E.CurrentCellIndex = false ∧
        S1.Occupied E.NextCellIndex = false) ∧
      (∀ c : Int, (∀ E ∈ S3.Entities, E.DestroyAt ≥ S.StepIndex →
          E.CurrentCellIndex ≠ c ∧ E.NextCellIndex ≠ c) →
        S1.Occupied c = S3.Occupied c) := by
  have hstep : S3.StepIndex = S.StepIndex := (forwardPass_effect _ _ _ _ _ _ hpass).2.2.1
  obtain ⟨Es, M, Occ, hsw, hnext⟩ := NextStep_sweep hpass
  rw [hstep] at hsw
  obtain ⟨hperm, hocc⟩ := sweepLoop_spec _ _ _ _ _ _ _ _ hsw (by intro k E hk; omega)
  refine ⟨_, hnext, hperm, ?_, ?_⟩
  · intro E hE hdue
    refine ⟨?_, ?_, ?_⟩
    · intro hmem
      have hmem' : E ∈ Es := hmem
      have := (List.mem_filter.1 (hperm.mem_iff.1 hmem')).2
      simp only [decide_eq_true_eq] at this
      omega
    · show Occ E.CurrentCellIndex = false
      cases hv : Occ E.CurrentCellIndex with
      | false => rfl
      | true => exact absurd rfl (((hocc _).1 hv).2 E hE hdue).1
    · show Occ E.NextCellIndex = false
      cases hv : Occ E.NextCellIndex with
      | false => rfl
      | true => exact absurd rfl (((hocc _).1 hv).2 E hE hdue).2
  · intro c hc
    show Occ c = S3.Occupied c
    cases hv : S3.Occupied c with
    | true => exact (hocc c).2 ⟨hv, hc⟩
    | false =>
      cases hv1 : Occ c with
      | false => rfl
      | true => rw [((hocc c).1 hv1).1] at hv; exact absurd hv (by decide)

set_option maxRecDepth 1000000 in
theorem compaction_sweep_witness :
    (demoState 2 46).Entities.map (fun E => (E.Id, E.DestroyAt)) = [(0, 56), (1, -1), (2, -1)] ∧
    (demoState 2 46).StepIndex = 47 ∧
    ∃ S1 : USimulator, NextStep 1000 (demoState 2 46) = some S1 ∧
      S1.Entities.Perm
        (((forwardPass 1000 (demoState 2 46).Entities.length 0 (demoState 2 46) false).getD
          (demoState 2 46, false)).1.Entities.filter
            (fun E => decide (E.DestroyAt < (demoState 2 46).StepIndex))) ∧
      (∀ E ∈ ((forwardPass 1000 (demoState 2 46).Entities.length 0 (demoState 2 46) false).getD
          (demoState 2 46, false)).1.Entities, E.DestroyAt ≥ (demoState 2 46).StepIndex →
        E ∉ S1.Entities ∧ S1.Occupied E.CurrentCellIndex = false ∧
        S1.Occupied E.NextCellIndex = false) ∧
      (∀ c : Int, (∀ E ∈ ((forwardPass 1000 (demoState 2 46).Entities.length 0
            (demoState 2 46) false).getD (demoState 2 46, false)).1.Entities,
          E.DestroyAt ≥ (demoState 2 46).StepIndex →
          E.CurrentCellIndex ≠ c ∧ E.NextCellIndex ≠ c) →
        S1.Occupied c = ((forwardPass 1000 (demoState 2 46).Entities.length 0
            (demoState 2 46) false).getD (demoState 2 46, false)).1.Occupied c) :=
  ⟨by decide, by decide,
    compaction_sweep 1000 (demoState 2 46) _
      ((some_getD_of_isSome (by decide) (demoState 2 46, false)).trans
        (congrArg some (Prod.ext rfl (by decide))))⟩

end HexBalls

namespace HexBalls

/-! ## `ShortestPath` is total and never reads outside its containers -/

theorem LowerBoundLoopInRange_true (Range : List Int) (Pred Ok : Int → Bool)
    (hOk : ∀ x ∈ Range, Ok x = true) :
    ∀ (fuel Start Size : Nat), Start + Size ≤ Range.length →
      LowerBoundLoopInRange Range Pred Ok fuel Start Size = true := by
  intro fuel
  induction fuel with
  | zero => intro Start Size _; rfl
  | succ fuel ih =>
    intro Start Size h
    unfold LowerBoundLoopInRange
    by_cases hs : Size = 0
    · rw [if_pos hs]
    · rw [if_neg hs]
      have hlt : Start + Size / 2 < Range.length := by omega
      have hmem : Range.getD (Start + Size / 2) 0 ∈ Range := by
        rw [List.getD_eq_getElem _ _ hlt]
        exact List.getElem_mem hlt
      simp only [Bool.and_eq_true, decide_eq_true_eq]
      refine ⟨⟨hlt, hOk _ hmem⟩, ?_⟩
      apply ih
      split <;> omega

theorem inRange_iff (Index Num : Int) : inRange Index Num = true ↔ 0 ≤ Index ∧ Index < Num := by
  simp [inRange]

/-- Under the loop invariant every access of an iteration of the neighbour loop is in
range. -/
theorem relaxNeighborInRange_true {M : FIntPoint} {Occ : Int → Bool} {From To : Int}
    {D : FDijkstraLookup} (inv : FrontierInv M Occ From To D) {U : Int}
    (hU : 0 ≤ U ∧ U < M.X * M.Y) (Ni : Int) :
    relaxNeighborInRange M Occ To U D Ni = true := by
  have hX : M.X ≠ 0 := by
    intro e
    rw [e] at hU
    omega
  unfold relaxNeighborInRange
  simp only [Bool.and_eq_true, decide_eq_true_eq]
  refine ⟨hX, ?_⟩
  split
  · rename_i hval
    rw [Bool.and_eq_true]
    refine ⟨(inRange_iff _ _).2 (ToIndex_bounds M _ hval), ?_⟩
    split
    · rw [Bool.and_eq_true]
      refine ⟨?_, ?_⟩
      · apply LowerBoundLoopInRange_true
        · intro x hx
          exact (inRange_iff _ _).2 (inv.valid x (Or.inr hx))
        · omega
      · split
        · rfl
        · rw [Bool.and_eq_true, decide_eq_true_eq]
          exact ⟨(inRange_iff _ _).2 hU, LowerBound_le _ _⟩
    · rfl
  · rfl

theorem relaxFoldInRange_true {M : FIntPoint} {Occ : Int → Bool} {From To U : Int}
    (hn : M.X * M.Y ≤ INT32_MAX) (hU : 0 ≤ U ∧ U < M.X * M.Y) (l : List Int)
    (hl : ∀ Ni ∈ l, 0 ≤ Ni ∧ Ni ≤ 5) :
    ∀ D : FDijkstraLookup, FrontierInv M Occ From To D → D.Visited U = true →
      relaxFoldInRange M Occ To U l D = true := by
  induction l with
  | nil => intro D _ _; rfl
  | cons N rest ih =>
    intro D inv hUv
    obtain ⟨hN0, hN5⟩ := hl N (List.mem_cons_self _ _)
    unfold relaxFoldInRange
    rw [relaxNeighborInRange_true inv hU N, Bool.true_and]
    apply ih (fun Ni h => hl Ni (List.mem_cons_of_mem _ h)) _ (inv.relax hUv hn N hN0 hN5)
    rw [(relaxNeighbor_effect M Occ To U D N).1]
    exact hUv

/-- With the loop invariant at its start, the checked frontier loop does what the frontier
loop does: no check fails. -/
theorem frontierLoopChecked_eq {M : FIntPoint} {Occ : Int → Bool} {From To : Int}
    (hn : M.X * M.Y ≤ INT32_MAX) :
    ∀ (fuel : Nat) (D D' : FDijkstraLookup), frontierLoop M Occ To fuel D = some D' →
      FrontierInv M Occ From To D → frontierLoopChecked M Occ To fuel D = some D' := by
  intro fuel
  induction fuel with
  | zero => intro D D' h; simp [frontierLoop] at h
  | succ fuel ih =>
    intro D D' h inv
    unfold frontierLoopChecked
    cases hU : D.Queue.getLast? with
    | none =>
      rw [frontierLoop_empty _ _ _ _ _ hU] at h
      exact h
    | some U =>
      have hUq : U ∈ D.Queue := (mem_of_getLast? hU U).2 (Or.inr rfl)
      have hUr := inv.valid U (Or.inr hUq)
      simp only
      rw [(inRange_iff _ _).2 hUr]
      simp only [Bool.not_true, Bool.false_eq_true, if_false]
      by_cases hne : U = To
      · subst hne
        rw [frontierLoop_break _ _ _ _ _ hU] at h
        rw [if_pos rfl]
        exact h
      · rw [frontierLoop_step _ _ _ _ _ _ hU hne] at h
        rw [if_neg hne]
        have inv1 := inv.popStep hU
        have hUv : (popFrontier D U).Visited U = true := by simp [popFrontier, setAt]
        rw [relaxFoldInRange_true hn hUr [0, 1, 2, 3, 4, 5] (by decide) _ inv1 hUv]
        simp only [Bool.not_true, Bool.false_eq_true, if_false]
        exact ih _ _ h (relaxFold_effect hn [0, 1, 2, 3, 4, 5] (by decide) _ inv1 hUv).1

theorem ShortestPathChecked_eq {fuel : Nat} {M : FIntPoint} {Occ : Int → Bool}
    {From To r : Int} {D : FDijkstraLookup} (hn : M.X * M.Y ≤ INT32_MAX)
    (hFrom : 0 ≤ From ∧ From < M.X * M.Y) (hTo : 0 ≤ To ∧ To < M.X * M.Y)
    (h : ShortestPath fuel M Occ From To = some (r, D)) :
    ShortestPathChecked fuel M Occ From To = some (r, D) ∧
    (if D.Visited To = true then prevWalk D.Prev From fuel To = some r ∧ D.Prev r = some From
      else r = INDEX_NONE) := by
  unfold ShortestPath at h
  unfold ShortestPathChecked
  rw [(inRange_iff _ _).2 hFrom, (inRange_iff _ _).2 hTo]
  simp only [Bool.not_true, Bool.false_eq_true, if_false]
  cases hloop : frontierLoop M Occ To fuel (dijkstraInit From) with
  | none => rw [hloop] at h; simp at h
  | some D' =>
    rw [hloop] at h
    rw [frontierLoopChecked_eq hn fuel _ _ hloop (FrontierInv.atStart M Occ From To hFrom.1 hFrom.2)]
    simp only at h ⊢
    by_cases hvis : D'.Visited To = true
    · rw [if_pos hvis] at h ⊢
      cases hw : prevWalk D'.Prev From fuel To with
      | none => rw [hw] at h; simp at h
      | some c =>
        rw [hw] at h
        simp only [Option.some.injEq, Prod.mk.injEq] at h
        obtain ⟨rfl, rfl⟩ := h
        refine ⟨rfl, ?_⟩
        rw [if_pos hvis]
        exact ⟨hw, prevWalk_prev _ _ _ _ _ hw⟩
    · rw [if_neg hvis] at h ⊢
      simp only [Option.some.injEq, Prod.mk.injEq] at h
      obtain ⟨rfl, rfl⟩ := h
      refine ⟨rfl, ?_⟩
      rw [if_neg hvis]

/-- C17.  `ShortestPath` is total under its precondition.  On a map whose cell count fits
an `int32`, for an occupancy array of that length and valid cell indices `From ≠ To`:
with enough fuel the pathfinder with all container checks returns, and returns what the
unchecked pathfinder returns, so the frontier loop terminates and every array access is in
range; when `To` is visited, the predecessor walk from `To` finds every key it looks up
in `Prev` and ends at a cell whose predecessor is `From`, and otherwise the answer is
`INDEX_NONE`.  The frontier can hold a cell twice: on the empty 2 x 2 map, from cell 0
to cell 3, the frontier after the second iteration is `1, 3, 1`. -/
theorem ShortestPath_total (MapSize : FIntPoint) (Occupied : Int → Bool) (From To : Int)
    (hn : MapSize.X * MapSize.Y ≤ INT32_MAX)
    (hFrom : 0 ≤ From ∧ From < MapSize.X * MapSize.Y)
    (hTo : 0 ≤ To ∧ To < MapSize.X * MapSize.Y) (hne : From ≠ To) :
    (∃ N : Nat, ∀ fuel : Nat, N ≤ fuel → ∃ (r : Int) (D : FDijkstraLookup),
      ShortestPathChecked fuel MapSize Occupied From To = some (r, D) ∧
      ShortestPath fuel MapSize Occupied From To = some (r, D) ∧
      (if D.Visited To = true then
          prevWalk D.Prev From fuel To = some r ∧ D.Prev r = some From
        else r = INDEX_NONE)) ∧
    (relaxAll ⟨2, 2⟩ (occupiedCells []) 3 2
      (popFrontier (relaxAll ⟨2, 2⟩ (occupiedCells []) 3 0
        (popFrontier (dijkstraInit 0) 0)) 2)).Queue = [1, 3, 1] := by
  refine ⟨?_, by decide⟩
  obtain ⟨N, hN⟩ := ShortestPath_total_and_exact MapSize Occupied From To hn hFrom.1 hFrom.2 hne
  refine ⟨N, fun fuel hf => ?_⟩
  obtain ⟨r, D, h, _⟩ := hN fuel hf
  obtain ⟨h1, h2⟩ := ShortestPathChecked_eq hn hFrom hTo h
  exact ⟨r, D, h1, h, h2⟩

theorem ShortestPath_total_witness :
    (∃ N : Nat, ∀ fuel : Nat, N ≤ fuel → ∃ (r : Int) (D : FDijkstraLookup),
      ShortestPathChecked fuel ⟨2, 2⟩ (occupiedCells []) 0 3 = some (r, D) ∧
      ShortestPath fuel ⟨2, 2⟩ (occupiedCells []) 0 3 = some (r, D) ∧
      (if D.Visited 3 = true then
          prevWalk D.Prev 0 fuel 3 = some r ∧ D.Prev r = some 0
        else r = INDEX_NONE)) ∧
    (relaxAll ⟨2, 2⟩ (occupiedCells []) 3 2
      (popFrontier (relaxAll ⟨2, 2⟩ (occupiedCells []) 3 0
        (popFrontier (dijkstraInit 0) 0)) 2)).Queue = [1, 3, 1] :=
  ShortestPath_total ⟨2, 2⟩ (occupiedCells []) 0 3 (by decide) (by decide) (by decide)
    (by decide)

end HexBalls

namespace HexBalls

/-! ## The scan for the closest target -/

theorem ToPoint_injective (M : FIntPoint) (c d : Int) (h : ToPoint c M = ToPoint d M) :
    c = d := by
  unfold ToPoint at h
  simp only [FIntPoint.mk.injEq] at h
  rw [← Int.tdiv_add_tmod c M.X, ← Int.tdiv_add_tmod d M.X, h.1, h.2]

theorem HexDistance_nonneg (A B : FIntPoint) : 0 ≤ HexDistance A B := by
  rw [HexDistance_eq]
  simp only [Int.abs_eq_natAbs]
  omega

/-- Two different cells are at hex distance at least one. -/
theorem HexDistance_pos_of_ne (M : FIntPoint) (c d : Int) (h : c ≠ d) :
    1 ≤ HexDistance (ToPoint c M) (ToPoint d M) := by
  have h0 := HexDistance_nonneg (ToPoint c M) (ToPoint d M)
  have hne : HexDistance (ToPoint c M) (ToPoint d M) ≠ 0 := by
    intro e
    exact h (ToPoint_injective M c d ((HexDistance_eq_zero_iff _ _).1 e))
  omega

/-- What the scan from index `j` on computes, when no candidate is at distance zero:
either no remaining candidate is nearer than `MinDist` and the running id is kept, or the
answer is the id of the nearest remaining candidate, the first of the nearest. -/
theorem findClosestTarget_scan (M : FIntPoint) (i : Nat) (Cell : Int) :
    ∀ (Rest : List FEntityInfo) (j : Nat) (tid md : Int),
      (∀ (k : Nat) (T : FEntityInfo), Rest[k]? = some T → j + k ≠ i → T.Health > 0 →
        1 ≤ HexDistance (ToPoint Cell M) (ToPoint T.CurrentCellIndex M)) →
      (findClosestTarget M i Cell Rest j tid md = tid ∧
        ∀ (k : Nat) (T : FEntityInfo), Rest[k]? = some T → j + k ≠ i → T.Health > 0 →
          md ≤ HexDistance (ToPoint Cell M) (ToPoint T.CurrentCellIndex M)) ∨
      ∃ (k : Nat) (T : FEntityInfo), Rest[k]? = some T ∧ j + k ≠ i ∧ T.Health > 0 ∧
        HexDistance (ToPoint Cell M) (ToPoint T.CurrentCellIndex M) < md ∧
        (∀ (k1 : Nat) (T1 : FEntityInfo), Rest[k1]? = some T1 → j + k1 ≠ i → T1.Health > 0 →
          HexDistance (ToPoint Cell M) (ToPoint T.CurrentCellIndex M) ≤
            HexDistance (ToPoint Cell M) (ToPoint T1.CurrentCellIndex M) ∧
          (HexDistance (ToPoint Cell M) (ToPoint T1.CurrentCellIndex M) =
            HexDistance (ToPoint Cell M) (ToPoint T.CurrentCellIndex M) → k ≤ k1)) ∧
        findClosestTarget M i Cell Rest j tid md = T.Id := by
  intro Rest
  induction Rest with
  | nil =>
    intro j tid md _
    left
    exact ⟨rfl, fun k T h => by simp at h⟩
  | cons A Rest ih =>
    intro j tid md hpos
    have hpos' : ∀ (k : Nat) (T : FEntityInfo), Rest[k]? = some T → j + 1 + k ≠ i →
        T.Health > 0 → 1 ≤ HexDistance (ToPoint Cell M) (ToPoint T.CurrentCellIndex M) := by
      intro k T hk hne hT
      exact hpos (k + 1) T (by simpa using hk) (by omega) hT
    -- the outcome when the head is passed over with the running pair unchanged
    have skip : (¬ (j ≠ i ∧ A.Health > 0 ∧
          HexDistance (ToPoint Cell M) (ToPoint A.CurrentCellIndex M) < md)) →
        findClosestTarget M i Cell (A :: Rest) j tid md =
          findClosestTarget M i Cell Rest (j + 1) tid md := by
      intro hskip
      rw [findClosestTarget]
      by_cases h1 : i ≠ j
      · rw [if_pos h1]
        by_cases h2 : A.Health > 0
        · rw [if_pos h2]
          simp only
          rw [if_neg (fun h3 => hskip ⟨fun e => h1 e.symm, h2, h3⟩)]
        · rw [if_neg h2]
      · rw [if_neg h1]
    by_cases hA : j ≠ i ∧ A.Health > 0 ∧
        HexDistance (ToPoint Cell M) (ToPoint A.CurrentCellIndex M) < md
    · obtain ⟨hji, hAlive, hlt⟩ := hA
      have hA1 := hpos 0 A (by simp) (by omega) hAlive
      by_cases hone : HexDistance (ToPoint Cell M) (ToPoint A.CurrentCellIndex M) = 1
      · -- early exit
        right
        refine ⟨0, A, by simp, by omega, hAlive, hlt, ?_, ?_⟩
        · intro k1 T1 hk1 hne1 hT1
          have := hpos k1 T1 hk1 hne1 hT1
          exact ⟨by omega, fun _ => Nat.zero_le _⟩
        · rw [findClosestTarget, if_pos (fun e => hji e.symm), if_pos hAlive]
          simp only
          rw [if_pos hlt, if_pos hone]
      · have hrec : findClosestTarget M i Cell (A :: Rest) j tid md =
            findClosestTarget M i Cell Rest (j + 1) A.Id
              (HexDistance (ToPoint Cell M) (ToPoint A.CurrentCellIndex M)) := by
          rw [findClosestTarget, if_pos (fun e => hji e.symm), if_pos hAlive]
          simp only
          rw [if_pos hlt, if_neg hone]
        right
        rcases ih (j + 1) A.Id _ hpos' with ⟨hres, hall⟩ | ⟨k, T, hk, hne, hT, hlt', hmin, hres⟩
        · refine ⟨0, A, by simp, by omega, hAlive, hlt, ?_, by rw [hrec, hres]⟩
          intro k1 T1 hk1 hne1 hT1
          cases k1 with
          | zero =>
            simp only [List.getElem?_cons_zero, Option.some.injEq] at hk1
            subst hk1
            exact ⟨le_refl _, fun _ => le_refl _⟩
          | succ k1 =>
            simp only [List.getElem?_cons_succ] at hk1
            exact ⟨hall k1 T1 hk1 (by omega) hT1, fun _ => Nat.zero_le _⟩
        · refine ⟨k + 1, T, by simpa using hk, by omega, hT, by omega, ?_, by rw [hrec, hres]⟩
          intro k1 T1 hk1 hne1 hT1
          cases k1 with
          | zero =>
            simp only [List.getElem?_cons_zero, Option.some.injEq] at hk1
            subst hk1
            exact ⟨by omega, fun e => by omega⟩
          | succ k1 =>
            simp only [List.getElem?_cons_succ] at hk1
            obtain ⟨h1, h2⟩ := hmin k1 T1 hk1 (by omega) hT1
            exact ⟨h1, fun e => by have := h2 e; omega⟩
    · rw [skip hA]
      rcases ih (j + 1) tid md hpos' with ⟨hres, hall⟩ | ⟨k, T, hk, hne, hT, hlt', hmin, hres⟩
      · left
        refine ⟨hres, ?_⟩
        intro k1 T1 hk1 hne1 hT1
        cases k1 with
        | zero =>
          simp only [List.getElem?_cons_zero, Option.some.injEq] at hk1
          subst hk1
          by_contra hc
          exact hA ⟨by omega, hT1, by omega⟩
        | succ k1 =>
          simp only [List.getElem?_cons_succ] at hk1
          exact hall k1 T1 hk1 (by omega) hT1
      · right
        refine ⟨k + 1, T, by simpa using hk, by omega, hT, hlt', ?_, hres⟩
        intro k1 T1 hk1 hne1 hT1
        cases k1 with
        | zero =>
          simp only [List.getElem?_cons_zero, Option.some.injEq] at hk1
          subst hk1
          have hge : md ≤ HexDistance (ToPoint Cell M) (ToPoint A.CurrentCellIndex M) := by
            by_contra hc
            exact hA ⟨by omega, hT1, by omega⟩
          exact ⟨by omega, fun e => by omega⟩
        | succ k1 =>
          simp only [List.getElem?_cons_succ] at hk1
          obtain ⟨h1, h2⟩ := hmin k1 T1 hk1 (by omega) hT1
          exact ⟨h1, fun e => by have := h2 e; omega⟩

theorem findClosestTargetNoExit_stable (M : FIntPoint) (i : Nat) (Cell : Int) :
    ∀ (Rest : List FEntityInfo) (j : Nat) (tid md : Int),
      (∀ (k : Nat) (T : FEntityInfo), Rest[k]? = some T → j + k ≠ i → T.Health > 0 →
        md ≤ HexDistance (ToPoint Cell M) (ToPoint T.CurrentCellIndex M)) →
      findClosestTargetNoExit M i Cell Rest j tid md = tid := by
  intro Rest
  induction Rest with
  | nil => intro j tid md _; rfl
  | cons A Rest ih =>
    intro j tid md hall
    have hall' : ∀ (k : Nat) (T : FEntityInfo), Rest[k]? = some T → j + 1 + k ≠ i →
        T.Health > 0 → md ≤ HexDistance (ToPoint Cell M) (ToPoint T.CurrentCellIndex M) := by
      intro k T hk hne hT
      exact hall (k + 1) T (by simpa using hk) (by omega) hT
    rw [findClosestTargetNoExit]
    by_cases h1 : i ≠ j
    · rw [if_pos h1]
      by_cases h2 : A.Health > 0
      · rw [if_pos h2]
        simp only
        have := hall 0 A (by simp) (by omega) h2
        rw [if_neg (by omega)]
        exact ih _ _ _ hall'
      · rw [if_neg h2]; exact ih _ _ _ hall'
    · rw [if_neg h1]; exact ih _ _ _ hall'

/-- When no candidate is at distance zero, the early exit at distance 1 does not change
the answer of the scan. -/
theorem findClosestTarget_eq_noExit (M : FIntPoint) (i : Nat) (Cell : Int) :
    ∀ (Rest : List FEntityInfo) (j : Nat) (tid md : Int),
      (∀ (k : Nat) (T : FEntityInfo), Rest[k]? = some T → j + k ≠ i → T.Health > 0 →
        1 ≤ HexDistance (ToPoint Cell M) (ToPoint T.CurrentCellIndex M)) →
      findClosestTarget M i Cell Rest j tid md =
        findClosestTargetNoExit M i Cell Rest j tid md := by
  intro Rest
  induction Rest with
  | nil => intro j tid md _; rfl
  | cons A Rest ih =>
    intro j tid md hpos
    have hpos' : ∀ (k : Nat) (T : FEntityInfo), Rest[k]? = some T → j + 1 + k ≠ i →
        T.Health > 0 → 1 ≤ HexDistance (ToPoint Cell M) (ToPoint T.CurrentCellIndex M) := by
      intro k T hk hne hT
      exact hpos (k + 1) T (by simpa using hk) (by omega) hT
    rw [findClosestTarget, findClosestTargetNoExit]
    by_cases h1 : i ≠ j
    · rw [if_pos h1, if_pos h1]
      by_cases h2 : A.Health > 0
      · rw [if_pos h2, if_pos h2]
        simp only
        by_cases h3 : HexDistance (ToPoint Cell M) (ToPoint A.CurrentCellIndex M) < md
        · rw [if_pos h3, if_pos h3]
          by_cases h4 : HexDistance (ToPoint Cell M) (ToPoint A.CurrentCellIndex M) = 1
          · rw [if_pos h4, h4]
            exact (findClosestTargetNoExit_stable M i Cell Rest (j + 1) A.Id 1 hpos').symm
          · rw [if_neg h4]
            exact ih _ _ _ hpos'
        · rw [if_neg h3, if_neg h3]
          exact ih _ _ _ hpos'
      · rw [if_neg h2, if_neg h2]; exact ih _ _ _ hpos'
    · rw [if_neg h1, if_neg h1]; exact ih _ _ _ hpos'

/-- The answer of the scan is the running id or the id of a candidate. -/
theorem findClosestTarget_candidate (M : FIntPoint) (i : Nat) (Cell : Int) :
    ∀ (Rest : List FEntityInfo) (j : Nat) (tid md : Int),
      findClosestTarget M i Cell Rest j tid md = tid ∨
      ∃ (k : Nat) (T : FEntityInfo), Rest[k]? = some T ∧ j + k ≠ i ∧ T.Health > 0 ∧
        findClosestTarget M i Cell Rest j tid md = T.Id := by
  intro Rest
  induction Rest with
  | nil => intro j tid md; exact Or.inl rfl
  | cons A Rest ih =>
    intro j tid md
    have lift : ∀ (tid1 md1 : Int),
        findClosestTarget M i Cell (A :: Rest) j tid md =
          findClosestTarget M i Cell Rest (j + 1) tid1 md1 →
        (tid1 = tid ∨ (tid1 = A.Id ∧ j ≠ i ∧ A.Health > 0)) →
        findClosestTarget M i Cell (A :: Rest) j tid md = tid ∨
        ∃ (k : Nat) (T : FEntityInfo), (A :: Rest)[k]? = some T ∧ j + k ≠ i ∧ T.Health > 0 ∧
          findClosestTarget M i Cell (A :: Rest) j tid md = T.Id := by
      intro tid1 md1 hrec hsrc
      rcases ih (j + 1) tid1 md1 with h | ⟨k, T, hk, hne, hT, hres⟩
      · rcases hsrc with e | ⟨e, hji, hA⟩
        · left; rw [hrec, h, e]
        · right; exact ⟨0, A, by simp, by omega, hA, by rw [hrec, h, e]⟩
      · right; exact ⟨k + 1, T, by simpa using hk, by omega, hT, by rw [hrec, hres]⟩
    by_cases h1 : i ≠ j
    · by_cases h2 : A.Health > 0
      · by_cases h3 : HexDistance (ToPoint Cell M) (ToPoint A.CurrentCellIndex M) < md
        · by_cases h4 : HexDistance (ToPoint Cell M) (ToPoint A.CurrentCellIndex M) = 1
          · right
            refine ⟨0, A, by simp, by omega, h2, ?_⟩
            rw [findClosestTarget, if_pos h1, if_pos h2]
            simp only
            rw [if_pos h3, if_pos h4]
          · refine lift A.Id (HexDistance (ToPoint Cell M) (ToPoint A.CurrentCellIndex M)) ?_
              (Or.inr ⟨rfl, fun e => h1 e.symm, h2⟩)
            rw [findClosestTarget, if_pos h1, if_pos h2]
            simp only
            rw [if_pos h3, if_neg h4]
        · refine lift tid md ?_ (Or.inl rfl)
          rw [findClosestTarget, if_pos h1, if_pos h2]
          simp only
          rw [if_neg h3]
      · refine lift tid md ?_ (Or.inl rfl)
        rw [findClosestTarget, if_pos h1, if_neg h2]
    · refine lift tid md ?_ (Or.inl rfl)
      rw [findClosestTarget, if_neg h1]

/-- The scan of lines 237-253 on a store whose ids differ from `INDEX_NONE`, whose hex
distances are below the initial `MinDist`, and where no candidate shares the cell of the
scanning entity: the answer is `INDEX_NONE` exactly when there is no candidate, otherwise
it is the id of the nearest candidate, the one with the lowest index among the nearest;
and the scan without the early exit gives the same answer. -/
theorem findClosestTarget_nearest (M : FIntPoint) (Es : List FEntityInfo) (i : Nat)
    (Cell : Int) (hids : ∀ T ∈ Es, T.Id ≠ INDEX_NONE)
    (hrange : ∀ (k : Nat) (T : FEntityInfo), IsCandidate Es i k T →
      HexDistance (ToPoint Cell M) (ToPoint T.CurrentCellIndex M) < INT32_MAX)
    (hshare : ∀ (k : Nat) (T : FEntityInfo), IsCandidate Es i k T →
      T.CurrentCellIndex ≠ Cell) :
    (findClosestTarget M i Cell Es 0 INDEX_NONE INT32_MAX = INDEX_NONE ↔
      ¬ ∃ (k : Nat) (T : FEntityInfo), IsCandidate Es i k T) ∧
    ((∃ (k : Nat) (T : FEntityInfo), IsCandidate Es i k T) →
      ∃ (k : Nat) (T : FEntityInfo), IsNearestCandidate M Es i Cell k T ∧
        findClosestTarget M i Cell Es 0 INDEX_NONE INT32_MAX = T.Id) ∧
    (∀ (k : Nat) (T : FEntityInfo), IsNearestCandidate M Es i Cell k T →
      findClosestTarget M i Cell Es 0 INDEX_NONE INT32_MAX = T.Id) ∧
    findClosestTarget M i Cell Es 0 INDEX_NONE INT32_MAX =
      findClosestTargetNoExit M i Cell Es 0 INDEX_NONE INT32_MAX := by
  have hpos : ∀ (k : Nat) (T : FEntityInfo), Es[k]? = some T → 0 + k ≠ i → T.Health > 0 →
      1 ≤ HexDistance (ToPoint Cell M) (ToPoint T.CurrentCellIndex M) := by
    intro k T hk hne hT
    exact HexDistance_pos_of_ne M _ _ (fun e => hshare k T ⟨hk, by omega, hT⟩ e.symm)
  have hscan := findClosestTarget_scan M i Cell Es 0 INDEX_NONE INT32_MAX hpos
  have key : (findClosestTarget M i Cell Es 0 INDEX_NONE INT32_MAX = INDEX_NONE ∧
        ¬ ∃ (k : Nat) (T : FEntityInfo), IsCandidate Es i k T) ∨
      ∃ (k : Nat) (T : FEntityInfo), IsNearestCandidate M Es i Cell k T ∧
        findClosestTarget M i Cell Es 0 INDEX_NONE INT32_MAX = T.Id := by
    rcases hscan with ⟨hres, hall⟩ | ⟨k, T, hk, hne, hT, _, hmin, hres⟩
    · left
      refine ⟨hres, ?_⟩
      rintro ⟨k, T, hc⟩
      have h1 := hall k T hc.1 (by have := hc.2.1; omega) hc.2.2
      have h2 := hrange k T hc
      omega
    · right
      refine ⟨k, T, ⟨⟨hk, by omega, hT⟩, ?_⟩, hres⟩
      intro k1 T1 hc1
      exact hmin k1 T1 hc1.1 (by have := hc1.2.1; omega) hc1.2.2
  refine ⟨?_, ?_, ?_, findClosestTarget_eq_noExit M i Cell Es 0 INDEX_NONE INT32_MAX hpos⟩
  · rcases key with ⟨hres, hno⟩ | ⟨k, T, hN, hres⟩
    · exact ⟨fun _ => hno, fun _ => hres⟩
    · constructor
      · intro e
        rw [e] at hres
        exact absurd hres.symm (hids T (List.getElem?_mem hN.1.1))
      · intro hno
        exact absurd ⟨k, T, hN.1⟩ hno
  · intro hex
    rcases key with ⟨_, hno⟩ | h
    · exact absurd hex hno
    · exact h
  · intro k T hN
    rcases key with ⟨_, hno⟩ | ⟨k0, T0, hN0, hres⟩
    · exact absurd ⟨k, T, hN.1⟩ hno
    · have h1 := hN.2 k0 T0 hN0.1
      have h2 := hN0.2 k T hN.1
      have hk : k = k0 := by
        have a := h1.2 (by omega)
        have b := h2.2 (by omega)
        omega
      subst hk
      have : T = T0 := Option.some.inj (hN.1.1.symm.trans hN0.1.1)
      rw [hres, this]

end HexBalls

namespace HexBalls

/-! ## The step of one entity: its own record, the other records, the frame -/

/-- Every outcome of the body of the forward pass for the entity `E` at index `i`, with
the record `E1` it leaves at `i`, the store and the occupancy after it. -/
theorem entityStep_own {fuel i : Nat} {S S1 : USimulator} {dp dp1 : Bool}
    (h : entityStep fuel i S dp = some (S1, dp1)) {E : FEntityInfo}
    (hE : S.Entities[i]? = some E) :
    S1.MapSize = S.MapSize ∧ S1.StepIndex = S.StepIndex ∧ S1.IdToIndex = S.IdToIndex ∧
    ∃ E1 : FEntityInfo, S1.Entities[i]? = some E1 ∧
    ((E.Health ≤ 0 ∧ E.DestroyAt = INDEX_NONE ∧ dp1 = dp ∧
        E1 = { E with DestroyAt := S.StepIndex + DestroyDelay } ∧
        S1.Entities = S.Entities.set i E1 ∧ S1.Occupied = S.Occupied) ∨
     (E.Health ≤ 0 ∧ E.DestroyAt ≠ INDEX_NONE ∧
        dp1 = (decide (E.DestroyAt ≥ S.StepIndex) || dp) ∧ E1 = E ∧
        S1.Entities = S.Entities ∧ S1.Occupied = S.Occupied) ∨
     (E.Health > 0 ∧ dp1 = dp ∧ S1.Occupied = S.Occupied ∧ E.Target ≠ INDEX_NONE ∧
        ∃ (t : Nat) (T : FEntityInfo), S.IdToIndex E.Target = some t ∧
          S.Entities[t]? = some T ∧ T.Health > 0 ∧
          HexDistance (S.ToPoint E.CurrentCellIndex) (S.ToPoint T.CurrentCellIndex)
            ≤ AttackDistance ∧
          ((S.StepIndex - E.StartedAttackAtStep ≥ E.TimeStepsPerAttack ∧
              S1.Entities = modifyAt (modifyAt S.Entities t (fun E => { E with Health := E.Health - 1 })) i (fun E => { E with StartedAttackAtStep := S.StepIndex }) ∧
              E1 = { E with Health := if i = t then E.Health - 1 else E.Health, StartedAttackAtStep := S.StepIndex }) ∨
           (¬ S.StepIndex - E.StartedAttackAtStep ≥ E.TimeStepsPerAttack ∧
              S1.Entities = S.Entities ∧ E1 = E))) ∨
     (E.Health > 0 ∧ dp1 = dp ∧ S1.Entities = S.Entities.set i E1 ∧
        (E.Target = INDEX_NONE ∨ S.IdToIndex E.Target = none ∨ ∃ (t : Nat) (T : FEntityInfo),
          S.IdToIndex E.Target = some t ∧ S.Entities[t]? = some T ∧
          ¬ (T.Health > 0 ∧
            HexDistance (S.ToPoint E.CurrentCellIndex) (S.ToPoint T.CurrentCellIndex)
              ≤ AttackDistance)) ∧
        ((E.CurrentCellIndex ≠ E.NextCellIndex ∧
            ¬ S.StepIndex - E.StartedMoveAtStep ≥ E.TicksPerMove ∧
            E1 = { E with Target := INDEX_NONE } ∧ S1.Occupied = S.Occupied) ∨
         (E.CurrentCellIndex ≠ E.NextCellIndex ∧
            S.StepIndex - E.StartedMoveAtStep ≥ E.TicksPerMove ∧
            E1 = arrived { E with Target := INDEX_NONE } S.StepIndex ∧
            S1.Occupied = setAt (setAt S.Occupied E.CurrentCellIndex false) E.NextCellIndex true) ∨
         (E.CurrentCellIndex = E.NextCellIndex ∧
            findClosestTarget S.MapSize i E.NextCellIndex
              (S.Entities.set i (arrived { E with Target := INDEX_NONE } S.StepIndex))
              0 INDEX_NONE INT32_MAX = INDEX_NONE ∧
            E1 = arrived { E with Target := INDEX_NONE } S.StepIndex ∧
            S1.Occupied = S.Occupied) ∨
         (E.CurrentCellIndex = E.NextCellIndex ∧ ∃ (sel : Int) (t : Nat) (T : FEntityInfo),
            sel = findClosestTarget S.MapSize i E.NextCellIndex
              (S.Entities.set i (arrived { E with Target := INDEX_NONE } S.StepIndex))
              0 INDEX_NONE INT32_MAX ∧
            sel ≠ INDEX_NONE ∧ S.IdToIndex sel = some t ∧
            (S.Entities.set i (arrived { E with Target := INDEX_NONE } S.StepIndex))[t]?
              = some T ∧
            ((HexDistance (S.ToPoint E.NextCellIndex) (S.ToPoint T.CurrentCellIndex)
                  ≤ AttackDistance ∧
                E1 = { arrived { E with Target := INDEX_NONE } S.StepIndex with NextCellIndex := E.NextCellIndex, Target := sel, StartedAttackAtStep := S.StepIndex } ∧
                S1.Occupied = S.Occupied) ∨
             (¬ HexDistance (S.ToPoint E.NextCellIndex) (S.ToPoint T.CurrentCellIndex)
                  ≤ AttackDistance ∧
              ∃ (Next : Int) (D : FDijkstraLookup),
                ShortestPath fuel S.MapSize S.Occupied E.NextCellIndex T.CurrentCellIndex
                  = some (Next, D) ∧
                ((Next = INDEX_NONE ∧
                    E1 = { arrived { E with Target := INDEX_NONE } S.StepIndex with StartedAttackAtStep := INDEX_NONE, Target := INDEX_NONE, NextCellIndex := E.NextCellIndex } ∧
                    S1.Occupied = S.Occupied) ∨
                 (Next ≠ INDEX_NONE ∧
                    E1 = { arrived { E with Target := INDEX_NONE } S.StepIndex with StartedAttackAtStep := INDEX_NONE, Target := INDEX_NONE, NextCellIndex := Next } ∧
                    S1.Occupied = setAt S.Occupied Next true)))))))) := by
  have hlt : i < S.Entities.length := (List.getElem?_eq_some_iff.1 hE).1
  have hframe := (entityStep_effect h).2
  refine ⟨hframe.1, hframe.2.1, hframe.2.2.1, ?_⟩
  obtain ⟨E', hE', hc⟩ := entityStep_cases h
  have e : E = E' := Option.some.inj (hE.symm.trans hE')
  subst e
  rcases hc with ⟨h1, h2, h3, rfl⟩ | ⟨h1, h2, rfl, h3⟩ | ⟨halive, hdp, Sm, b, ht, hc⟩
  · exact ⟨_, List.getElem?_set_self hlt, Or.inl ⟨h1, h2, h3, rfl, rfl, rfl⟩⟩
  · exact ⟨E, hE, Or.inr (Or.inl ⟨h1, h2, h3, rfl, rfl, rfl⟩)⟩
  · rcases hc with ⟨rfl, rfl⟩ | ⟨rfl, hm⟩
    · obtain ⟨E', hE', hc⟩ := targetPhase_cases ht
      have e : E = E' := Option.some.inj (hE.symm.trans hE')
      subst e
      rcases hc with ⟨_, hT, t, T, h1, h2, h3, h4, hc⟩ | ⟨hb, _⟩ | ⟨hb, _⟩
      · rcases hc with ⟨hcd, rfl⟩ | ⟨hcd, rfl⟩
        · refine ⟨_, ?_, Or.inr (Or.inr (Or.inl ⟨halive, hdp, rfl, hT, t, T, h1, h2, h3, h4,
            Or.inl ⟨hcd, rfl, rfl⟩⟩))⟩
          show (modifyAt (modifyAt S.Entities t (fun E => { E with Health := E.Health - 1 })) i
              (fun E => { E with StartedAttackAtStep := S.StepIndex }))[i]? = _
          rw [strike_getElem?, hE]
          simp
        · exact ⟨E, hE, Or.inr (Or.inr (Or.inl ⟨halive, hdp, rfl, hT, t, T, h1, h2, h3, h4,
            Or.inr ⟨hcd, rfl, rfl⟩⟩))⟩
      · exact absurd hb (by decide)
      · exact absurd hb (by decide)
    · obtain ⟨rfl, hrel⟩ := targetPhase_released ht hE
      rcases movePhase_released hE rfl hm with
        ⟨h1, h2, rfl⟩ | ⟨h1, h2, rfl⟩ | ⟨h1, h2, rfl⟩ | ⟨h1, sel, t, T, hs, hn, hti, hT, hc⟩
      · exact ⟨_, List.getElem?_set_self hlt, Or.inr (Or.inr (Or.inr ⟨halive, hdp, rfl, hrel,
          Or.inl ⟨h1, h2, rfl, rfl⟩⟩))⟩
      · exact ⟨_, List.getElem?_set_self hlt, Or.inr (Or.inr (Or.inr ⟨halive, hdp, rfl, hrel,
          Or.inr (Or.inl ⟨h1, h2, rfl, rfl⟩)⟩))⟩
      · exact ⟨_, List.getElem?_set_self hlt, Or.inr (Or.inr (Or.inr ⟨halive, hdp, rfl, hrel,
          Or.inr (Or.inr (Or.inl ⟨h1, h2, rfl, rfl⟩))⟩))⟩
      · rcases hc with ⟨hd, rfl⟩ | ⟨hd, Next, D, hsp, hc⟩
        · exact ⟨_, List.getElem?_set_self hlt, Or.inr (Or.inr (Or.inr ⟨halive, hdp, rfl, hrel,
            Or.inr (Or.inr (Or.inr ⟨h1, sel, t, T, hs, hn, hti, hT,
              Or.inl ⟨hd, rfl, rfl⟩⟩))⟩))⟩
        · rcases hc with ⟨hN, rfl⟩ | ⟨hN, rfl⟩
          · exact ⟨_, List.getElem?_set_self hlt, Or.inr (Or.inr (Or.inr ⟨halive, hdp, rfl,
              hrel, Or.inr (Or.inr (Or.inr ⟨h1, sel, t, T, hs, hn, hti, hT,
                Or.inr ⟨hd, Next, D, hsp, Or.inl ⟨hN, rfl, rfl⟩⟩⟩))⟩))⟩
          · exact ⟨_, List.getElem?_set_self hlt, Or.inr (Or.inr (Or.inr ⟨halive, hdp, rfl,
              hrel, Or.inr (Or.inr (Or.inr ⟨h1, sel, t, T, hs, hn, hti, hT,
                Or.inr ⟨hd, Next, D, hsp, Or.inr ⟨hN, rfl, rfl⟩⟩⟩))⟩))⟩

theorem Struck.unstruck (A : FEntityInfo) : Struck A A :=
  ⟨le_refl _, by cases A; rfl⟩

theorem Struck.chain {A B C : FEntityInfo} (h1 : Struck A B) (h2 : Struck B C) :
    Struck A C := by
  obtain ⟨a1, a2⟩ := h1
  obtain ⟨b1, b2⟩ := h2
  refine ⟨le_trans b1 a1, ?_⟩
  rw [b2, a2]

/-- A struck record keeps every field but `Health`. -/
theorem Struck.fields {A B : FEntityInfo} (h : Struck A B) :
    B.Id = A.Id ∧ B.MaxHealth = A.MaxHealth ∧ B.TicksPerMove = A.TicksPerMove ∧
    B.CurrentCellIndex = A.CurrentCellIndex ∧ B.StartedMoveAtStep = A.StartedMoveAtStep ∧
    B.NextCellIndex = A.NextCellIndex ∧ B.Target = A.Target ∧
    B.TimeStepsPerAttack = A.TimeStepsPerAttack ∧
    B.StartedAttackAtStep = A.StartedAttackAtStep ∧ B.DestroyAt = A.DestroyAt ∧
    B.Health ≤ A.Health := by
  obtain ⟨h1, h2⟩ := h
  refine ⟨?_, ?_, ?_, ?_, ?_, ?_, ?_, ?_, ?_, ?_, h1⟩ <;> (rw [h2])

/-- A struck record with the same `Health` is the same record. -/
theorem Struck.eq_of_health {A B : FEntityInfo} (h : Struck A B) (hh : B.Health = A.Health) :
    B = A := by
  rw [h.2, hh]

/-- The step of the entity at `i` leaves every other record as it was, up to a strike. -/
theorem entityStep_others {fuel i : Nat} {S S1 : USimulator} {dp dp1 : Bool}
    (h : entityStep fuel i S dp = some (S1, dp1)) {k : Nat} (hk : k ≠ i) {B : FEntityInfo}
    (hB : S1.Entities[k]? = some B) : ∃ A : FEntityInfo, S.Entities[k]? = some A ∧ Struck A B := by
  obtain ⟨E, hE, _⟩ := entityStep_cases h
  obtain ⟨_, _, _, E1, hE1, hc⟩ := entityStep_own h hE
  rcases hc with ⟨_, _, _, _, hes, _⟩ | ⟨_, _, _, _, hes, _⟩ |
    ⟨_, _, _, _, t, T, _, _, _, _, hc⟩ | ⟨_, _, hes, _⟩
  · rw [hes, List.getElem?_set_ne (fun e => hk e.symm)] at hB
    exact ⟨B, hB, Struck.unstruck B⟩
  · rw [hes] at hB
    exact ⟨B, hB, Struck.unstruck B⟩
  · rcases hc with ⟨_, hes, _⟩ | ⟨_, hes, _⟩
    · rw [hes, strike_getElem?] at hB
      cases hA : S.Entities[k]? with
      | none => rw [hA] at hB; simp at hB
      | some A =>
        rw [hA] at hB
        simp only [Option.map_some', Option.some.injEq, if_neg hk] at hB
        refine ⟨A, rfl, ?_⟩
        rw [← hB]
        constructor
        · show (if k = t then A.Health - 1 else A.Health) ≤ A.Health
          split <;> omega
        · rfl
    · rw [hes] at hB
      exact ⟨B, hB, Struck.unstruck B⟩
  · rw [hes, List.getElem?_set_ne (fun e => hk e.symm)] at hB
    exact ⟨B, hB, Struck.unstruck B⟩

/-- The `DeletePass` flag is only ever raised. -/
theorem entityStep_flag {fuel i : Nat} {S S1 : USimulator} {dp dp1 : Bool}
    (h : entityStep fuel i S dp = some (S1, dp1)) (hdp : dp = true) : dp1 = true := by
  obtain ⟨E, hE, hc⟩ := entityStep_cases h
  rcases hc with ⟨_, _, e, _⟩ | ⟨_, _, _, e⟩ | ⟨_, e, _⟩
  · rw [e, hdp]
  · rw [e, hdp]; simp
  · rw [e, hdp]

theorem forwardPass_flag {fuel : Nat} :
    ∀ (Count i : Nat) (S S1 : USimulator) (dp dp1 : Bool),
      forwardPass fuel Count i S dp = some (S1, dp1) → dp = true → dp1 = true := by
  intro Count
  induction Count with
  | zero =>
    intro i S S1 dp dp1 h hdp
    simp only [forwardPass, Option.some.injEq, Prod.mk.injEq] at h
    rw [← h.2]; exact hdp
  | succ Count ih =>
    intro i S S1 dp dp1 h hdp
    rw [forwardPass_succ] at h
    cases hstep : entityStep fuel i S dp with
    | none => rw [hstep] at h; simp at h
    | some p =>
      obtain ⟨S2, dp2⟩ := p
      rw [hstep] at h
      exact ih _ _ _ _ _ h (entityStep_flag hstep hdp)

/-- The steps of the entities `i, ..., i + Count - 1` leave every record outside that
range as it was, up to strikes. -/
theorem forwardPass_others {fuel : Nat} :
    ∀ (Count i : Nat) (S S1 : USimulator) (dp dp1 : Bool),
      forwardPass fuel Count i S dp = some (S1, dp1) →
      ∀ (k : Nat), (k < i ∨ i + Count ≤ k) → ∀ B : FEntityInfo, S1.Entities[k]? = some B →
        ∃ A : FEntityInfo, S.Entities[k]? = some A ∧ Struck A B := by
  intro Count
  induction Count with
  | zero =>
    intro i S S1 dp dp1 h k _ B hB
    simp only [forwardPass, Option.some.injEq, Prod.mk.injEq] at h
    rw [← h.1] at hB
    exact ⟨B, hB, Struck.unstruck B⟩
  | succ Count ih =>
    intro i S S1 dp dp1 h k hk B hB
    rw [forwardPass_succ] at h
    cases hstep : entityStep fuel i S dp with
    | none => rw [hstep] at h; simp at h
    | some p =>
      obtain ⟨S2, dp2⟩ := p
      rw [hstep] at h
      obtain ⟨A2, hA2, hs2⟩ := ih _ _ _ _ _ h k (by omega) B hB
      obtain ⟨A, hA, hs⟩ := entityStep_others hstep (by omega) hA2
      exact ⟨A, hA, hs.chain hs2⟩

/-- The forward pass seen from the entity at index `k`: the steps of the entities before
it, its own step, the steps of the entities after it. -/
theorem forwardPass_at {fuel : Nat} {n k : Nat} {S S3 : USimulator} {dp3 : Bool}
    (hpass : forwardPass fuel n 0 S false = some (S3, dp3)) (hk : k < n) :
    ∃ (Sa Sb : USimulator) (dpa dpb : Bool),
      forwardPass fuel k 0 S false = some (Sa, dpa) ∧
      entityStep fuel k Sa dpa = some (Sb, dpb) ∧
      forwardPass fuel (n - k - 1) (k + 1) Sb dpb = some (S3, dp3) := by
  have e : n = k + ((n - k - 1) + 1) := by omega
  rw [e, forwardPass_split] at hpass
  cases hpre : forwardPass fuel k 0 S false with
  | none => rw [hpre] at hpass; simp at hpass
  | some p =>
    obtain ⟨Sa, dpa⟩ := p
    rw [hpre] at hpass
    simp only [Nat.zero_add] at hpass
    rw [forwardPass_succ] at hpass
    cases hstep : entityStep fuel k Sa dpa with
    | none => rw [hstep] at hpass; simp at hpass
    | some q =>
      obtain ⟨Sb, dpb⟩ := q
      rw [hstep] at hpass
      exact ⟨Sa, Sb, dpa, dpb, rfl, hstep, hpass⟩

/-- The history of a record through one forward pass: the record `E0` at index `k` at the
start is only struck until its own step, which turns `Ea` into `Eb`, and is only struck
afterwards. -/
theorem forwardPass_history {fuel : Nat} {S S3 : USimulator} {dp3 : Bool}
    (hpass : forwardPass fuel S.Entities.length 0 S false = some (S3, dp3)) {k : Nat}
    {E3 : FEntityInfo} (hE3 : S3.Entities[k]? = some E3) :
    ∃ (Sa Sb : USimulator) (dpa dpb : Bool) (E0 Ea Eb : FEntityInfo),
      forwardPass fuel k 0 S false = some (Sa, dpa) ∧
      entityStep fuel k Sa dpa = some (Sb, dpb) ∧
      forwardPass fuel (S.Entities.length - k - 1) (k + 1) Sb dpb = some (S3, dp3) ∧
      S.Entities[k]? = some E0 ∧ Sa.Entities[k]? = some Ea ∧ Sb.Entities[k]? = some Eb ∧
      Struck E0 Ea ∧ Struck Eb E3 ∧ (dpb = true → dp3 = true) := by
  have hlen := (forwardPass_effect _ _ _ _ _ _ hpass).2.length
  have hk : k < S.Entities.length := by
    have := (List.getElem?_eq_some_iff.1 hE3).1
    omega
  obtain ⟨Sa, Sb, dpa, dpb, hpre, hstep, hpost⟩ := forwardPass_at hpass hk
  obtain ⟨Eb, hEb, hs2⟩ := forwardPass_others _ _ _ _ _ _ hpost k (by omega) E3 hE3
  obtain ⟨Ea, hEa, _⟩ := entityStep_cases hstep
  obtain ⟨E0, hE0, hs1⟩ := forwardPass_others _ _ _ _ _ _ hpre k (by omega) Ea hEa
  exact ⟨Sa, Sb, dpa, dpb, E0, Ea, Eb, hpre, hstep, hpost, hE0, hEa, hEb, hs1, hs2,
    forwardPass_flag _ _ _ _ _ _ hpost⟩

/-- What the step of an entity does to its own record, field by field. -/
theorem entityStep_summary {fuel i : Nat} {S S1 : USimulator} {dp dp1 : Bool}
    (h : entityStep fuel i S dp = some (S1, dp1)) {E E1 : FEntityInfo}
    (hE : S.Entities[i]? = some E) (hE1 : S1.Entities[i]? = some E1) :
    E1.Id = E.Id ∧ E1.MaxHealth = E.MaxHealth ∧ E1.TicksPerMove = E.TicksPerMove ∧
    E1.TimeStepsPerAttack = E.TimeStepsPerAttack ∧ E1.Health ≤ E.Health ∧
    (E1.DestroyAt = E.DestroyAt ∨
      (E.Health ≤ 0 ∧ E.DestroyAt = INDEX_NONE ∧ E1.DestroyAt = S.StepIndex + 10)) ∧
    (E.Health ≤ 0 → E.DestroyAt ≠ INDEX_NONE → E.DestroyAt ≥ S.StepIndex → dp1 = true) ∧
    (dp1 = true → dp = true ∨
      (E.Health ≤ 0 ∧ E.DestroyAt ≠ INDEX_NONE ∧ E.DestroyAt ≥ S.StepIndex)) ∧
    ((E.NextCellIndex = E.CurrentCellIndex ∨
        E.NextCellIndex ∈ hexNeighbors S.MapSize E.CurrentCellIndex) →
      (E1.NextCellIndex = E1.CurrentCellIndex ∨
        E1.NextCellIndex ∈ hexNeighbors S.MapSize E1.CurrentCellIndex)) ∧
    (E1.Target = E.Target ∨ E1.Target = INDEX_NONE ∨
      ∃ (k : Nat) (T : FEntityInfo), k ≠ i ∧ S.Entities[k]? = some T ∧ T.Health > 0 ∧
        E1.Target = T.Id) := by
  obtain ⟨_, _, _, E1', hE1', hc⟩ := entityStep_own h hE
  have e : E1 = E1' := Option.some.inj (hE1.symm.trans hE1')
  subst e
  rcases hc with ⟨h1, h2, h3, rfl, _, _⟩ | ⟨h1, h2, h3, rfl, _, _⟩ |
    ⟨h1, h3, _, _, t, T, _, _, _, _, hc⟩ | ⟨h1, h3, _, _, hc⟩
  · refine ⟨rfl, rfl, rfl, rfl, le_refl _, Or.inr ⟨h1, h2, rfl⟩, fun _ hx => absurd h2 hx,
      fun hd => Or.inl (by rw [← h3]; exact hd), fun hn => hn, Or.inl rfl⟩
  · refine ⟨rfl, rfl, rfl, rfl, le_refl _, Or.inl rfl, ?_, ?_, fun hn => hn, Or.inl rfl⟩
    · intro _ _ hdue
      rw [h3]; simp [hdue]
    · intro hd
      rw [h3] at hd
      simp only [Bool.or_eq_true, decide_eq_true_eq] at hd
      rcases hd with hd | hd
      · exact Or.inr ⟨h1, h2, hd⟩
      · exact Or.inl hd
  · have hnd : E.Health ≤ 0 → False := fun hx => by omega
    rcases hc with ⟨_, _, rfl⟩ | ⟨_, _, rfl⟩
    · refine ⟨rfl, rfl, rfl, rfl, ?_, Or.inl rfl, fun hx => absurd hx (by omega),
        fun hd => Or.inl (by rw [← h3]; exact hd), fun hn => hn, Or.inl rfl⟩
      show (if i = t then E.Health - 1 else E.Health) ≤ E.Health
      split <;> omega
    · exact ⟨rfl, rfl, rfl, rfl, le_refl _, Or.inl rfl, fun hx => absurd hx (by omega),
        fun hd => Or.inl (by rw [← h3]; exact hd), fun hn => hn, Or.inl rfl⟩
  · rcases hc with ⟨_, _, rfl, _⟩ | ⟨_, _, rfl, _⟩ | ⟨hst, _, rfl, _⟩ |
      ⟨hst, sel, t, T, hs, hn, ht, hT, hc⟩
    · exact ⟨rfl, rfl, rfl, rfl, le_refl _, Or.inl rfl, fun hx => absurd hx (by omega),
        fun hd => Or.inl (by rw [← h3]; exact hd), fun hn => hn, Or.inr (Or.inl rfl)⟩
    · exact ⟨rfl, rfl, rfl, rfl, le_refl _, Or.inl rfl, fun hx => absurd hx (by omega),
        fun hd => Or.inl (by rw [← h3]; exact hd), fun _ => Or.inl rfl, Or.inr (Or.inl rfl)⟩
    · exact ⟨rfl, rfl, rfl, rfl, le_refl _, Or.inl rfl, fun hx => absurd hx (by omega),
        fun hd => Or.inl (by rw [← h3]; exact hd), fun _ => Or.inl rfl, Or.inr (Or.inl rfl)⟩
    · have hcand : ∃ (k : Nat) (T : FEntityInfo), k ≠ i ∧ S.Entities[k]? = some T ∧
          T.Health > 0 ∧ sel = T.Id := by
        rcases findClosestTarget_candidate S.MapSize i E.NextCellIndex
          (S.Entities.set i (arrived { E with Target := INDEX_NONE } S.StepIndex)) 0
          INDEX_NONE INT32_MAX with hx | ⟨k, T', hk, hne, hT', hres⟩
        · rw [← hs] at hx; exact absurd hx hn
        · have hki : k ≠ i := by omega
          rw [List.getElem?_set_ne (fun e => hki e.symm)] at hk
          exact ⟨k, T', hki, hk, hT', by rw [hs, hres]⟩
      rcases hc with ⟨_, rfl, _⟩ | ⟨hfar, Next, D, hsp, hc⟩
      · exact ⟨rfl, rfl, rfl, rfl, le_refl _, Or.inl rfl, fun hx => absurd hx (by omega),
          fun hd => Or.inl (by rw [← h3]; exact hd), fun _ => Or.inl rfl,
          Or.inr (Or.inr hcand)⟩
      · rcases hc with ⟨_, rfl, _⟩ | ⟨hN, rfl, _⟩
        · exact ⟨rfl, rfl, rfl, rfl, le_refl _, Or.inl rfl, fun hx => absurd hx (by omega),
            fun hd => Or.inl (by rw [← h3]; exact hd), fun _ => Or.inl rfl,
            Or.inr (Or.inl rfl)⟩
        · refine ⟨rfl, rfl, rfl, rfl, le_refl _, Or.inl rfl, fun hx => absurd hx (by omega),
            fun hd => Or.inl (by rw [← h3]; exact hd), fun _ => Or.inr ?_,
            Or.inr (Or.inl rfl)⟩
          exact (ShortestPath_first_step hsp hN).1

/-- What one forward pass does to the record at index `k`, field by field, relative to
the record `E0` at the start of the pass. -/
theorem forwardPass_summary {fuel : Nat} {S S3 : USimulator} {dp3 : Bool}
    (hpass : forwardPass fuel S.Entities.length 0 S false = some (S3, dp3)) {k : Nat}
    {E3 : FEntityInfo} (hE3 : S3.Entities[k]? = some E3) :
    ∃ E0 : FEntityInfo, S.Entities[k]? = some E0 ∧
      E3.Id = E0.Id ∧ E3.MaxHealth = E0.MaxHealth ∧ E3.TicksPerMove = E0.TicksPerMove ∧
      E3.TimeStepsPerAttack = E0.TimeStepsPerAttack ∧ E3.Health ≤ E0.Health ∧
      (E3.DestroyAt = E0.DestroyAt ∨
        (E3.Health ≤ 0 ∧ E0.DestroyAt = INDEX_NONE ∧ E3.DestroyAt = S.StepIndex + 10)) ∧
      (E0.Health ≤ 0 → E0.DestroyAt ≠ INDEX_NONE → E0.DestroyAt ≥ S.StepIndex →
        dp3 = true) ∧
      ((E0.NextCellIndex = E0.CurrentCellIndex ∨
          E0.NextCellIndex ∈ hexNeighbors S.MapSize E0.CurrentCellIndex) →
        (E3.NextCellIndex = E3.CurrentCellIndex ∨
          E3.NextCellIndex ∈ hexNeighbors S.MapSize E3.CurrentCellIndex)) ∧
      (StoreInv S.Entities S.IdToIndex → E0.Target ≠ E0.Id → E0.Id ≠ INDEX_NONE →
        E3.Target ≠ E3.Id) := by
  obtain ⟨Sa, Sb, dpa, dpb, E0, Ea, Eb, hpre, hstep, hpost, hE0, hEa, hEb, hs1, hs2, hflag⟩ :=
    forwardPass_history hpass hE3
  have hfa := (forwardPass_effect _ _ _ _ _ _ hpre).2
  obtain ⟨a1, a2, a3, a4, a5, a6, a7, a8, a9, a10, a11⟩ := hs1.fields
  obtain ⟨b1, b2, b3, b4, b5, b6, b7, b8, b9, b10, b11⟩ := hs2.fields
  obtain ⟨c1, c2, c3, c4, c5, c6, c7, _, c9, c10⟩ := entityStep_summary hstep hEa hEb
  rw [hfa.1] at c9
  rw [hfa.2.1] at c6 c7
  refine ⟨E0, hE0, by rw [b1, c1, a1], by rw [b2, c2, a2], by rw [b3, c3, a3],
    by rw [b8, c4, a8], by omega, ?_, ?_, ?_, ?_⟩
  · rcases c6 with e | ⟨e1, e2, e3⟩
    · left; rw [b10, e, a10]
    · right; exact ⟨by omega, by rw [← a10]; exact e2, by rw [b10, e3]⟩
  · intro h1 h2 h3
    exact hflag (c7 (by omega) (by rw [a10]; exact h2) (by rw [a10]; exact h3))
  · intro hn
    rw [b6, b4]
    apply c9
    rw [a6, a4]
    exact hn
  · intro hstore hself hid
    have hstoreA := hfa.storeKept hstore
    rw [b7, b1, c1]
    rcases c10 with e | e | ⟨k', T, hk', hT, _, e⟩
    · rw [e, a7, a1]; exact hself
    · rw [e, a1]; exact fun x => hid x.symm
    · rw [e]
      exact hstoreA.unique k' k T Ea hk' hT hEa

/-- The two shapes of a tick: without sweep the store and the occupancy are those left by
the forward pass; with the sweep the store is a rearrangement of the records that are not
due, and exactly the bits of the cells of the due records are cleared. -/
theorem NextStep_result {fuel : Nat} {S S1 : USimulator} (h : NextStep fuel S = some S1) :
    ∃ (S3 : USimulator) (dp3 : Bool),
      forwardPass fuel S.Entities.length 0 S false = some (S3, dp3) ∧
      S1.MapSize = S.MapSize ∧ S1.StepIndex = S.StepIndex + 1 ∧
      ((dp3 = false ∧ S1.Entities = S3.Entities ∧ S1.Occupied = S3.Occupied ∧
          S1.IdToIndex = S3.IdToIndex) ∨
       (dp3 = true ∧
          S1.Entities.Perm
            (S3.Entities.filter (fun E => decide (E.DestroyAt < S.StepIndex))) ∧
          ∀ c : Int, S1.Occupied c = true ↔
            (S3.Occupied c = true ∧ ∀ E ∈ S3.Entities, E.DestroyAt ≥ S.StepIndex →
              E.CurrentCellIndex ≠ c ∧ E.NextCellIndex ≠ c))) := by
  cases hpass : forwardPass fuel S.Entities.length 0 S false with
  | none => unfold NextStep at h; rw [hpass] at h; simp at h
  | some p =>
    obtain ⟨S3, dp3⟩ := p
    have hframe := (forwardPass_effect _ _ _ _ _ _ hpass).2
    refine ⟨S3, dp3, rfl, ?_⟩
    cases dp3 with
    | false =>
      rw [NextStep_noSweep hpass] at h
      have e := Option.some.inj h
      subst e
      exact ⟨hframe.1, by rw [← hframe.2.1], Or.inl ⟨rfl, rfl, rfl, rfl⟩⟩
    | true =>
      obtain ⟨Es, M, Occ, hsw, hnext⟩ := NextStep_sweep hpass
      rw [hnext] at h
      have e := Option.some.inj h
      subst e
      rw [hframe.2.1] at hsw
      obtain ⟨hperm, hocc⟩ := sweepLoop_spec _ _ _ _ _ _ _ _ hsw (by intro k E hk; omega)
      exact ⟨hframe.1, by rw [← hframe.2.1], Or.inr ⟨rfl, hperm, hocc⟩⟩

theorem spawnEntities_fresh (RandRange : Int → Int → Int → Int × Int) (fuel : Nat) (n : Int) :
    ∀ (Count : Nat) (S S1 : USimulator), spawnEntities RandRange fuel n Count S = some S1 →
      (∀ E ∈ S.Entities, E.DestroyAt = INDEX_NONE ∧ E.NextCellIndex = E.CurrentCellIndex ∧
        E.Target = INDEX_NONE) →
      ∀ E ∈ S1.Entities, E.DestroyAt = INDEX_NONE ∧ E.NextCellIndex = E.CurrentCellIndex ∧
        E.Target = INDEX_NONE := by
  intro Count
  induction Count with
  | zero =>
    intro S S1 h inv
    simp only [spawnEntities, Option.some.injEq] at h
    subst h
    exact inv
  | succ Count ih =>
    intro S S1 h inv
    unfold spawnEntities at h
    simp only at h
    split at h
    · simp at h
    · rename_i c hc
      apply ih _ _ h
      intro E hE
      have hE' : E ∈ S.Entities ++ [spawnedEntity RandRange
          (RandRange S.RandomStream 0 (n - 1)).2 c S.NextEntityId] := hE
      rcases List.mem_append.1 hE' with hm | hm
      · exact inv E hm
      · rw [List.mem_singleton] at hm
        subst hm
        exact ⟨rfl, rfl, rfl⟩

/-- After `Initialize` on a newly constructed simulator the tick invariant holds. -/
theorem Initialize_tick {RandRange : Int → Int → Int → Int × Int} {fuel : Nat} {Now : Int}
    {MapSize : FIntPoint} {EntitiesCount Seed : Int} {S : USimulator}
    (h : Initialize RandRange fuel Now (freshSimulator MapSize EntitiesCount Seed) = some S) :
    TickInv S := by
  unfold Initialize at h
  simp only at h
  split at h
  · simp at h
  · rename_i S2 hspawn
    simp only [Option.some.injEq] at h
    subst h
    have inv0 : SpawnInv { freshSimulator MapSize EntitiesCount Seed with
        RandomStream := (freshSimulator MapSize EntitiesCount Seed).Seed
        NextEntityId := 0
        MapSize := ⟨max (freshSimulator MapSize EntitiesCount Seed).MapSize.X 1,
          max (freshSimulator MapSize EntitiesCount Seed).MapSize.Y 1⟩
        Occupied := fun _ => false
        EntitiesCount := max 0 (freshSimulator MapSize EntitiesCount Seed).EntitiesCount } := by
      constructor
      · constructor
        · intro i E hE; simp [freshSimulator] at hE
        · intro i j A B _ hA; simp [freshSimulator] at hA
      · intro k E hE; simp [freshSimulator] at hE
      · simp [freshSimulator]
      · intro Id k; simp [freshSimulator, TMap.Reset]
    obtain ⟨inv, _, _⟩ := spawnEntities_inv _ _ _ _ _ _ hspawn inv0
    have hfresh := spawnEntities_fresh _ _ _ _ _ _ hspawn
      (by intro E hE; simp [freshSimulator] at hE)
    have hid : ∀ E ∈ S2.Entities, 0 ≤ E.Id := by
      intro E hE
      obtain ⟨k, hk⟩ := List.getElem?_of_mem hE
      rw [inv.ids k E hk]
      exact Int.ofNat_nonneg k
    constructor
    · show (1 : Int) ≤ 1
      exact le_refl _
    · exact hid
    · intro E hE hd
      exact absurd (hfresh E hE).1 hd
    · intro E hE
      exact Or.inl (hfresh E hE).2.1
    · intro E hE
      rw [(hfresh E hE).2.2]
      intro e
      have := hid E hE
      rw [← e] at this
      exact absurd this (by decide)

/-- The records after a tick are records left by the forward pass, and after a sweep they
are not due. -/
theorem NextStep_kept {S S1 S3 : USimulator} {dp3 : Bool}
    (hshape : (dp3 = false ∧ S1.Entities = S3.Entities ∧ S1.Occupied = S3.Occupied ∧
          S1.IdToIndex = S3.IdToIndex) ∨
       (dp3 = true ∧
          S1.Entities.Perm
            (S3.Entities.filter (fun E => decide (E.DestroyAt < S.StepIndex))) ∧
          ∀ c : Int, S1.Occupied c = true ↔
            (S3.Occupied c = true ∧ ∀ E ∈ S3.Entities, E.DestroyAt ≥ S.StepIndex →
              E.CurrentCellIndex ≠ c ∧ E.NextCellIndex ≠ c)))
    {E1 : FEntityInfo} (hE1 : E1 ∈ S1.Entities) :
    E1 ∈ S3.Entities ∧ (dp3 = true → E1.DestroyAt < S.StepIndex) := by
  rcases hshape with ⟨hdp, hes, _, _⟩ | ⟨_, hperm, _⟩
  · rw [hes] at hE1
    exact ⟨hE1, fun e => by rw [hdp] at e; exact absurd e (by decide)⟩
  · have hm := List.mem_filter.1 (hperm.mem_iff.1 hE1)
    exact ⟨hm.1, fun _ => by simpa using hm.2⟩

/-- `NextStep` keeps the tick invariant. -/
theorem NextStep_tick {fuel : Nat} {S S1 : USimulator} (h : NextStep fuel S = some S1)
    (inv : TickInv S) (hstore : StoreInv S.Entities S.IdToIndex) : TickInv S1 := by
  obtain ⟨S3, dp3, hpass, hM, hs, hshape⟩ := NextStep_result h
  have hist : ∀ E1 ∈ S1.Entities, (dp3 = true → E1.DestroyAt < S.StepIndex) ∧
      ∃ (k : Nat), S3.Entities[k]? = some E1 := by
    intro E1 hE1
    obtain ⟨hm, hd⟩ := NextStep_kept hshape hE1
    exact ⟨hd, List.getElem?_of_mem hm⟩
  have hpos := inv.stepPos
  constructor
  · rw [hs]; omega
  · intro E1 hE1
    obtain ⟨_, k, hk⟩ := hist E1 hE1
    obtain ⟨E0, hE0, hid, _⟩ := forwardPass_summary hpass hk
    rw [hid]
    exact inv.idsNonneg E0 (List.getElem?_mem hE0)
  · intro E1 hE1 hstamp
    obtain ⟨hdue, k, hk⟩ := hist E1 hE1
    obtain ⟨E0, hE0, _, _, _, _, _, hd, hflag, _⟩ := forwardPass_summary hpass hk
    have hE0m := List.getElem?_mem hE0
    rcases hd with e | ⟨e1, e2, e3⟩
    · exfalso
      have hc := inv.corpse E0 hE0m (by rw [← e]; exact hstamp)
      have hdp := hflag hc.1 (by rw [← e]; exact hstamp) (by omega)
      have := hdue hdp
      omega
    · cases hdp : dp3 with
      | true =>
        exfalso
        have := hdue hdp
        omega
      | false =>
        exact ⟨e1, by rw [e3, hs]; omega⟩
  · intro E1 hE1
    obtain ⟨_, k, hk⟩ := hist E1 hE1
    obtain ⟨E0, hE0, _, _, _, _, _, _, _, hnear, _⟩ := forwardPass_summary hpass hk
    rw [hM]
    exact hnear (inv.nextNear E0 (List.getElem?_mem hE0))
  · intro E1 hE1
    obtain ⟨_, k, hk⟩ := hist E1 hE1
    obtain ⟨E0, hE0, _, _, _, _, _, _, _, _, hself⟩ := forwardPass_summary hpass hk
    have hE0m := List.getElem?_mem hE0
    refine hself hstore (inv.noSelfTarget E0 hE0m) ?_
    intro e
    have := inv.idsNonneg E0 hE0m
    rw [e] at this
    exact absurd this (by decide)

/-- Every state of a run satisfies the tick invariant. -/
theorem Reachable.tick {RandRange : Int → Int → Int → Int × Int} {S : USimulator}
    (h : Reachable RandRange S) : TickInv S := by
  induction h with
  | init fuel Now MapSize EntitiesCount Seed S hinit => exact Initialize_tick hinit
  | step fuel S S1 hS hstep ih => exact NextStep_tick hstep ih (Reachable.inv hS).2

end HexBalls

namespace HexBalls

/-! ## Concrete runs on other maps -/

theorem demoStateOn_reachable (MapSize : FIntPoint) (EntitiesCount Seed : Int) (K : Nat)
    (h : (demoRunOn MapSize EntitiesCount Seed K).isSome = true) :
    Reachable demoRand (demoStateOn MapSize EntitiesCount Seed K) := by
  have hrun : demoRunOn MapSize EntitiesCount Seed K =
      some (demoStateOn MapSize EntitiesCount Seed K) :=
    some_getD_of_isSome h (freshSimulator MapSize EntitiesCount Seed)
  unfold demoRunOn at hrun
  split at hrun
  · simp at hrun
  · rename_i S0 hinit
    exact Reachable.ofRunSteps 1000 K S0 _
      (Reachable.init 1000 0 MapSize EntitiesCount Seed S0 hinit) hrun

theorem demoStateOn_run (MapSize : FIntPoint) (EntitiesCount Seed : Int) (K d : Nat)
    (h : (demoRunOn MapSize EntitiesCount Seed (K + d)).isSome = true) :
    runSteps 1000 d (demoStateOn MapSize EntitiesCount Seed K) =
      some (demoStateOn MapSize EntitiesCount Seed (K + d)) := by
  have hrun : demoRunOn MapSize EntitiesCount Seed (K + d) =
      some (demoStateOn MapSize EntitiesCount Seed (K + d)) :=
    some_getD_of_isSome h (freshSimulator MapSize EntitiesCount Seed)
  unfold demoStateOn
  unfold demoRunOn at hrun ⊢
  cases hinit : Initialize demoRand 1000 0 (freshSimulator MapSize EntitiesCount Seed) with
  | none => rw [hinit] at hrun; simp at hrun
  | some S0 =>
    rw [hinit] at hrun
    simp only at hrun ⊢
    rw [runSteps_add] at hrun
    cases hK : runSteps 1000 K S0 with
    | none => rw [hK] at hrun; simp at hrun
    | some SK =>
      rw [hK] at hrun
      simp only at hrun
      simp only [Option.getD_some]
      rw [hrun]
      rw [runSteps_add, hK]
      simp only [hrun, Option.getD_some]

theorem demoStateOn_step (MapSize : FIntPoint) (EntitiesCount Seed : Int) (K : Nat)
    (h : (demoRunOn MapSize EntitiesCount Seed (K + 1)).isSome = true) :
    NextStep 1000 (demoStateOn MapSize EntitiesCount Seed K) =
      some (demoStateOn MapSize EntitiesCount Seed (K + 1)) :=
  NextStep_of_runSteps_one (demoStateOn_run MapSize EntitiesCount Seed K 1 h)

end HexBalls

namespace HexBalls

/-! ## Running the step of one entity forward -/

theorem entityStep_dead {fuel j : Nat} {S : USimulator} {dp : Bool} {B : FEntityInfo}
    (hB : S.Entities[j]? = some B) (hdead : B.Health ≤ 0) :
    entityStep fuel j S dp =
      some (if B.DestroyAt = INDEX_NONE then
          ({ S with Entities := S.Entities.set j { B with DestroyAt := S.StepIndex + DestroyDelay } }, dp)
        else (S, decide (B.DestroyAt ≥ S.StepIndex) || dp)) := by
  unfold entityStep
  rw [hB]
  simp only [if_pos hdead]
  by_cases h1 : B.DestroyAt = INDEX_NONE
  · rw [if_pos h1, if_pos h1]
  · rw [if_neg h1, if_neg h1]
    by_cases h2 : B.DestroyAt ≥ S.StepIndex
    · rw [if_pos h2]; simp [h2]
    · rw [if_neg h2]; simp [h2]

theorem targetPhase_eval_none {i : Nat} {S : USimulator} {E : FEntityInfo}
    (hE : S.Entities[i]? = some E) (hT : E.Target = INDEX_NONE) :
    targetPhase i S = some (S, false) := by
  unfold targetPhase
  rw [hE]
  simp only [hT, ne_eq, not_true_eq_false, if_false]

theorem targetPhase_eval_release {i : Nat} {S : USimulator} {E : FEntityInfo}
    (hE : S.Entities[i]? = some E) (hT : E.Target ≠ INDEX_NONE)
    (hrel : S.IdToIndex E.Target = none ∨ ∃ (t : Nat) (T : FEntityInfo),
      S.IdToIndex E.Target = some t ∧ S.Entities[t]? = some T ∧
      ¬ (T.Health > 0 ∧
        HexDistance (S.ToPoint E.CurrentCellIndex) (S.ToPoint T.CurrentCellIndex)
          ≤ AttackDistance)) :
    targetPhase i S =
      some ({ S with Entities := S.Entities.set i { E with Target := INDEX_NONE } }, false) := by
  unfold targetPhase
  rw [hE]
  simp only [if_pos hT]
  rcases hrel with hn | ⟨t, T, ht, hTe, hno⟩
  · rw [hn]
    simp only [modifyAt_of_some hE]
  · rw [ht]
    simp only [hTe]
    rw [if_neg hno]
    simp only [modifyAt_of_some hE]

theorem targetPhase_eval_engaged {i t : Nat} {S : USimulator} {E T : FEntityInfo}
    (hE : S.Entities[i]? = some E) (hT : E.Target ≠ INDEX_NONE)
    (ht : S.IdToIndex E.Target = some t) (hTe : S.Entities[t]? = some T)
    (halive : T.Health > 0)
    (hnear : HexDistance (S.ToPoint E.CurrentCellIndex) (S.ToPoint T.CurrentCellIndex)
      ≤ AttackDistance) :
    targetPhase i S =
      some (if S.StepIndex - E.StartedAttackAtStep ≥ E.TimeStepsPerAttack then
          ({ S with Entities := modifyAt (modifyAt S.Entities t (fun E => { E with Health := E.Health - 1 })) i (fun E => { E with StartedAttackAtStep := S.StepIndex }) }, true)
        else (S, true)) := by
  unfold targetPhase
  rw [hE]
  simp only [if_pos hT]
  rw [ht]
  simp only [hTe]
  rw [if_pos ⟨halive, hnear⟩]
  by_cases hc : S.StepIndex - E.StartedAttackAtStep ≥ E.TimeStepsPerAttack
  · rw [if_pos hc, if_pos hc]
  · rw [if_neg hc, if_neg hc]

theorem movePhase_eval_idle {fuel i : Nat} {S : USimulator} {E : FEntityInfo}
    (hE : S.Entities[i]? = some E) (hstat : E.CurrentCellIndex = E.NextCellIndex)
    (hscan : findClosestTarget S.MapSize i E.NextCellIndex
      (S.Entities.set i (arrived E S.StepIndex)) 0 INDEX_NONE INT32_MAX = INDEX_NONE) :
    movePhase fuel i S =
      some { S with Entities := S.Entities.set i (arrived E S.StepIndex) } := by
  unfold movePhase
  rw [hE]
  simp only
  rw [if_pos (Or.inl hstat), if_neg (by simpa using hstat)]
  have hscan' : findClosestTarget S.MapSize i (arrived E S.StepIndex).CurrentCellIndex
      (S.Entities.set i (arrived E S.StepIndex)) 0 INDEX_NONE INT32_MAX = INDEX_NONE := hscan
  rw [hscan']
  simp

theorem movePhase_eval_engage {fuel i t : Nat} {S : USimulator} {E T : FEntityInfo} {sel : Int}
    (hE : S.Entities[i]? = some E) (hstat : E.CurrentCellIndex = E.NextCellIndex)
    (hscan : findClosestTarget S.MapSize i E.NextCellIndex
      (S.Entities.set i (arrived E S.StepIndex)) 0 INDEX_NONE INT32_MAX = sel)
    (hsel : sel ≠ INDEX_NONE) (ht : S.IdToIndex sel = some t)
    (hT : (S.Entities.set i (arrived E S.StepIndex))[t]? = some T)
    (hnear : HexDistance (S.ToPoint E.NextCellIndex) (S.ToPoint T.CurrentCellIndex)
      ≤ AttackDistance) :
    movePhase fuel i S =
      some { S with Entities := S.Entities.set i { arrived E S.StepIndex with NextCellIndex := E.NextCellIndex, Target := sel, StartedAttackAtStep := S.StepIndex } } := by
  unfold movePhase
  rw [hE]
  simp only
  rw [if_pos (Or.inl hstat), if_neg (by simpa using hstat)]
  have hscan' : findClosestTarget S.MapSize i (arrived E S.StepIndex).CurrentCellIndex
      (S.Entities.set i (arrived E S.StepIndex)) 0 INDEX_NONE INT32_MAX = sel := hscan
  rw [hscan', if_pos hsel, ht]
  simp only [hT]
  have hnear' : HexDistance (S.ToPoint (arrived E S.StepIndex).CurrentCellIndex)
      (S.ToPoint T.CurrentCellIndex) ≤ AttackDistance := hnear
  rw [if_pos hnear', List.set_set]
  rfl

theorem entityStep_alive_hold {fuel i : Nat} {S S1 : USimulator} {dp : Bool} {E : FEntityInfo}
    (hE : S.Entities[i]? = some E) (halive : E.Health > 0)
    (ht : targetPhase i S = some (S1, true)) :
    entityStep fuel i S dp = some (S1, dp) := by
  unfold entityStep
  rw [hE]
  simp only [if_neg (show ¬ E.Health ≤ 0 by omega), ht]

theorem entityStep_alive_move {fuel i : Nat} {S S1 S2 : USimulator} {dp : Bool}
    {E : FEntityInfo}
    (hE : S.Entities[i]? = some E) (halive : E.Health > 0)
    (ht : targetPhase i S = some (S1, false)) (hm : movePhase fuel i S1 = some S2) :
    entityStep fuel i S dp = some (S2, dp) := by
  unfold entityStep
  rw [hE]
  simp only [if_neg (show ¬ E.Health ≤ 0 by omega), ht, hm]

/-! ## A tick with one entity alive -/

theorem findClosestTarget_none (M : FIntPoint) (i : Nat) (Cell : Int) (Es : List FEntityInfo)
    (hdead : ∀ (k : Nat) (T : FEntityInfo), Es[k]? = some T → k ≠ i → T.Health ≤ 0) :
    findClosestTarget M i Cell Es 0 INDEX_NONE INT32_MAX = INDEX_NONE := by
  rcases findClosestTarget_candidate M i Cell Es 0 INDEX_NONE INT32_MAX with
    h | ⟨k, T, hk, hne, hT, _⟩
  · exact h
  · have := hdead k T hk (by omega)
    omega

theorem arrived_stationary {E : FEntityInfo} (s : Int)
    (hstat : E.NextCellIndex = E.CurrentCellIndex) :
    arrived { E with Target := INDEX_NONE } s =
      { E with StartedMoveAtStep := s, Target := INDEX_NONE } := by
  cases E
  simp only [arrived] at hstat ⊢
  simp only [FEntityInfo.mk.injEq, and_true, true_and]
  exact hstat

/-- The step of an alive, stationary entity when every other stored entity is dead: it
drops its target if it had one, finds no target, and stamps `StartedMoveAtStep`. -/
theorem entityStep_lone {fuel i : Nat} {S : USimulator} {dp : Bool} {E : FEntityInfo}
    (hE : S.Entities[i]? = some E) (halive : E.Health > 0)
    (hstat : E.NextCellIndex = E.CurrentCellIndex)
    (hdead : ∀ (k : Nat) (B : FEntityInfo), S.Entities[k]? = some B → k ≠ i → B.Health ≤ 0)
    (hidx : ∀ t : Nat, S.IdToIndex E.Target = some t → t ≠ i ∧ t < S.Entities.length) :
    entityStep fuel i S dp =
      some ({ S with Entities := S.Entities.set i { E with StartedMoveAtStep := S.StepIndex, Target := INDEX_NONE } }, dp) := by
  have hlt : i < S.Entities.length := (List.getElem?_eq_some_iff.1 hE).1
  have hscan : ∀ (X : FEntityInfo),
      findClosestTarget S.MapSize i E.NextCellIndex (S.Entities.set i X) 0 INDEX_NONE INT32_MAX
        = INDEX_NONE := by
    intro X
    apply findClosestTarget_none
    intro k T hk hne
    rw [List.getElem?_set_ne (fun e => hne e.symm)] at hk
    exact hdead k T hk hne
  by_cases hT : E.Target = INDEX_NONE
  · have hEq : ({ E with Target := INDEX_NONE } : FEntityInfo) = E := by
      cases E; simp only [FEntityInfo.mk.injEq, and_true, true_and] at hT ⊢; exact hT.symm
    have hm : movePhase fuel i S = some { S with Entities := S.Entities.set i (arrived E S.StepIndex) } :=
      movePhase_eval_idle hE hstat.symm (hscan _)
    rw [entityStep_alive_move hE halive (targetPhase_eval_none hE hT) hm]
    rw [← arrived_stationary S.StepIndex hstat, hEq]
  · have hrel : S.IdToIndex E.Target = none ∨ ∃ (t : Nat) (T : FEntityInfo),
        S.IdToIndex E.Target = some t ∧ S.Entities[t]? = some T ∧
        ¬ (T.Health > 0 ∧
          HexDistance (S.ToPoint E.CurrentCellIndex) (S.ToPoint T.CurrentCellIndex)
            ≤ AttackDistance) := by
      cases ht : S.IdToIndex E.Target with
      | none => exact Or.inl rfl
      | some t =>
        right
        obtain ⟨hne, htl⟩ := hidx t ht
        refine ⟨t, S.Entities[t], rfl, List.getElem?_eq_getElem htl, ?_⟩
        intro hc
        have := hdead t _ (List.getElem?_eq_getElem htl) hne
        omega
    have ht := targetPhase_eval_release hE hT hrel
    have hE0 : ({ S with Entities := S.Entities.set i { E with Target := INDEX_NONE } } :
        USimulator).Entities[i]? = some { E with Target := INDEX_NONE } :=
      List.getElem?_set_self hlt
    have hm := @movePhase_eval_idle fuel i _ _ hE0 hstat.symm (by
      show findClosestTarget S.MapSize i E.NextCellIndex
        ((S.Entities.set i { E with Target := INDEX_NONE }).set i _) 0 INDEX_NONE INT32_MAX
          = INDEX_NONE
      rw [List.set_set]
      exact hscan _)
    rw [entityStep_alive_move hE halive ht hm]
    simp only [List.set_set]
    rw [arrived_stationary S.StepIndex hstat]

theorem LoneMid.start (S : USimulator) {i : Nat} {E : FEntityInfo}
    (hE : S.Entities[i]? = some E) : LoneMid S i E 0 S false := by
  refine ⟨rfl, rfl, rfl, rfl, rfl, ?_, ?_, ?_⟩
  · rw [if_neg (by omega)]; exact hE
  · intro k B hB _; exact ⟨B, hB, Or.inl rfl⟩
  · intro h; exact absurd h (by decide)

/-- One step of such a tick returns and keeps `LoneMid`. -/
theorem entityStep_loneMid {fuel : Nat} {S : USimulator} {i : Nat} {E : FEntityInfo}
    (hstore : StoreInv S.Entities S.IdToIndex) (hE : S.Entities[i]? = some E)
    (halive : E.Health > 0) (hstat : E.NextCellIndex = E.CurrentCellIndex)
    (hself : E.Target ≠ E.Id)
    (hothers : ∀ (k : Nat) (B : FEntityInfo), S.Entities[k]? = some B → k ≠ i →
      B.Health ≤ 0)
    {j : Nat} {S1 : USimulator} {dp : Bool} (hj : j < S.Entities.length)
    (hmid : LoneMid S i E j S1 dp) :
    ∃ (S2 : USimulator) (dp2 : Bool), entityStep fuel j S1 dp = some (S2, dp2) ∧
      LoneMid S i E (j + 1) S2 dp2 := by
  obtain ⟨m1, m2, m3, m4, m5, m6, m7, m8⟩ := hmid
  have hdead1 : ∀ (k : Nat) (B : FEntityInfo), S1.Entities[k]? = some B → k ≠ i →
      B.Health ≤ 0 := by
    intro k B hB hk
    obtain ⟨B0, hB0, hc⟩ := m7 k B hB hk
    have := hothers k B0 hB0 hk
    rcases hc with e | ⟨_, _, e⟩
    · rw [e]; exact this
    · rw [e]; exact this
  have hlt : j < S1.Entities.length := by omega
  by_cases hji : j = i
  · subst hji
    rw [if_neg (by omega)] at m6
    have hidx : ∀ t : Nat, S1.IdToIndex E.Target = some t →
        t ≠ j ∧ t < S1.Entities.length := by
      intro t ht
      rw [m3] at ht
      obtain ⟨T, hT, hTid⟩ := (hstore.index _ _).1 ht
      refine ⟨?_, ?_⟩
      · intro e
        subst e
        have : T = E := Option.some.inj (hT.symm.trans hE)
        rw [this] at hTid
        exact hself hTid.symm
      · rw [m5]; exact (List.getElem?_eq_some_iff.1 hT).1
    refine ⟨_, _, entityStep_lone m6 halive hstat hdead1 hidx, ?_⟩
    refine ⟨m1, m2, m3, m4, by simp [m5], ?_, ?_, m8⟩
    · rw [if_pos (by omega)]
      show (S1.Entities.set j _)[j]? = _
      rw [List.getElem?_set_self hlt, m2]
    · intro k B hB hk
      have hB' : (S1.Entities.set j
          { E with StartedMoveAtStep := S1.StepIndex, Target := INDEX_NONE })[k]? = some B := hB
      rw [List.getElem?_set_ne (fun e => hk e.symm)] at hB'
      obtain ⟨B0, hB0, hc⟩ := m7 k B hB' hk
      refine ⟨B0, hB0, ?_⟩
      rcases hc with e | ⟨h1, h2, e⟩
      · exact Or.inl e
      · exact Or.inr ⟨by omega, h2, e⟩
  · have hB : S1.Entities[j]? = some S1.Entities[j] := List.getElem?_eq_getElem hlt
    obtain ⟨B0, hB0, hc⟩ := m7 j _ hB hji
    have hunp : S1.Entities[j] = B0 := by
      rcases hc with e | ⟨h1, _, _⟩
      · exact e
      · omega
    have hi6 : (if i < j + 1 then ({ E with StartedMoveAtStep := S.StepIndex, Target := INDEX_NONE } : FEntityInfo) else E) = (if i < j then { E with StartedMoveAtStep := S.StepIndex, Target := INDEX_NONE } else E) := by
      by_cases h : i < j
      · rw [if_pos h, if_pos (by omega)]
      · rw [if_neg h, if_neg (by omega)]
    have hstep := @entityStep_dead fuel j S1 dp _ hB (hdead1 j _ hB hji)
    by_cases hd : (S1.Entities[j]).DestroyAt = INDEX_NONE
    · rw [if_pos hd] at hstep
      refine ⟨_, _, hstep, ?_⟩
      refine ⟨m1, m2, m3, m4, by simp [m5], ?_, ?_, m8⟩
      · rw [hi6]
        show (S1.Entities.set j _)[i]? = _
        rw [List.getElem?_set_ne hji]
        exact m6
      · intro k B hBk hk
        have hB' : (S1.Entities.set j
            { S1.Entities[j] with DestroyAt := S1.StepIndex + DestroyDelay })[k]? = some B := hBk
        by_cases hkj : k = j
        · subst hkj
          rw [List.getElem?_set_self hlt] at hB'
          have e := Option.some.inj hB'
          refine ⟨B0, hB0, Or.inr ⟨by omega, ?_, ?_⟩⟩
          · rw [← hunp]; exact hd
          · rw [← e, m2, hunp]
        · rw [List.getElem?_set_ne (fun e => hkj e.symm)] at hB'
          obtain ⟨B1, hB1, hc1⟩ := m7 k B hB' hk
          refine ⟨B1, hB1, ?_⟩
          rcases hc1 with e | ⟨h1, h2, e⟩
          · exact Or.inl e
          · exact Or.inr ⟨by omega, h2, e⟩
    · rw [if_neg hd] at hstep
      refine ⟨_, _, hstep, ?_⟩
      refine ⟨m1, m2, m3, m4, m5, ?_, ?_, ?_⟩
      · rw [hi6]; exact m6
      · intro k B hBk hk
        obtain ⟨B1, hB1, hc1⟩ := m7 k B hBk hk
        refine ⟨B1, hB1, ?_⟩
        rcases hc1 with e | ⟨h1, h2, e⟩
        · exact Or.inl e
        · exact Or.inr ⟨by omega, h2, e⟩
      · intro _
        rw [hunp] at hd
        exact ⟨B0, List.getElem?_mem hB0, hd⟩

/-- The forward pass of such a tick returns and keeps `LoneMid`. -/
theorem forwardPass_lone {fuel : Nat} {S : USimulator} {i : Nat} {E : FEntityInfo}
    (hstore : StoreInv S.Entities S.IdToIndex) (hE : S.Entities[i]? = some E)
    (halive : E.Health > 0) (hstat : E.NextCellIndex = E.CurrentCellIndex)
    (hself : E.Target ≠ E.Id)
    (hothers : ∀ (k : Nat) (B : FEntityInfo), S.Entities[k]? = some B → k ≠ i →
      B.Health ≤ 0) :
    ∀ (Count j : Nat) (S1 : USimulator) (dp : Bool), j + Count = S.Entities.length →
      LoneMid S i E j S1 dp →
      ∃ (S3 : USimulator) (dp3 : Bool), forwardPass fuel Count j S1 dp = some (S3, dp3) ∧
        LoneMid S i E (j + Count) S3 dp3 := by
  intro Count
  induction Count with
  | zero =>
    intro j S1 dp _ hmid
    exact ⟨S1, dp, rfl, hmid⟩
  | succ Count ih =>
    intro j S1 dp hlen hmid
    obtain ⟨S2, dp2, hstep, hmid2⟩ :=
      @entityStep_loneMid fuel S i E hstore hE halive hstat hself hothers j S1 dp (by omega) hmid
    obtain ⟨S3, dp3, hp, hmid3⟩ := ih (j + 1) S2 dp2 (by omega) hmid2
    refine ⟨S3, dp3, ?_, ?_⟩
    · rw [forwardPass_succ, hstep]
      exact hp
    · rw [Nat.add_assoc, Nat.add_comm 1 Count] at hmid3
      exact hmid3

/-- A tick from a state with one entity alive and stationary, every other stored entity
dead. -/
theorem NextStep_lone {fuel : Nat} {S : USimulator} {i : Nat} {E : FEntityInfo}
    (hcells : CellsInv S.Entities S.Occupied) (hstore : StoreInv S.Entities S.IdToIndex)
    (htick : TickInv S) (hE : S.Entities[i]? = some E)
    (halive : E.Health > 0) (hstat : E.NextCellIndex = E.CurrentCellIndex)
    (hothers : ∀ (k : Nat) (B : FEntityInfo), S.Entities[k]? = some B → k ≠ i →
      B.Health ≤ 0) :
    ∃ S1 : USimulator, NextStep fuel S = some S1 ∧
      { E with StartedMoveAtStep := S.StepIndex, Target := INDEX_NONE } ∈ S1.Entities ∧
      (∀ E1 ∈ S1.Entities, E1.Id = E.Id →
        E1 = { E with StartedMoveAtStep := S.StepIndex, Target := INDEX_NONE }) ∧
      S1.Occupied E.CurrentCellIndex = true ∧
      (∃ (S3 : USimulator) (dp3 : Bool),
        forwardPass fuel S.Entities.length 0 S false = some (S3, dp3) ∧
        S3.Occupied = S.Occupied) ∧
      (∀ c : Int, S1.Occupied c ≠ S.Occupied c →
        S.Occupied c = true ∧ S1.Occupied c = false ∧
        ∃ B ∈ S.Entities, B.Health ≤ 0 ∧ (B.CurrentCellIndex = c ∨ B.NextCellIndex = c) ∧
          ∀ E1 ∈ S1.Entities, E1.Id ≠ B.Id) ∧
      ((∀ B ∈ S.Entities, B.DestroyAt = INDEX_NONE) →
        S1.Occupied = S.Occupied ∧ S1.Entities.length = S.Entities.length) := by
  have hEm : E ∈ S.Entities := List.getElem?_mem hE
  have hlt : i < S.Entities.length := (List.getElem?_eq_some_iff.1 hE).1
  have hself : E.Target ≠ E.Id := htick.noSelfTarget E hEm
  have hEd : E.DestroyAt = INDEX_NONE := by
    by_contra hne
    have := (htick.corpse E hEm hne).1
    omega
  obtain ⟨S3, dp3, hpass, hmid⟩ := forwardPass_lone hstore hE halive hstat hself hothers
    S.Entities.length 0 S false (by omega) (LoneMid.start S hE)
  rw [Nat.zero_add] at hmid
  obtain ⟨m1, m2, m3, m4, m5, m6, m7, m8⟩ := hmid
  rw [if_pos hlt] at m6
  have hnext : ∃ S1 : USimulator, NextStep fuel S = some S1 := by
    cases dp3 with
    | false => exact ⟨_, NextStep_noSweep hpass⟩
    | true =>
      obtain ⟨Es, M, Occ, _, hn⟩ := NextStep_sweep hpass
      exact ⟨_, hn⟩
  obtain ⟨S1, h1⟩ := hnext
  obtain ⟨S3', dp3', hpass', _, _, hshape⟩ := NextStep_result h1
  rw [hpass] at hpass'
  have e1 : S3 = S3' := (Prod.mk.inj (Option.some.inj hpass')).1
  have e2 : dp3 = dp3' := (Prod.mk.inj (Option.some.inj hpass')).2
  subst e1
  subst e2
  have hstore1 : StoreInv S1.Entities S1.IdToIndex := NextStep_store h1 hstore
  have hstore3 : StoreInv S3.Entities S3.IdToIndex :=
    (forwardPass_effect _ _ _ _ _ _ hpass).2.storeKept hstore
  have hpos := htick.stepPos
  have hdue : ∀ E3 ∈ S3.Entities, E3.DestroyAt ≥ S.StepIndex →
      ∃ (k : Nat) (B0 : FEntityInfo), k ≠ i ∧ S3.Entities[k]? = some E3 ∧
        S.Entities[k]? = some B0 ∧ B0.Health ≤ 0 ∧ E3.Id = B0.Id ∧
        E3.CurrentCellIndex = B0.CurrentCellIndex ∧ E3.NextCellIndex = B0.NextCellIndex := by
    intro E3 hE3 hd
    obtain ⟨k, hk⟩ := List.getElem?_of_mem hE3
    have hki : k ≠ i := by
      intro e
      subst e
      have e3 : E3 = _ := Option.some.inj (hk.symm.trans m6)
      rw [e3] at hd
      simp only [hEd, INDEX_NONE] at hd
      omega
    obtain ⟨B0, hB0, hc⟩ := m7 k E3 hk hki
    refine ⟨k, B0, hki, hk, hB0, hothers k B0 hB0 hki, ?_⟩
    rcases hc with e | ⟨_, _, e⟩
    · rw [e]; exact ⟨rfl, rfl, rfl⟩
    · rw [e]; exact ⟨rfl, rfl, rfl⟩
  have hmem1 : ({ E with StartedMoveAtStep := S.StepIndex, Target := INDEX_NONE } :
      FEntityInfo) ∈ S1.Entities := by
    have hm3 := List.getElem?_mem m6
    rcases hshape with ⟨_, hes, _, _⟩ | ⟨_, hperm, _⟩
    · rw [hes]; exact hm3
    · apply hperm.mem_iff.2
      apply List.mem_filter.2
      refine ⟨hm3, ?_⟩
      simp only [hEd, INDEX_NONE, decide_eq_true_eq]
      omega
  refine ⟨S1, h1, hmem1, ?_, ?_, ⟨S3, dp3, hpass, m4⟩, ?_, ?_⟩
  · intro E1 hE1 hid
    obtain ⟨k1, hk1⟩ := List.getElem?_of_mem hE1
    obtain ⟨k2, hk2⟩ := List.getElem?_of_mem hmem1
    by_cases hk : k1 = k2
    · subst hk
      exact Option.some.inj (hk1.symm.trans hk2)
    · exact absurd hid (hstore1.unique k1 k2 E1
        { E with StartedMoveAtStep := S.StepIndex, Target := INDEX_NONE } hk hk1 hk2)
  · rcases hshape with ⟨_, _, hocc, _⟩ | ⟨_, _, hocc⟩
    · rw [hocc, m4]; exact (hcells.held i E hE).1
    · apply (hocc _).2
      refine ⟨by rw [m4]; exact (hcells.held i E hE).1, ?_⟩
      intro E3 hE3 hd
      obtain ⟨k, B0, hki, _, hB0, _, _, c1, c2⟩ := hdue E3 hE3 hd
      have hdis := hcells.apart k i B0 E hki hB0 hE
      rw [c1, c2]
      exact ⟨hdis.1, hdis.2.2.1⟩
  · intro c hne
    rcases hshape with ⟨_, _, hocc, _⟩ | ⟨_, hperm, hocc⟩
    · rw [hocc, m4] at hne; exact absurd rfl hne
    · have hS1 : S1.Occupied c = false := by
        cases hv : S1.Occupied c with
        | false => rfl
        | true =>
          have := ((hocc c).1 hv).1
          rw [m4] at this
          rw [hv, this] at hne
          exact absurd rfl hne
      have hS : S.Occupied c = true := by
        cases hv : S.Occupied c with
        | true => rfl
        | false => rw [hS1, hv] at hne; exact absurd rfl hne
      refine ⟨hS, hS1, ?_⟩
      have hex : ∃ E3 ∈ S3.Entities, E3.DestroyAt ≥ S.StepIndex ∧
          (E3.CurrentCellIndex = c ∨ E3.NextCellIndex = c) := by
        by_contra hno
        have : S1.Occupied c = true := by
          apply (hocc c).2
          refine ⟨by rw [m4]; exact hS, ?_⟩
          intro E3 hE3 hd
          constructor
          · intro e; exact hno ⟨E3, hE3, hd, Or.inl e⟩
          · intro e; exact hno ⟨E3, hE3, hd, Or.inr e⟩
        rw [this] at hS1
        exact absurd hS1 (by decide)
      obtain ⟨E3, hE3, hd, hcell⟩ := hex
      obtain ⟨k, B0, hki, hk3, hB0, hB0d, hid, c1, c2⟩ := hdue E3 hE3 hd
      refine ⟨B0, List.getElem?_mem hB0, hB0d, by rw [← c1, ← c2]; exact hcell, ?_⟩
      intro E1 hE1
      have hm := List.mem_filter.1 (hperm.mem_iff.1 hE1)
      obtain ⟨k1, hk1⟩ := List.getElem?_of_mem hm.1
      have hlt1 : E1.DestroyAt < S.StepIndex := by simpa using hm.2
      have hkk : k1 ≠ k := by
        intro e
        subst e
        have : E1 = E3 := Option.some.inj (hk1.symm.trans hk3)
        rw [this] at hlt1
        omega
      rw [← hid]
      exact hstore3.unique k1 k E1 E3 hkk hk1 hk3
  · intro hnone
    have hdp : dp3 = false := by
      cases hv : dp3 with
      | false => rfl
      | true =>
        obtain ⟨B0, hB0, hne⟩ := m8 hv
        exact absurd (hnone B0 hB0) hne
    rcases hshape with ⟨_, hes, hocc, _⟩ | ⟨ht, _, _⟩
    · exact ⟨by rw [hocc, m4], by rw [hes, m5]⟩
    · rw [hdp] at ht; exact absurd ht (by decide)

/-- A run from a state whose only stored entity is alive and stationary: every tick
returns and the entity stays as it is, except that `StartedMoveAtStep` is stamped and the
target is dropped. -/
theorem runSteps_lone {RandRange : Int → Int → Int → Int × Int} (fuel : Nat) :
    ∀ (K : Nat) (S : USimulator) (E : FEntityInfo), Reachable RandRange S →
      S.Entities = [E] → E.Health > 0 → E.NextCellIndex = E.CurrentCellIndex →
      ∃ (S1 : USimulator) (E1 : FEntityInfo), runSteps fuel K S = some S1 ∧
        S1.Entities = [E1] ∧ S1.StepIndex = S.StepIndex + K ∧ S1.MapSize = S.MapSize ∧
        S1.Occupied = S.Occupied ∧
        E1.Id = E.Id ∧ E1.CurrentCellIndex = E.CurrentCellIndex ∧
        E1.NextCellIndex = E.NextCellIndex ∧ E1.Health = E.Health ∧
        E1.MaxHealth = E.MaxHealth ∧ E1.StartedAttackAtStep = E.StartedAttackAtStep ∧
        E1.DestroyAt = E.DestroyAt ∧ (E.Target = INDEX_NONE ∨ 1 ≤ K → E1.Target = INDEX_NONE) := by
  intro K
  induction K with
  | zero =>
    intro S E _ hEs _ _
    refine ⟨S, E, rfl, hEs, by simp, rfl, rfl, rfl, rfl, rfl, rfl, rfl, rfl, rfl, ?_⟩
    intro h
    rcases h with h | h
    · exact h
    · omega
  | succ K ih =>
    intro S E hS hEs halive hstat
    have hE : S.Entities[0]? = some E := by rw [hEs]; rfl
    have hothers : ∀ (k : Nat) (B : FEntityInfo), S.Entities[k]? = some B → k ≠ 0 →
        B.Health ≤ 0 := by
      intro k B hB hk
      rw [hEs] at hB
      cases k with
      | zero => exact absurd rfl hk
      | succ k => simp at hB
    have hEd : E.DestroyAt = INDEX_NONE := by
      by_contra hne
      have := ((Reachable.tick hS).corpse E (List.getElem?_mem hE) hne).1
      omega
    obtain ⟨S1, h1, hmem, _, _, _, _, hnone⟩ := @NextStep_lone fuel S 0 E
      (Reachable.inv hS).1 (Reachable.inv hS).2 (Reachable.tick hS) hE halive hstat hothers
    obtain ⟨hocc, hlen⟩ := hnone (by
      intro B hB
      rw [hEs] at hB
      rw [List.mem_singleton.1 hB]
      exact hEd)
    have hEs1 : S1.Entities =
        [{ E with StartedMoveAtStep := S.StepIndex, Target := INDEX_NONE }] := by
      rw [hEs] at hlen
      match hl : S1.Entities with
      | [] => rw [hl] at hlen; simp at hlen
      | [X] =>
        rw [hl] at hmem
        rw [List.mem_singleton.1 hmem]
      | _ :: _ :: _ => rw [hl] at hlen; simp at hlen
    obtain ⟨_, _, _, hM1, hs1, _⟩ := NextStep_result h1
    obtain ⟨S2, E2, hrun, r1, r2, r3, r4, r5, r6, r7, r8, r9, r10, r11, r12⟩ :=
      ih S1 _ (Reachable.step fuel S S1 hS h1) hEs1 halive hstat
    refine ⟨S2, E2, ?_, r1, ?_, by rw [r3, hM1], by rw [r4, hocc], r5, r6, r7, r8, r9, r10, r11,
      fun _ => r12 (Or.inl rfl)⟩
    · unfold runSteps
      rw [h1]
      exact hrun
    · rw [r2, hs1]
      push_cast
      omega

end HexBalls

namespace HexBalls

/-! ## The lone entity -/

set_option maxRecDepth 1000000 in
/-- C15, counterexample.  The run on the 2 x 1 map with 2 entities and seed 11.  After 46
steps the store holds the dead entity 0 (cells 1, 1) and the entity 1, alive, stationary
on cell 0 with no target; the next `NextStep` sweeps entity 0 and clears the occupancy bit
of cell 1, so occupancy is not unchanged.  One step earlier entity 1 is alive and
stationary, entity 0 is dead, and the `NextStep` changes the `Target` of entity 1 from 0
to `INDEX_NONE`. -/
theorem lone_entity_occupancy_changes :
    ((demoStateOn ⟨2, 1⟩ 2 11 46).Entities.map
        (fun E => (E.Id, E.Health, E.CurrentCellIndex, E.NextCellIndex, E.Target)) =
        [(0, 0, 1, 1, 1), (1, 2, 0, 0, -1)] ∧
      (demoStateOn ⟨2, 1⟩ 2 11 46).Occupied 1 = true ∧
      (NextStep 1000 (demoStateOn ⟨2, 1⟩ 2 11 46)).map
        (fun S1 => (S1.Entities.map (fun E => (E.Id, E.Target)), S1.Occupied 1)) =
        some ([(1, -1)], false)) ∧
    ((demoStateOn ⟨2, 1⟩ 2 11 45).Entities.map
        (fun E => (E.Id, E.Health, E.CurrentCellIndex, E.NextCellIndex, E.Target)) =
        [(0, 0, 1, 1, 1), (1, 2, 0, 0, 0)] ∧
      (NextStep 1000 (demoStateOn ⟨2, 1⟩ 2 11 45)).map
        (fun S1 => S1.Entities.map (fun E => (E.Id, E.Target))) =
        some [(0, 1), (1, -1)]) := by
  decide

/-- C15, amended.  Lone entity stays idle.  In every run from a fresh `Initialize`: if the
store holds an alive, stationary entity `E` and no other stored entity has `Health > 0`,
then `NextStep` returns, the entity stays stored, and none of its fields changes except
`StartedMoveAtStep` (set to `StepIndex`) and `Target` (`INDEX_NONE` afterwards, so
unchanged when it was `INDEX_NONE`); its own cell stays occupied; the forward pass changes
no occupancy bit; the only bits the tick changes are bits of cells of dead entities that
its compaction sweep removes, which it clears; and when no stored record has `DestroyAt`
set, occupancy and the number of stored records are unchanged.  Consequently on a 1 x 1
map with 1 entity, whatever the seed, `Initialize` returns and so does every sequence of
`K` calls of `NextStep` (10 in particular), after which the only stored entity is at cell
(0,0), stationary, without target, with `Health = MaxHealth`, and occupancy is as
`Initialize` left it. -/
theorem lone_entity_stays_idle (RandRange : Int → Int → Int → Int × Int) (fuel : Nat) :
    (∀ (S : USimulator) (i : Nat) (E : FEntityInfo), Reachable RandRange S →
      S.Entities[i]? = some E → E.Health > 0 → E.NextCellIndex = E.CurrentCellIndex →
      (∀ (k : Nat) (B : FEntityInfo), S.Entities[k]? = some B → k ≠ i → B.Health ≤ 0) →
      ∃ S1 : USimulator, NextStep fuel S = some S1 ∧
        { E with StartedMoveAtStep := S.StepIndex, Target := INDEX_NONE } ∈ S1.Entities ∧
        (∀ E1 ∈ S1.Entities, E1.Id = E.Id →
          E1 = { E with StartedMoveAtStep := S.StepIndex, Target := INDEX_NONE }) ∧
        S1.Occupied E.CurrentCellIndex = true ∧
        (∃ (S3 : USimulator) (dp3 : Bool),
          forwardPass fuel S.Entities.length 0 S false = some (S3, dp3) ∧
          S3.Occupied = S.Occupied) ∧
        (∀ c : Int, S1.Occupied c ≠ S.Occupied c →
          S.Occupied c = true ∧ S1.Occupied c = false ∧
          ∃ B ∈ S.Entities, B.Health ≤ 0 ∧ (B.CurrentCellIndex = c ∨ B.NextCellIndex = c) ∧
            ∀ E1 ∈ S1.Entities, E1.Id ≠ B.Id) ∧
        ((∀ B ∈ S.Entities, B.DestroyAt = INDEX_NONE) →
          S1.Occupied = S.Occupied ∧ S1.Entities.length = S.Entities.length)) ∧
    (RandRangeInBounds RandRange → ∀ (Seed Now : Int) (fuel0 K : Nat), 1 ≤ fuel0 →
      ∃ (S0 SK : USimulator) (E0 EK : FEntityInfo),
        Initialize RandRange fuel0 Now (freshSimulator ⟨1, 1⟩ 1 Seed) = some S0 ∧
        runSteps fuel K S0 = some SK ∧ S0.Entities = [E0] ∧ SK.Entities = [EK] ∧
        SK.StepIndex = 1 + K ∧ EK.Id = E0.Id ∧
        EK.CurrentCellIndex = E0.CurrentCellIndex ∧
        ToPoint EK.CurrentCellIndex SK.MapSize = ⟨0, 0⟩ ∧
        EK.NextCellIndex = EK.CurrentCellIndex ∧ EK.Target = INDEX_NONE ∧
        EK.Health = EK.MaxHealth ∧ EK.MaxHealth = E0.MaxHealth ∧
        EK.StartedAttackAtStep = INDEX_NONE ∧ EK.DestroyAt = INDEX_NONE ∧
        SK.Occupied = S0.Occupied) := by
  constructor
  · intro S i E hS hE halive hstat hothers
    exact NextStep_lone (Reachable.inv hS).1 (Reachable.inv hS).2 (Reachable.tick hS) hE
      halive hstat hothers
  · intro hR Seed Now fuel0 K hfuel
    obtain ⟨S0, hinit, hs0, hM0, _, hlen, hok, _, _⟩ :=
      Initialize_spawns RandRange hR ⟨1, 1⟩ 1 Seed Now fuel0 (by decide)
        (by simp only [max_self, mul_one]; omega)
    have hlen1 : S0.Entities.length = 1 := by rw [hlen]; rfl
    obtain ⟨E0, hEs⟩ : ∃ E0, S0.Entities = [E0] := by
      match hl : S0.Entities with
      | [] => rw [hl] at hlen1; simp at hlen1
      | [X] => exact ⟨X, rfl⟩
      | _ :: _ :: _ => rw [hl] at hlen1; simp at hlen1
    have hsp := hok 0 E0 (by rw [hEs]; rfl)
    rw [hM0] at hsp
    obtain ⟨s1, s2, s3, s4, s5, s6, s7, s8, s9, _⟩ := hsp
    have hcell : E0.CurrentCellIndex = 0 := by
      simp only [max_self, mul_one] at s3
      omega
    obtain ⟨SK, EK, hrun, r1, r2, r3, r4, r5, r6, r7, r8, r9, r10, r11, r12⟩ :=
      @runSteps_lone RandRange fuel K S0 E0
        (Reachable.init fuel0 Now ⟨1, 1⟩ 1 Seed S0 hinit) hEs (by omega) s4
    refine ⟨S0, SK, E0, EK, hinit, hrun, hEs, r1, by rw [r2, hs0], r5, r6, ?_, by rw [r7, r6, s4],
      r12 (Or.inl s5), by rw [r8, r9, s8], r9, by rw [r10, s6], by rw [r11, s7], r4⟩
    rw [r6, hcell, r3, hM0]
    decide

set_option maxRecDepth 1000000 in
theorem lone_entity_stays_idle_witness :
    (demoStateOn ⟨2, 1⟩ 2 11 46).Entities =
      [⟨0, 2, 0, 10, 1, 1, 1, 1, 20, 41, 56⟩, ⟨1, 4, 2, 16, 0, 46, 0, -1, 22, 45, -1⟩] ∧
    (demoStateOn ⟨2, 1⟩ 2 11 46).StepIndex = 47 ∧
    (∃ S1 : USimulator, NextStep 1000 (demoStateOn ⟨2, 1⟩ 2 11 46) = some S1 ∧
      (⟨1, 4, 2, 16, 0, 47, 0, -1, 22, 45, -1⟩ : FEntityInfo) ∈ S1.Entities ∧
      S1.Occupied 0 = true) ∧
    (∃ (S0 SK : USimulator) (E0 EK : FEntityInfo),
      Initialize demoRand 1000 0 (freshSimulator ⟨1, 1⟩ 1 0) = some S0 ∧
      runSteps 1000 10 S0 = some SK ∧ S0.Entities = [E0] ∧ SK.Entities = [EK] ∧
      SK.StepIndex = 11 ∧ ToPoint EK.CurrentCellIndex SK.MapSize = ⟨0, 0⟩ ∧
      EK.NextCellIndex = EK.CurrentCellIndex ∧ EK.Health = EK.MaxHealth) := by
  have hEs : (demoStateOn ⟨2, 1⟩ 2 11 46).Entities =
      [⟨0, 2, 0, 10, 1, 1, 1, 1, 20, 41, 56⟩, ⟨1, 4, 2, 16, 0, 46, 0, -1, 22, 45, -1⟩] := by
    decide
  have hs : (demoStateOn ⟨2, 1⟩ 2 11 46).StepIndex = 47 := by decide
  have hothers : ∀ (k : Nat) (B : FEntityInfo),
      (demoStateOn ⟨2, 1⟩ 2 11 46).Entities[k]? = some B → k ≠ 1 → B.Health ≤ 0 := by
    intro k B hB hk
    rw [hEs] at hB
    match k, hk, hB with
    | 0, _, hB =>
      simp only [List.getElem?_cons_zero, Option.some.injEq] at hB
      rw [← hB]
    | k + 2, _, hB => simp at hB
  obtain ⟨S1, h1, hmem, _, hocc, _⟩ := (lone_entity_stays_idle demoRand 1000).1
    (demoStateOn ⟨2, 1⟩ 2 11 46) 1 ⟨1, 4, 2, 16, 0, 46, 0, -1, 22, 45, -1⟩
    (demoStateOn_reachable ⟨2, 1⟩ 2 11 46 (by decide)) (by rw [hEs]; rfl) (by decide)
    (by decide) hothers
  obtain ⟨S0, SK, E0, EK, w1, w2, w3, w4, w5, _, _, w8, w9, _, w11, _⟩ :=
    (lone_entity_stays_idle demoRand 1000).2 demoRand_inBounds 0 0 1000 10 (by decide)
  refine ⟨hEs, hs, ⟨S1, h1, ?_, hocc⟩, S0, SK, E0, EK, w1, w2, w3, w4, by rw [w5]; rfl, w8, w9, w11⟩
  rw [hs] at hmem
  exact hmem

end HexBalls

namespace HexBalls

/-! ## Stored cells are cells of the map -/

theorem randomFreeCellLoop_range (Occ : Int → Bool) (n : Int) (hn : 0 < n) :
    ∀ (fuel : Nat) (c0 c : Int), 0 ≤ c0 → c0 < n →
      randomFreeCellLoop Occ n fuel c0 = some c → 0 ≤ c ∧ c < n := by
  intro fuel
  induction fuel with
  | zero => intro c0 c _ _ h; simp [randomFreeCellLoop] at h
  | succ fuel ih =>
    intro c0 c h0 h1 h
    unfold randomFreeCellLoop at h
    split at h
    · have hstep : Int.tmod (c0 + 1) n = (c0 + 1) % n :=
        Int.tmod_eq_emod (by omega) (by omega)
      rw [hstep] at h
      exact ih _ _ (Int.emod_nonneg _ (by omega)) (Int.emod_lt_of_pos _ hn) h
    · have e : c0 = c := by simpa using h
      rw [← e]
      exact ⟨h0, h1⟩

theorem spawnEntities_range {RandRange : Int → Int → Int → Int × Int}
    (hR : RandRangeInBounds RandRange) (fuel : Nat) (n : Int) (hn : 0 < n) :
    ∀ (Count : Nat) (S S1 : USimulator), spawnEntities RandRange fuel n Count S = some S1 →
      (∀ E ∈ S.Entities, 0 ≤ E.CurrentCellIndex ∧ E.CurrentCellIndex < n ∧
        0 ≤ E.NextCellIndex ∧ E.NextCellIndex < n) →
      ∀ E ∈ S1.Entities, 0 ≤ E.CurrentCellIndex ∧ E.CurrentCellIndex < n ∧
        0 ≤ E.NextCellIndex ∧ E.NextCellIndex < n := by
  intro Count
  induction Count with
  | zero =>
    intro S S1 h inv
    simp only [spawnEntities, Option.some.injEq] at h
    subst h
    exact inv
  | succ Count ih =>
    intro S S1 h inv
    unfold spawnEntities at h
    simp only at h
    split at h
    · simp at h
    · rename_i c hc
      have hr := hR S.RandomStream 0 (n - 1) (by omega)
      have hcr := randomFreeCellLoop_range _ n hn _ _ _ hr.1 (by omega) hc
      apply ih _ _ h
      intro E hE
      have hE' : E ∈ S.Entities ++ [spawnedEntity RandRange
          (RandRange S.RandomStream 0 (n - 1)).2 c S.NextEntityId] := hE
      rcases List.mem_append.1 hE' with hm | hm
      · exact inv E hm
      · rw [List.mem_singleton] at hm
        subst hm
        exact ⟨hcr.1, hcr.2, hcr.1, hcr.2⟩

theorem Initialize_range {RandRange : Int → Int → Int → Int × Int}
    (hR : RandRangeInBounds RandRange) {fuel : Nat} {Now : Int}
    {MapSize : FIntPoint} {EntitiesCount Seed : Int} {S : USimulator}
    (h : Initialize RandRange fuel Now (freshSimulator MapSize EntitiesCount Seed) = some S) :
    RangeInv S := by
  have hX : 1 ≤ max MapSize.X 1 := le_max_right _ _
  have hY : 1 ≤ max MapSize.Y 1 := le_max_right _ _
  have hn : 0 < max MapSize.X 1 * max MapSize.Y 1 := Int.mul_pos (by omega) (by omega)
  unfold Initialize at h
  simp only at h
  split at h
  · simp at h
  · rename_i S2 hspawn
    simp only [Option.some.injEq] at h
    subst h
    have hM := (spawnEntities_inv _ _ _ _ _ _ hspawn (by
      constructor
      · constructor
        · intro i E hE; simp [freshSimulator] at hE
        · intro i j A B _ hA; simp [freshSimulator] at hA
      · intro k E hE; simp [freshSimulator] at hE
      · simp [freshSimulator]
      · intro Id k; simp [freshSimulator, TMap.Reset])).2.1
    have hr := spawnEntities_range hR _ _ hn _ _ _ hspawn (by
      intro E hE; simp [freshSimulator] at hE)
    have hM2 : S2.MapSize = ⟨max MapSize.X 1, max MapSize.Y 1⟩ := hM
    refine ⟨?_, ?_, ?_⟩
    · show 1 ≤ S2.MapSize.X
      rw [hM2]; exact hX
    · show 1 ≤ S2.MapSize.Y
      rw [hM2]; exact hY
    · intro E hE
      show 0 ≤ E.CurrentCellIndex ∧ E.CurrentCellIndex < S2.MapSize.X * S2.MapSize.Y ∧
        0 ≤ E.NextCellIndex ∧ E.NextCellIndex < S2.MapSize.X * S2.MapSize.Y
      rw [hM2]
      exact hr E hE

/-- The step of an entity leaves it on its cell or puts it on its reserved cell. -/
theorem entityStep_current {fuel i : Nat} {S S1 : USimulator} {dp dp1 : Bool}
    (h : entityStep fuel i S dp = some (S1, dp1)) {E E1 : FEntityInfo}
    (hE : S.Entities[i]? = some E) (hE1 : S1.Entities[i]? = some E1) :
    E1.CurrentCellIndex = E.CurrentCellIndex ∨ E1.CurrentCellIndex = E.NextCellIndex := by
  obtain ⟨_, _, _, E1', hE1', hc⟩ := entityStep_own h hE
  have e : E1 = E1' := Option.some.inj (hE1.symm.trans hE1')
  subst e
  rcases hc with ⟨_, _, _, rfl, _, _⟩ | ⟨_, _, _, rfl, _, _⟩ |
    ⟨_, _, _, _, t, T, _, _, _, _, hc⟩ | ⟨_, _, _, _, hc⟩
  · exact Or.inl rfl
  · exact Or.inl rfl
  · rcases hc with ⟨_, _, rfl⟩ | ⟨_, _, rfl⟩
    · exact Or.inl rfl
    · exact Or.inl rfl
  · rcases hc with ⟨_, _, rfl, _⟩ | ⟨_, _, rfl, _⟩ | ⟨_, _, rfl, _⟩ |
      ⟨_, sel, t, T, _, _, _, _, hc⟩
    · exact Or.inl rfl
    · exact Or.inr rfl
    · exact Or.inr rfl
    · rcases hc with ⟨_, rfl, _⟩ | ⟨_, Next, D, _, hc⟩
      · exact Or.inr rfl
      · rcases hc with ⟨_, rfl, _⟩ | ⟨_, rfl, _⟩
        · exact Or.inr rfl
        · exact Or.inr rfl

theorem entityStep_range {fuel i : Nat} {S S1 : USimulator} {dp dp1 : Bool}
    (h : entityStep fuel i S dp = some (S1, dp1)) (inv : RangeInv S) : RangeInv S1 := by
  obtain ⟨hX, hY, hr⟩ := inv
  have hframe := (entityStep_effect h).2
  refine ⟨by rw [hframe.1]; exact hX, by rw [hframe.1]; exact hY, ?_⟩
  intro B hB
  rw [hframe.1]
  obtain ⟨k, hk⟩ := List.getElem?_of_mem hB
  by_cases hki : k = i
  · subst hki
    obtain ⟨E, hE, _⟩ := entityStep_cases h
    have hEr := hr E (List.getElem?_mem hE)
    have hcur := entityStep_current h hE hk
    have hnext : 0 ≤ B.NextCellIndex ∧ B.NextCellIndex < S.MapSize.X * S.MapSize.Y := by
      by_cases hne : B.NextCellIndex = E.NextCellIndex
      · rw [hne]; exact ⟨hEr.2.2.1, hEr.2.2.2⟩
      · obtain ⟨_, _, _, hN, _, To, D, hsp, _⟩ := entityStep_reserves h hE hk hne
        have hb := PathStep_bounds (ShortestPath_first_step hsp hN)
        exact ⟨hb.1, hb.2.1⟩
    rcases hcur with e | e
    · rw [e]; exact ⟨hEr.1, hEr.2.1, hnext.1, hnext.2⟩
    · rw [e]; exact ⟨hEr.2.2.1, hEr.2.2.2, hnext.1, hnext.2⟩
  · obtain ⟨A, hA, hs⟩ := entityStep_others h hki hk
    obtain ⟨_, _, _, f4, _, f6, _⟩ := hs.fields
    rw [f4, f6]
    exact hr A (List.getElem?_mem hA)

theorem forwardPass_range {fuel : Nat} :
    ∀ (Count i : Nat) (S S1 : USimulator) (dp dp1 : Bool),
      forwardPass fuel Count i S dp = some (S1, dp1) → RangeInv S → RangeInv S1 := by
  intro Count
  induction Count with
  | zero =>
    intro i S S1 dp dp1 h inv
    simp only [forwardPass, Option.some.injEq, Prod.mk.injEq] at h
    rw [← h.1]; exact inv
  | succ Count ih =>
    intro i S S1 dp dp1 h inv
    rw [forwardPass_succ] at h
    cases hstep : entityStep fuel i S dp with
    | none => rw [hstep] at h; simp at h
    | some p =>
      obtain ⟨S2, dp2⟩ := p
      rw [hstep] at h
      exact ih _ _ _ _ _ h (entityStep_range hstep inv)

theorem NextStep_range {fuel : Nat} {S S1 : USimulator} (h : NextStep fuel S = some S1)
    (inv : RangeInv S) : RangeInv S1 := by
  obtain ⟨S3, dp3, hpass, hM, _, hshape⟩ := NextStep_result h
  obtain ⟨hX, hY, hr⟩ := forwardPass_range _ _ _ _ _ _ hpass inv
  have hM3 := (forwardPass_effect _ _ _ _ _ _ hpass).2.1
  rw [hM3] at hX hY hr
  refine ⟨by rw [hM]; exact hX, by rw [hM]; exact hY, ?_⟩
  intro E1 hE1
  rw [hM]
  exact hr E1 (NextStep_kept hshape hE1).1

/-- With a random stream that honours its contract, in every state of a run the cells of
the stored entities are cells of the map. -/
theorem Reachable.range {RandRange : Int → Int → Int → Int × Int} {S : USimulator}
    (hR : RandRangeInBounds RandRange) (h : Reachable RandRange S) : RangeInv S := by
  induction h with
  | init fuel Now MapSize EntitiesCount Seed S hinit => exact Initialize_range hR hinit
  | step fuel S S1 hS hstep ih => exact NextStep_range hstep ih

/-- Two cells of a map are at hex distance below the number of cells. -/
theorem HexDistance_lt_cells (M : FIntPoint) (hX : 1 ≤ M.X) (hY : 1 ≤ M.Y) (c d : Int)
    (hc0 : 0 ≤ c) (hc1 : c < M.X * M.Y) (hd0 : 0 ≤ d) (hd1 : d < M.X * M.Y) :
    HexDistance (ToPoint c M) (ToPoint d M) < M.X * M.Y := by
  have vc := (IsValid_iff M _).1 (ToPoint_valid M c hc0 hc1 hX).1
  have vd := (IsValid_iff M _).1 (ToPoint_valid M d hd0 hd1 hX).1
  rw [HexDistance_eq]
  generalize ToPoint c M = A at vc
  generalize ToPoint d M = B at vd
  obtain ⟨a1, a2, a3, a4⟩ := vc
  obtain ⟨b1, b2, b3, b4⟩ := vd
  have hprod : M.X + M.Y - 1 ≤ M.X * M.Y := by
    have := Int.mul_nonneg (show 0 ≤ M.X - 1 by omega) (show 0 ≤ M.Y - 1 by omega)
    have e : (M.X - 1) * (M.Y - 1) = M.X * M.Y - M.X - M.Y + 1 := by ring
    rw [e] at this
    omega
  simp only [Int.abs_eq_natAbs]
  omega

end HexBalls

namespace HexBalls

/-! ## Nearest-target selection -/

theorem IsCandidate_set {Es : List FEntityInfo} {i k : Nat} {X T : FEntityInfo} :
    IsCandidate (Es.set i X) i k T ↔ IsCandidate Es i k T := by
  unfold IsCandidate
  constructor
  · rintro ⟨h1, h2, h3⟩
    rw [List.getElem?_set_ne (fun e => h2 e.symm)] at h1
    exact ⟨h1, h2, h3⟩
  · rintro ⟨h1, h2, h3⟩
    refine ⟨?_, h2, h3⟩
    rw [List.getElem?_set_ne (fun e => h2 e.symm)]
    exact h1

theorem IsNearestCandidate_set {M : FIntPoint} {Es : List FEntityInfo} {i k : Nat} {Cell : Int}
    {X T : FEntityInfo} :
    IsNearestCandidate M (Es.set i X) i Cell k T ↔ IsNearestCandidate M Es i Cell k T := by
  unfold IsNearestCandidate
  simp only [IsCandidate_set]

/-- Two nearest candidates are the same record at the same index. -/
theorem IsNearestCandidate.unique {M : FIntPoint} {Es : List FEntityInfo} {i k k1 : Nat}
    {Cell : Int} {T T1 : FEntityInfo} (h : IsNearestCandidate M Es i Cell k T)
    (h1 : IsNearestCandidate M Es i Cell k1 T1) : k = k1 ∧ T = T1 := by
  have a := h.2 k1 T1 h1.1
  have b := h1.2 k T h.1
  have hk : k = k1 := by
    have h2 := a.2 (by omega)
    have h3 := b.2 (by omega)
    omega
  subst hk
  exact ⟨rfl, Option.some.inj (h.1.1.symm.trans h1.1.1)⟩

/-- The scan of a stationary, untargeted, alive entity in a run: what it selects and what
the step does with the selection. -/
theorem scan_in_run {RandRange : Int → Int → Int → Int × Int}
    (hR : RandRangeInBounds RandRange) {fuel : Nat} {S Sa Sb : USimulator} {i : Nat}
    {dpa dpb : Bool} {E Eb : FEntityInfo} (hS : Reachable RandRange S)
    (hmap : S.MapSize.X * S.MapSize.Y ≤ INT32_MAX)
    (hpass : forwardPass fuel i 0 S false = some (Sa, dpa))
    (hstep : entityStep fuel i Sa dpa = some (Sb, dpb))
    (hE : Sa.Entities[i]? = some E) (hEb : Sb.Entities[i]? = some Eb)
    (halive : E.Health > 0) (hstat : E.NextCellIndex = E.CurrentCellIndex)
    (hT : E.Target = INDEX_NONE) :
    (∀ (k : Nat) (T : FEntityInfo), IsCandidate Sa.Entities i k T →
      T.CurrentCellIndex ≠ E.CurrentCellIndex) ∧
    ∃ sel : Int,
      sel = findClosestTarget Sa.MapSize i E.CurrentCellIndex
        (Sa.Entities.set i (arrived E Sa.StepIndex)) 0 INDEX_NONE INT32_MAX ∧
      sel = findClosestTargetNoExit Sa.MapSize i E.CurrentCellIndex
        (Sa.Entities.set i (arrived E Sa.StepIndex)) 0 INDEX_NONE INT32_MAX ∧
      (sel = INDEX_NONE ↔ ¬ ∃ (k : Nat) (T : FEntityInfo), IsCandidate Sa.Entities i k T) ∧
      ((∃ (k : Nat) (T : FEntityInfo), IsCandidate Sa.Entities i k T) →
        ∃ (k : Nat) (T : FEntityInfo),
          IsNearestCandidate Sa.MapSize Sa.Entities i E.CurrentCellIndex k T) ∧
      (∀ (k : Nat) (T : FEntityInfo),
        IsNearestCandidate Sa.MapSize Sa.Entities i E.CurrentCellIndex k T →
        sel = T.Id ∧ Sa.IdToIndex sel = some k ∧
        (HexDistance (ToPoint E.CurrentCellIndex Sa.MapSize)
            (ToPoint T.CurrentCellIndex Sa.MapSize) ≤ AttackDistance →
          Eb = { arrived E Sa.StepIndex with Target := T.Id, StartedAttackAtStep := Sa.StepIndex }) ∧
        (¬ HexDistance (ToPoint E.CurrentCellIndex Sa.MapSize)
            (ToPoint T.CurrentCellIndex Sa.MapSize) ≤ AttackDistance →
          ∃ (Next : Int) (D : FDijkstraLookup),
            ShortestPath fuel Sa.MapSize Sa.Occupied E.CurrentCellIndex T.CurrentCellIndex
              = some (Next, D) ∧
            Eb = { arrived E Sa.StepIndex with StartedAttackAtStep := INDEX_NONE, NextCellIndex := if Next = INDEX_NONE then E.CurrentCellIndex else Next })) ∧
      (sel = INDEX_NONE → Eb = arrived E Sa.StepIndex) := by
  have hframe := (forwardPass_effect _ _ _ _ _ _ hpass).2
  have hcells : CellsInv Sa.Entities Sa.Occupied :=
    (forwardPass_effect _ _ _ _ _ _ hpass).1 (Reachable.inv hS).1
  have hstore : StoreInv Sa.Entities Sa.IdToIndex := hframe.storeKept (Reachable.inv hS).2
  have hrangeInv : RangeInv Sa := forwardPass_range _ _ _ _ _ _ hpass (Reachable.range hR hS)
  have hidsA : ∀ T ∈ Sa.Entities, 0 ≤ T.Id := by
    intro T hTm
    obtain ⟨k, hk⟩ := List.getElem?_of_mem hTm
    obtain ⟨T0, hT0, e⟩ := hframe.getElem? hk
    rw [← e]
    exact (Reachable.tick hS).idsNonneg T0 (List.getElem?_mem hT0)
  have hEm : E ∈ Sa.Entities := List.getElem?_mem hE
  have hlt : i < Sa.Entities.length := (List.getElem?_eq_some_iff.1 hE).1
  have hshare : ∀ (k : Nat) (T : FEntityInfo), IsCandidate Sa.Entities i k T →
      T.CurrentCellIndex ≠ E.CurrentCellIndex := by
    intro k T hc
    exact (hcells.apart k i T E hc.2.1 hc.1 hE).1
  obtain ⟨n1, n2, n3, n4⟩ := findClosestTarget_nearest Sa.MapSize
    (Sa.Entities.set i (arrived E Sa.StepIndex)) i E.CurrentCellIndex
    (by
      intro T hTm
      have hnn : 0 ≤ T.Id := by
        rcases List.mem_or_eq_of_mem_set hTm with h | h
        · exact hidsA T h
        · rw [h]; exact hidsA E hEm
      intro e
      rw [e] at hnn
      exact absurd hnn (by decide))
    (by
      intro k T hc
      have hc' := IsCandidate_set.1 hc
      have hTr := hrangeInv.2.2 T (List.getElem?_mem hc'.1)
      have hEr := hrangeInv.2.2 E hEm
      have := HexDistance_lt_cells Sa.MapSize hrangeInv.1 hrangeInv.2.1 E.CurrentCellIndex
        T.CurrentCellIndex hEr.1 hEr.2.1 hTr.1 hTr.2.1
      have hmapA : Sa.MapSize.X * Sa.MapSize.Y ≤ INT32_MAX := by rw [hframe.1]; exact hmap
      omega)
    (by
      intro k T hc
      exact hshare k T (IsCandidate_set.1 hc))
  simp only [IsCandidate_set, IsNearestCandidate_set] at n1 n2 n3
  have hclear : ({ E with Target := INDEX_NONE } : FEntityInfo) = E := clearTarget_of_none hT
  have hconv : findClosestTarget Sa.MapSize i E.NextCellIndex
      (Sa.Entities.set i (arrived { E with Target := INDEX_NONE } Sa.StepIndex))
      0 INDEX_NONE INT32_MAX =
      findClosestTarget Sa.MapSize i E.CurrentCellIndex
        (Sa.Entities.set i (arrived E Sa.StepIndex)) 0 INDEX_NONE INT32_MAX := by
    rw [hclear, hstat]
  have harr : arrived { E with Target := INDEX_NONE } Sa.StepIndex = arrived E Sa.StepIndex := by
    rw [hclear]
  refine ⟨hshare, _, rfl, n4, n1, ?_, ?_, ?_⟩
  · intro hex
    obtain ⟨k, T, hN, _⟩ := n2 hex
    exact ⟨k, T, hN⟩
  · intro k T hN
    have hsel := n3 k T hN
    have hidx : Sa.IdToIndex T.Id = some k := (hstore.index T.Id k).2 ⟨T, hN.1.1, rfl⟩
    have hselN : T.Id ≠ INDEX_NONE := by
      intro e
      have := hidsA T (List.getElem?_mem hN.1.1)
      rw [e] at this
      exact absurd this (by decide)
    refine ⟨hsel, by rw [hsel]; exact hidx, ?_⟩
    obtain ⟨_, _, _, E1, hE1, hc⟩ := entityStep_own hstep hE
    have e : Eb = E1 := Option.some.inj (hEb.symm.trans hE1)
    subst e
    rcases hc with ⟨h1, _⟩ | ⟨h1, _⟩ | ⟨_, _, _, h1, _⟩ | ⟨_, _, _, _, hc⟩
    · omega
    · omega
    · exact absurd hT h1
    · rcases hc with ⟨h1, _⟩ | ⟨h1, _⟩ | ⟨_, hs, _, _⟩ | ⟨_, sel, t, T1, hs, hn, hti, hT1, hc⟩
      · exact absurd hstat.symm h1
      · exact absurd hstat.symm h1
      · rw [hconv, hsel] at hs
        exact absurd hs hselN
      · rw [hconv, hsel] at hs
        subst hs
        rw [hidx] at hti
        have hkt : k = t := Option.some.inj hti
        subst hkt
        rw [List.getElem?_set_ne (fun e => hN.1.2.1 e.symm)] at hT1
        have hTT : T = T1 := Option.some.inj (hN.1.1.symm.trans hT1)
        subst hTT
        rw [harr, hstat] at hc
        simp only [USimulator.ToPoint] at hc
        rcases hc with ⟨hd, hEq, _⟩ | ⟨hd, Next, D, hsp, hc⟩
        · refine ⟨fun _ => ?_, fun hfar => absurd hd hfar⟩
          rw [hEq]
          simp only [arrived, hstat]
        · refine ⟨fun hnear => absurd hnear hd, fun _ => ?_⟩
          refine ⟨Next, D, hsp, ?_⟩
          rcases hc with ⟨hNx, hEq, _⟩ | ⟨hNx, hEq, _⟩
          · rw [hEq, if_pos hNx]
            simp only [arrived, hstat, hT]
          · rw [hEq, if_neg hNx]
            simp only [arrived, hstat, hT]
  · intro hselNone
    obtain ⟨_, _, _, E1, hE1, hc⟩ := entityStep_own hstep hE
    have e : Eb = E1 := Option.some.inj (hEb.symm.trans hE1)
    subst e
    rcases hc with ⟨h1, _⟩ | ⟨h1, _⟩ | ⟨_, _, _, h1, _⟩ | ⟨_, _, _, _, hc⟩
    · omega
    · omega
    · exact absurd hT h1
    · rcases hc with ⟨h1, _⟩ | ⟨h1, _⟩ | ⟨_, _, hEq, _⟩ | ⟨_, sel, t, T1, hs, hn, _⟩
      · exact absurd hstat.symm h1
      · exact absurd hstat.symm h1
      · rw [hEq, harr]
      · rw [hconv] at hs
        rw [hs] at hn
        exact absurd hselNone hn

/-- C16.  Nearest-target selection.  The scan of lines 237-253, on any store whose ids
differ from `INDEX_NONE`, whose distances are below the initial `MinDist` and where no
other alive entity shares the cell of the scanning entity, answers the id of an alive
entity other than the scanning one whose hex distance is minimal among all other alive
entities, the one with the lowest index among those at minimal distance; it answers
`INDEX_NONE` exactly when there is no other alive entity; and the scan without the early
exit at distance 1 gives the same answer.  In every run from `Initialize` (random stream
within its contract, at most `INT32_MAX` cells), when the turn of a stationary, untargeted,
alive entity `E` at index `i` comes in `NextStep`: no other alive entity shares its cell,
the id `sel` its scan selects has these properties, it is the id of the record stored at
the index of that nearest entity, and the step engages that entity (within attack
distance) or plans a path toward its cell; with no other alive entity nothing is selected
and the entity stays idle. -/
theorem nearest_target_selection (RandRange : Int → Int → Int → Int × Int) (fuel : Nat) :
    (∀ (MapSize : FIntPoint) (Entities : List FEntityInfo) (i : Nat) (Cell : Int),
      (∀ T ∈ Entities, T.Id ≠ INDEX_NONE) →
      (∀ (k : Nat) (T : FEntityInfo), IsCandidate Entities i k T →
        HexDistance (ToPoint Cell MapSize) (ToPoint T.CurrentCellIndex MapSize) < INT32_MAX) →
      (∀ (k : Nat) (T : FEntityInfo), IsCandidate Entities i k T →
        T.CurrentCellIndex ≠ Cell) →
      (findClosestTarget MapSize i Cell Entities 0 INDEX_NONE INT32_MAX = INDEX_NONE ↔
        ¬ ∃ (k : Nat) (T : FEntityInfo), IsCandidate Entities i k T) ∧
      ((∃ (k : Nat) (T : FEntityInfo), IsCandidate Entities i k T) →
        ∃ (k : Nat) (T : FEntityInfo), IsNearestCandidate MapSize Entities i Cell k T ∧
          findClosestTarget MapSize i Cell Entities 0 INDEX_NONE INT32_MAX = T.Id) ∧
      (∀ (k : Nat) (T : FEntityInfo), IsNearestCandidate MapSize Entities i Cell k T →
        findClosestTarget MapSize i Cell Entities 0 INDEX_NONE INT32_MAX = T.Id) ∧
      findClosestTarget MapSize i Cell Entities 0 INDEX_NONE INT32_MAX =
        findClosestTargetNoExit MapSize i Cell Entities 0 INDEX_NONE INT32_MAX) ∧
    (RandRangeInBounds RandRange →
      ∀ (S Sa Sb : USimulator) (i : Nat) (dpa dpb : Bool) (E Eb : FEntityInfo),
      Reachable RandRange S → S.MapSize.X * S.MapSize.Y ≤ INT32_MAX →
      forwardPass fuel i 0 S false = some (Sa, dpa) →
      entityStep fuel i Sa dpa = some (Sb, dpb) →
      Sa.Entities[i]? = some E → Sb.Entities[i]? = some Eb →
      E.Health > 0 → E.NextCellIndex = E.CurrentCellIndex → E.Target = INDEX_NONE →
      (∀ (k : Nat) (T : FEntityInfo), IsCandidate Sa.Entities i k T →
        T.CurrentCellIndex ≠ E.CurrentCellIndex) ∧
      ∃ sel : Int,
        sel = findClosestTarget Sa.MapSize i E.CurrentCellIndex
          (Sa.Entities.set i (arrived E Sa.StepIndex)) 0 INDEX_NONE INT32_MAX ∧
        sel = findClosestTargetNoExit Sa.MapSize i E.CurrentCellIndex
          (Sa.Entities.set i (arrived E Sa.StepIndex)) 0 INDEX_NONE INT32_MAX ∧
        (sel = INDEX_NONE ↔ ¬ ∃ (k : Nat) (T : FEntityInfo), IsCandidate Sa.Entities i k T) ∧
        ((∃ (k : Nat) (T : FEntityInfo), IsCandidate Sa.Entities i k T) →
          ∃ (k : Nat) (T : FEntityInfo),
            IsNearestCandidate Sa.MapSize Sa.Entities i E.CurrentCellIndex k T) ∧
        (∀ (k : Nat) (T : FEntityInfo),
          IsNearestCandidate Sa.MapSize Sa.Entities i E.CurrentCellIndex k T →
          sel = T.Id ∧ Sa.IdToIndex sel = some k ∧
          (HexDistance (ToPoint E.CurrentCellIndex Sa.MapSize)
              (ToPoint T.CurrentCellIndex Sa.MapSize) ≤ AttackDistance →
            Eb = { arrived E Sa.StepIndex with Target := T.Id, StartedAttackAtStep := Sa.StepIndex }) ∧
          (¬ HexDistance (ToPoint E.CurrentCellIndex Sa.MapSize)
              (ToPoint T.CurrentCellIndex Sa.MapSize) ≤ AttackDistance →
            ∃ (Next : Int) (D : FDijkstraLookup),
              ShortestPath fuel Sa.MapSize Sa.Occupied E.CurrentCellIndex T.CurrentCellIndex
                = some (Next, D) ∧
              Eb = { arrived E Sa.StepIndex with StartedAttackAtStep := INDEX_NONE, NextCellIndex := if Next = INDEX_NONE then E.CurrentCellIndex else Next })) ∧
        (sel = INDEX_NONE → Eb = arrived E Sa.StepIndex)) := by
  constructor
  · intro M Es i Cell hids hrange hshare
    exact findClosestTarget_nearest M Es i Cell hids hrange hshare
  · intro hR S Sa Sb i dpa dpb E Eb hS hmap hpass hstep hE hEb halive hstat hT
    exact scan_in_run hR hS hmap hpass hstep hE hEb halive hstat hT

set_option maxRecDepth 1000000 in
theorem nearest_target_selection_witness :
    (demoStateOn ⟨5, 5⟩ 5 1 0).Entities.map
        (fun E => (E.Id, E.Health, E.CurrentCellIndex, E.NextCellIndex, E.Target)) =
      [(0, 4, 13, 13, -1), (1, 5, 1, 1, -1), (2, 4, 12, 12, -1), (3, 2, 9, 9, -1),
        (4, 5, 14, 14, -1)] ∧
    HexDistance (ToPoint 13 ⟨5, 5⟩) (ToPoint 12 ⟨5, 5⟩) = 1 ∧
    HexDistance (ToPoint 13 ⟨5, 5⟩) (ToPoint 14 ⟨5, 5⟩) = 1 ∧
    findClosestTarget (demoStateOn ⟨5, 5⟩ 5 1 0).MapSize 0 13
        ((demoStateOn ⟨5, 5⟩ 5 1 0).Entities.set 0
          (arrived ⟨0, 4, 4, 12, 13, 0, 13, -1, 23, -1, -1⟩ (demoStateOn ⟨5, 5⟩ 5 1 0).StepIndex))
        0 INDEX_NONE INT32_MAX = 2 ∧
    IsNearestCandidate (demoStateOn ⟨5, 5⟩ 5 1 0).MapSize (demoStateOn ⟨5, 5⟩ 5 1 0).Entities
      0 13 2 ⟨2, 4, 4, 12, 12, 0, 12, -1, 27, -1, -1⟩ ∧
    (entityStep 1000 0 (demoStateOn ⟨5, 5⟩ 5 1 0) false).map (fun p => p.1.Entities[0]?) =
      some (some ⟨0, 4, 4, 12, 13, 1, 13, 2, 23, 1, -1⟩) := by
  have hstep := some_getD_of_isSome
    (show (entityStep 1000 0 (demoStateOn ⟨5, 5⟩ 5 1 0) false).isSome = true by decide)
    (demoStateOn ⟨5, 5⟩ 5 1 0, false)
  have hscan : findClosestTarget (demoStateOn ⟨5, 5⟩ 5 1 0).MapSize 0 13
      ((demoStateOn ⟨5, 5⟩ 5 1 0).Entities.set 0
        (arrived ⟨0, 4, 4, 12, 13, 0, 13, -1, 23, -1, -1⟩ (demoStateOn ⟨5, 5⟩ 5 1 0).StepIndex))
      0 INDEX_NONE INT32_MAX = 2 := by decide
  obtain ⟨_, sel, hsel, _, _, hex, hall, _⟩ := (nearest_target_selection demoRand 1000).2
    demoRand_inBounds (demoStateOn ⟨5, 5⟩ 5 1 0) (demoStateOn ⟨5, 5⟩ 5 1 0) _ 0 false _
    ⟨0, 4, 4, 12, 13, 0, 13, -1, 23, -1, -1⟩ ⟨0, 4, 4, 12, 13, 1, 13, 2, 23, 1, -1⟩
    (demoStateOn_reachable ⟨5, 5⟩ 5 1 0 (by decide)) (by decide) rfl hstep (by decide)
    (by decide) (by decide) (by decide) (by decide)
  obtain ⟨k, T, hN⟩ := hex ⟨2, ⟨2, 4, 4, 12, 12, 0, 12, -1, 27, -1, -1⟩,
    by decide, by decide, by decide⟩
  obtain ⟨h1, h2, _⟩ := hall k T hN
  have hsel2 : sel = 2 := hsel.trans hscan
  rw [hsel2] at h2
  have hk : k = 2 := by
    have h3 : (demoStateOn ⟨5, 5⟩ 5 1 0).IdToIndex 2 = some 2 := by decide
    exact (Option.some.inj (h2.symm.trans h3))
  subst hk
  have hT2 : T = ⟨2, 4, 4, 12, 12, 0, 12, -1, 27, -1, -1⟩ := by
    have h4 : (demoStateOn ⟨5, 5⟩ 5 1 0).Entities[2]? =
        some ⟨2, 4, 4, 12, 12, 0, 12, -1, 27, -1, -1⟩ := by decide
    exact Option.some.inj (hN.1.1.symm.trans h4)
  subst hT2
  exact ⟨by decide, by decide, by decide, hscan, hN, by decide⟩

end HexBalls

namespace HexBalls

/-! ## Movement cadence -/

theorem hexNeighbors_distance {M : FIntPoint} {U V : Int} (h : V ∈ hexNeighbors M U) :
    HexDistance (ToPoint U M) (ToPoint V M) = 1 :=
  @PathStep_distance M (fun _ => false) V U V ⟨h, Or.inl rfl⟩

/-- The only step that changes the `CurrentCellIndex` of the entity is the arrival of
lines 221-228. -/
theorem entityStep_moves {fuel i : Nat} {S S1 : USimulator} {dp dp1 : Bool}
    (h : entityStep fuel i S dp = some (S1, dp1)) {E E1 : FEntityInfo}
    (hE : S.Entities[i]? = some E) (hE1 : S1.Entities[i]? = some E1)
    (hne : E1.CurrentCellIndex ≠ E.CurrentCellIndex) :
    E.Health > 0 ∧ E.CurrentCellIndex ≠ E.NextCellIndex ∧
    S.StepIndex - E.StartedMoveAtStep ≥ E.TicksPerMove ∧
    E1 = arrived { E with Target := INDEX_NONE } S.StepIndex ∧
    S1.Occupied = setAt (setAt S.Occupied E.CurrentCellIndex false) E.NextCellIndex true := by
  obtain ⟨_, _, _, E1', hE1', hc⟩ := entityStep_own h hE
  have e : E1 = E1' := Option.some.inj (hE1.symm.trans hE1')
  subst e
  rcases hc with ⟨_, _, _, rfl, _, _⟩ | ⟨_, _, _, rfl, _, _⟩ |
    ⟨_, _, _, _, t, T, _, _, _, _, hc⟩ | ⟨halive, _, _, _, hc⟩
  · exact absurd rfl hne
  · exact absurd rfl hne
  · rcases hc with ⟨_, _, rfl⟩ | ⟨_, _, rfl⟩
    · exact absurd rfl hne
    · exact absurd rfl hne
  · rcases hc with ⟨_, _, rfl, _⟩ | ⟨h1, h2, rfl, hocc⟩ | ⟨h1, _, rfl, _⟩ |
      ⟨h1, sel, t, T, _, _, _, _, hc⟩
    · exact absurd rfl hne
    · exact ⟨halive, h1, h2, rfl, hocc⟩
    · exact absurd h1.symm hne
    · rcases hc with ⟨_, rfl, _⟩ | ⟨_, Next, D, _, hc⟩
      · exact absurd h1.symm hne
      · rcases hc with ⟨_, rfl, _⟩ | ⟨_, rfl, _⟩
        · exact absurd h1.symm hne
        · exact absurd h1.symm hne

end HexBalls

namespace HexBalls

/-! ## Two entities engaged with each other -/

theorem duel_stepA {fuel : Nat} {S : USimulator} {A B : FEntityInfo} (pre : DuelPre S A B)
    (t hA aA hB aB : Int) (dp : Bool) (halive : hA > 0) (hBalive : hB > 0) :
    entityStep fuel 0 (duelState S A B t hA aA hB aB) dp =
      some (duelState S A B t hA (if t - aA ≥ A.TimeStepsPerAttack then t else aA)
        (if t - aA ≥ A.TimeStepsPerAttack then hB - 1 else hB) aB, dp) := by
  have hE : (duelState S A B t hA aA hB aB).Entities[0]? =
      some { A with Health := hA, StartedAttackAtStep := aA } := rfl
  have hT := @targetPhase_eval_engaged 0 1 (duelState S A B t hA aA hB aB) _
    { B with Health := hB, StartedAttackAtStep := aB } hE
    (by show A.Target ≠ INDEX_NONE; rw [pre.tgtA]; exact pre.idB)
    (by show S.IdToIndex A.Target = some 1; rw [pre.tgtA]; exact pre.idxB) rfl hBalive pre.near
  by_cases hc : t - aA ≥ A.TimeStepsPerAttack
  · have hT1 : targetPhase 0 (duelState S A B t hA aA hB aB) =
        some (duelState S A B t hA t (hB - 1) aB, true) := by
      rw [hT]; exact congrArg some (if_pos hc)
    rw [entityStep_alive_hold hE halive hT1, if_pos hc, if_pos hc]
  · have hT1 : targetPhase 0 (duelState S A B t hA aA hB aB) =
        some (duelState S A B t hA aA hB aB, true) := by
      rw [hT]; exact congrArg some (if_neg hc)
    rw [entityStep_alive_hold hE halive hT1, if_neg hc, if_neg hc]

theorem duel_stepB {fuel : Nat} {S : USimulator} {A B : FEntityInfo} (pre : DuelPre S A B)
    (t hA aA hB aB : Int) (dp : Bool) (halive : hA > 0) (hBalive : hB > 0) :
    entityStep fuel 1 (duelState S A B t hA aA hB aB) dp =
      some (duelState S A B t (if t - aB ≥ B.TimeStepsPerAttack then hA - 1 else hA) aA
        hB (if t - aB ≥ B.TimeStepsPerAttack then t else aB), dp) := by
  have hE : (duelState S A B t hA aA hB aB).Entities[1]? =
      some { B with Health := hB, StartedAttackAtStep := aB } := rfl
  have hnear : HexDistance (ToPoint B.CurrentCellIndex S.MapSize)
      (ToPoint A.CurrentCellIndex S.MapSize) ≤ AttackDistance := by
    rw [HexDistance_comm]; exact pre.near
  have hT := @targetPhase_eval_engaged 1 0 (duelState S A B t hA aA hB aB) _
    { A with Health := hA, StartedAttackAtStep := aA } hE
    (by show B.Target ≠ INDEX_NONE; rw [pre.tgtB]; exact pre.idA)
    (by show S.IdToIndex B.Target = some 0; rw [pre.tgtB]; exact pre.idxA) rfl halive hnear
  by_cases hc : t - aB ≥ B.TimeStepsPerAttack
  · have hT1 : targetPhase 1 (duelState S A B t hA aA hB aB) =
        some (duelState S A B t (hA - 1) aA hB t, true) := by
      rw [hT]; exact congrArg some (if_pos hc)
    rw [entityStep_alive_hold hE hBalive hT1, if_pos hc, if_pos hc]
  · have hT1 : targetPhase 1 (duelState S A B t hA aA hB aB) =
        some (duelState S A B t hA aA hB aB, true) := by
      rw [hT]; exact congrArg some (if_neg hc)
    rw [entityStep_alive_hold hE hBalive hT1, if_neg hc, if_neg hc]

theorem duel_stepB_dead {fuel : Nat} {S : USimulator} {A B : FEntityInfo} (pre : DuelPre S A B)
    (t hA aA hB aB : Int) (dp : Bool) (hBdead : hB ≤ 0) :
    entityStep fuel 1 (duelState S A B t hA aA hB aB) dp =
      some ({ duelState S A B t hA aA hB aB with
        Entities := [{ A with Health := hA, StartedAttackAtStep := aA },
          { B with Health := hB, StartedAttackAtStep := aB, DestroyAt := t + DestroyDelay }] },
        dp) := by
  have hE : (duelState S A B t hA aA hB aB).Entities[1]? =
      some { B with Health := hB, StartedAttackAtStep := aB } := rfl
  rw [entityStep_dead hE hBdead]
  have hd : ({ B with Health := hB, StartedAttackAtStep := aB } : FEntityInfo).DestroyAt
      = INDEX_NONE := pre.noStampB
  rw [if_pos hd]
  rfl

/-- The forward pass of a tick of the duel in which the second entity survives the
possible strike of the first. -/
theorem duel_pass {fuel : Nat} {S : USimulator} {A B : FEntityInfo} (pre : DuelPre S A B)
    (t hA aA hB aB : Int) (halive : hA > 0)
    (hBalive : (if t - aA ≥ A.TimeStepsPerAttack then hB - 1 else hB) > 0) :
    forwardPass fuel 2 0 (duelState S A B t hA aA hB aB) false =
      some (duelState S A B t (if t - aB ≥ B.TimeStepsPerAttack then hA - 1 else hA)
        (if t - aA ≥ A.TimeStepsPerAttack then t else aA)
        (if t - aA ≥ A.TimeStepsPerAttack then hB - 1 else hB)
        (if t - aB ≥ B.TimeStepsPerAttack then t else aB), false) := by
  have hB0 : hB > 0 := by
    by_cases hc : t - aA ≥ A.TimeStepsPerAttack
    · rw [if_pos hc] at hBalive; omega
    · rw [if_neg hc] at hBalive; exact hBalive
  rw [forwardPass_succ, duel_stepA pre t hA aA hB aB false halive hB0]
  simp only
  rw [forwardPass_succ, duel_stepB pre t hA _ _ aB false halive hBalive]
  rfl

theorem duel_tick {fuel : Nat} {S : USimulator} {A B : FEntityInfo} (pre : DuelPre S A B)
    (t hA aA hB aB : Int) (halive : hA > 0)
    (hBalive : (if t - aA ≥ A.TimeStepsPerAttack then hB - 1 else hB) > 0) :
    NextStep fuel (duelState S A B t hA aA hB aB) =
      some (duelState S A B (t + 1) (if t - aB ≥ B.TimeStepsPerAttack then hA - 1 else hA)
        (if t - aA ≥ A.TimeStepsPerAttack then t else aA)
        (if t - aA ≥ A.TimeStepsPerAttack then hB - 1 else hB)
        (if t - aB ≥ B.TimeStepsPerAttack then t else aB)) := by
  have hpass : forwardPass fuel (duelState S A B t hA aA hB aB).Entities.length 0
      (duelState S A B t hA aA hB aB) false = _ := duel_pass pre t hA aA hB aB halive hBalive
  rw [NextStep_noSweep hpass]
  rfl

/-- The tick of the duel in which the strike of the first entity kills the second. -/
theorem duel_tick_dead {fuel : Nat} {S : USimulator} {A B : FEntityInfo} (pre : DuelPre S A B)
    (t hA aA hB aB : Int) (halive : hA > 0) (hB0 : hB > 0)
    (hBdead : (if t - aA ≥ A.TimeStepsPerAttack then hB - 1 else hB) ≤ 0) :
    ∃ Q1 : USimulator, NextStep fuel (duelState S A B t hA aA hB aB) = some Q1 ∧
      DuelOver Q1 := by
  have hpass : forwardPass fuel (duelState S A B t hA aA hB aB).Entities.length 0
      (duelState S A B t hA aA hB aB) false =
      some ({ duelState S A B t hA (if t - aA ≥ A.TimeStepsPerAttack then t else aA)
          (if t - aA ≥ A.TimeStepsPerAttack then hB - 1 else hB) aB with
        Entities := [{ A with Health := hA, StartedAttackAtStep := (if t - aA ≥ A.TimeStepsPerAttack then t else aA) },
          { B with Health := (if t - aA ≥ A.TimeStepsPerAttack then hB - 1 else hB), StartedAttackAtStep := aB, DestroyAt := t + DestroyDelay }] },
        false) := by
    show forwardPass fuel 2 0 (duelState S A B t hA aA hB aB) false = _
    rw [forwardPass_succ, duel_stepA pre t hA aA hB aB false halive hB0]
    simp only
    rw [forwardPass_succ, duel_stepB_dead pre t hA _ _ aB false hBdead]
    rfl
  refine ⟨_, NextStep_noSweep hpass, ?_⟩
  refine ⟨by show (2 : Nat) ≤ 2; omega, Or.inr ⟨_, List.mem_cons_of_mem _ (List.mem_singleton.2 rfl), hBdead⟩⟩

theorem duel_strikeA {fuel : Nat} {S : USimulator} {A B : FEntityInfo} (pre : DuelPre S A B)
    (t hA aA hB aB : Int) (halive : hA > 0) (hBalive : hB > 0) :
    dealsStrikeAt fuel (duelState S A B t hA aA hB aB) 0 =
      decide (t - aA ≥ A.TimeStepsPerAttack) := by
  unfold dealsStrikeAt
  simp only [forwardPass]
  rw [duel_stepA pre t hA aA hB aB false halive hBalive]
  simp only [healths, duelState, List.map_cons, List.map_nil]
  by_cases hc : t - aA ≥ A.TimeStepsPerAttack
  · simp [hc]
  · simp [hc]

theorem duel_strikeB {fuel : Nat} {S : USimulator} {A B : FEntityInfo} (pre : DuelPre S A B)
    (t hA aA hB aB : Int) (halive : hA > 0) (hB0 : hB > 0)
    (hBalive : (if t - aA ≥ A.TimeStepsPerAttack then hB - 1 else hB) > 0) :
    dealsStrikeAt fuel (duelState S A B t hA aA hB aB) 1 =
      decide (t - aB ≥ B.TimeStepsPerAttack) := by
  unfold dealsStrikeAt
  rw [forwardPass_succ, duel_stepA pre t hA aA hB aB false halive hB0]
  simp only [forwardPass]
  rw [duel_stepB pre t hA _ _ aB false halive hBalive]
  simp only [healths, duelState, List.map_cons, List.map_nil]
  by_cases hc : t - aB ≥ B.TimeStepsPerAttack
  · simp [hc]
  · simp [hc]

/-- A tick of a duel returns, and the duel is on or over afterwards. -/
theorem duel_next {fuel : Nat} {S : USimulator} {A B : FEntityInfo} (pre : DuelPre S A B)
    {s : Int} {Q : USimulator} (h : Duel S A B s Q) :
    ∃ Q1 : USimulator, NextStep fuel Q = some Q1 ∧ (Duel S A B s Q1 ∨ DuelOver Q1) := by
  obtain ⟨t, hA, aA, hB, aB, rfl, hst, h1, h2, h3, h4⟩ := h
  by_cases hBalive : (if t - aA ≥ A.TimeStepsPerAttack then hB - 1 else hB) > 0
  · refine ⟨_, duel_tick pre t hA aA hB aB h1 hBalive, ?_⟩
    by_cases hAalive : (if t - aB ≥ B.TimeStepsPerAttack then hA - 1 else hA) > 0
    · left
      refine ⟨t + 1, _, _, _, _, rfl, by omega, hAalive, hBalive, ?_, ?_⟩
      · by_cases hc : t - aA ≥ A.TimeStepsPerAttack
        · rw [if_pos hc]; right; omega
        · rw [if_neg hc]; omega
      · by_cases hc : t - aB ≥ B.TimeStepsPerAttack
        · rw [if_pos hc]; right; omega
        · rw [if_neg hc]; omega
    · right
      exact ⟨by show (2 : Nat) ≤ 2; omega, Or.inr ⟨_, List.mem_cons_self _ _, by
        show (if t - aB ≥ B.TimeStepsPerAttack then hA - 1 else hA) ≤ 0
        omega⟩⟩
  · obtain ⟨Q1, hn, hov⟩ := @duel_tick_dead fuel S A B pre t hA aA hB aB h1 h2 (by omega)
    exact ⟨Q1, hn, Or.inr hov⟩

/-- Once a duel is over it stays over. -/
theorem duelOver_next {fuel : Nat} {Q Q1 : USimulator} (h : NextStep fuel Q = some Q1)
    (hov : DuelOver Q) : DuelOver Q1 := by
  obtain ⟨S3, dp3, hpass, _, _, hshape⟩ := NextStep_result h
  have hlen3 : S3.Entities.length = Q.Entities.length :=
    (forwardPass_effect _ _ _ _ _ _ hpass).2.length
  obtain ⟨hle, hc⟩ := hov
  have hdead3 : (∃ E ∈ Q.Entities, E.Health ≤ 0) → ∃ E3 ∈ S3.Entities, E3.Health ≤ 0 := by
    rintro ⟨E, hE, hd⟩
    obtain ⟨k, hk⟩ := List.getElem?_of_mem hE
    have hk3 : k < S3.Entities.length := by
      rw [hlen3]; exact (List.getElem?_eq_some_iff.1 hk).1
    obtain ⟨E0, hE0, _, _, _, _, hh, _⟩ :=
      forwardPass_summary hpass (List.getElem?_eq_getElem hk3)
    have e : E0 = E := Option.some.inj (hE0.symm.trans hk)
    rw [e] at hh
    exact ⟨_, List.getElem_mem hk3, by omega⟩
  rcases hshape with ⟨_, hes, _, _⟩ | ⟨_, hperm, _⟩
  · rw [DuelOver, hes, hlen3]
    refine ⟨hle, ?_⟩
    rcases hc with hc | hc
    · exact Or.inl hc
    · exact Or.inr (hdead3 hc)
  · have hl1 := hperm.length_eq
    have hl2 := List.length_filter_le (fun E => decide (E.DestroyAt < Q.StepIndex)) S3.Entities
    refine ⟨by omega, ?_⟩
    rcases hc with hc | hc
    · left; omega
    · obtain ⟨E3, hE3, hd⟩ := hdead3 hc
      by_cases hkeep : E3.DestroyAt < Q.StepIndex
      · right
        exact ⟨E3, hperm.mem_iff.2 (List.mem_filter.2 ⟨hE3, by simpa using hkeep⟩), hd⟩
      · left
        have hlt : (S3.Entities.filter (fun E => decide (E.DestroyAt < Q.StepIndex))).length
            < S3.Entities.length :=
          List.length_filter_lt_length_iff_exists.2 ⟨E3, hE3, by simpa using hkeep⟩
        omega

/-- Along a run, a duel is on or over, and the step index counts the ticks. -/
theorem runSteps_duel {fuel : Nat} {S : USimulator} {A B : FEntityInfo} (pre : DuelPre S A B)
    {s : Int} :
    ∀ (d : Nat) (Q0 Q : USimulator), (Duel S A B s Q0 ∨ DuelOver Q0) →
      runSteps fuel d Q0 = some Q →
      (Duel S A B s Q ∨ DuelOver Q) ∧ Q.StepIndex = Q0.StepIndex + d := by
  intro d
  induction d with
  | zero =>
    intro Q0 Q h0 hrun
    simp only [HexBalls.runSteps, Option.some.injEq] at hrun
    subst hrun
    exact ⟨h0, by simp⟩
  | succ d ih =>
    intro Q0 Q h0 hrun
    unfold HexBalls.runSteps at hrun
    split at hrun
    · simp at hrun
    · rename_i Q1 hstep
      have h1 : Duel S A B s Q1 ∨ DuelOver Q1 := by
        rcases h0 with h0 | h0
        · obtain ⟨Q1', hn, hc⟩ := @duel_next fuel S A B pre s Q0 h0
          rw [hstep] at hn
          rw [Option.some.inj hn]
          exact hc
        · exact Or.inr (duelOver_next hstep h0)
      obtain ⟨_, _, _, _, hs1, _⟩ := NextStep_result hstep
      obtain ⟨r1, r2⟩ := ih Q1 Q h1 hrun
      refine ⟨r1, ?_⟩
      rw [r2, hs1]
      push_cast
      omega

/-- When the two stored records are alive, the duel is not over. -/
theorem duel_of_alive {S : USimulator} {A B : FEntityInfo} {s : Int} {Q : USimulator}
    {X Y : FEntityInfo} (h : Duel S A B s Q ∨ DuelOver Q)
    (hX : Q.Entities[0]? = some X) (hY : Q.Entities[1]? = some Y)
    (hXa : X.Health > 0) (hYa : Y.Health > 0) : Duel S A B s Q := by
  rcases h with h | ⟨hle, hc⟩
  · exact h
  · exfalso
    have hlen := (List.getElem?_eq_some_iff.1 hY).1
    rcases hc with hc | ⟨E, hE, hd⟩
    · omega
    · obtain ⟨k, hk⟩ := List.getElem?_of_mem hE
      have hk2 := (List.getElem?_eq_some_iff.1 hk).1
      match k, hk with
      | 0, hk =>
        have : E = X := Option.some.inj (hk.symm.trans hX)
        rw [this] at hd; omega
      | 1, hk =>
        have : E = Y := Option.some.inj (hk.symm.trans hY)
        rw [this] at hd; omega
      | k + 2, hk =>
        have := (List.getElem?_eq_some_iff.1 hk).1
        omega

theorem duel_strikeB_dead {fuel : Nat} {S : USimulator} {A B : FEntityInfo}
    (pre : DuelPre S A B) (t hA aA hB aB : Int) (halive : hA > 0) (hB0 : hB > 0)
    (hBdead : (if t - aA ≥ A.TimeStepsPerAttack then hB - 1 else hB) ≤ 0) :
    dealsStrikeAt fuel (duelState S A B t hA aA hB aB) 1 = false := by
  unfold dealsStrikeAt
  rw [forwardPass_succ, duel_stepA pre t hA aA hB aB false halive hB0]
  simp only [forwardPass]
  rw [duel_stepB_dead pre t hA _ _ aB false hBdead]
  simp [healths, duelState]

/-! ## The tick in which two adjacent entities engage each other -/

theorem engage_step0 {fuel : Nat} {S : USimulator} {A B : FEntityInfo} (dp : Bool)
    (hEs : S.Entities = [A, B]) (hidx : S.IdToIndex B.Id = some 1)
    (hidB : B.Id ≠ INDEX_NONE) (hA : A.Health > 0) (hB : B.Health > 0)
    (hstat : A.NextCellIndex = A.CurrentCellIndex) (hT : A.Target = INDEX_NONE)
    (hdist : HexDistance (ToPoint A.CurrentCellIndex S.MapSize)
      (ToPoint B.CurrentCellIndex S.MapSize) = 1) :
    entityStep fuel 0 S dp =
      some ({ S with Entities := [engagedWith A B.Id S.StepIndex, B] }, dp) := by
  have hE : S.Entities[0]? = some A := by rw [hEs]; rfl
  have hd : HexDistance (ToPoint A.NextCellIndex S.MapSize)
      (ToPoint B.CurrentCellIndex S.MapSize) = 1 := by rw [hstat]; exact hdist
  have hscan : findClosestTarget S.MapSize 0 A.NextCellIndex
      (S.Entities.set 0 (arrived A S.StepIndex)) 0 INDEX_NONE INT32_MAX = B.Id := by
    rw [hEs]
    show findClosestTarget S.MapSize 0 A.NextCellIndex [arrived A S.StepIndex, B] 0
      INDEX_NONE INT32_MAX = B.Id
    rw [findClosestTarget, if_neg (by simp), findClosestTarget, if_pos (by decide), if_pos hB]
    simp only
    rw [hd, if_pos (by decide), if_pos rfl]
  have hm := @movePhase_eval_engage fuel 0 1 S A B B.Id hE hstat.symm hscan hidB hidx
    (by rw [hEs]; rfl) (by
      show HexDistance (ToPoint A.NextCellIndex S.MapSize)
        (ToPoint B.CurrentCellIndex S.MapSize) ≤ AttackDistance
      rw [hd]; decide)
  rw [entityStep_alive_move hE hA (targetPhase_eval_none hE hT) hm, hEs]
  simp only [List.set_cons_zero, engagedWith, arrived, hstat]

theorem engage_step1 {fuel : Nat} {S : USimulator} {A B : FEntityInfo} (dp : Bool)
    (hEs : S.Entities = [A, B]) (hidx : S.IdToIndex A.Id = some 0)
    (hidA : A.Id ≠ INDEX_NONE) (hA : A.Health > 0) (hB : B.Health > 0)
    (hstat : B.NextCellIndex = B.CurrentCellIndex) (hT : B.Target = INDEX_NONE)
    (hdist : HexDistance (ToPoint B.CurrentCellIndex S.MapSize)
      (ToPoint A.CurrentCellIndex S.MapSize) = 1) :
    entityStep fuel 1 S dp =
      some ({ S with Entities := [A, engagedWith B A.Id S.StepIndex] }, dp) := by
  have hE : S.Entities[1]? = some B := by rw [hEs]; rfl
  have hd : HexDistance (ToPoint B.NextCellIndex S.MapSize)
      (ToPoint A.CurrentCellIndex S.MapSize) = 1 := by rw [hstat]; exact hdist
  have hscan : findClosestTarget S.MapSize 1 B.NextCellIndex
      (S.Entities.set 1 (arrived B S.StepIndex)) 0 INDEX_NONE INT32_MAX = A.Id := by
    rw [hEs]
    show findClosestTarget S.MapSize 1 B.NextCellIndex [A, arrived B S.StepIndex] 0
      INDEX_NONE INT32_MAX = A.Id
    rw [findClosestTarget, if_pos (by decide), if_pos hA]
    simp only
    rw [hd, if_pos (by decide), if_pos rfl]
  have hm := @movePhase_eval_engage fuel 1 0 S B A A.Id hE hstat.symm hscan hidA hidx
    (by rw [hEs]; rfl) (by
      show HexDistance (ToPoint B.NextCellIndex S.MapSize)
        (ToPoint A.CurrentCellIndex S.MapSize) ≤ AttackDistance
      rw [hd]; decide)
  rw [entityStep_alive_move hE hB (targetPhase_eval_none hE hT) hm, hEs]
  simp only [List.set_cons_succ, List.set_cons_zero, engagedWith, arrived, hstat]

end HexBalls

namespace HexBalls

/-! ## Mutual engagement -/

/-- C14.  Mutual engagement.  In a state of a run with exactly the two records `A` and `B`
stored, both alive, stationary, without target, at hex distance 1 from each other, the
`NextStep` at step `s` returns and leaves `A` and `B` as they were (cells, `Health` and
all) except that each has the other's `Id` as `Target`, `StartedAttackAtStep = s` and
`StartedMoveAtStep = s`; occupancy is unchanged.  From then on neither deals a strike
before step `s` plus its `TimeStepsPerAttack`; and in every later state in which both are
still stored alive (both stay engaged), the two records are these with only `Health` and
`StartedAttackAtStep` changed, the attack step is still `s` up to step
`s + TimeStepsPerAttack`, the tick returns, the entity at index 0 deals a strike in the
tick at step `s + A.TimeStepsPerAttack`, and the entity at index 1 deals a strike in the
tick at step `s + B.TimeStepsPerAttack` provided it is still alive when its turn comes
(its `Health` exceeds 1 or the entity at index 0 does not strike in that tick). -/
theorem mutual_engagement (RandRange : Int → Int → Int → Int × Int) (fuel : Nat)
    (S : USimulator) (A B : FEntityInfo) (hS : Reachable RandRange S)
    (hEs : S.Entities = [A, B]) (hA : A.Health > 0) (hB : B.Health > 0)
    (hstatA : A.NextCellIndex = A.CurrentCellIndex)
    (hstatB : B.NextCellIndex = B.CurrentCellIndex)
    (hTA : A.Target = INDEX_NONE) (hTB : B.Target = INDEX_NONE)
    (hdist : HexDistance (ToPoint A.CurrentCellIndex S.MapSize)
      (ToPoint B.CurrentCellIndex S.MapSize) = 1) :
    ∃ S1 : USimulator, NextStep fuel S = some S1 ∧ S1.StepIndex = S.StepIndex + 1 ∧
      S1.Entities =
        [{ A with StartedMoveAtStep := S.StepIndex, Target := B.Id, StartedAttackAtStep := S.StepIndex },
          { B with StartedMoveAtStep := S.StepIndex, Target := A.Id, StartedAttackAtStep := S.StepIndex }] ∧
      S1.Occupied = S.Occupied ∧
      (∀ (d j : Nat) (Q : USimulator) (X : FEntityInfo), runSteps fuel d S1 = some Q →
        Q.Entities[j]? = some X → dealsStrikeAt fuel Q j = true →
        (X.Id = A.Id ∨ X.Id = B.Id) → S.StepIndex + X.TimeStepsPerAttack ≤ Q.StepIndex) ∧
      (∀ (d : Nat) (Q : USimulator) (X Y : FEntityInfo), runSteps fuel d S1 = some Q →
        Q.Entities[0]? = some X → Q.Entities[1]? = some Y → X.Health > 0 → Y.Health > 0 →
        Q.StepIndex = S.StepIndex + 1 + d ∧
        X = { A with StartedMoveAtStep := S.StepIndex, Target := B.Id, Health := X.Health, StartedAttackAtStep := X.StartedAttackAtStep } ∧
        Y = { B with StartedMoveAtStep := S.StepIndex, Target := A.Id, Health := Y.Health, StartedAttackAtStep := Y.StartedAttackAtStep } ∧
        (Q.StepIndex ≤ S.StepIndex + A.TimeStepsPerAttack →
          X.StartedAttackAtStep = S.StepIndex) ∧
        (Q.StepIndex ≤ S.StepIndex + B.TimeStepsPerAttack →
          Y.StartedAttackAtStep = S.StepIndex) ∧
        (∃ Q1 : USimulator, NextStep fuel Q = some Q1) ∧
        (Q.StepIndex = S.StepIndex + A.TimeStepsPerAttack → dealsStrikeAt fuel Q 0 = true) ∧
        (Q.StepIndex = S.StepIndex + B.TimeStepsPerAttack →
          (Y.Health > 1 ∨ dealsStrikeAt fuel Q 0 = false) →
          dealsStrikeAt fuel Q 1 = true)) := by
  obtain ⟨_, hstore⟩ := Reachable.inv hS
  have htick := Reachable.tick hS
  have hAm : A ∈ S.Entities := by rw [hEs]; simp
  have hBm : B ∈ S.Entities := by rw [hEs]; simp
  have hidA : A.Id ≠ INDEX_NONE := by
    intro e
    have := htick.idsNonneg A hAm
    rw [e] at this
    exact absurd this (by decide)
  have hidB : B.Id ≠ INDEX_NONE := by
    intro e
    have := htick.idsNonneg B hBm
    rw [e] at this
    exact absurd this (by decide)
  have hdA : A.DestroyAt = INDEX_NONE := by
    by_contra hne
    have := (htick.corpse A hAm hne).1
    omega
  have hdB : B.DestroyAt = INDEX_NONE := by
    by_contra hne
    have := (htick.corpse B hBm hne).1
    omega
  have hidxA : S.IdToIndex A.Id = some 0 := (hstore.index A.Id 0).2 ⟨A, by rw [hEs]; rfl, rfl⟩
  have hidxB : S.IdToIndex B.Id = some 1 := (hstore.index B.Id 1).2 ⟨B, by rw [hEs]; rfl, rfl⟩
  have hdist' : HexDistance (ToPoint B.CurrentCellIndex S.MapSize)
      (ToPoint A.CurrentCellIndex S.MapSize) = 1 := by rw [HexDistance_comm]; exact hdist
  have step0 := @engage_step0 fuel S A B false hEs hidxB hidB hA hB hstatA hTA hdist
  have step1 := @engage_step1 fuel
    { S with Entities := [engagedWith A B.Id S.StepIndex, B] }
    (engagedWith A B.Id S.StepIndex) B false rfl hidxA hidA hA hB hstatB hTB hdist'
  have hpre1 : forwardPass fuel 1 0 S false =
      some ({ S with Entities := [engagedWith A B.Id S.StepIndex, B] }, false) := by
    rw [forwardPass_succ, step0]
    rfl
  have hlen : S.Entities.length = 2 := by rw [hEs]; rfl
  have hpass : forwardPass fuel S.Entities.length 0 S false =
      some ({ S with Entities := [engagedWith A B.Id S.StepIndex, engagedWith B A.Id S.StepIndex] }, false) := by
    rw [hlen, forwardPass_succ, step0]
    simp only
    rw [forwardPass_succ, step1]
    rfl
  have hnext := NextStep_noSweep hpass
  have pre : DuelPre S (engagedWith A B.Id S.StepIndex) (engagedWith B A.Id S.StepIndex) :=
    ⟨hidxA, hidxB, rfl, rfl, hidA, hidB, hdA, hdB, by
      show HexDistance (ToPoint A.CurrentCellIndex S.MapSize)
        (ToPoint B.CurrentCellIndex S.MapSize) ≤ AttackDistance
      rw [hdist]; decide⟩
  have hduel1 : Duel S (engagedWith A B.Id S.StepIndex) (engagedWith B A.Id S.StepIndex)
      S.StepIndex
      { ({ S with Entities := [engagedWith A B.Id S.StepIndex, engagedWith B A.Id S.StepIndex] } : USimulator) with StepIndex := S.StepIndex + 1 } :=
    ⟨S.StepIndex + 1, A.Health, S.StepIndex, B.Health, S.StepIndex, rfl, by omega, hA, hB,
      Or.inl rfl, Or.inl rfl⟩
  refine ⟨_, hnext, rfl, rfl, rfl, ?_, ?_⟩
  · intro d j Q X hrun hX hstrike hid
    rcases hid with hid | hid
    · exact @strike_spacing RandRange fuel S _ Q S _ false false 0 j d
        (engagedWith A B.Id S.StepIndex) X hS rfl step0 rfl rfl hnext hrun hstrike hX hid
    · exact @strike_spacing RandRange fuel S _ Q _ _ false false 1 j d
        (engagedWith B A.Id S.StepIndex) X hS hpre1 step1 rfl rfl hnext hrun hstrike hX hid
  · intro d Q X Y hrun hX hY hXa hYa
    obtain ⟨hc, hidx⟩ := runSteps_duel pre d _ Q (Or.inl hduel1) hrun
    obtain ⟨t, hA', aA, hB', aB, rfl, hst, h1, h2, h3, h4⟩ := duel_of_alive hc hX hY hXa hYa
    have eX : X = { engagedWith A B.Id S.StepIndex with Health := hA', StartedAttackAtStep := aA } :=
      (Option.some.inj hX).symm
    have eY : Y = { engagedWith B A.Id S.StepIndex with Health := hB', StartedAttackAtStep := aB } :=
      (Option.some.inj hY).symm
    have ht : t = S.StepIndex + 1 + d := hidx
    have hXh : X.Health = hA' := by rw [eX]
    have hYh : Y.Health = hB' := by rw [eY]
    have hXs : X.StartedAttackAtStep = aA := by rw [eX]
    have hYs : Y.StartedAttackAtStep = aB := by rw [eY]
    have tA : (engagedWith A B.Id S.StepIndex).TimeStepsPerAttack = A.TimeStepsPerAttack := rfl
    have tB : (engagedWith B A.Id S.StepIndex).TimeStepsPerAttack = B.TimeStepsPerAttack := rfl
    rw [tA] at h3
    rw [tB] at h4
    refine ⟨hidx, ?_, ?_, ?_, ?_, ?_, ?_, ?_⟩
    · rw [hXh, hXs, eX]; rfl
    · rw [hYh, hYs, eY]; rfl
    · intro hle
      rw [hXs]
      have hle' : t ≤ S.StepIndex + A.TimeStepsPerAttack := hle
      omega
    · intro hle
      rw [hYs]
      have hle' : t ≤ S.StepIndex + B.TimeStepsPerAttack := hle
      omega
    · obtain ⟨Q1, hn, _⟩ := @duel_next fuel S _ _ pre S.StepIndex _
        ⟨t, hA', aA, hB', aB, rfl, hst, h1, h2, by rw [tA]; exact h3, by rw [tB]; exact h4⟩
      exact ⟨Q1, hn⟩
    · intro heq
      have heq' : t = S.StepIndex + A.TimeStepsPerAttack := heq
      rw [duel_strikeA pre t hA' aA hB' aB h1 h2, tA]
      simp only [decide_eq_true_eq]
      omega
    · intro heq hsurv
      have heq' : t = S.StepIndex + B.TimeStepsPerAttack := heq
      have hBalive : (if t - aA ≥ (engagedWith A B.Id S.StepIndex).TimeStepsPerAttack
          then hB' - 1 else hB') > 0 := by
        rcases hsurv with hgt | hno
        · rw [hYh] at hgt
          split <;> omega
        · rw [duel_strikeA pre t hA' aA hB' aB h1 h2] at hno
          have hno' : ¬ t - aA ≥ (engagedWith A B.Id S.StepIndex).TimeStepsPerAttack := by
            simpa using hno
          rw [if_neg hno']
          exact h2
      rw [duel_strikeB pre t hA' aA hB' aB h1 h2 hBalive, tB]
      simp only [decide_eq_true_eq]
      omega

set_option maxRecDepth 1000000 in
theorem mutual_engagement_witness :
    (demoStateOn ⟨2, 1⟩ 2 0 0).StepIndex = 1 ∧
    (demoStateOn ⟨2, 1⟩ 2 0 0).Entities =
      [⟨0, 2, 2, 13, 0, 0, 0, -1, 27, -1, -1⟩, ⟨1, 5, 5, 8, 1, 0, 1, -1, 27, -1, -1⟩] ∧
    (demoStateOn ⟨2, 1⟩ 2 0 1).Entities =
      [⟨0, 2, 2, 13, 0, 1, 0, 1, 27, 1, -1⟩, ⟨1, 5, 5, 8, 1, 1, 1, 0, 27, 1, -1⟩] ∧
    (demoStateOn ⟨2, 1⟩ 2 0 27).StepIndex = 28 ∧
    dealsStrikeAt 1000 (demoStateOn ⟨2, 1⟩ 2 0 27) 0 = true ∧
    dealsStrikeAt 1000 (demoStateOn ⟨2, 1⟩ 2 0 27) 1 = true ∧
    healths (demoStateOn ⟨2, 1⟩ 2 0 27) = [2, 5] ∧
    healths (demoStateOn ⟨2, 1⟩ 2 0 28) = [1, 4] := by
  have hEs : (demoStateOn ⟨2, 1⟩ 2 0 0).Entities =
      [⟨0, 2, 2, 13, 0, 0, 0, -1, 27, -1, -1⟩, ⟨1, 5, 5, 8, 1, 0, 1, -1, 27, -1, -1⟩] := by
    decide
  have hs : (demoStateOn ⟨2, 1⟩ 2 0 0).StepIndex = 1 := by decide
  obtain ⟨S1, hn, _, hEs1, _, _, hrun⟩ := mutual_engagement demoRand 1000
    (demoStateOn ⟨2, 1⟩ 2 0 0) ⟨0, 2, 2, 13, 0, 0, 0, -1, 27, -1, -1⟩
    ⟨1, 5, 5, 8, 1, 0, 1, -1, 27, -1, -1⟩
    (demoStateOn_reachable ⟨2, 1⟩ 2 0 0 (by decide)) hEs (by decide) (by decide) rfl rfl rfl rfl
    (by decide)
  have hS1 : S1 = demoStateOn ⟨2, 1⟩ 2 0 1 :=
    Option.some.inj (hn.symm.trans (demoStateOn_step ⟨2, 1⟩ 2 0 0 (by decide)))
  subst hS1
  obtain ⟨_, _, _, _, _, _, hsA, hsB⟩ := hrun 26 (demoStateOn ⟨2, 1⟩ 2 0 27)
    ⟨0, 2, 2, 13, 0, 1, 0, 1, 27, 1, -1⟩ ⟨1, 5, 5, 8, 1, 1, 1, 0, 27, 1, -1⟩
    (demoStateOn_run ⟨2, 1⟩ 2 0 1 26 (by decide)) (by decide) (by decide) (by decide)
    (by decide)
  refine ⟨hs, hEs, ?_, by decide, hsA (by decide), hsB (by decide) (Or.inl (by decide)),
    by decide, by decide⟩
  rw [hEs1, hs]

end HexBalls

namespace HexBalls

/-! ## The coordinate functions in `int32` arithmetic -/

theorem wrap32_of_range {x : Int} (h0 : INT32_MIN ≤ x) (h1 : x ≤ INT32_MAX) : wrap32 x = x := by
  unfold INT32_MIN at h0
  unfold INT32_MAX at h1
  unfold wrap32
  omega

theorem wrap32_range (x : Int) : INT32_MIN ≤ wrap32 x ∧ wrap32 x ≤ INT32_MAX := by
  unfold INT32_MIN INT32_MAX wrap32
  omega

/-- The cube coordinates computed in `int32` are the exact ones when the exact ones fit. -/
theorem OddQToCube32_eq (P : FIntPoint) (hX : INT32_MIN < P.X ∧ P.X ≤ INT32_MAX)
    (hR : INT32_MIN ≤ P.Y - P.X / 2 ∧ P.Y - P.X / 2 ≤ INT32_MAX)
    (hS : INT32_MIN ≤ -P.X - (P.Y - P.X / 2) ∧ -P.X - (P.Y - P.X / 2) ≤ INT32_MAX) :
    OddQToCube32 P = OddQToCube P := by
  have h1 : wrap32 (P.X - Int.land P.X 1) = P.X - Int.land P.X 1 := by
    apply wrap32_of_range
    · rw [land_one_eq]; unfold INT32_MIN at *; omega
    · rw [land_one_eq]; unfold INT32_MAX at *; omega
  have h2 : Int.tdiv (P.X - Int.land P.X 1) 2 = P.X / 2 := half_even_part P.X
  have h3 : wrap32 (-P.X) = -P.X := by
    apply wrap32_of_range
    · unfold INT32_MIN INT32_MAX at *; omega
    · unfold INT32_MIN INT32_MAX at *; omega
  simp only [OddQToCube32, OddQToCube, h1, h2, h3]
  rw [wrap32_of_range hR.1 hR.2, wrap32_of_range hS.1 hS.2]

/-- The distance computed in `int32` is the exact one when the cube coordinates and their
differences fit. -/
theorem HexDistance32_eq (A B : FIntPoint)
    (hA : OddQToCube32 A = OddQToCube A) (hB : OddQToCube32 B = OddQToCube B)
    (hQ : INT32_MIN < A.X - B.X ∧ A.X - B.X ≤ INT32_MAX)
    (hR : INT32_MIN < (A.Y - A.X / 2) - (B.Y - B.X / 2) ∧
      (A.Y - A.X / 2) - (B.Y - B.X / 2) ≤ INT32_MAX)
    (hS : INT32_MIN < (-A.X - (A.Y - A.X / 2)) - (-B.X - (B.Y - B.X / 2)) ∧
      (-A.X - (A.Y - A.X / 2)) - (-B.X - (B.Y - B.X / 2)) ≤ INT32_MAX) :
    HexDistance32 A B = HexDistance A B := by
  have key : ∀ x : Int, INT32_MIN < x → x ≤ INT32_MAX → wrap32 |wrap32 x| = |x| := by
    intro x h0 h1
    rw [wrap32_of_range (le_of_lt h0) h1]
    apply wrap32_of_range
    · have := abs_nonneg x
      unfold INT32_MIN; omega
    · rw [Int.abs_eq_natAbs]
      unfold INT32_MIN at h0
      unfold INT32_MAX at h1 ⊢
      omega
  simp only [HexDistance32, HexDistance, hA, hB, OddQToCube_eq]
  rw [key _ hQ.1 hQ.2, key _ hR.1 hR.2, key _ hS.1 hS.2]

/-- On a map whose cell count fits an `int32`, the distance of two valid points computed
in `int32` is the exact one. -/
theorem HexDistance32_valid (M : FIntPoint) (hn : M.X * M.Y ≤ INT32_MAX) (A B : FIntPoint)
    (hA : IsValid M A = true) (hB : IsValid M B = true) :
    HexDistance32 A B = HexDistance A B := by
  rw [IsValid_iff] at hA hB
  obtain ⟨a1, a2, a3, a4⟩ := hA
  obtain ⟨b1, b2, b3, b4⟩ := hB
  have hprod : M.X + M.Y - 1 ≤ M.X * M.Y := by
    have := Int.mul_nonneg (show 0 ≤ M.X - 1 by omega) (show 0 ≤ M.Y - 1 by omega)
    have e : (M.X - 1) * (M.Y - 1) = M.X * M.Y - M.X - M.Y + 1 := by ring
    rw [e] at this
    omega
  simp only [INT32_MAX] at hn
  apply HexDistance32_eq
  · apply OddQToCube32_eq <;> simp only [INT32_MIN, INT32_MAX] <;> omega
  · apply OddQToCube32_eq <;> simp only [INT32_MIN, INT32_MAX] <;> omega
  · simp only [INT32_MIN, INT32_MAX]; omega
  · simp only [INT32_MIN, INT32_MAX]; omega
  · simp only [INT32_MIN, INT32_MAX]; omega

/-- On a map whose cell count fits an `int32`, the index of a valid point computed in
`int32` is the exact one. -/
theorem ToIndex32_valid (M : FIntPoint) (hn : M.X * M.Y ≤ INT32_MAX) (P : FIntPoint)
    (hP : IsValid M P = true) : ToIndex32 P M = ToIndex P M := by
  have hb := ToIndex_bounds M P hP
  rw [IsValid_iff] at hP
  obtain ⟨hx, hy, hxw, hyh⟩ := hP
  have h1 : 0 ≤ P.Y * M.X := Int.mul_nonneg hy (by omega)
  simp only [ToIndex] at hb
  unfold ToIndex32 ToIndex
  have h2 : (P.Y + 1) * M.X ≤ M.Y * M.X :=
    Int.mul_le_mul_of_nonneg_right (by omega) (by omega)
  have h3 : (P.Y + 1) * M.X = P.Y * M.X + M.X := by ring
  have h4 : M.Y * M.X = M.X * M.Y := by ring
  simp only [INT32_MAX] at hn
  have e1 : wrap32 (P.Y * M.X) = P.Y * M.X :=
    wrap32_of_range (by simp only [INT32_MIN]; omega) (by simp only [INT32_MAX]; omega)
  rw [e1]
  exact wrap32_of_range (by simp only [INT32_MIN]; omega) (by simp only [INT32_MAX]; omega)

theorem HexNeighborAt32_eq (P : FIntPoint) (hX : INT32_MIN < P.X ∧ P.X < INT32_MAX)
    (hY : INT32_MIN < P.Y ∧ P.Y < INT32_MAX) (d : Int) :
    HexNeighborAt32 P d = HexNeighborAt P d := by
  simp only [INT32_MIN, INT32_MAX] at hX hY
  by_cases hd : d < 0 ∨ d > 5
  · unfold HexNeighborAt32 HexNeighborAt
    rw [if_pos hd, if_pos hd]
  · have hNi : d = 0 ∨ d = 1 ∨ d = 2 ∨ d = 3 ∨ d = 4 ∨ d = 5 := by omega
    unfold HexNeighborAt32 HexNeighborAt
    rw [if_neg hd, if_neg hd]
    rcases land_one_cases P.X with hp | hp <;>
      rcases hNi with rfl | rfl | rfl | rfl | rfl | rfl <;>
      (simp only [hp, NeighborsOffsets, EvenNeighborsOffsets, OddNeigborsOffsets,
         FIntPoint.add]
       simp only [wrap32]
       simp
       try omega)

theorem wrap32_spec (x : Int) :
    ∃ w : Int, wrap32 x = w ∧ -2147483648 ≤ w ∧ w ≤ 2147483647 ∧
      (w - x) % 4294967296 = 0 := by
  refine ⟨wrap32 x, rfl, ?_, ?_, ?_⟩ <;> (unfold wrap32; omega)

/-- An `int32` value whose wrapped absolute value is at most 1 is -1, 0, 1 or the least
`int32` value. -/
theorem wrapAbs_small (d t : Int) (h0 : -2147483648 ≤ d) (h1 : d ≤ 2147483647)
    (ht : wrap32 |d| = t) (hle : t ≤ 1) :
    (d = -2147483648 ∧ t = -2147483648) ∨ (-1 ≤ d ∧ d ≤ 1 ∧ t = |d|) := by
  rw [Int.abs_eq_natAbs] at ht ⊢
  unfold wrap32 at ht
  omega

theorem wrapped_sum_zero (PX QX pn pr ps qn qr qs d1 d2 d3 : Int)
    (pnm : (pn - (-PX)) % 4294967296 = 0) (psm : (ps - (pn - pr)) % 4294967296 = 0)
    (qnm : (qn - (-QX)) % 4294967296 = 0) (qsm : (qs - (qn - qr)) % 4294967296 = 0)
    (am : (d1 - (PX - QX)) % 4294967296 = 0) (bm : (d2 - (pr - qr)) % 4294967296 = 0)
    (cm : (d3 - (ps - qs)) % 4294967296 = 0) : (d1 + d2 + d3) % 4294967296 = 0 := by
  omega

theorem wrapped_differences_small (d1 d2 d3 t1 t2 t3 : Int)
    (g1 : (d1 = -2147483648 ∧ t1 = -2147483648) ∨ (-1 ≤ d1 ∧ d1 ≤ 1 ∧ t1 = (d1.natAbs : Int)))
    (g2 : (d2 = -2147483648 ∧ t2 = -2147483648) ∨ (-1 ≤ d2 ∧ d2 ≤ 1 ∧ t2 = (d2.natAbs : Int)))
    (g3 : (d3 = -2147483648 ∧ t3 = -2147483648) ∨ (-1 ≤ d3 ∧ d3 ≤ 1 ∧ t3 = (d3.natAbs : Int)))
    (hsum0 : (d1 + d2 + d3) % 4294967296 = 0) (h : max (max t1 t2) t3 = 1) :
    -1 ≤ d1 ∧ d1 ≤ 1 ∧ -1 ≤ d2 ∧ d2 ≤ 1 ∧ -1 ≤ d3 ∧ d3 ≤ 1 ∧ d1 + d2 + d3 = 0 ∧
      max (max (d1.natAbs : Int) (d2.natAbs : Int)) (d3.natAbs : Int) = 1 := by
  rcases g1 with ⟨a, b⟩ | ⟨a, b, c⟩ <;> rcases g2 with ⟨a2, b2⟩ | ⟨a2, b2, c2⟩ <;>
    rcases g3 with ⟨a3, b3⟩ | ⟨a3, b3, c3⟩ <;> subst_vars <;> omega

theorem wrapped_column_exact (PX QX d1 : Int) (hX0 : -2147483648 < PX) (hX1 : PX < 2147483647)
    (q0 : -2147483648 ≤ QX) (q1 : QX ≤ 2147483647) (k1 : -1 ≤ d1) (k2 : d1 ≤ 1)
    (am : (d1 - (PX - QX)) % 4294967296 = 0) : PX - QX = d1 := by
  omega

theorem wrapped_row_exact (PX PY QX QY pr qr d1 d2 d3 : Int)
    (hY0 : -2147483648 < PY) (hY1 : PY < 2147483647)
    (q0 : -2147483648 ≤ QY) (q1 : QY ≤ 2147483647)
    (k3 : -1 ≤ d2) (k4 : d2 ≤ 1) (k5 : -1 ≤ d3) (k6 : d3 ≤ 1) (k7 : d1 + d2 + d3 = 0)
    (hqx : PX - QX = d1)
    (prm : (pr - (PY - PX / 2)) % 4294967296 = 0)
    (qrm : (qr - (QY - QX / 2)) % 4294967296 = 0)
    (bm : (d2 - (pr - qr)) % 4294967296 = 0) :
    PY - PX / 2 - (QY - QX / 2) = d2 := by
  omega

theorem wrapped_small_exact (d e : Int) (h0 : -2147483648 ≤ d) (h1 : d ≤ 2147483647)
    (k0 : -1 ≤ e) (k1 : e ≤ 1) (m : (d - e) % 4294967296 = 0) : d = e := by
  omega

theorem wrapped_difference (a b d A B : Int) (ma : (a - A) % 4294967296 = 0)
    (mb : (b - B) % 4294967296 = 0) (md : (d - (a - b)) % 4294967296 = 0) :
    (d - (A - B)) % 4294967296 = 0 := by
  omega

theorem wrapped_third (pn pr ps PX PR : Int) (nm : (pn - (-PX)) % 4294967296 = 0)
    (rm : (pr - PR) % 4294967296 = 0) (sm : (ps - (pn - pr)) % 4294967296 = 0) :
    (ps - (-PX - PR)) % 4294967296 = 0 := by
  omega

theorem wrap32_even_part (x : Int) (h0 : INT32_MIN ≤ x) (h1 : x ≤ INT32_MAX) :
    wrap32 (x - Int.land x 1) = x - Int.land x 1 := by
  apply wrap32_of_range
  · rw [land_one_eq]; simp only [INT32_MIN] at h0 ⊢; omega
  · rw [land_one_eq]; simp only [INT32_MAX] at h1 ⊢; omega

theorem wrap32_abs_small (e : Int) (h : |e| ≤ 1) : wrap32 |e| = |e| := by
  apply wrap32_of_range
  · have := abs_nonneg e
    simp only [INT32_MIN]; omega
  · simp only [INT32_MAX]; omega

/-- Two `int32` points at exact distance at most 1 have the same distance in `int32`
arithmetic: the cube coordinates may wrap, their differences do not. -/
theorem HexDistance32_near (P Q : FIntPoint)
    (hPX : INT32_MIN ≤ P.X ∧ P.X ≤ INT32_MAX) (hQX : INT32_MIN ≤ Q.X ∧ Q.X ≤ INT32_MAX)
    (h : HexDistance P Q ≤ 1) : HexDistance32 P Q = HexDistance P Q := by
  have hp1 := wrap32_even_part P.X hPX.1 hPX.2
  have hp2 : Int.tdiv (P.X - Int.land P.X 1) 2 = P.X / 2 := half_even_part P.X
  have hq1 := wrap32_even_part Q.X hQX.1 hQX.2
  have hq2 : Int.tdiv (Q.X - Int.land Q.X 1) 2 = Q.X / 2 := half_even_part Q.X
  rw [HexDistance_eq] at h ⊢
  have b1 : |P.X - Q.X| ≤ 1 := le_trans (le_trans (le_max_left _ _) (le_max_left _ _)) h
  have b2 : |(P.Y - P.X / 2) - (Q.Y - Q.X / 2)| ≤ 1 :=
    le_trans (le_trans (le_max_right _ _) (le_max_left _ _)) h
  have b3 : |(-P.X - (P.Y - P.X / 2)) - (-Q.X - (Q.Y - Q.X / 2))| ≤ 1 :=
    le_trans (le_max_right _ _) h
  simp only [HexDistance32, OddQToCube32, hp1, hp2, hq1, hq2]
  obtain ⟨pr, e1, _, _, prm⟩ := wrap32_spec (P.Y - P.X / 2)
  obtain ⟨pn, e2, _, _, pnm⟩ := wrap32_spec (-P.X)
  rw [e1, e2]
  obtain ⟨ps, e3, _, _, psm⟩ := wrap32_spec (pn - pr)
  rw [e3]
  obtain ⟨qr, e4, _, _, qrm⟩ := wrap32_spec (Q.Y - Q.X / 2)
  obtain ⟨qn, e5, _, _, qnm⟩ := wrap32_spec (-Q.X)
  rw [e4, e5]
  obtain ⟨qs, e6, _, _, qsm⟩ := wrap32_spec (qn - qr)
  rw [e6]
  obtain ⟨d1, e7, a0, a1, am⟩ := wrap32_spec (P.X - Q.X)
  obtain ⟨d2, e8, c0, c1, bm⟩ := wrap32_spec (pr - qr)
  obtain ⟨d3, e9, f0, f1, cm⟩ := wrap32_spec (ps - qs)
  rw [e7, e8, e9]
  have x1 := abs_le.mp b1
  have x2 := abs_le.mp b2
  have x3 := abs_le.mp b3
  have g1 : d1 = P.X - Q.X := wrapped_small_exact d1 _ a0 a1 x1.1 x1.2 am
  have g2 : d2 = (P.Y - P.X / 2) - (Q.Y - Q.X / 2) :=
    wrapped_small_exact d2 _ c0 c1 x2.1 x2.2 (wrapped_difference pr qr d2 _ _ prm qrm bm)
  have g3 : d3 = (-P.X - (P.Y - P.X / 2)) - (-Q.X - (Q.Y - Q.X / 2)) :=
    wrapped_small_exact d3 _ f0 f1 x3.1 x3.2
      (wrapped_difference ps qs d3 _ _ (wrapped_third pn pr ps P.X _ pnm prm psm)
        (wrapped_third qn qr qs Q.X _ qnm qrm qsm) cm)
  rw [g1, g2, g3, wrap32_abs_small _ b1, wrap32_abs_small _ b2, wrap32_abs_small _ b3]

/-- For a point strictly inside the `int32` range, an `int32` point whose distance
computed in `int32` is 1 is at exact distance 1. -/
theorem HexDistance32_one (P Q : FIntPoint)
    (hX : INT32_MIN < P.X ∧ P.X < INT32_MAX) (hY : INT32_MIN < P.Y ∧ P.Y < INT32_MAX)
    (hQX : INT32_MIN ≤ Q.X ∧ Q.X ≤ INT32_MAX) (hQY : INT32_MIN ≤ Q.Y ∧ Q.Y ≤ INT32_MAX)
    (h : HexDistance32 P Q = 1) : HexDistance P Q = 1 := by
  have hp1 := wrap32_even_part P.X (le_of_lt hX.1) (le_of_lt hX.2)
  have hp2 : Int.tdiv (P.X - Int.land P.X 1) 2 = P.X / 2 := half_even_part P.X
  have hq1 := wrap32_even_part Q.X hQX.1 hQX.2
  have hq2 : Int.tdiv (Q.X - Int.land Q.X 1) 2 = Q.X / 2 := half_even_part Q.X
  simp only [INT32_MIN, INT32_MAX] at hX hY hQX hQY
  simp only [HexDistance32, OddQToCube32, hp1, hp2, hq1, hq2] at h
  obtain ⟨pr, e1, _, _, prm⟩ := wrap32_spec (P.Y - P.X / 2)
  obtain ⟨pn, e2, _, _, pnm⟩ := wrap32_spec (-P.X)
  rw [e1, e2] at h
  obtain ⟨ps, e3, _, _, psm⟩ := wrap32_spec (pn - pr)
  rw [e3] at h
  obtain ⟨qr, e4, _, _, qrm⟩ := wrap32_spec (Q.Y - Q.X / 2)
  obtain ⟨qn, e5, _, _, qnm⟩ := wrap32_spec (-Q.X)
  rw [e4, e5] at h
  obtain ⟨qs, e6, _, _, qsm⟩ := wrap32_spec (qn - qr)
  rw [e6] at h
  obtain ⟨d1, e7, a0, a1, am⟩ := wrap32_spec (P.X - Q.X)
  obtain ⟨d2, e8, b0, b1, bm⟩ := wrap32_spec (pr - qr)
  obtain ⟨d3, e9, c0, c1, cm⟩ := wrap32_spec (ps - qs)
  rw [e7, e8, e9] at h
  obtain ⟨t1, f1, _⟩ := wrap32_spec |d1|
  obtain ⟨t2, f2, _⟩ := wrap32_spec |d2|
  obtain ⟨t3, f3, _⟩ := wrap32_spec |d3|
  rw [f1, f2, f3] at h
  have hle : t1 ≤ 1 ∧ t2 ≤ 1 ∧ t3 ≤ 1 := by
    have m1 := le_max_left (max t1 t2) t3
    have m2 := le_max_right (max t1 t2) t3
    have m3 := le_max_left t1 t2
    have m4 := le_max_right t1 t2
    rw [h] at m1 m2
    exact ⟨le_trans m3 m1, le_trans m4 m1, m2⟩
  have g1 := wrapAbs_small d1 t1 a0 a1 f1 hle.1
  have g2 := wrapAbs_small d2 t2 b0 b1 f2 hle.2.1
  have g3 := wrapAbs_small d3 t3 c0 c1 f3 hle.2.2
  simp only [Int.abs_eq_natAbs] at g1 g2 g3
  have hsum0 := wrapped_sum_zero P.X Q.X pn pr ps qn qr qs d1 d2 d3 pnm psm qnm qsm am bm cm
  obtain ⟨k1, k2, k3, k4, k5, k6, k7, k8⟩ :=
    wrapped_differences_small d1 d2 d3 t1 t2 t3 g1 g2 g3 hsum0 h
  have hqx := wrapped_column_exact P.X Q.X d1 hX.1 hX.2 hQX.1 hQX.2 k1 k2 am
  have hqr := wrapped_row_exact P.X P.Y Q.X Q.Y pr qr d1 d2 d3 hY.1 hY.2 hQY.1 hQY.2
    k3 k4 k5 k6 k7 hqx prm qrm bm
  have e10 : -P.X - (P.Y - P.X / 2) - (-Q.X - (Q.Y - Q.X / 2)) = d3 := by
    clear h g1 g2 g3 hsum0 am bm cm pnm psm qnm qsm prm qrm k8
    linarith
  rw [HexDistance_eq, hqx, hqr, e10]
  simp only [Int.abs_eq_natAbs]
  exact k8

/-- The neighbours of a point strictly inside the `int32` range are `int32` points. -/
theorem HexNeighborAt_range (P : FIntPoint) (hX : INT32_MIN < P.X ∧ P.X < INT32_MAX)
    (hY : INT32_MIN < P.Y ∧ P.Y < INT32_MAX) (d : Int) :
    (INT32_MIN ≤ (HexNeighborAt P d).X ∧ (HexNeighborAt P d).X ≤ INT32_MAX) ∧
    (INT32_MIN ≤ (HexNeighborAt P d).Y ∧ (HexNeighborAt P d).Y ≤ INT32_MAX) := by
  rw [← HexNeighborAt32_eq P hX hY d]
  by_cases hd : d < 0 ∨ d > 5
  · unfold HexNeighborAt32
    rw [if_pos hd]
    simp only [INT32_MIN, INT32_MAX]
    omega
  · unfold HexNeighborAt32
    rw [if_neg hd]
    exact ⟨wrap32_range _, wrap32_range _⟩

end HexBalls

namespace HexBalls

/-! ## The coordinate claims in `int32` arithmetic -/

/-- Claim C8.  Index round trip: on a map of width at least 1 and height at least 1 whose
cell count fits an `int32`, the index of every valid point `P`, computed in `int32`, is
the exact `P.X + P.Y * W`, lies in `[0, W*H)` and `ToPoint (ToIndex P) = P`; and for
every index `i` in `[0, W*H)` the point `ToPoint i` is valid and
`ToIndex (ToPoint i) = i`, again with the index computed in `int32`. -/
theorem index_round_trip (MapSize : FIntPoint) (hW : 1 ≤ MapSize.X) (hH : 1 ≤ MapSize.Y)
    (hcells : MapSize.X * MapSize.Y ≤ INT32_MAX) :
    (∀ P : FIntPoint, IsValid MapSize P = true →
      ToIndex32 P MapSize = ToIndex P MapSize ∧
      0 ≤ ToIndex32 P MapSize ∧ ToIndex32 P MapSize < MapSize.X * MapSize.Y ∧
      ToPoint (ToIndex32 P MapSize) MapSize = P) ∧
    (∀ i : Int, 0 ≤ i → i < MapSize.X * MapSize.Y →
      ToIndex32 (ToPoint i MapSize) MapSize = i ∧
      IsValid MapSize (ToPoint i MapSize) = true) := by
  have hH0 : 0 < MapSize.Y := by omega
  refine ⟨fun P h => ?_, fun i h0 h1 => ?_⟩
  · have e := ToIndex32_valid MapSize hcells P h
    have hb := ToIndex_bounds MapSize P h
    rw [e]
    exact ⟨rfl, hb.1, hb.2, ToPoint_ToIndex MapSize P h⟩
  · have hv := ToPoint_valid MapSize i h0 h1 hW
    rw [ToIndex32_valid MapSize hcells _ hv.1]
    exact ⟨hv.2, hv.1⟩

/-- The round trip on the 3 x 2 map: the point (2,1) and the index 5. -/
theorem index_round_trip_witness :
    (IsValid ⟨3, 2⟩ ⟨2, 1⟩ = true →
      ToIndex32 ⟨2, 1⟩ ⟨3, 2⟩ = ToIndex ⟨2, 1⟩ ⟨3, 2⟩ ∧
      0 ≤ ToIndex32 ⟨2, 1⟩ ⟨3, 2⟩ ∧ ToIndex32 ⟨2, 1⟩ ⟨3, 2⟩ < (3 : Int) * 2 ∧
      ToPoint (ToIndex32 ⟨2, 1⟩ ⟨3, 2⟩) ⟨3, 2⟩ = ⟨2, 1⟩) ∧
    (ToIndex32 (ToPoint 5 ⟨3, 2⟩) ⟨3, 2⟩ = 5 ∧ IsValid ⟨3, 2⟩ (ToPoint 5 ⟨3, 2⟩) = true) :=
  ⟨(index_round_trip ⟨3, 2⟩ (by decide) (by decide) (by decide)).1 ⟨2, 1⟩,
   (index_round_trip ⟨3, 2⟩ (by decide) (by decide) (by decide)).2 5 (by decide) (by decide)⟩

/-- Claim C9.  `HexDistance` is a metric on the valid points of a map whose cell count
fits an `int32`: for valid points `A`, `B`, `C` the distance computed in `int32` is the
exact one, it is symmetric, it satisfies the triangle inequality (the sum taken in exact
integers), and it vanishes exactly on equal points. -/
theorem HexDistance_metric (MapSize : FIntPoint) (hcells : MapSize.X * MapSize.Y ≤ INT32_MAX)
    (A B C : FIntPoint) (hA : IsValid MapSize A = true) (hB : IsValid MapSize B = true)
    (hC : IsValid MapSize C = true) :
    HexDistance32 A B = HexDistance A B ∧
    HexDistance32 A B = HexDistance32 B A ∧
    HexDistance32 A C ≤ HexDistance32 A B + HexDistance32 B C ∧
    (HexDistance32 A B = 0 ↔ A = B) := by
  rw [HexDistance32_valid MapSize hcells A B hA hB, HexDistance32_valid MapSize hcells B A hB hA,
    HexDistance32_valid MapSize hcells A C hA hC, HexDistance32_valid MapSize hcells B C hB hC]
  exact ⟨rfl, HexDistance_comm A B, HexDistance_triangle A B C, HexDistance_eq_zero_iff A B⟩

/-- The metric laws at the points (0,0), (4,1) and (2,3) of the 5 x 5 map. -/
theorem HexDistance_metric_witness :
    HexDistance32 ⟨0, 0⟩ ⟨4, 1⟩ = HexDistance ⟨0, 0⟩ ⟨4, 1⟩ ∧
    HexDistance32 ⟨0, 0⟩ ⟨4, 1⟩ = HexDistance32 ⟨4, 1⟩ ⟨0, 0⟩ ∧
    HexDistance32 ⟨0, 0⟩ ⟨2, 3⟩ ≤ HexDistance32 ⟨0, 0⟩ ⟨4, 1⟩ + HexDistance32 ⟨4, 1⟩ ⟨2, 3⟩ ∧
    (HexDistance32 ⟨0, 0⟩ ⟨4, 1⟩ = 0 ↔ (⟨0, 0⟩ : FIntPoint) = ⟨4, 1⟩) :=
  HexDistance_metric ⟨5, 5⟩ (by decide) ⟨0, 0⟩ ⟨4, 1⟩ ⟨2, 3⟩ (by decide) (by decide) (by decide)

/-- Claim C18.  The neighbour table agrees with the distance function, both computed in
`int32`.  For every offset point `P` whose coordinates lie strictly inside the `int32`
range (in particular every point with non-negative coordinates below `INT32_MAX`, in an
even or an odd column) and every direction `d` in 0..5, the point `HexNeighborAt P d` is
the exact `P + Delta` and is at hex distance 1 of `P`; conversely every `int32` point `Q`
at hex distance 1 of `P` is `HexNeighborAt P d` for exactly one direction `d` in 0..5, so
the six neighbours are pairwise distinct; and for a direction outside 0..5
`HexNeighborAt` returns `(0, 0)`. -/
theorem neighbor_table_agrees_with_distance (P : FIntPoint)
    (hX : INT32_MIN < P.X ∧ P.X < INT32_MAX) (hY : INT32_MIN < P.Y ∧ P.Y < INT32_MAX) :
    (∀ d : Int, 0 ≤ d → d ≤ 5 →
      HexNeighborAt32 P d = HexNeighborAt P d ∧ HexDistance32 P (HexNeighborAt32 P d) = 1) ∧
    (∀ Q : FIntPoint, INT32_MIN ≤ Q.X → Q.X ≤ INT32_MAX → INT32_MIN ≤ Q.Y →
      Q.Y ≤ INT32_MAX → HexDistance32 P Q = 1 →
      ∃! d : Int, (0 ≤ d ∧ d ≤ 5) ∧ Q = HexNeighborAt32 P d) ∧
    (∀ d e : Int, 0 ≤ d → d ≤ 5 → 0 ≤ e → e ≤ 5 →
      HexNeighborAt32 P d = HexNeighborAt32 P e → d = e) ∧
    (∀ d : Int, d < 0 ∨ 5 < d → HexNeighborAt32 P d = ⟨0, 0⟩) := by
  have hN : ∀ d : Int, HexNeighborAt32 P d = HexNeighborAt P d :=
    fun d => HexNeighborAt32_eq P hX hY d
  refine ⟨fun d h0 h5 => ⟨hN d, ?_⟩, ?_, ?_, ?_⟩
  · have h1 := HexDistance_neighbor P d h0 h5
    have hr := HexNeighborAt_range P hX hY d
    rw [hN d, HexDistance32_near P _ ⟨le_of_lt hX.1, le_of_lt hX.2⟩ hr.1 (le_of_eq h1)]
    exact h1
  · intro Q q0 q1 q2 q3 hQ
    have h1 := HexDistance32_one P Q hX hY ⟨q0, q1⟩ ⟨q2, q3⟩ hQ
    obtain ⟨d, hd, hq⟩ := HexDistance_one_neighbor P Q h1
    refine ⟨d, ⟨hd, by rw [hN d]; exact hq⟩, ?_⟩
    rintro e ⟨he, hqe⟩
    rw [hN e] at hqe
    exact HexNeighborAt_inj P e d he.1 he.2 hd.1 hd.2 (by rw [← hqe, ← hq])
  · intro d e hd0 hd5 he0 he5 h
    rw [hN d, hN e] at h
    exact HexNeighborAt_inj P d e hd0 hd5 he0 he5 h
  · intro d h
    rw [hN d]
    exact HexNeighborAt_outside P d h

/-- The neighbours of the point (3,2), in an odd column: direction 4 gives (2,3) at
distance 1, the point (4,2) at distance 1 is a neighbour, and direction 6 gives (0,0). -/
theorem neighbor_table_agrees_with_distance_witness :
    (HexNeighborAt32 ⟨3, 2⟩ 4 = HexNeighborAt ⟨3, 2⟩ 4 ∧
      HexDistance32 ⟨3, 2⟩ (HexNeighborAt32 ⟨3, 2⟩ 4) = 1) ∧
    (HexDistance32 ⟨3, 2⟩ ⟨4, 2⟩ = 1 →
      ∃! d : Int, (0 ≤ d ∧ d ≤ 5) ∧ (⟨4, 2⟩ : FIntPoint) = HexNeighborAt32 ⟨3, 2⟩ d) ∧
    HexNeighborAt32 ⟨3, 2⟩ 6 = ⟨0, 0⟩ :=
  ⟨(neighbor_table_agrees_with_distance ⟨3, 2⟩ (by decide) (by decide)).1 4
      (by decide) (by decide),
   (neighbor_table_agrees_with_distance ⟨3, 2⟩ (by decide) (by decide)).2.1 ⟨4, 2⟩
      (by decide) (by decide) (by decide) (by decide),
   (neighbor_table_agrees_with_distance ⟨3, 2⟩ (by decide) (by decide)).2.2.2 6
      (Or.inr (by decide))⟩

/-! ## Outside the bounds

The bounds of the statements above are needed: beyond them the `int32` computations wrap
around and leave the exact values. -/

/-- On the 65536 x 65536 map the cell count wraps to 0 and the index of the valid point
(65535, 65535) wraps to -1, which `ToPoint` sends to (-1, 0). -/
theorem ToIndex32_wraps :
    wrap32 (65536 * 65536) = 0 ∧ IsValid ⟨65536, 65536⟩ ⟨65535, 65535⟩ = true ∧
    ToIndex32 ⟨65535, 65535⟩ ⟨65536, 65536⟩ = -1 ∧
    ToPoint (-1) ⟨65536, 65536⟩ = ⟨-1, 0⟩ := by
  decide

/-- Far apart, the difference of two row coordinates wraps and the triangle inequality
is lost: the distances from (0, 1610612736) to (1073741824, 0) and on to (1073741824, 1)
are 1073741824 and 1, the direct distance is 2147483647. -/
theorem HexDistance32_wraps :
    HexDistance32 ⟨0, 1610612736⟩ ⟨1073741824, 0⟩ = 1073741824 ∧
    HexDistance32 ⟨1073741824, 0⟩ ⟨1073741824, 1⟩ = 1 ∧
    HexDistance32 ⟨0, 1610612736⟩ ⟨1073741824, 1⟩ = 2147483647 := by
  decide

/-- In the last column of the `int32` range the neighbour in direction 0 wraps to the
first column and is not at distance 1. -/
theorem HexNeighborAt32_wraps :
    HexNeighborAt32 ⟨2147483647, 0⟩ 0 = ⟨-2147483648, 1⟩ ∧
    HexDistance32 ⟨2147483647, 0⟩ (HexNeighborAt32 ⟨2147483647, 0⟩ 0) = 2147483647 := by
  have h : HexNeighborAt32 ⟨2147483647, 0⟩ 0 = ⟨-2147483648, 1⟩ := by decide
  refine ⟨h, ?_⟩
  rw [h]
  simp only [HexDistance32, OddQToCube32, land_one_eq]
  decide

/-! ## `Initialize` with the cell count computed in `int32` -/

theorem Initialize_eq_map (RandRange : Int → Int → Int → Int × Int) (fuel : Nat) (Now : Int)
    (S : USimulator) :
    Initialize RandRange fuel Now S =
      (spawnEntities RandRange fuel (max S.MapSize.X 1 * max S.MapSize.Y 1)
        (max 0 S.EntitiesCount).toNat
        { S with
          RandomStream := S.Seed
          NextEntityId := 0
          MapSize := ⟨max S.MapSize.X 1, max S.MapSize.Y 1⟩
          Occupied := fun _ => false
          EntitiesCount := max 0 S.EntitiesCount }).map
        (fun S2 => { S2 with StepIndex := 1, StartTime := Now }) := by
  unfold Initialize
  simp only
  generalize spawnEntities RandRange fuel _ _ _ = r
  cases r <;> rfl

theorem Initialize32_eq_map (RandRange : Int → Int → Int → Int × Int) (fuel : Nat) (Now : Int)
    (S : USimulator) :
    Initialize32 RandRange fuel Now S =
      (spawnEntities RandRange fuel (wrap32 (max S.MapSize.X 1 * max S.MapSize.Y 1))
        (max 0 S.EntitiesCount).toNat
        { S with
          RandomStream := S.Seed
          NextEntityId := 0
          MapSize := ⟨max S.MapSize.X 1, max S.MapSize.Y 1⟩
          Occupied := fun _ => false
          EntitiesCount := max 0 S.EntitiesCount }).map
        (fun S2 => { S2 with StepIndex := 1, StartTime := Now }) := by
  unfold Initialize32
  simp only
  generalize spawnEntities RandRange fuel _ _ _ = r
  cases r <;> rfl

/-- When the clamped cell count fits an `int32`, `Initialize` with the `int32` product is
`Initialize` with the exact product. -/
theorem Initialize32_eq (RandRange : Int → Int → Int → Int × Int) (fuel : Nat) (Now : Int)
    (S : USimulator) (hcells : max S.MapSize.X 1 * max S.MapSize.Y 1 ≤ INT32_MAX) :
    Initialize32 RandRange fuel Now S = Initialize RandRange fuel Now S := by
  have h0 : 0 < max S.MapSize.X 1 * max S.MapSize.Y 1 :=
    Int.mul_pos (lt_of_lt_of_le Int.zero_lt_one (le_max_right _ _))
      (lt_of_lt_of_le Int.zero_lt_one (le_max_right _ _))
  have hw : wrap32 (max S.MapSize.X 1 * max S.MapSize.Y 1) =
      max S.MapSize.X 1 * max S.MapSize.Y 1 :=
    wrap32_of_range (by simp only [INT32_MIN]; omega) hcells
  rw [Initialize32_eq_map, Initialize_eq_map, hw]

/-- Claim C7.  Postcondition of `Initialize`: on a newly constructed simulator whose
clamped cell count fits an `int32` and whose clamped entity count is at most the clamped
cell count, with a random stream that keeps `RandRange` within its bounds and with fuel
for one round of probing, `Initialize` (its cell count computed in `int32`) returns;
then `StepIndex = 1`, the map size and the entity count are the clamped ones, exactly
`EntitiesCount` records are stored, the record at index `k` has the id `k`, a cell in
`[0, CellCount)`, `NextCellIndex = CurrentCellIndex`, no target, no attack step, no
destruction step, `Health = MaxHealth` in `[2,5]`, `TicksPerMove` in `[7,20]` and
`TimeStepsPerAttack` in `[20,30]`; the cells are pairwise different and `Occupied` is
true exactly on them. -/
theorem Initialize_postcondition (RandRange : Int → Int → Int → Int × Int)
    (hR : RandRangeInBounds RandRange) (MapSize : FIntPoint) (EntitiesCount Seed Now : Int)
    (fuel : Nat) (hcells : max MapSize.X 1 * max MapSize.Y 1 ≤ INT32_MAX)
    (hcount : max 0 EntitiesCount ≤ max MapSize.X 1 * max MapSize.Y 1)
    (hfuel : max MapSize.X 1 * max MapSize.Y 1 ≤ fuel) :
    ∃ S : USimulator,
      Initialize32 RandRange fuel Now (freshSimulator MapSize EntitiesCount Seed) = some S ∧
      Initialize RandRange fuel Now (freshSimulator MapSize EntitiesCount Seed) = some S ∧
      S.StepIndex = 1 ∧ S.MapSize = ⟨max MapSize.X 1, max MapSize.Y 1⟩ ∧
      wrap32 (S.MapSize.X * S.MapSize.Y) = S.MapSize.X * S.MapSize.Y ∧
      S.EntitiesCount = max 0 EntitiesCount ∧
      S.Entities.length = (max 0 EntitiesCount).toNat ∧
      (∀ (k : Nat) (E : FEntityInfo), S.Entities[k]? = some E →
        SpawnedOk (S.MapSize.X * S.MapSize.Y) k E) ∧
      (∀ (j k : Nat) (A B : FEntityInfo), j ≠ k → S.Entities[j]? = some A →
        S.Entities[k]? = some B → A.CurrentCellIndex ≠ B.CurrentCellIndex) ∧
      (∀ c : Int, S.Occupied c = true ↔ ∃ E ∈ S.Entities, E.CurrentCellIndex = c) := by
  obtain ⟨S, h1, h2, h3, h4, h5, h6, h7, h8⟩ :=
    Initialize_spawns RandRange hR MapSize EntitiesCount Seed Now fuel hcount hfuel
  have h0 : 0 < max MapSize.X 1 * max MapSize.Y 1 :=
    Int.mul_pos (lt_of_lt_of_le Int.zero_lt_one (le_max_right _ _))
      (lt_of_lt_of_le Int.zero_lt_one (le_max_right _ _))
  refine ⟨S, ?_, h1, h2, h3, ?_, h4, h5, h6, h7, h8⟩
  · rw [Initialize32_eq RandRange fuel Now _ hcells]
    exact h1
  · rw [h3]
    exact wrap32_of_range (by simp only [INT32_MIN]; omega) hcells

/-- The postcondition of `Initialize` for the 5 x 5 simulator with 3 entities and seed 1. -/
theorem Initialize_postcondition_witness :
    ∃ S : USimulator,
      Initialize32 demoRand 1000 0 (freshSimulator ⟨5, 5⟩ 3 1) = some S ∧
      Initialize demoRand 1000 0 (freshSimulator ⟨5, 5⟩ 3 1) = some S ∧
      S.StepIndex = 1 ∧ S.MapSize = ⟨max 5 1, max 5 1⟩ ∧
      wrap32 (S.MapSize.X * S.MapSize.Y) = S.MapSize.X * S.MapSize.Y ∧
      S.EntitiesCount = max 0 3 ∧
      S.Entities.length = (max 0 (3 : Int)).toNat ∧
      (∀ (k : Nat) (E : FEntityInfo), S.Entities[k]? = some E →
        SpawnedOk (S.MapSize.X * S.MapSize.Y) k E) ∧
      (∀ (j k : Nat) (A B : FEntityInfo), j ≠ k → S.Entities[j]? = some A →
        S.Entities[k]? = some B → A.CurrentCellIndex ≠ B.CurrentCellIndex) ∧
      (∀ c : Int, S.Occupied c = true ↔ ∃ E ∈ S.Entities, E.CurrentCellIndex = c) :=
  Initialize_postcondition demoRand demoRand_inBounds ⟨5, 5⟩ 3 1 0 1000 (by decide)
    (by decide) (by decide)

end HexBalls

namespace HexBalls

/-! ## Exact occupancy: a set bit is a cell of a stored entity -/

theorem spawnEntities_exact (RandRange : Int → Int → Int → Int × Int) (fuel : Nat) (n : Int) :
    ∀ (Count : Nat) (S S1 : USimulator), spawnEntities RandRange fuel n Count S = some S1 →
      ExactInv S → ExactInv S1 := by
  intro Count
  induction Count with
  | zero =>
    intro S S1 h inv
    simp only [spawnEntities, Option.some.injEq] at h
    subst h
    exact inv
  | succ Count ih =>
    intro S S1 h inv
    unfold spawnEntities at h
    simp only at h
    split at h
    · simp at h
    · rename_i c hc
      refine ih _ _ h ?_
      intro d hd
      by_cases hdc : d = c
      · refine ⟨spawnedEntity RandRange (RandRange S.RandomStream 0 (n - 1)).2 c
          S.NextEntityId, ?_, Or.inl ?_⟩
        · show _ ∈ S.Entities ++ [_]
          simp
        · rw [hdc]; rfl
      · have hd1 : S.Occupied d = true := by
          have : setAt S.Occupied c true d = true := hd
          simpa [setAt, hdc] using this
        obtain ⟨E, hE, hEc⟩ := inv d hd1
        refine ⟨E, ?_, hEc⟩
        show E ∈ S.Entities ++ [_]
        exact List.mem_append_left _ hE

theorem Initialize_exact {RandRange : Int → Int → Int → Int × Int} {fuel : Nat} {Now : Int}
    {S0 S : USimulator} (h : Initialize RandRange fuel Now S0 = some S) : ExactInv S := by
  unfold Initialize at h
  simp only at h
  split at h
  · simp at h
  · rename_i S2 hspawn
    simp only [Option.some.injEq] at h
    subst h
    have e := spawnEntities_exact _ _ _ _ _ _ hspawn (by intro c hc; simp at hc)
    exact e

/-- The cells whose bit is set after the step of the entity at `i`: the cells of its new
record, and the cells that were set before and were not cells of its old record. -/
theorem entityStep_cells {fuel i : Nat} {S S1 : USimulator} {dp dp1 : Bool}
    (h : entityStep fuel i S dp = some (S1, dp1)) {E : FEntityInfo}
    (hE : S.Entities[i]? = some E) :
    ∃ E1 : FEntityInfo, S1.Entities[i]? = some E1 ∧
      ∀ c : Int, S1.Occupied c = true →
        (c = E1.CurrentCellIndex ∨ c = E1.NextCellIndex) ∨
        (S.Occupied c = true ∧ c ≠ E.CurrentCellIndex ∧ c ≠ E.NextCellIndex) := by
  obtain ⟨_, _, _, E1, hE1, hc⟩ := entityStep_own h hE
  refine ⟨E1, hE1, ?_⟩
  have same : E1.CurrentCellIndex = E.CurrentCellIndex →
      E1.NextCellIndex = E.NextCellIndex → S1.Occupied = S.Occupied →
      ∀ c : Int, S1.Occupied c = true →
        (c = E1.CurrentCellIndex ∨ c = E1.NextCellIndex) ∨
        (S.Occupied c = true ∧ c ≠ E.CurrentCellIndex ∧ c ≠ E.NextCellIndex) := by
    intro e1 e2 e3 c hcc
    rw [e3] at hcc
    by_cases h1 : c = E.CurrentCellIndex
    · exact Or.inl (Or.inl (by rw [e1]; exact h1))
    · by_cases h2 : c = E.NextCellIndex
      · exact Or.inl (Or.inr (by rw [e2]; exact h2))
      · exact Or.inr ⟨hcc, h1, h2⟩
  rcases hc with ⟨_, _, _, rfl, _, ho⟩ | ⟨_, _, _, rfl, _, ho⟩ |
    ⟨_, _, ho, _, t, T, _, _, _, _, hc⟩ | ⟨halive, _, _, _, hc⟩
  · exact same rfl rfl ho
  · exact same rfl rfl ho
  · rcases hc with ⟨_, _, rfl⟩ | ⟨_, _, rfl⟩
    · exact same rfl rfl ho
    · exact same rfl rfl ho
  · rcases hc with ⟨_, _, rfl, ho⟩ | ⟨h1, h2, rfl, hocc⟩ | ⟨h1, _, rfl, ho⟩ |
      ⟨h1, sel, t, T, _, _, _, _, hc⟩
    · exact same rfl rfl ho
    · intro c hcc
      rw [hocc] at hcc
      by_cases hn : c = E.NextCellIndex
      · exact Or.inl (Or.inl hn)
      · by_cases hcur : c = E.CurrentCellIndex
        · simp [setAt, hn, hcur] at hcc
          rw [hcur] at hn
          simp [hn] at hcc
        · right
          simp only [setAt, if_neg hn, if_neg hcur] at hcc
          exact ⟨hcc, hcur, hn⟩
    · exact same h1.symm rfl ho
    · rcases hc with ⟨_, rfl, ho⟩ | ⟨_, Next, D, _, hc⟩
      · exact same h1.symm rfl ho
      · rcases hc with ⟨_, rfl, ho⟩ | ⟨_, rfl, ho⟩
        · exact same h1.symm rfl ho
        · intro c hcc
          rw [ho] at hcc
          by_cases hn : c = Next
          · exact Or.inl (Or.inr hn)
          · simp only [setAt, if_neg hn] at hcc
            by_cases hcur : c = E.NextCellIndex
            · exact Or.inl (Or.inl hcur)
            · exact Or.inr ⟨hcc, by rw [h1]; exact hcur, hcur⟩

/-- A record other than the stepping one keeps its cells and its index. -/
theorem entityStep_keeps_cells {fuel i : Nat} {S S1 : USimulator} {dp dp1 : Bool}
    (h : entityStep fuel i S dp = some (S1, dp1)) {k : Nat} (hk : k ≠ i) {A : FEntityInfo}
    (hA : S.Entities[k]? = some A) :
    ∃ B : FEntityInfo, S1.Entities[k]? = some B ∧ Struck A B := by
  have hlen := (entityStep_effect h).2.length
  have hlt : k < S1.Entities.length := by
    rw [hlen]; exact (List.getElem?_eq_some_iff.1 hA).1
  obtain ⟨A1, hA1, hs⟩ := entityStep_others h hk (List.getElem?_eq_getElem hlt)
  have e : A1 = A := Option.some.inj (hA1.symm.trans hA)
  subst e
  exact ⟨_, List.getElem?_eq_getElem hlt, hs⟩

theorem entityStep_exact {fuel i : Nat} {S S1 : USimulator} {dp dp1 : Bool}
    (h : entityStep fuel i S dp = some (S1, dp1)) (inv : ExactInv S) : ExactInv S1 := by
  obtain ⟨E, hE, _⟩ := entityStep_cases h
  obtain ⟨E1, hE1, hcells⟩ := entityStep_cells h hE
  intro c hc
  rcases hcells c hc with hown | ⟨hold, h1, h2⟩
  · exact ⟨E1, List.getElem?_mem hE1, hown.imp Eq.symm Eq.symm⟩
  · obtain ⟨A, hA, hAc⟩ := inv c hold
    obtain ⟨k, hk⟩ := List.getElem?_of_mem hA
    have hki : k ≠ i := by
      rintro rfl
      have e : A = E := Option.some.inj (hk.symm.trans hE)
      subst e
      rcases hAc with e | e
      · exact h1 e.symm
      · exact h2 e.symm
    obtain ⟨B, hB, hs⟩ := entityStep_keeps_cells h hki hk
    obtain ⟨_, _, _, b4, _, b6, _⟩ := hs.fields
    refine ⟨B, List.getElem?_mem hB, ?_⟩
    rw [b4, b6]
    exact hAc

theorem forwardPass_exact {fuel : Nat} :
    ∀ (Count i : Nat) (S S1 : USimulator) (dp dp1 : Bool),
      forwardPass fuel Count i S dp = some (S1, dp1) → ExactInv S → ExactInv S1 := by
  intro Count
  induction Count with
  | zero =>
    intro i S S1 dp dp1 h inv
    simp only [forwardPass, Option.some.injEq, Prod.mk.injEq] at h
    obtain ⟨rfl, _⟩ := h
    exact inv
  | succ Count ih =>
    intro i S S1 dp dp1 h inv
    unfold forwardPass at h
    split at h
    · simp at h
    · rename_i S2 dp2 hstep
      exact ih _ _ _ _ _ h (entityStep_exact hstep inv)

/-- `NextStep` keeps the occupancy exact: the sweep clears the bits of the records it
removes, and the forward pass sets a bit only for the stepping entity. -/
theorem NextStep_exact {fuel : Nat} {S S1 : USimulator} (h : NextStep fuel S = some S1)
    (inv : ExactInv S) : ExactInv S1 := by
  obtain ⟨S3, dp3, hpass, _, _, hshape⟩ := NextStep_result h
  have inv3 := forwardPass_exact _ _ _ _ _ _ hpass inv
  rcases hshape with ⟨_, hes, hocc, _⟩ | ⟨_, hperm, hocc⟩
  · intro c hc
    rw [hocc] at hc
    obtain ⟨E, hE, hEc⟩ := inv3 c hc
    exact ⟨E, by rw [hes]; exact hE, hEc⟩
  · intro c hc
    obtain ⟨hc3, hkeep⟩ := (hocc c).1 hc
    obtain ⟨E, hE, hEc⟩ := inv3 c hc3
    refine ⟨E, hperm.mem_iff.2 (List.mem_filter.2 ⟨hE, ?_⟩), hEc⟩
    by_contra hd
    have hge : E.DestroyAt ≥ S.StepIndex := by
      simp only [decide_eq_true_eq, not_lt] at hd
      exact hd
    obtain ⟨n1, n2⟩ := hkeep E hE hge
    rcases hEc with e | e
    · exact n1 e
    · exact n2 e

theorem Reachable.exact {RandRange : Int → Int → Int → Int × Int} {S : USimulator}
    (h : Reachable RandRange S) : ExactInv S := by
  induction h with
  | init fuel Now MapSize EntitiesCount Seed S hinit => exact Initialize_exact hinit
  | step fuel S S1 _ hstep ih => exact NextStep_exact hstep ih

end HexBalls

namespace HexBalls

/-! ## Movement cadence and the occupancy bit of the cell that is left -/

set_option maxRecDepth 1000000 in
/-- C11, counterexample.  The run on the 4 x 3 map with 2 entities and seed 20.  After 15
steps (`StepIndex = 16`) entity 0 is on cell 6 with `NextCellIndex = 10` and entity 1 is
stationary on cell 1.  In the next `NextStep` entity 0 arrives on cell 10 and entity 1,
which steps after it, reserves the cell 6 that entity 0 has just left: after the tick the
`CurrentCellIndex` of entity 0 has changed from 6 to 10 and the occupancy bit of the old
cell 6 is set, not cleared. -/
theorem old_cell_bit_set_after_move :
    (demoStateOn ⟨4, 3⟩ 2 20 15).StepIndex = 16 ∧
    (demoStateOn ⟨4, 3⟩ 2 20 15).Entities =
      [⟨0, 2, 2, 7, 6, 9, 10, -1, 20, -1, -1⟩, ⟨1, 3, 3, 10, 1, 12, 1, 0, 22, 12, -1⟩] ∧
    (NextStep 1000 (demoStateOn ⟨4, 3⟩ 2 20 15)).map
      (fun S1 => (S1.Entities.map (fun E => (E.Id, E.CurrentCellIndex, E.NextCellIndex)),
        S1.Occupied 6, S1.Occupied 10)) =
      some ([(0, 10, 10), (1, 1, 6)], true, true) := by
  decide

/-- C11, amended.  Movement cadence.  In every run from a fresh `Initialize`, for a tick
from `S` to `S1`: if the entity with record `E` before the tick has the record `E1` after
it and its `CurrentCellIndex` has changed, then the new `CurrentCellIndex` is the previous
`NextCellIndex`, that cell is a hex neighbour of the old one (at hex distance 1),
`StepIndex - StartedMoveAtStep >= TicksPerMove` held before the tick, and
`StartedMoveAtStep` is now the step of the tick.  The arrival cell's bit is set before
the tick and after it.  The entity's own step of the forward pass clears the occupancy
bit of the old cell and leaves the bit of the arrival cell set.  At the end of the tick
no stored entity is on the old cell, and the old cell's bit is set exactly when another
stored entity has reserved the old cell as its `NextCellIndex`; otherwise it is clear. -/
theorem movement_cadence (RandRange : Int → Int → Int → Int × Int) (fuel : Nat)
    (S S1 : USimulator) (E E1 : FEntityInfo) (hS : Reachable RandRange S)
    (hstep : NextStep fuel S = some S1) (hE : E ∈ S.Entities) (hE1 : E1 ∈ S1.Entities)
    (hid : E1.Id = E.Id) (hmove : E1.CurrentCellIndex ≠ E.CurrentCellIndex) :
    E1.CurrentCellIndex = E.NextCellIndex ∧
    E.NextCellIndex ∈ hexNeighbors S.MapSize E.CurrentCellIndex ∧
    HexDistance (ToPoint E.CurrentCellIndex S.MapSize) (ToPoint E.NextCellIndex S.MapSize) = 1 ∧
    S.StepIndex - E.StartedMoveAtStep ≥ E.TicksPerMove ∧
    E1.StartedMoveAtStep = S.StepIndex ∧
    S.Occupied E.NextCellIndex = true ∧ S1.Occupied E1.CurrentCellIndex = true ∧
    (∃ (i : Nat) (Sa Sb : USimulator) (dpa dpb : Bool),
      S.Entities[i]? = some E ∧
      forwardPass fuel i 0 S false = some (Sa, dpa) ∧
      entityStep fuel i Sa dpa = some (Sb, dpb) ∧
      Sb.Occupied = setAt (setAt Sa.Occupied E.CurrentCellIndex false) E.NextCellIndex true ∧
      Sa.Occupied E.CurrentCellIndex = true ∧ Sa.Occupied E.NextCellIndex = true ∧
      Sb.Occupied E.CurrentCellIndex = false ∧ Sb.Occupied E.NextCellIndex = true) ∧
    (∀ E2 ∈ S1.Entities, E2.CurrentCellIndex ≠ E.CurrentCellIndex) ∧
    (S1.Occupied E.CurrentCellIndex = true ↔
      ∃ E2 ∈ S1.Entities, E2.Id ≠ E.Id ∧ E2.NextCellIndex = E.CurrentCellIndex) := by
  obtain ⟨hcells, hstore⟩ := Reachable.inv hS
  have htick := Reachable.tick hS
  have hS1 := Reachable.step fuel S S1 hS hstep
  obtain ⟨hcells1, hstore1⟩ := Reachable.inv hS1
  have hexact1 := Reachable.exact hS1
  obtain ⟨S3, dp3, hpass, _, _, hshape⟩ := NextStep_result hstep
  obtain ⟨k, hk⟩ := List.getElem?_of_mem (NextStep_kept hshape hE1).1
  obtain ⟨Sa, Sb, dpa, dpb, E0, Ea, Eb, hpre, hown, _, hE0, hEa, hEb, hs1, hs2, _⟩ :=
    forwardPass_history hpass hk
  obtain ⟨a1, _, a3, a4, a5, a6, _⟩ := hs1.fields
  obtain ⟨b1, _, _, b4, b5, b6, _⟩ := hs2.fields
  have hframe := (forwardPass_effect _ _ _ _ _ _ hpre).2
  have hcellsA : CellsInv Sa.Entities Sa.Occupied :=
    (forwardPass_effect _ _ _ _ _ _ hpre).1 hcells
  have hidb : Eb.Id = Ea.Id := (entityStep_summary hown hEa hEb).1
  -- the record of the entity before the tick is the record at index `k`
  have hEE : E0 = E := by
    obtain ⟨j, hj⟩ := List.getElem?_of_mem hE
    by_cases hjk : j = k
    · subst hjk
      exact Option.some.inj (hE0.symm.trans hj)
    · exfalso
      apply hstore.unique j k E E0 hjk hj hE0
      rw [← hid, b1, hidb, a1]
  subst hEE
  have hneA : Eb.CurrentCellIndex ≠ Ea.CurrentCellIndex := by
    rw [← b4, a4]; exact hmove
  obtain ⟨_, m2, m3, m4, m5⟩ := entityStep_moves hown hEa hEb hneA
  rw [a4, a6] at m2 m5
  rw [a5, a3, hframe.2.1] at m3
  have hcur : E1.CurrentCellIndex = E0.NextCellIndex := by
    rw [b4, m4]
    show Ea.NextCellIndex = _
    exact a6
  have hnext1 : E1.NextCellIndex = E0.NextCellIndex := by
    rw [b6, m4]
    show Ea.NextCellIndex = _
    exact a6
  have hnear : E0.NextCellIndex ∈ hexNeighbors S.MapSize E0.CurrentCellIndex := by
    rcases htick.nextNear E0 hE with e | e
    · exact absurd e.symm m2
    · exact e
  have hheldA := hcellsA.held k Ea hEa
  rw [a4, a6] at hheldA
  -- a record of the new store with the id of the entity is its record
  have hsame : ∀ E2 ∈ S1.Entities, E2.Id = E0.Id → E2 = E1 := by
    intro E2 hE2 hid2
    obtain ⟨j1, hj1⟩ := List.getElem?_of_mem hE1
    obtain ⟨j2, hj2⟩ := List.getElem?_of_mem hE2
    by_cases hj : j1 = j2
    · subst hj
      exact Option.some.inj (hj2.symm.trans hj1)
    · exact absurd (hid.trans hid2.symm) (hstore1.unique j1 j2 E1 E2 hj hj1 hj2)
  -- no record of the new store is on the old cell
  have hoff : ∀ E2 ∈ S1.Entities, E2.CurrentCellIndex ≠ E0.CurrentCellIndex := by
    intro E2 hE2
    obtain ⟨k2, hk2⟩ := List.getElem?_of_mem (NextStep_kept hshape hE2).1
    obtain ⟨Sa2, Sb2, dpa2, dpb2, F0, Fa, Fb, _, hown2, _, hF0, hFa, hFb, ht1, ht2, _⟩ :=
      forwardPass_history hpass hk2
    obtain ⟨c1, _, _, c4, _, c6, _⟩ := ht1.fields
    obtain ⟨d1, _, _, d4, _⟩ := ht2.fields
    by_cases hkk : k2 = k
    · subst hkk
      have e0 : F0 = E0 := Option.some.inj (hF0.symm.trans hE0)
      have hidF : Fb.Id = Fa.Id := (entityStep_summary hown2 hFa hFb).1
      have e2 : E2 = E1 := hsame E2 hE2 (by rw [d1, hidF, c1, e0])
      rw [e2]
      exact hmove
    · obtain ⟨n1, n2, n3, n4⟩ := hcells.apart k2 k F0 E0 hkk hF0 hE0
      rw [d4]
      rcases entityStep_current hown2 hFa hFb with e | e
      · rw [e, c4]; exact n1
      · rw [e, c6]; exact n3
  refine ⟨hcur, hnear, hexNeighbors_distance hnear, m3, ?_, (hcells.held k E0 hE0).2, ?_,
    ⟨k, Sa, Sb, dpa, dpb, hE0, hpre, hown, m5, hheldA.1, hheldA.2, ?_, ?_⟩, hoff, ?_⟩
  · rw [b5, m4]
    show Sa.StepIndex = _
    exact hframe.2.1
  · obtain ⟨j, hj⟩ := List.getElem?_of_mem hE1
    exact (hcells1.held j E1 hj).1
  · rw [m5]
    simp [setAt, m2]
  · rw [m5]
    simp [setAt]
  · constructor
    · intro hocc
      obtain ⟨E2, hE2, hc2⟩ := hexact1 _ hocc
      have hn2 : E2.NextCellIndex = E0.CurrentCellIndex := by
        rcases hc2 with e | e
        · exact absurd e (hoff E2 hE2)
        · exact e
      refine ⟨E2, hE2, ?_, hn2⟩
      intro hid2
      have e2 := hsame E2 hE2 hid2
      rw [e2, hnext1] at hn2
      exact m2 hn2.symm
    · rintro ⟨E2, hE2, _, hn2⟩
      obtain ⟨j, hj⟩ := List.getElem?_of_mem hE2
      rw [← hn2]
      exact (hcells1.held j E2 hj).2

set_option maxRecDepth 1000000 in
/-- The tick at `StepIndex = 16` of the run on the 4 x 3 map with 2 entities and seed 20:
entity 0 moves from cell 6 to its neighbour 10 after 7 steps, the bit of cell 10 is set
before and after the tick, and the bit of cell 6 is set after the tick because entity 1
has reserved it. -/
theorem movement_cadence_witness :
    (demoStateOn ⟨4, 3⟩ 2 20 15).StepIndex = 16 ∧
    (demoStateOn ⟨4, 3⟩ 2 20 15).Entities =
      [⟨0, 2, 2, 7, 6, 9, 10, -1, 20, -1, -1⟩, ⟨1, 3, 3, 10, 1, 12, 1, 0, 22, 12, -1⟩] ∧
    (demoStateOn ⟨4, 3⟩ 2 20 16).Entities.map
        (fun E => (E.Id, E.CurrentCellIndex, E.NextCellIndex)) = [(0, 10, 10), (1, 1, 6)] ∧
    (demoStateOn ⟨4, 3⟩ 2 20 16).Occupied 6 = true ∧
    ((10 : Int) ∈ hexNeighbors (demoStateOn ⟨4, 3⟩ 2 20 15).MapSize 6 ∧
      (demoStateOn ⟨4, 3⟩ 2 20 15).StepIndex - 9 ≥ 7 ∧
      (demoStateOn ⟨4, 3⟩ 2 20 15).Occupied 10 = true ∧
      (demoStateOn ⟨4, 3⟩ 2 20 16).Occupied 10 = true ∧
      (∀ E2 ∈ (demoStateOn ⟨4, 3⟩ 2 20 16).Entities, E2.CurrentCellIndex ≠ 6) ∧
      ((demoStateOn ⟨4, 3⟩ 2 20 16).Occupied 6 = true ↔
        ∃ E2 ∈ (demoStateOn ⟨4, 3⟩ 2 20 16).Entities, E2.Id ≠ 0 ∧ E2.NextCellIndex = 6)) := by
  have hEs : (demoStateOn ⟨4, 3⟩ 2 20 15).Entities =
      [⟨0, 2, 2, 7, 6, 9, 10, -1, 20, -1, -1⟩, ⟨1, 3, 3, 10, 1, 12, 1, 0, 22, 12, -1⟩] := by
    decide
  have hE1 : (⟨0, 2, 2, 7, 10, 16, 10, -1, 20, -1, -1⟩ : FEntityInfo) ∈
      (demoStateOn ⟨4, 3⟩ 2 20 16).Entities := by decide
  obtain ⟨_, w2, _, w4, _, w6, w7, _, w9, w10⟩ := movement_cadence demoRand 1000
    (demoStateOn ⟨4, 3⟩ 2 20 15) (demoStateOn ⟨4, 3⟩ 2 20 16)
    ⟨0, 2, 2, 7, 6, 9, 10, -1, 20, -1, -1⟩ ⟨0, 2, 2, 7, 10, 16, 10, -1, 20, -1, -1⟩
    (demoStateOn_reachable ⟨4, 3⟩ 2 20 15 (by decide))
    (demoStateOn_step ⟨4, 3⟩ 2 20 15 (by decide)) (by rw [hEs]; simp) hE1 rfl (by decide)
  exact ⟨by decide, hEs, by decide, by decide, w2, w4, w6, w7, w9, w10⟩

end HexBalls

namespace HexBalls

/-! ## `NextStep` returns on every reachable state -/

theorem ShortestPath_mono {fuel : Nat} {M : FIntPoint} {Occ : Int → Bool} {From To : Int}
    {x : Int × FDijkstraLookup} (extra : Nat)
    (h : ShortestPath fuel M Occ From To = some x) :
    ShortestPath (fuel + extra) M Occ From To = some x := by
  unfold ShortestPath at h ⊢
  cases hl : frontierLoop M Occ To fuel (dijkstraInit From) with
  | none => rw [hl] at h; simp at h
  | some D =>
    rw [hl] at h
    rw [frontierLoop_mono M Occ To extra fuel _ _ hl]
    simp only at h ⊢
    by_cases hv : D.Visited To = true
    · rw [if_pos hv] at h ⊢
      cases hw : prevWalk D.Prev From fuel To with
      | none => rw [hw] at h; simp at h
      | some r =>
        rw [hw] at h
        rw [prevWalk_mono D.Prev From extra fuel To r hw]
        exact h
    · rw [if_neg hv] at h ⊢
      exact h

/-- With enough fuel the pathfinder returns, and always the same result. -/
theorem ShortestPath_stable (M : FIntPoint) (Occ : Int → Bool) (From To : Int)
    (hn : M.X * M.Y ≤ INT32_MAX) (h0 : 0 ≤ From) (h1 : From < M.X * M.Y) (hne : From ≠ To) :
    ∃ (N : Nat) (r : Int) (D : FDijkstraLookup), ∀ fuel : Nat, N ≤ fuel →
      ShortestPath fuel M Occ From To = some (r, D) := by
  obtain ⟨N, hN⟩ := ShortestPath_total_and_exact M Occ From To hn h0 h1 hne
  obtain ⟨r, D, hr, _⟩ := hN N (le_refl N)
  refine ⟨N, r, D, fun fuel hf => ?_⟩
  have := ShortestPath_mono (fuel - N) hr
  rwa [show N + (fuel - N) = fuel by omega] at this

theorem movePhase_eval_wait {fuel i : Nat} {S : USimulator} {E : FEntityInfo}
    (hE : S.Entities[i]? = some E)
    (hwait : ¬ (E.CurrentCellIndex = E.NextCellIndex ∨
      S.StepIndex - E.StartedMoveAtStep ≥ E.TicksPerMove)) :
    movePhase fuel i S = some S := by
  unfold movePhase
  rw [hE]
  simp only
  rw [if_neg hwait]

theorem movePhase_eval_arrive {fuel i : Nat} {S : USimulator} {E : FEntityInfo}
    (hE : S.Entities[i]? = some E) (hmov : E.CurrentCellIndex ≠ E.NextCellIndex)
    (hdue : S.StepIndex - E.StartedMoveAtStep ≥ E.TicksPerMove) :
    movePhase fuel i S =
      some { S with
        Occupied := setAt (setAt S.Occupied E.CurrentCellIndex false) E.NextCellIndex true
        Entities := S.Entities.set i (arrived E S.StepIndex) } := by
  unfold movePhase
  rw [hE]
  simp only
  rw [if_pos (Or.inr hdue), if_pos hmov]

theorem movePhase_eval_path {fuel i t : Nat} {S : USimulator} {E T : FEntityInfo}
    {sel r : Int} {D : FDijkstraLookup}
    (hE : S.Entities[i]? = some E) (hstat : E.CurrentCellIndex = E.NextCellIndex)
    (hscan : findClosestTarget S.MapSize i E.NextCellIndex
      (S.Entities.set i (arrived E S.StepIndex)) 0 INDEX_NONE INT32_MAX = sel)
    (hsel : sel ≠ INDEX_NONE) (ht : S.IdToIndex sel = some t)
    (hT : (S.Entities.set i (arrived E S.StepIndex))[t]? = some T)
    (hfar : ¬ HexDistance (S.ToPoint E.NextCellIndex) (S.ToPoint T.CurrentCellIndex)
      ≤ AttackDistance)
    (hsp : ShortestPath fuel S.MapSize S.Occupied E.NextCellIndex T.CurrentCellIndex
      = some (r, D)) :
    ∃ S1 : USimulator, movePhase fuel i S = some S1 ∧
      S1 = (if r = INDEX_NONE then
        { S with
          Dijkstra := D
          Entities := (S.Entities.set i (arrived E S.StepIndex)).set i
            { arrived E S.StepIndex with
              StartedAttackAtStep := INDEX_NONE
              Target := INDEX_NONE
              NextCellIndex := E.NextCellIndex } }
      else
        { S with
          Dijkstra := D
          Occupied := setAt S.Occupied r true
          Entities := (S.Entities.set i (arrived E S.StepIndex)).set i
            { arrived E S.StepIndex with
              StartedAttackAtStep := INDEX_NONE
              Target := INDEX_NONE
              NextCellIndex := r } }) := by
  unfold movePhase
  rw [hE]
  simp only
  rw [if_pos (Or.inl hstat), if_neg (by simpa using hstat)]
  have hscan' : findClosestTarget S.MapSize i (arrived E S.StepIndex).CurrentCellIndex
      (S.Entities.set i (arrived E S.StepIndex)) 0 INDEX_NONE INT32_MAX = sel := hscan
  rw [hscan', if_pos hsel, ht]
  simp only [hT]
  have hfar' : ¬ HexDistance (S.ToPoint (arrived E S.StepIndex).CurrentCellIndex)
      (S.ToPoint T.CurrentCellIndex) ≤ AttackDistance := hfar
  rw [if_neg hfar']
  have hsp' : ShortestPath fuel S.MapSize S.Occupied (arrived E S.StepIndex).CurrentCellIndex
      T.CurrentCellIndex = some (r, D) := hsp
  rw [hsp']
  simp only
  by_cases hr : r = INDEX_NONE
  · rw [if_pos hr, if_pos hr]
    exact ⟨_, rfl, rfl⟩
  · rw [if_neg hr, if_neg hr]
    exact ⟨_, rfl, rfl⟩

/-- The movement phase returns once the pathfinder has enough fuel, with a result that
does not depend on the fuel. -/
theorem movePhase_total {i : Nat} {S : USimulator} {E : FEntityInfo}
    (hstore : StoreInv S.Entities S.IdToIndex) (hE : S.Entities[i]? = some E)
    (hnext : 0 ≤ E.NextCellIndex ∧ E.NextCellIndex < S.MapSize.X * S.MapSize.Y)
    (hn : S.MapSize.X * S.MapSize.Y ≤ INT32_MAX) :
    ∃ (N : Nat) (S1 : USimulator), ∀ fuel : Nat, N ≤ fuel → movePhase fuel i S = some S1 := by
  have hlt : i < S.Entities.length := (List.getElem?_eq_some_iff.1 hE).1
  by_cases hgo : E.CurrentCellIndex = E.NextCellIndex ∨
      S.StepIndex - E.StartedMoveAtStep ≥ E.TicksPerMove
  swap
  · exact ⟨0, S, fun fuel _ => movePhase_eval_wait hE hgo⟩
  by_cases hstat : E.CurrentCellIndex = E.NextCellIndex
  swap
  · have hdue : S.StepIndex - E.StartedMoveAtStep ≥ E.TicksPerMove := by
      rcases hgo with e | e
      · exact absurd e hstat
      · exact e
    exact ⟨0, _, fun fuel _ => movePhase_eval_arrive hE hstat hdue⟩
  rcases findClosestTarget_candidate S.MapSize i E.NextCellIndex
      (S.Entities.set i (arrived E S.StepIndex)) 0 INDEX_NONE INT32_MAX with
    hnone | ⟨k, T, hk, _, _, hid⟩
  · exact ⟨0, _, fun fuel _ => movePhase_eval_idle hE hstat hnone⟩
  · by_cases hsel : T.Id = INDEX_NONE
    · rw [hsel] at hid
      exact ⟨0, _, fun fuel _ => movePhase_eval_idle hE hstat hid⟩
    · have ht : S.IdToIndex T.Id = some k := by
        apply (hstore.index T.Id k).2
        by_cases hki : k = i
        · subst hki
          rw [List.getElem?_set_self hlt] at hk
          have e : T = arrived E S.StepIndex := (Option.some.inj hk).symm
          exact ⟨E, hE, by rw [e]; rfl⟩
        · rw [List.getElem?_set_ne (fun e => hki e.symm)] at hk
          exact ⟨T, hk, rfl⟩
      by_cases hnear : HexDistance (S.ToPoint E.NextCellIndex) (S.ToPoint T.CurrentCellIndex)
          ≤ AttackDistance
      · exact ⟨0, _, fun fuel _ => movePhase_eval_engage hE hstat hid hsel ht hk hnear⟩
      · have hne : E.NextCellIndex ≠ T.CurrentCellIndex := by
          intro e
          apply hnear
          rw [e, (HexDistance_eq_zero_iff _ _).2 rfl]
          decide
        obtain ⟨N, r, D, hsp⟩ := ShortestPath_stable S.MapSize S.Occupied E.NextCellIndex
          T.CurrentCellIndex hn hnext.1 hnext.2 hne
        obtain ⟨S1, _, hS1⟩ := movePhase_eval_path hE hstat hid hsel ht hk hnear (hsp N (le_refl N))
        refine ⟨N, S1, fun fuel hf => ?_⟩
        obtain ⟨S2, hm, hS2⟩ := movePhase_eval_path hE hstat hid hsel ht hk hnear (hsp fuel hf)
        rw [hm, hS2, hS1]

theorem targetPhase_total {i : Nat} {S : USimulator} {E : FEntityInfo}
    (hstore : StoreInv S.Entities S.IdToIndex) (hE : S.Entities[i]? = some E) :
    ∃ (S1 : USimulator) (b : Bool), targetPhase i S = some (S1, b) := by
  by_cases hT : E.Target = INDEX_NONE
  · exact ⟨_, _, targetPhase_eval_none hE hT⟩
  · cases ht : S.IdToIndex E.Target with
    | none => exact ⟨_, _, targetPhase_eval_release hE hT (Or.inl ht)⟩
    | some t =>
      obtain ⟨T, hTe, _⟩ := (hstore.index E.Target t).1 ht
      by_cases hen : T.Health > 0 ∧
          HexDistance (S.ToPoint E.CurrentCellIndex) (S.ToPoint T.CurrentCellIndex)
            ≤ AttackDistance
      · exact ⟨_, _, targetPhase_eval_engaged hE hT ht hTe hen.1 hen.2⟩
      · exact ⟨_, _, targetPhase_eval_release hE hT (Or.inr ⟨t, T, ht, hTe, hen⟩)⟩

/-- The step of a stored entity returns once the pathfinder has enough fuel, with a
result that does not depend on the fuel. -/
theorem entityStep_total {i : Nat} {S : USimulator} (dp : Bool)
    (hstore : StoreInv S.Entities S.IdToIndex) (hrange : RangeInv S)
    (hn : S.MapSize.X * S.MapSize.Y ≤ INT32_MAX) (hi : i < S.Entities.length) :
    ∃ (N : Nat) (S1 : USimulator) (dp1 : Bool), ∀ fuel : Nat, N ≤ fuel →
      entityStep fuel i S dp = some (S1, dp1) := by
  have hE : S.Entities[i]? = some S.Entities[i] := List.getElem?_eq_getElem hi
  generalize S.Entities[i] = E at hE
  by_cases hdead : E.Health ≤ 0
  · exact ⟨0, _, _, fun fuel _ => entityStep_dead hE hdead⟩
  · have halive : E.Health > 0 := by omega
    obtain ⟨Sm, b, ht⟩ := targetPhase_total hstore hE
    cases b with
    | true => exact ⟨0, Sm, dp, fun fuel _ => entityStep_alive_hold hE halive ht⟩
    | false =>
      have hframe := (targetPhase_effect ht).2
      have hstorem := hframe.storeKept hstore
      have hEr := hrange.2.2 E (List.getElem?_mem hE)
      obtain ⟨E', hE', hc⟩ := targetPhase_cases ht
      have e : E' = E := Option.some.inj (hE'.symm.trans hE)
      subst e
      have hm : ∃ Em : FEntityInfo, Sm.Entities[i]? = some Em ∧
          Em.NextCellIndex = E'.NextCellIndex := by
        rcases hc with ⟨hb, _⟩ | ⟨_, _, rfl⟩ | ⟨_, _, _, rfl⟩
        · exact absurd hb (by decide)
        · exact ⟨E', hE, rfl⟩
        · exact ⟨_, List.getElem?_set_self hi, rfl⟩
      obtain ⟨Em, hEm, hnm⟩ := hm
      obtain ⟨N, S1, hmove⟩ := movePhase_total hstorem hEm
        (by rw [hnm, hframe.1]; exact ⟨hEr.2.2.1, hEr.2.2.2⟩) (by rw [hframe.1]; exact hn)
      exact ⟨N, S1, dp, fun fuel hf => entityStep_alive_move hE halive ht (hmove fuel hf)⟩

theorem forwardPass_total :
    ∀ (Count i : Nat) (S : USimulator) (dp : Bool), i + Count ≤ S.Entities.length →
      StoreInv S.Entities S.IdToIndex → RangeInv S →
      S.MapSize.X * S.MapSize.Y ≤ INT32_MAX →
      ∃ (N : Nat) (S3 : USimulator) (dp3 : Bool), ∀ fuel : Nat, N ≤ fuel →
        forwardPass fuel Count i S dp = some (S3, dp3) := by
  intro Count
  induction Count with
  | zero =>
    intro i S dp _ _ _ _
    exact ⟨0, S, dp, fun fuel _ => rfl⟩
  | succ Count ih =>
    intro i S dp hlen hstore hrange hn
    obtain ⟨N1, S1, dp1, h1⟩ := entityStep_total dp hstore hrange hn (show i < _ by omega)
    have hs := h1 N1 (le_refl N1)
    have hframe := (entityStep_effect hs).2
    obtain ⟨N2, S3, dp3, h2⟩ := ih (i + 1) S1 dp1 (by rw [hframe.length]; omega)
      (hframe.storeKept hstore) (entityStep_range hs hrange) (by rw [hframe.1]; exact hn)
    refine ⟨max N1 N2, S3, dp3, fun fuel hf => ?_⟩
    unfold forwardPass
    rw [h1 fuel (le_trans (le_max_left _ _) hf)]
    exact h2 fuel (le_trans (le_max_right _ _) hf)

/-- On a state whose store is consistent and whose cells are cells of a map with an
`int32` cell count, `NextStep` returns once the pathfinder has enough fuel, and the result
does not depend on the fuel. -/
theorem NextStep_total {S : USimulator} (hstore : StoreInv S.Entities S.IdToIndex)
    (hrange : RangeInv S) (hn : S.MapSize.X * S.MapSize.Y ≤ INT32_MAX) :
    ∃ (N : Nat) (S1 S3 : USimulator) (dp3 : Bool), ∀ fuel : Nat, N ≤ fuel →
      NextStep fuel S = some S1 ∧
      forwardPass fuel S.Entities.length 0 S false = some (S3, dp3) := by
  obtain ⟨N, S3, dp3, hpass⟩ := forwardPass_total S.Entities.length 0 S false (by omega)
    hstore hrange hn
  cases dp3 with
  | false =>
    exact ⟨N, _, S3, false, fun fuel hf => ⟨NextStep_noSweep (hpass fuel hf), hpass fuel hf⟩⟩
  | true =>
    obtain ⟨Es, M, Occ, hsw, _⟩ := NextStep_sweep (hpass N (le_refl N))
    refine ⟨N, { S3 with Entities := Es, IdToIndex := M, Occupied := Occ, StepIndex := S3.StepIndex + 1 }, S3, true, fun fuel hf => ⟨?_, hpass fuel hf⟩⟩
    obtain ⟨Es2, M2, Occ2, hsw2, hnext⟩ := NextStep_sweep (hpass fuel hf)
    rw [hsw] at hsw2
    simp only [Option.some.injEq, Prod.mk.injEq] at hsw2
    obtain ⟨rfl, rfl, rfl⟩ := hsw2
    exact hnext

end HexBalls

namespace HexBalls

/-! ## Corpse lifetime -/

set_option maxRecDepth 1000000 in
/-- C20, counterexample.  The run on the 5 x 1 map with 3 entities and seed 5.  After 42
steps (`StepIndex = 43`) the store holds entity 0 (Health 3), the corpse 1 (Health 0,
`DestroyAt = 52`) and entity 2 with `Health = 1` and `DestroyAt = INDEX_NONE`.  In the
next `NextStep` entity 0 strikes entity 2, whose own step then stamps
`DestroyAt = 43 + 10 = 53`; the corpse 1 flags the sweep, and the sweep drops every
record with `DestroyAt >= 43`: entity 2, which began the tick with `Health > 0` and
`DestroyAt = INDEX_NONE`, is removed by this `NextStep`. -/
theorem alive_entity_removed_in_tick :
    (demoStateOn ⟨5, 1⟩ 3 5 42).StepIndex = 43 ∧
    (demoStateOn ⟨5, 1⟩ 3 5 42).Entities.map (fun E => (E.Id, E.Health, E.DestroyAt)) =
      [(0, 3, -1), (1, 0, 52), (2, 1, -1)] ∧
    (forwardPass 1000 3 0 (demoStateOn ⟨5, 1⟩ 3 5 42) false).map
      (fun p => (p.1.Entities.map (fun E => (E.Id, E.Health, E.DestroyAt)), p.2)) =
      some ([(0, 3, -1), (1, 0, 52), (2, 0, 53)], true) ∧
    (NextStep 1000 (demoStateOn ⟨5, 1⟩ 3 5 42)).map
      (fun S1 => S1.Entities.map (fun E => (E.Id, E.Health, E.DestroyAt))) =
      some [(0, 3, -1)] := by
  decide

/-- C20, amended.  Corpse lifetime.  In every run from a fresh `Initialize` with a random
stream that keeps `RandRange` within its bounds, on a map whose cell count fits an
`int32` and while `StepIndex + DestroyDelay` fits an `int32` (so that neither the stamp
`StepIndex + DestroyDelay` nor `++StepIndex` wraps): every stored record with `DestroyAt` set is dead and was stamped in the step just
before (`DestroyAt = StepIndex - 1 + DestroyDelay`); `NextStep` returns (for every fuel
from some bound on, with one result `S1`; `S3` is the state at the end of its forward
pass and `dp3` its sweep flag); an entity that begins the tick with `Health <= 0` and
`DestroyAt` set is absent from the store at the end of the tick, so a corpse never waits
out the 10 steps; the sweep never removes a record that has `Health > 0` at the end of
the forward pass: such a record has `DestroyAt = INDEX_NONE` and is in the store after
the tick.  An entity that begins the tick with `Health > 0` is in the store after the
tick unless strikes of this very tick bring its `Health` to 0 or below before its own
step: its own step then stamps `DestroyAt = StepIndex + DestroyDelay`, and it is removed
in this same tick exactly when the sweep is flagged. -/
theorem corpse_lifetime (RandRange : Int → Int → Int → Int × Int)
    (hR : RandRangeInBounds RandRange) (S : USimulator) (hS : Reachable RandRange S)
    (hcells : S.MapSize.X * S.MapSize.Y ≤ INT32_MAX)
    (hclock : S.StepIndex + DestroyDelay ≤ INT32_MAX) :
    wrap32 (S.StepIndex + DestroyDelay) = S.StepIndex + DestroyDelay ∧
    wrap32 (S.StepIndex + 1) = S.StepIndex + 1 ∧
    (∀ E ∈ S.Entities, E.DestroyAt ≠ INDEX_NONE →
      E.Health ≤ 0 ∧ E.DestroyAt = S.StepIndex - 1 + DestroyDelay) ∧
    ∃ (N : Nat) (S1 S3 : USimulator) (dp3 : Bool),
      (∀ fuel : Nat, N ≤ fuel → NextStep fuel S = some S1 ∧
        forwardPass fuel S.Entities.length 0 S false = some (S3, dp3)) ∧
      (∀ E ∈ S.Entities, E.Health ≤ 0 → E.DestroyAt ≠ INDEX_NONE →
        ∀ E1 ∈ S1.Entities, E1.Id ≠ E.Id) ∧
      (∀ E1 ∈ S1.Entities, E1 ∈ S3.Entities) ∧
      (∀ E3 ∈ S3.Entities, E3.Health > 0 →
        E3.DestroyAt = INDEX_NONE ∧ E3 ∈ S1.Entities) ∧
      (∀ E ∈ S.Entities, E.Health > 0 → ∃ E3 ∈ S3.Entities, E3.Id = E.Id ∧
        ((E3.DestroyAt = INDEX_NONE ∧ E3 ∈ S1.Entities) ∨
         (E3.Health ≤ 0 ∧ E3.DestroyAt = S.StepIndex + DestroyDelay ∧
           (dp3 = false → E3 ∈ S1.Entities) ∧
           (dp3 = true → ∀ E1 ∈ S1.Entities, E1.Id ≠ E.Id)))) := by
  have inv := hS.tick
  have hstore := (Reachable.inv hS).2
  have hrange := Reachable.range hR hS
  have hpos := inv.stepPos
  obtain ⟨N, S1, S3, dp3, htot⟩ := NextStep_total hstore hrange hcells
  obtain ⟨hstep, hpass⟩ := htot N (le_refl N)
  obtain ⟨S3', dp3', hpass', hM, hs, hshape⟩ := NextStep_result hstep
  have e3 : (S3', dp3') = (S3, dp3) := Option.some.inj (hpass'.symm.trans hpass)
  obtain ⟨rfl, rfl⟩ := Prod.mk.inj e3
  have hframe := (forwardPass_effect _ _ _ _ _ _ hpass).2
  have hstore3 := hframe.storeKept hstore
  have hnone : ∀ E3 ∈ S3'.Entities, E3.DestroyAt = INDEX_NONE → E3 ∈ S1.Entities := by
    intro E3 hE3 hd3
    rcases hshape with ⟨_, hes, _, _⟩ | ⟨_, hperm, _⟩
    · rw [hes]; exact hE3
    · apply hperm.mem_iff.2
      apply List.mem_filter.2
      refine ⟨hE3, ?_⟩
      rw [hd3]
      simp only [decide_eq_true_eq]
      unfold INDEX_NONE
      omega
  have hkept : ∀ E3 ∈ S3'.Entities, E3.Health > 0 →
      E3.DestroyAt = INDEX_NONE ∧ E3 ∈ S1.Entities := by
    intro E3 hE3 halive
    obtain ⟨k, hk⟩ := List.getElem?_of_mem hE3
    obtain ⟨E0, hE0, _, _, _, _, hh, hd, _⟩ := forwardPass_summary hpass hk
    have hd0 : E0.DestroyAt = INDEX_NONE := by
      by_contra hx
      have := (inv.corpse E0 (List.getElem?_mem hE0) hx).1
      omega
    have hd3 : E3.DestroyAt = INDEX_NONE := by
      rcases hd with e | ⟨e, _⟩
      · rw [e, hd0]
      · omega
    exact ⟨hd3, hnone E3 hE3 hd3⟩
  refine ⟨?_, ?_, ?_, N, S1, S3', dp3', htot, ?_,
    fun E1 hE1 => (NextStep_kept hshape hE1).1, hkept, ?_⟩
  · apply wrap32_of_range
    · simp only [INT32_MIN, DestroyDelay]; omega
    · exact hclock
  · apply wrap32_of_range
    · simp only [INT32_MIN]; omega
    · simp only [INT32_MAX, DestroyDelay] at hclock ⊢; omega
  · intro E hE hstamp
    obtain ⟨h1, h2⟩ := inv.corpse E hE hstamp
    refine ⟨h1, ?_⟩
    rw [h2]
    unfold DestroyDelay
    omega
  · intro E hE hdead hstamp E1 hE1 hid
    obtain ⟨k, hk⟩ := List.getElem?_of_mem hE
    obtain ⟨hm1, hdue⟩ := NextStep_kept hshape hE1
    obtain ⟨k1, hk1⟩ := List.getElem?_of_mem hm1
    obtain ⟨E0, hE0, hid0, _, _, _, _, hd, hflag, _⟩ := forwardPass_summary hpass hk1
    have hkk : k1 = k := by
      by_contra hne
      exact hstore.unique k1 k E0 E hne hE0 hk (by rw [← hid0, hid])
    subst hkk
    have e : E0 = E := Option.some.inj (hE0.symm.trans hk)
    subst e
    have hc := inv.corpse E0 hE hstamp
    have hdp := hflag hdead hstamp (by omega)
    have hlt := hdue hdp
    rcases hd with e | ⟨_, e, _⟩
    · omega
    · exact hstamp e
  · intro E hE halive
    obtain ⟨k, hk⟩ := List.getElem?_of_mem hE
    obtain ⟨E3, hE3, hid3⟩ := hframe.symm_getElem? hk
    have hm3 := List.getElem?_mem hE3
    obtain ⟨E0, hE0, _, _, _, _, _, hd, _⟩ := forwardPass_summary hpass hE3
    have e : E0 = E := Option.some.inj (hE0.symm.trans hk)
    subst e
    have hd0 : E0.DestroyAt = INDEX_NONE := by
      by_contra hx
      have := (inv.corpse E0 hE hx).1
      omega
    refine ⟨E3, hm3, hid3, ?_⟩
    rcases hd with e | ⟨hdead3, _, hstamp3⟩
    · left
      have hd3 : E3.DestroyAt = INDEX_NONE := by rw [e, hd0]
      exact ⟨hd3, hnone E3 hm3 hd3⟩
    · right
      refine ⟨hdead3, by rw [hstamp3]; rfl, ?_, ?_⟩
      · intro hdp
        rcases hshape with ⟨_, hes, _, _⟩ | ⟨hdp', _, _⟩
        · rw [hes]; exact hm3
        · rw [hdp] at hdp'; exact absurd hdp' (by decide)
      · intro hdp E1 hE1 hid1
        obtain ⟨hm1, hdue⟩ := NextStep_kept hshape hE1
        have hlt := hdue hdp
        obtain ⟨k1, hk1⟩ := List.getElem?_of_mem hm1
        have hkk : k1 = k := by
          by_contra hne
          exact hstore3.unique k1 k E1 E3 hne hk1 hE3 (by rw [hid1, hid3])
        subst hkk
        have e1 : E1 = E3 := Option.some.inj (hk1.symm.trans hE3)
        rw [e1, hstamp3] at hlt
        omega

set_option maxRecDepth 1000000 in
/-- The tick at `StepIndex = 43` of the run on the 5 x 1 map with 3 entities and seed 5:
the corpse 1 (stamped 52 = 43 - 1 + 10) is swept, entity 0 is kept, and entity 2, alive
at the start, is struck, stamped and swept in this tick. -/
theorem corpse_lifetime_witness :
    (demoStateOn ⟨5, 1⟩ 3 5 42).StepIndex = 43 ∧
    (demoStateOn ⟨5, 1⟩ 3 5 42).Entities.map (fun E => (E.Id, E.Health, E.DestroyAt)) =
      [(0, 3, -1), (1, 0, 52), (2, 1, -1)] ∧
    (demoStateOn ⟨5, 1⟩ 3 5 43).Entities.map (fun E => (E.Id, E.Health, E.DestroyAt)) =
      [(0, 3, -1)] ∧
    (wrap32 ((demoStateOn ⟨5, 1⟩ 3 5 42).StepIndex + DestroyDelay) =
      (demoStateOn ⟨5, 1⟩ 3 5 42).StepIndex + DestroyDelay ∧
    wrap32 ((demoStateOn ⟨5, 1⟩ 3 5 42).StepIndex + 1) =
      (demoStateOn ⟨5, 1⟩ 3 5 42).StepIndex + 1 ∧
    (∀ E ∈ (demoStateOn ⟨5, 1⟩ 3 5 42).Entities, E.DestroyAt ≠ INDEX_NONE →
      E.Health ≤ 0 ∧ E.DestroyAt = (demoStateOn ⟨5, 1⟩ 3 5 42).StepIndex - 1 + DestroyDelay) ∧
    ∃ (N : Nat) (S1 S3 : USimulator) (dp3 : Bool),
      (∀ fuel : Nat, N ≤ fuel → NextStep fuel (demoStateOn ⟨5, 1⟩ 3 5 42) = some S1 ∧
        forwardPass fuel (demoStateOn ⟨5, 1⟩ 3 5 42).Entities.length 0
          (demoStateOn ⟨5, 1⟩ 3 5 42) false = some (S3, dp3)) ∧
      (∀ E ∈ (demoStateOn ⟨5, 1⟩ 3 5 42).Entities, E.Health ≤ 0 →
        E.DestroyAt ≠ INDEX_NONE → ∀ E1 ∈ S1.Entities, E1.Id ≠ E.Id) ∧
      (∀ E1 ∈ S1.Entities, E1 ∈ S3.Entities) ∧
      (∀ E3 ∈ S3.Entities, E3.Health > 0 →
        E3.DestroyAt = INDEX_NONE ∧ E3 ∈ S1.Entities) ∧
      (∀ E ∈ (demoStateOn ⟨5, 1⟩ 3 5 42).Entities, E.Health > 0 →
        ∃ E3 ∈ S3.Entities, E3.Id = E.Id ∧
        ((E3.DestroyAt = INDEX_NONE ∧ E3 ∈ S1.Entities) ∨
         (E3.Health ≤ 0 ∧
           E3.DestroyAt = (demoStateOn ⟨5, 1⟩ 3 5 42).StepIndex + DestroyDelay ∧
           (dp3 = false → E3 ∈ S1.Entities) ∧
           (dp3 = true → ∀ E1 ∈ S1.Entities, E1.Id ≠ E.Id))))) :=
  ⟨by decide, by decide, by decide,
    corpse_lifetime demoRand demoRand_inBounds _
      (demoStateOn_reachable ⟨5, 1⟩ 3 5 42 (by decide)) (by decide) (by decide)⟩

end HexBalls

